import Mathlib

/-!
# ChargeGame: particle physics, collision resolution and blit ordering

A shallow embedding of `chargegame.c` (the full variant, namespace `ChargeGame`) and of
`ConsoleApplication1/ConsoleApplication1.cpp` (the minimal variant, namespace `Minimal`).

Conventions of the embedding

* A C `double` is a rational number: arithmetic is exact, there is no rounding, no NaN and
  no infinity.  The constants `0.5`, `0.005` and `0.7` are the rationals `1/2`, `1/200`, `7/10`.
* `sqrt` comes from the C library; it is a parameter `sqrt : ℚ → ℚ` of every function that
  reaches it, and a theorem says which property of it is used, if any.
* A C `int` is an unbounded integer; conversions to narrower or unsigned types are written
  out (`toUint32`, `toSint16`, `toUint16`, `toInt32`).
* The particle array holds pointers.  A slot is `none` for `NULL` and `some p` otherwise,
  where `p` is the record the pointer refers to together with its address `p.addr`, so that
  the pointer comparison `p != gParticleArray[i]` is a comparison of addresses.
* A function that dereferences a pointer or indexes an array returns an `Option`; `none`
  means that the C program has no defined result there (null dereference, index outside the
  array) or that the supplied loop budget `fuel` was too small.
-/

namespace ChargeGame

/-! ## Constants (chargegame.c, lines 11-42) -/

/-- Number of particles the game can process. -/
def gMAX_PARTICLES : Nat := 500

/-- Number of walls the game can process. -/
def gMAX_WALL : Nat := 100

/-- Maximum charge of a particle. -/
def gMAX_PARTICULE_CHARGE : Int := 3

/-- Minimum charge of a particle. -/
def gMIN_PARTICULE_CHARGE : Int := -3

/-- Maximum speed of a moving particle (`0.5`). -/
def gMAX_SPEED : ℚ := 1 / 2

/-- Maximum acceleration of a moving particle (`0.005`). -/
def gMAX_ACCELERATION : ℚ := 5 / 1000

/-- Mass of a particle. -/
def gPARTICLE_MASS : Int := 10

/-- Minimum distance used in the force computation. -/
def gMIN_DISTANCE : ℚ := 5

/-- Time multiplier of the game (`0.7`). -/
def gTIME_MULTIPLIER : ℚ := 7 / 10

/-! ## Data model (chargegame.c, lines 120-163) -/

/-- The `Particle` struct, with the address of its allocation in `addr`. -/
structure Particle where
  addr : Nat
  moving : Bool
  modifiable : Bool
  xCoord : ℚ
  yCoord : ℚ
  xCoordInit : ℚ
  yCoordInit : ℚ
  charge : Int
  xSpeed : ℚ
  ySpeed : ℚ
  goal : Bool
deriving DecidableEq

/-- The `Wall` struct: four C `int` fields. -/
structure Wall where
  x : Int
  y : Int
  w : Int
  h : Int
deriving DecidableEq

/-- An `SDL_Rect`: `x`, `y` are `Sint16` and `w`, `h` are `Uint16`; the fields hold the
values after conversion. -/
structure SDL_Rect where
  x : Int
  y : Int
  w : Int
  h : Int
deriving DecidableEq

/-- The global variables of `chargegame.c` that the embedded functions read or write.
`screenW` is `gScreen->w` and `backgroundH` is `gBackground->h`; `gDragedParticle` is the
address held by that pointer, `none` for `NULL`. -/
structure Game where
  gParticleArray : List (Option Particle)
  gWallArray : List (Option Wall)
  gNumberOfParticle : Int
  gNumberOfMovingParticle : Int
  gNumberOfparticlesInTheLevel : Nat
  gNumberOfParticlesOnGoal : Int
  gNumberOfWall : Int
  gParticleRadius : Nat
  gDeltaTime : Nat
  gPlay : Nat
  gWin : Nat
  gCreativeMode : Nat
  gLevel : Nat
  gLevelHighScores : List Int
  gPositionGoal : SDL_Rect
  gPositionCursor : SDL_Rect
  gShiftPickedParticleX : Nat
  gShiftPickedParticleY : Nat
  gDragedParticle : Option Nat
  screenW : Int
  backgroundH : Int

/-! ## Machine conversions -/

/-- Conversion of an integer to `uint32_t`: the value modulo `2^32`. -/
def toUint32 (z : Int) : Int := z % 4294967296

/-- Conversion of an integer to `int` from `uint32_t` (two's complement). -/
def toInt32 (z : Int) : Int := (z + 2147483648) % 4294967296 - 2147483648

/-- Conversion of an integer to `Sint16` (two's complement). -/
def toSint16 (z : Int) : Int := (z + 32768) % 65536 - 32768

/-- Conversion of an integer to `Uint16`. -/
def toUint16 (z : Int) : Int := z % 65536

/-- The cast `(int)x` of a `double` within the range of `int`: truncation toward zero. -/
def truncate (x : ℚ) : Int := Int.tdiv x.num x.den

/-! ## Array access -/

/-- The read `a[k]` for a C `int` index: `none` when `k` is outside the array. -/
def readSlot {α : Type} (a : List (Option α)) (k : Int) : Option (Option α) :=
  if 0 ≤ k then a[k.toNat]? else none

/-- The dereference `a[k]->...`: `none` when `k` is outside the array or the slot is `NULL`. -/
def deref {α : Type} (a : List (Option α)) (k : Int) : Option α :=
  match readSlot a k with
  | some (some v) => some v
  | _ => none

/-- The assignment `a[k] = v` for an index inside the array. -/
def writeSlot {α : Type} (a : List (Option α)) (k : Int) (v : Option α) : List (Option α) :=
  a.set k.toNat v

/-- The three assignments `ptemp = a[i]; a[i] = a[j]; a[j] = ptemp`. -/
def swapSlots {α : Type} (a : List (Option α)) (i j : Int) : Option (List (Option α)) :=
  match readSlot a i, readSlot a j with
  | some vi, some vj => some (writeSlot (writeSlot a i vj) j vi)
  | _, _ => none

/-! ## Force and acceleration (chargegame.c, lines 1538-1574) -/

/-- The function `clamp`, lines 1565-1569, returning the value left in `*value`. -/
def clamp (value limit : ℚ) : ℚ :=
  if value < -limit then -limit
  else if value > limit then limit
  else value

/-- The function `getDistance`, lines 1571-1574. -/
def getDistance (sqrt : ℚ → ℚ) (p1 p2 : Particle) : ℚ :=
  sqrt ((p1.xCoord - p2.xCoord) ^ 2 + (p1.yCoord - p2.yCoord) ^ 2)

/-- Modelled from the spec: the macro `max` used on line 1549 is not declared in the
source; the spec reads it as the larger of its two arguments. -/
def cmax (a b : ℚ) : ℚ := if a > b then a else b

/-- The distance `d` of line 1549. -/
def effectiveDistance (sqrt : ℚ → ℚ) (p q : Particle) : ℚ :=
  cmax (getDistance sqrt p q) gMIN_DISTANCE

/-- The factor `-((c1 * c2) / (d * d))` of lines 1553-1554. -/
def forceFactor (c1 c2 : Int) (d : ℚ) : ℚ :=
  -(((c1 * c2 : Int) : ℚ) / (d * d))

/-- The term added to `sumForcesX` on line 1553. -/
def forceTermX (sqrt : ℚ → ℚ) (p q : Particle) : ℚ :=
  forceFactor p.charge q.charge (effectiveDistance sqrt p q) *
    ((q.xCoord - p.xCoord) / effectiveDistance sqrt p q)

/-- The term added to `sumForcesY` on line 1554. -/
def forceTermY (sqrt : ℚ → ℚ) (p q : Particle) : ℚ :=
  forceFactor p.charge q.charge (effectiveDistance sqrt p q) *
    ((q.yCoord - p.yCoord) / effectiveDistance sqrt p q)

/-- The loop of lines 1543-1556 from index `i` on, with `n` iterations left; the pair is
`(sumForcesX, sumForcesY)`. -/
def getAccelerationLoop (sqrt : ℚ → ℚ) (a : List (Option Particle)) (p : Particle) :
    Nat → Int → ℚ × ℚ → Option (ℚ × ℚ)
  | 0, _, sums => some sums
  | n + 1, i, sums =>
    match readSlot a i with
    | none => none
    | some none => none
    | some (some q) =>
      if p.addr ≠ q.addr then
        getAccelerationLoop sqrt a p n (i + 1)
          (sums.1 + forceTermX sqrt p q, sums.2 + forceTermY sqrt p q)
      else
        getAccelerationLoop sqrt a p n (i + 1) sums

/-- The function `getAcceleration`, lines 1538-1563; the pair is `(*ax, *ay)`. -/
def getAcceleration (sqrt : ℚ → ℚ) (g : Game) (p : Particle) : Option (ℚ × ℚ) :=
  match getAccelerationLoop sqrt g.gParticleArray p g.gNumberOfParticle.toNat 0 (0, 0) with
  | none => none
  | some sums =>
    some (clamp (sums.1 * (gPARTICLE_MASS : ℚ)) gMAX_ACCELERATION,
          clamp (sums.2 * (gPARTICLE_MASS : ℚ)) gMAX_ACCELERATION)

/-! ## Collision resolution (chargegame.c, lines 2063-2168) -/

/-- The function `surfaceHitbox`, lines 2159-2168. -/
def surfaceHitbox (S : SDL_Rect) (x y : ℚ)
    (xNegShift xPosShift yNegShift yPosShift : Int) : Bool :=
  decide (truncate x ≥ S.x - xNegShift) && decide (truncate x ≤ S.x + S.w + xPosShift)
    && decide (truncate y ≥ S.y - yNegShift) && decide (truncate y ≤ S.y + S.h + yPosShift)

/-- The temporary `surfaceTemp` built from a wall on lines 2074-2077. -/
def surfaceTemp (w : Wall) : SDL_Rect :=
  { x := toSint16 w.x, y := toSint16 w.y, w := toUint16 w.w, h := toUint16 w.h }

/-- The first test against a wall, lines 2079-2083.  The subtraction of the `uint32_t`
radius from the `int` coordinate is carried out in `uint32_t`. -/
def wallLeft (r : Nat) (w : Wall) (p : Particle) : Particle :=
  if p.xSpeed ≥ 0 ∧ surfaceHitbox (surfaceTemp w) p.xCoord p.yCoord (toInt32 r) 0 0 0 = true then
    { p with xSpeed := 0, xCoord := (toUint32 (w.x - r) : ℚ) }
  else p

/-- The second test against a wall, lines 2085-2089. -/
def wallRight (r : Nat) (w : Wall) (p : Particle) : Particle :=
  if p.xSpeed ≤ 0 ∧ surfaceHitbox (surfaceTemp w) p.xCoord p.yCoord 0 (toInt32 r) 0 0 = true then
    { p with xSpeed := 0, xCoord := (toUint32 (w.x + w.w + r) : ℚ) }
  else p

/-- The third test against a wall, lines 2091-2095. -/
def wallTop (r : Nat) (w : Wall) (p : Particle) : Particle :=
  if p.ySpeed ≥ 0 ∧ surfaceHitbox (surfaceTemp w) p.xCoord p.yCoord 0 0 (toInt32 r) 0 = true then
    { p with ySpeed := 0, yCoord := (toUint32 (w.y - r) : ℚ) }
  else p

/-- The fourth test against a wall, lines 2097-2101. -/
def wallBottom (r : Nat) (w : Wall) (p : Particle) : Particle :=
  if p.ySpeed ≤ 0 ∧ surfaceHitbox (surfaceTemp w) p.xCoord p.yCoord 0 0 0 (toInt32 r) = true then
    { p with ySpeed := 0, yCoord := (toUint32 (w.y + w.h + r) : ℚ) }
  else p

/-- One iteration of the wall loop, lines 2073-2101. -/
def collisionsWall (r : Nat) (w : Wall) (p : Particle) : Particle :=
  wallBottom r w (wallTop r w (wallRight r w (wallLeft r w p)))

/-- The wall loop of lines 2071-2102 from index `i` on, with `n` iterations left. -/
def collisionsWalls (g : Game) : Nat → Int → Particle → Option Particle
  | 0, _, p => some p
  | n + 1, i, p =>
    match deref g.gWallArray i with
    | none => none
    | some w => collisionsWalls g n (i + 1) (collisionsWall g.gParticleRadius w p)

/-- The first test against the goal, lines 2107-2111. -/
def goalLeft (g : Game) (p : Particle) : Particle :=
  if p.xSpeed ≥ 0 ∧ surfaceHitbox g.gPositionGoal p.xCoord p.yCoord
      (toInt32 g.gParticleRadius) 0 0 0 = true then
    { p with xSpeed := 0, xCoord := (toUint32 (g.gPositionGoal.x - g.gParticleRadius) : ℚ) }
  else p

/-- The second test against the goal, lines 2113-2117. -/
def goalRight (g : Game) (p : Particle) : Particle :=
  if p.xSpeed ≤ 0 ∧ surfaceHitbox g.gPositionGoal p.xCoord p.yCoord
      0 (toInt32 g.gParticleRadius) 0 0 = true then
    { p with xSpeed := 0,
             xCoord := (toUint32 (g.gPositionGoal.x + g.gPositionGoal.w + g.gParticleRadius) : ℚ) }
  else p

/-- The third test against the goal, lines 2119-2123. -/
def goalTop (g : Game) (p : Particle) : Particle :=
  if p.ySpeed ≥ 0 ∧ surfaceHitbox g.gPositionGoal p.xCoord p.yCoord
      0 0 (toInt32 g.gParticleRadius) 0 = true then
    { p with ySpeed := 0, yCoord := (toUint32 (g.gPositionGoal.y - g.gParticleRadius) : ℚ) }
  else p

/-- The fourth test against the goal, lines 2125-2129. -/
def goalBottom (g : Game) (p : Particle) : Particle :=
  if p.ySpeed ≤ 0 ∧ surfaceHitbox g.gPositionGoal p.xCoord p.yCoord
      0 0 0 (toInt32 g.gParticleRadius) = true then
    { p with ySpeed := 0,
             yCoord := (toUint32 (g.gPositionGoal.y + g.gPositionGoal.h + g.gParticleRadius) : ℚ) }
  else p

/-- The four tests against the goal, lines 2107-2129. -/
def collisionsGoal (g : Game) (p : Particle) : Particle :=
  goalBottom g (goalTop g (goalRight g (goalLeft g p)))

/-- The test against the right limit of the playable area, lines 2133-2137. -/
def limitRight (g : Game) (p : Particle) : Particle :=
  if p.xSpeed ≥ 0 ∧ p.xCoord ≥ (toUint32 (g.screenW - g.gParticleRadius) : ℚ) then
    { p with xSpeed := 0, xCoord := (toUint32 (g.screenW - g.gParticleRadius) : ℚ) }
  else p

/-- The test against the left limit of the playable area, lines 2139-2143. -/
def limitLeft (g : Game) (p : Particle) : Particle :=
  if p.xSpeed ≤ 0 ∧ p.xCoord ≤ (toUint32 (0 + g.gParticleRadius) : ℚ) then
    { p with xSpeed := 0, xCoord := (toUint32 (0 + g.gParticleRadius) : ℚ) }
  else p

/-- The test against the lower limit of the playable area, lines 2145-2149. -/
def limitBottom (g : Game) (p : Particle) : Particle :=
  if p.ySpeed ≥ 0 ∧ p.yCoord ≥ (toUint32 (g.backgroundH - g.gParticleRadius) : ℚ) then
    { p with ySpeed := 0, yCoord := (toUint32 (g.backgroundH - g.gParticleRadius) : ℚ) }
  else p

/-- The test against the upper limit of the playable area, lines 2151-2155. -/
def limitTop (g : Game) (p : Particle) : Particle :=
  if p.ySpeed ≤ 0 ∧ p.yCoord ≤ (toUint32 (0 + g.gParticleRadius) : ℚ) then
    { p with ySpeed := 0, yCoord := (toUint32 (0 + g.gParticleRadius) : ℚ) }
  else p

/-- The four tests against the limits of the playable area, lines 2133-2155. -/
def collisionsLimits (g : Game) (p : Particle) : Particle :=
  limitTop g (limitBottom g (limitLeft g (limitRight g p)))

/-- The function `collisions`, lines 2063-2157, for a non-null `p`; the result is the
record `*p` on return.  The goal is an obstacle under the condition of line 2105. -/
def collisions (g : Game) (p : Particle) : Option Particle :=
  match collisionsWalls g g.gNumberOfWall.toNat 0 p with
  | none => none
  | some p1 =>
    let p2 :=
      if p1.moving = false ∨ (g.gCreativeMode ≠ 0 ∧ g.gPlay = 0) then collisionsGoal g p1
      else p1
    some (collisionsLimits g p2)

/-! ## Integration (chargegame.c, lines 887-935) -/

/-- The body of the loop of `movementCalculation` for the particle `p = *gParticleArray[i]`,
lines 899-925: the record as it stands when `collisions` is called on line 928. -/
def integrate (sqrt : ℚ → ℚ) (g : Game) (p : Particle) : Option Particle :=
  let t : ℚ := (g.gDeltaTime : ℚ) * gTIME_MULTIPLIER
  match getAcceleration sqrt g p with
  | none => none
  | some (xa, ya) =>
    let x := p.xCoord + (p.xSpeed * t + 1 / 2 * xa * t * t)
    let y := p.yCoord + (p.ySpeed * t + 1 / 2 * ya * t * t)
    let p1 :=
      if t ≠ 0 then
        { p with xSpeed := clamp ((x - p.xCoord) / t) gMAX_SPEED,
                 ySpeed := clamp ((y - p.yCoord) / t) gMAX_SPEED }
      else p
    some { p1 with xCoord := x, yCoord := y }

/-- Lines 899-928 of `movementCalculation`: integration followed by `collisions`; the
record of an integrated particle when collision resolution returns. -/
def integrateAndCollide (sqrt : ℚ → ℚ) (g : Game) (p : Particle) : Option Particle :=
  match integrate sqrt g p with
  | none => none
  | some p1 => collisions g p1

/-! ## Blit ordering (chargegame.c, lines 1592-1665) -/

/-- The test `gParticleArray[i] && counterMovingParticlesSorted < gNumberOfMovingParticle`
of line 1605.  When `i` is outside the array the pointer read has no defined value: the
test is then false if the counter comparison is false, and has no result otherwise. -/
def partitionTest (a : List (Option Particle)) (M i counter : Int) : Option Bool :=
  match readSlot a i with
  | some (some _) => some (decide (counter < M))
  | some none => some false
  | none => if counter < M then none else some false

/-- The inner loop of lines 1611-1622, entered with `j`: it stops at the first moving
particle at an index `N - 1 - j` and swaps it with the one at `N - 1 - i`. -/
def partitionSearch (a : List (Option Particle)) (N i : Int) :
    Nat → Int → Option (List (Option Particle))
  | 0, _ => none
  | fuel + 1, j =>
    match deref a (N - 1 - j) with
    | none => none
    | some q =>
      if q.moving = true then swapSlots a (N - 1 - i) (N - 1 - j)
      else partitionSearch a N i fuel (j + 1)

/-- The loop of lines 1605-1626; `inner` is the budget of each inner loop. -/
def partitionLoop (N M : Int) (inner : Nat) :
    Nat → List (Option Particle) → Int → Int → Option (List (Option Particle))
  | 0, _, _, _ => none
  | fuel + 1, a, i, counter =>
    match partitionTest a M i counter with
    | none => none
    | some false => some a
    | some true =>
      match deref a (N - 1 - i) with
      | none => none
      | some q =>
        if q.moving = false then
          match partitionSearch a N i inner (i + 1) with
          | none => none
          | some a1 => partitionLoop N M inner fuel a1 (i + 1) (counter + 1)
        else partitionLoop N M inner fuel a (i + 1) (counter + 1)

/-- One run of a `for` loop of the two ordering phases (lines 1633-1643 and 1652-1662,
which differ in their bounds only) from index `i` downward, with `n` iterations left; the
flag is `arrayInOrderMP`, respectively `arrayInOrderP`. -/
def bubblePass : Nat → List (Option Particle) → Int → Bool →
    Option (List (Option Particle) × Bool)
  | 0, a, _, inOrder => some (a, inOrder)
  | n + 1, a, i, inOrder =>
    match readSlot a i with
    | none => none
    | some none => bubblePass n a (i - 1) inOrder
    | some (some pi) =>
      match readSlot a (i - 1) with
      | none => none
      | some none => bubblePass n a (i - 1) inOrder
      | some (some pj) =>
        if pi.yCoord < pj.yCoord then
          match swapSlots a i (i - 1) with
          | none => none
          | some a1 => bubblePass n a1 (i - 1) false
        else bubblePass n a (i - 1) inOrder

/-- A `while` loop of the two ordering phases: pass number `l` runs the `for` loop from
index `top - l` down to `low + 1`, and the loop ends after the first pass without a swap. -/
def bubbleLoop (top low : Int) : Nat → List (Option Particle) → Int →
    Option (List (Option Particle))
  | 0, _, _ => none
  | fuel + 1, a, l =>
    match bubblePass (top - l - low).toNat a (top - l) true with
    | none => none
    | some (a1, true) => some a1
    | some (a1, false) => bubbleLoop top low fuel a1 (l + 1)

/-- The ordering of the moving particles, lines 1629-1645:
`for (i = N - l; i > N - M; --i)`. -/
def sortMovingParticles (N M : Int) (fuel : Nat) (a : List (Option Particle)) :
    Option (List (Option Particle)) :=
  bubbleLoop N (N - M) fuel a 1

/-- The ordering of the non-moving particles, lines 1648-1664:
`for (i = N - M - k; i > 0; --i)`. -/
def sortNonMovingParticles (N M : Int) (fuel : Nat) (a : List (Option Particle)) :
    Option (List (Option Particle)) :=
  bubbleLoop (N - M) 0 fuel a 1

/-- The function `organizeParticleBlitering`, lines 1592-1665; `fuel` bounds the number of
iterations of each `while` loop. -/
def organizeParticleBlitering (fuel : Nat) (g : Game) : Option Game :=
  let N := g.gNumberOfParticle
  let M := g.gNumberOfMovingParticle
  match partitionLoop N M fuel fuel g.gParticleArray 0 0 with
  | none => none
  | some a1 =>
    match sortMovingParticles N M fuel a1 with
    | none => none
    | some a2 =>
      match sortNonMovingParticles N M fuel a2 with
      | none => none
      | some a3 => some { g with gParticleArray := a3 }


/-! ## Charges and cursor state (chargegame.c, lines 2310-2336) -/

/-- The function `changeParticleCharge`, lines 2310-2325, for a non-null `p`: the record
`*p` on return. -/
def changeParticleCharge (p : Particle) (c : Int) : Particle :=
  if p.modifiable = true ∧ p.moving = false then
    if c = 1 ∧ p.charge < gMAX_PARTICULE_CHARGE then
      if p.charge = -1 then { p with charge := 1 } else { p with charge := p.charge + 1 }
    else if c = -1 ∧ p.charge > gMIN_PARTICULE_CHARGE then
      if p.charge = 1 then { p with charge := -1 } else { p with charge := p.charge - 1 }
    else p
  else p

/-- The function `changeCursorState`, lines 2327-2336: the value of `gCursorState` on
return, from the values of `gCreativeMode` and `gCursorState` on entry. -/
def changeCursorState (gCreativeMode : Nat) (gCursorState : Int) (c : Int) : Int :=
  let minimumHandCharge :=
    if gCreativeMode ≠ 0 then gMIN_PARTICULE_CHARGE - 3 else gMIN_PARTICULE_CHARGE
  if c = -1 ∧ gCursorState > minimumHandCharge then
    (if gCursorState = 1 then -1 else gCursorState - 1)
  else if c = 1 ∧ gCursorState < gMAX_PARTICULE_CHARGE then
    (if gCursorState = -1 then 1 else gCursorState + 1)
  else gCursorState

/-! ## High scores (chargegame.c, lines 2042-2059) -/

/-- The inner loop `for (j = 2; j > i; --j) gLevelHighScores[j] = gLevelHighScores[j - 1]`
of lines 2050-2053, entered with `j`. -/
def shiftScores (hs : List Int) (i : Nat) : Nat → List Int
  | 0 => hs
  | j + 1 => if j + 1 > i then shiftScores (hs.set (j + 1) (hs.getD j 0)) i j else hs

/-- The loop of lines 2046-2057 from index `i` on, with `n` iterations left: the array on
return and the value returned. -/
def updateHighScoresLoop (newScore : Int) : Nat → Nat → List Int → List Int × Bool
  | 0, _, hs => (hs, false)
  | n + 1, i, hs =>
    if newScore < hs.getD i 0 ∨ hs.getD i 0 = -1 then
      ((shiftScores hs i 2).set i newScore, true)
    else updateHighScoresLoop newScore n (i + 1) hs

/-- The function `updateHighScores`, lines 2042-2059, on the three entries of
`gLevelHighScores`: the array on return and the value returned. -/
def updateHighScores (hs : List Int) (newScore : Int) : List Int × Bool :=
  updateHighScoresLoop newScore 3 0 hs


/-! ## Creation and deletion (chargegame.c, lines 1387-1485) -/

/-- The function `createParticle`, lines 1387-1417.  `mallocResult` is the address returned
by `malloc`, `none` for `NULL`; the result is `none` when `collisions` or the assignment
`gParticleArray[gNumberOfParticle] = p` has no defined behaviour. -/
def createParticle (g : Game) (mallocResult : Option Nat) (moving modifiable : Bool)
    (charge : Int) (x y : Int) : Option Game :=
  if g.gNumberOfParticle < (gMAX_PARTICLES : Int) then
    match mallocResult with
    | none => some g
    | some a =>
      match collisions g
        { addr := a, moving := moving, modifiable := modifiable, charge := charge,
          xCoord := (x : ℚ), yCoord := (y : ℚ), xCoordInit := (x : ℚ), yCoordInit := (y : ℚ),
          xSpeed := 0, ySpeed := 0, goal := false } with
      | none => none
      | some p =>
        if 0 ≤ g.gNumberOfParticle ∧ g.gNumberOfParticle.toNat < g.gParticleArray.length then
          some { g with
            gParticleArray := writeSlot g.gParticleArray g.gNumberOfParticle (some p),
            gNumberOfParticle := g.gNumberOfParticle + 1,
            gNumberOfMovingParticle :=
              if moving = true then g.gNumberOfMovingParticle + 1
              else g.gNumberOfMovingParticle }
        else none
  else some g

/-- The loop `for (i = 0; i < gNumberOfParticle; ++i) collisions(gParticleArray[i])` of
lines 1436 and 1458, from index `i` on with `n` iterations left; `collisions` returns at
once on a `NULL` slot. -/
def collisionsAll (g : Game) : Nat → Int → List (Option Particle) →
    Option (List (Option Particle))
  | 0, _, a => some a
  | n + 1, i, a =>
    match readSlot a i with
    | none => none
    | some none => collisionsAll g n (i + 1) a
    | some (some p) =>
      match collisions g p with
      | none => none
      | some p1 => collisionsAll g n (i + 1) (writeSlot a i (some p1))

/-- The function `createWall`, lines 1419-1442.  `mallocOk` tells whether `malloc` returned
a block. -/
def createWall (g : Game) (mallocOk : Bool) (x y w h : Int) : Option Game :=
  if g.gNumberOfWall < (gMAX_WALL : Int) then
    if mallocOk = false then some g
    else if 0 ≤ g.gNumberOfWall ∧ g.gNumberOfWall.toNat < g.gWallArray.length then
      let g1 : Game := { g with
        gWallArray := writeSlot g.gWallArray g.gNumberOfWall (some ⟨x, y, w, h⟩),
        gNumberOfWall := g.gNumberOfWall + 1 }
      match collisionsAll g1 g1.gNumberOfParticle.toNat 0 g1.gParticleArray with
      | none => none
      | some a => some { g1 with gParticleArray := a }
    else none
  else some g

/-- The function `createGoal`, lines 1444-1459, without the surface of the goal. -/
def createGoal (g : Game) (x y w h : Int) : Option Game :=
  let g1 : Game := { g with
    gPositionGoal := ⟨toSint16 x, toSint16 y, toUint16 w, toUint16 h⟩ }
  match collisionsAll g1 g1.gNumberOfParticle.toNat 0 g1.gParticleArray with
  | none => none
  | some a => some { g1 with gParticleArray := a }

/-- The loop `for (j = i; j < gNumberOfParticle - 1; ++j) gParticleArray[j] =
gParticleArray[j + 1]` of lines 1476-1479, from index `j` on with `n` iterations left. -/
def shiftDown : Nat → Int → List (Option Particle) → Option (List (Option Particle))
  | 0, _, a => some a
  | n + 1, j, a =>
    match readSlot a (j + 1) with
    | none => none
    | some v =>
      if 0 ≤ j ∧ j.toNat < a.length then shiftDown n (j + 1) (writeSlot a j v) else none

/-- The loop of `destroyParticle`, lines 1467-1484, from index `i` on; `p` is the address
passed, `none` for `NULL`, and `fuel` bounds the number of iterations. -/
def destroyParticleLoop (p : Option Nat) : Nat → Game → Int → Option Game
  | 0, _, _ => none
  | fuel + 1, g, i =>
    if i < g.gNumberOfParticle then
      match readSlot g.gParticleArray i with
      | none => none
      | some none => destroyParticleLoop p fuel g (i + 1)
      | some (some q) =>
        if p ≠ none ∧ q.modifiable = true ∧ p = some q.addr then
          let M := if q.moving = true then g.gNumberOfMovingParticle - 1
                   else g.gNumberOfMovingParticle
          let N := g.gNumberOfParticle
          match shiftDown (N - 1 - i).toNat i (writeSlot g.gParticleArray i none) with
          | none => none
          | some a =>
            if 0 ≤ N - 1 ∧ (N - 1).toNat < a.length then
              destroyParticleLoop p fuel
                { g with gParticleArray := writeSlot a (N - 1) none,
                         gNumberOfParticle := N - 1, gNumberOfMovingParticle := M } (i + 1)
            else none
        else destroyParticleLoop p fuel g (i + 1)
    else some g

/-- The function `destroyParticle`, lines 1463-1485. -/
def destroyParticle (fuel : Nat) (g : Game) (p : Option Nat) : Option Game :=
  destroyParticleLoop p fuel g 0


/-! ## Levels on disk (chargegame.c, lines 1802-1932)

A level file is the sequence of the integers written in it. -/

/-- The lines written by the loop of lines 1896-1899 for the moving particles, from index
`i` on with `n` iterations left. -/
def saveMoving (a : List (Option Particle)) : Nat → Int → Option (List Int)
  | 0, _ => some []
  | n + 1, i =>
    match deref a i with
    | none => none
    | some q =>
      (saveMoving a n (i + 1)).map
        (fun l => truncate q.xCoordInit :: truncate q.yCoordInit :: l)

/-- The lines written by the loop of lines 1902-1916 for the non-moving particles, from
index `i` on with `n` iterations left. -/
def saveNonMoving (gCreativeMode : Nat) (a : List (Option Particle)) :
    Nat → Int → Option (List Int)
  | 0, _ => some []
  | n + 1, i =>
    match deref a i with
    | none => none
    | some q =>
      (saveNonMoving gCreativeMode a n (i + 1)).map
        (fun l =>
          if gCreativeMode ≠ 0 ∨ q.modifiable = false then
            truncate q.xCoord :: truncate q.yCoord :: q.charge :: l
          else l)

/-- The lines written by the loop of lines 1919-1922 for the walls, from index `i` on with
`n` iterations left. -/
def saveWalls (a : List (Option Wall)) : Nat → Int → Option (List Int)
  | 0, _ => some []
  | n + 1, i =>
    match deref a i with
    | none => none
    | some w => (saveWalls a n (i + 1)).map (fun l => w.x :: w.y :: w.w :: w.h :: l)

/-- The integers written by `saveLevel` between `fopen` and `fclose`, lines 1879-1922. -/
def saveLevelData (g : Game) : Option (List Int) :=
  let N := g.gNumberOfParticle
  let M := g.gNumberOfMovingParticle
  let scores :=
    if g.gCreativeMode ≠ 0 then [-1, -1, -1]
    else [g.gLevelHighScores.getD 0 0, g.gLevelHighScores.getD 1 0, g.gLevelHighScores.getD 2 0]
  let goal := [g.gPositionGoal.x, g.gPositionGoal.y, g.gPositionGoal.w, g.gPositionGoal.h]
  let counts :=
    if g.gCreativeMode ≠ 0 then [M, N - M, g.gNumberOfWall]
    else [M, toInt32 (toUint32 ((g.gNumberOfparticlesInTheLevel : Int) - M)), g.gNumberOfWall]
  match saveMoving g.gParticleArray (N - (N - M)).toNat (N - M),
        saveNonMoving g.gCreativeMode g.gParticleArray (N - M).toNat 0,
        saveWalls g.gWallArray g.gNumberOfWall.toNat 0 with
  | some moving, some nonMoving, some walls =>
    some (scores ++ goal ++ counts ++ moving ++ nonMoving ++ walls)
  | _, _, _ => none

/-- The function `saveLevel`, lines 1865-1932: the state on return and the file written,
`none` when `fopen` fails (`fopenOk = false`). -/
def saveLevel (fuel : Nat) (fopenOk : Bool) (g : Game) : Option (Game × Option (List Int)) :=
  match organizeParticleBlitering fuel g with
  | none => none
  | some g1 =>
    if fopenOk = true then
      match saveLevelData g1 with
      | none => none
      | some file => some (g1, some file)
    else some (g1, none)

/-- One conversion `%d` of `fscanf`: the value left in the variable, which keeps its old
value when the input is exhausted, and the rest of the input. -/
def readInt (file : List Int) (old : Int) : Int × List Int :=
  match file with
  | [] => (old, [])
  | v :: rest => (v, rest)

/-- The loop of lines 1833-1837 with `n` iterations left.  `k` counts the calls of
`createParticle` made so far, `malloc k` is what `malloc` returns in call `k`, and `x`, `y`
are the variables `xMovingParticle`, `yMovingParticle`. -/
def loadMoving (modifiable : Bool) (malloc : Nat → Option Nat) :
    Nat → Game → List Int → Int → Int → Nat → Option (Game × List Int)
  | 0, g, file, _, _, _ => some (g, file)
  | n + 1, g, file, x, y, k =>
    let rx := readInt file x
    let ry := readInt rx.2 y
    match createParticle g (malloc k) true modifiable 1 rx.1 ry.1 with
    | none => none
    | some g1 => loadMoving modifiable malloc n g1 ry.2 rx.1 ry.1 (k + 1)

/-- The loop of lines 1840-1844 with `n` iterations left; `x`, `y`, `c` are the variables
`xNonMovingParticle`, `yNonMovingParticle`, `chargeNonMovingParticle`. -/
def loadNonMoving (modifiable : Bool) (malloc : Nat → Option Nat) :
    Nat → Game → List Int → Int → Int → Int → Nat → Option (Game × List Int)
  | 0, g, file, _, _, _, _ => some (g, file)
  | n + 1, g, file, x, y, c, k =>
    let rx := readInt file x
    let ry := readInt rx.2 y
    let rc := readInt ry.2 c
    match createParticle g (malloc k) false modifiable rc.1 rx.1 ry.1 with
    | none => none
    | some g1 => loadNonMoving modifiable malloc n g1 rc.2 rx.1 ry.1 rc.1 (k + 1)

/-- The loop of lines 1847-1851 with `n` iterations left; `wallMalloc k` tells whether
`malloc` returns a block in call `k` of `createWall`. -/
def loadWalls (wallMalloc : Nat → Bool) :
    Nat → Game → List Int → Int → Int → Int → Int → Nat → Option (Game × List Int)
  | 0, g, file, _, _, _, _, _ => some (g, file)
  | n + 1, g, file, x, y, w, h, k =>
    let rx := readInt file x
    let ry := readInt rx.2 y
    let rw := readInt ry.2 w
    let rh := readInt rw.2 h
    match createWall g (wallMalloc k) rx.1 ry.1 rw.1 rh.1 with
    | none => none
    | some g1 => loadWalls wallMalloc n g1 rh.2 rx.1 ry.1 rw.1 rh.1 (k + 1)

/-- The function `loadLevel`, lines 1802-1863, reading `file` when `fopen` succeeds. -/
def loadLevel (g : Game) (fopenOk : Bool) (file : List Int) (malloc : Nat → Option Nat)
    (wallMalloc : Nat → Bool) : Option Game :=
  let modifiable : Bool := decide (g.gCreativeMode ≠ 0)
  if fopenOk = true then
    let s0 := readInt file (g.gLevelHighScores.getD 0 0)
    let s1 := readInt s0.2 (g.gLevelHighScores.getD 1 0)
    let s2 := readInt s1.2 (g.gLevelHighScores.getD 2 0)
    let g0 : Game := { g with gLevelHighScores := [s0.1, s1.1, s2.1] }
    let xGoal := readInt s2.2 0
    let yGoal := readInt xGoal.2 0
    let wGoal := readInt yGoal.2 0
    let hGoal := readInt wGoal.2 0
    match createGoal g0 xGoal.1 yGoal.1 wGoal.1 hGoal.1 with
    | none => none
    | some g1 =>
      let nMoving := readInt hGoal.2 0
      let nNonMoving := readInt nMoving.2 0
      let nWalls := readInt nNonMoving.2 0
      match loadMoving modifiable malloc nMoving.1.toNat g1 nWalls.2 0 0 0 with
      | none => none
      | some (g2, f2) =>
        match loadNonMoving modifiable malloc nNonMoving.1.toNat g2 f2 0 0 0
            nMoving.1.toNat with
        | none => none
        | some (g3, f3) =>
          match loadWalls wallMalloc nWalls.1.toNat g3 f3 0 0 0 0 0 with
          | none => none
          | some (g4, _) =>
            some { g4 with
              gNumberOfparticlesInTheLevel := (toUint32 (nMoving.1 + nNonMoving.1)).toNat }
  else some g


/-! ## Dragging, goal detection and the end of a level
(chargegame.c, lines 887-935, 1521-1530, 1576-1588, 2006-2016) -/

/-- The slot of the array that holds the particle allocated at address `x`, with that
particle: what the pointer `x` designates. -/
def findSlot : List (Option Particle) → Nat → Option (Nat × Particle)
  | [], _ => none
  | none :: l, x => (findSlot l x).map (fun r => (r.1 + 1, r.2))
  | some q :: l, x =>
    if q.addr = x then some (0, q) else (findSlot l x).map (fun r => (r.1 + 1, r.2))

/-- The function `moveParticle`, lines 1521-1530.  The sum of the `Sint16` cursor coordinate
and the `uint32_t` shift is carried out in `uint32_t`; the result is `none` when
`gDragedParticle` designates no particle of the store. -/
def moveParticle (g : Game) : Option Game :=
  match g.gDragedParticle with
  | none => some g
  | some x =>
    match findSlot g.gParticleArray x with
    | none => none
    | some (k, q) =>
      if q.modifiable = true then
        match collisions g
          { q with
            xCoord := (toUint32 (g.gPositionCursor.x + (g.gShiftPickedParticleX : Int)) : ℚ),
            yCoord := (toUint32 (g.gPositionCursor.y + (g.gShiftPickedParticleY : Int)) : ℚ) }
        with
        | none => none
        | some q1 => some { g with gParticleArray := g.gParticleArray.set k (some q1) }
      else some g

/-- The function `levelFinished`, lines 2006-2016: the state on return and the file saved,
`none` when no file is written.  The score `gNumberOfParticle -
gNumberOfparticlesInTheLevel` is computed in `uint32_t` and converted to `int`. -/
def levelFinished (fuel : Nat) (fopenOk : Bool) (g : Game) : Option (Game × Option (List Int)) :=
  let r := updateHighScores g.gLevelHighScores
    (toInt32 (toUint32 (g.gNumberOfParticle - (g.gNumberOfparticlesInTheLevel : Int))))
  let g1 : Game := { g with gWin := 1, gLevelHighScores := r.1 }
  if r.2 = true then saveLevel fuel fopenOk g1 else some (g1, none)

/-- The function `onGoal`, lines 1576-1588, called with `p = gParticleArray[i]`: the state
on return and, for each call of `levelFinished` made, the file that call saved. -/
def onGoal (fuel : Nat) (fopenOk : Bool) (g : Game) (i : Int) :
    Option (Game × List (Option (List Int))) :=
  match deref g.gParticleArray i with
  | none => none
  | some p =>
    let r : Int := toInt32 g.gParticleRadius
    if surfaceHitbox g.gPositionGoal p.xCoord p.yCoord (-r) (-r) (-r) (-r) = true then
      let g1 : Game := { g with
        gParticleArray := writeSlot g.gParticleArray i (some { p with goal := true }),
        gNumberOfParticlesOnGoal := g.gNumberOfParticlesOnGoal + 1 }
      if g1.gCreativeMode = 0 ∧ g1.gNumberOfParticlesOnGoal = g1.gNumberOfMovingParticle then
        (levelFinished fuel fopenOk g1).map (fun r => (r.1, [r.2]))
      else some (g1, [])
    else some (g, [])

/-- The loop of `movementCalculation`, lines 895-933, from index `i` on, with the calls of
`levelFinished` made so far in `calls`; `budget` bounds the number of iterations and `fuel`
is the budget of the loops of `organizeParticleBlitering`. -/
def movementLoop (sqrt : ℚ → ℚ) (fuel : Nat) (fopenOk : Bool) :
    Nat → Game → Int → List (Option (List Int)) → Option (Game × List (Option (List Int)))
  | 0, _, _, _ => none
  | budget + 1, g, i, calls =>
    if i < g.gNumberOfParticle then
      match readSlot g.gParticleArray i with
      | none => none
      | some none => movementLoop sqrt fuel fopenOk budget g (i + 1) calls
      | some (some p) =>
        if p.goal = false then
          match integrateAndCollide sqrt g p with
          | none => none
          | some p1 =>
            match onGoal fuel fopenOk
              { g with gParticleArray := writeSlot g.gParticleArray i (some p1) } i with
            | none => none
            | some (g1, new) => movementLoop sqrt fuel fopenOk budget g1 (i + 1) (calls ++ new)
        else movementLoop sqrt fuel fopenOk budget g (i + 1) calls
    else some (g, calls)

/-- The function `movementCalculation`, lines 887-935: the state on return and, for each
call of `levelFinished` made, the file that call saved. -/
def movementCalculation (sqrt : ℚ → ℚ) (fuel : Nat) (fopenOk : Bool) (g : Game) :
    Option (Game × List (Option (List Int))) :=
  match moveParticle g with
  | none => none
  | some g1 =>
    if g1.gPlay ≠ 0 then
      movementLoop sqrt fuel fopenOk fuel g1
        (g1.gNumberOfParticle - g1.gNumberOfMovingParticle) []
    else some (g1, [])

/-! ## Blit ordering with every read of the loop test checked (chargegame.c, line 1605) -/

/-- The test `gParticleArray[i] && counterMovingParticlesSorted < gNumberOfMovingParticle`
of line 1605, evaluated from left to right: the pointer `gParticleArray[i]` is read first,
whatever the counters.  The result is `Except.error i` when that read is outside the
array. -/
def partitionTestChecked (a : List (Option Particle)) (M i counter : Int) : Except Int Bool :=
  match readSlot a i with
  | some (some _) => Except.ok (decide (counter < M))
  | some none => Except.ok false
  | none => Except.error i

/-- The loop of lines 1605-1626 with the test `partitionTestChecked`: `Except.error k` when
the test reads `gParticleArray[k]` outside the array, `Except.ok none` when the body has no
result or the budget is used up, `Except.ok (some a)` when the loop ends with the array
`a`. -/
def partitionLoopChecked (N M : Int) (inner : Nat) :
    Nat → List (Option Particle) → Int → Int → Except Int (Option (List (Option Particle)))
  | 0, _, _, _ => Except.ok none
  | fuel + 1, a, i, counter =>
    match partitionTestChecked a M i counter with
    | Except.error k => Except.error k
    | Except.ok false => Except.ok (some a)
    | Except.ok true =>
      match deref a (N - 1 - i) with
      | none => Except.ok none
      | some q =>
        if q.moving = false then
          match partitionSearch a N i inner (i + 1) with
          | none => Except.ok none
          | some a1 => partitionLoopChecked N M inner fuel a1 (i + 1) (counter + 1)
        else partitionLoopChecked N M inner fuel a (i + 1) (counter + 1)

/-! ## The particle under a position (chargegame.c, lines 2178-2191) -/

/-- The second operand of the test of lines 2184-2185 for a non-null slot holding `q`:
`sqrt(pow((int)q->xCoord - x, 2) + pow((int)q->yCoord - y, 2)) < gParticleRadius`. -/
def particleHit (sqrt : ℚ → ℚ) (radius : Nat) (q : Particle) (x y : Int) : Bool :=
  decide (sqrt (((truncate q.xCoord - x : Int) : ℚ) ^ 2 + ((truncate q.yCoord - y : Int) : ℚ) ^ 2)
    < (radius : ℚ))

/-- The loop of `handOnParticle`, lines 2182-2189, from index `i` downward with `n`
iterations left.  The result is the pointer returned by the loop, or `some none` when the
loop ends without a `return`. -/
def handOnParticleLoop (sqrt : ℚ → ℚ) (g : Game) (x y : Int) :
    Nat → Int → Option (Option Particle)
  | 0, _ => some none
  | n + 1, i =>
    match readSlot g.gParticleArray i with
    | none => none
    | some none => handOnParticleLoop sqrt g x y n (i - 1)
    | some (some q) =>
      if particleHit sqrt g.gParticleRadius q x y = true then some (some q)
      else handOnParticleLoop sqrt g x y n (i - 1)

/-- The function `handOnParticle`, lines 2178-2191: `some none` is the result `NULL`. -/
def handOnParticle (sqrt : ℚ → ℚ) (g : Game) (x y : Int) : Option (Option Particle) :=
  handOnParticleLoop sqrt g x y g.gNumberOfParticle.toNat (g.gNumberOfParticle - 1)

/-! ## Freeing a level (chargegame.c, lines 1976-2004) -/

/-- The loop `for (i = 0; i < gNumberOfParticle; ++i) { free(gParticleArray[i]);
gParticleArray[i] = NULL; }` of lines 1981-1985, from index `i` on with `n` iterations
left; the loop of lines 1992-1996 over the wall array is the same. -/
def freeSlots {α : Type} : Nat → Int → List (Option α) → Option (List (Option α))
  | 0, _, a => some a
  | n + 1, i, a =>
    if 0 ≤ i ∧ i.toNat < a.length then freeSlots n (i + 1) (writeSlot a i none) else none

/-- The function `freeLevel`, lines 1976-2004, with `destroyGoal` (lines 1509-1517) without
the surface of the goal. -/
def freeLevel (g : Game) : Option Game :=
  match freeSlots g.gNumberOfParticle.toNat 0 g.gParticleArray with
  | none => none
  | some a =>
    match freeSlots g.gNumberOfWall.toNat 0 g.gWallArray with
    | none => none
    | some w =>
      some { g with
        gParticleArray := a, gNumberOfParticle := 0, gNumberOfMovingParticle := 0,
        gNumberOfParticlesOnGoal := 0, gNumberOfparticlesInTheLevel := 0,
        gWallArray := w, gNumberOfWall := 0, gPositionGoal := ⟨0, 0, 0, 0⟩,
        gLevelHighScores := [0, 0, 0] }

end ChargeGame

namespace Minimal

/-! ## The minimal variant (ConsoleApplication1.cpp) -/

/-- Maximum speed of a moving particle, line 13. -/
def gMAX_SPEED : ℚ := 1

/-- Maximum acceleration of a moving particle (`0.005`), line 14. -/
def gMAX_ACCELERATION : ℚ := 5 / 1000

/-- Mass of a particle, line 15. -/
def gPARTICLE_MASS : Int := 10

/-- Minimum distance used in the force computation, line 16. -/
def gMIN_DISTANCE : ℚ := 5

/-- The `Particle` struct of lines 55-63, with the address of its allocation in `addr`. -/
structure Particle where
  addr : Nat
  moving : Bool
  xCoord : ℚ
  yCoord : ℚ
  charge : Int
  xSpeed : ℚ
  ySpeed : ℚ
deriving DecidableEq

/-- The global variables read by the embedded functions.  `screenW`, `screenH` are
`gScreen->w`, `gScreen->h`; `particleW`, `particleH` are `gPositiveParticule1->w`, `->h`. -/
structure Game where
  gParticles : List (Option Particle)
  gParticlesSize : Int
  gNumberOfMovingParticle : Int
  gDeltaTime : Nat
  gHandCharge : Int
  screenW : Int
  screenH : Int
  particleW : Int
  particleH : Int

/-- The function `clamp`, lines 612-616, returning the value left in `*value`. -/
def clamp (value limit : ℚ) : ℚ :=
  if value < -limit then -limit
  else if value > limit then limit
  else value

/-- The function `getDistance`, lines 618-624. -/
def getDistance (sqrt : ℚ → ℚ) (p1 p2 : Particle) : ℚ :=
  let dist := sqrt ((p1.xCoord - p2.xCoord) ^ 2 + (p1.yCoord - p2.yCoord) ^ 2)
  if dist ≤ gMIN_DISTANCE then gMIN_DISTANCE else dist

/-- The loop of `getAccelerationX`, lines 567-578, from index `i` on, with `n` iterations
left; the value is `sumForcesX`. -/
def getAccelerationXLoop (sqrt : ℚ → ℚ) (a : List (Option Particle)) (p : Particle) :
    Nat → Int → ℚ → Option ℚ
  | 0, _, sumForcesX => some sumForcesX
  | n + 1, i, sumForcesX =>
    match ChargeGame.readSlot a i with
    | none => none
    | some none => none
    | some (some q) =>
      if p.addr ≠ q.addr then
        let d := getDistance sqrt p q
        let r := (q.xCoord - p.xCoord) / d
        getAccelerationXLoop sqrt a p n (i + 1)
          (sumForcesX + -(((p.charge * q.charge : Int) : ℚ) / (d * d)) * r)
      else getAccelerationXLoop sqrt a p n (i + 1) sumForcesX

/-- The function `getAccelerationX`, lines 562-585. -/
def getAccelerationX (sqrt : ℚ → ℚ) (g : Game) (p : Particle) : Option ℚ :=
  match getAccelerationXLoop sqrt g.gParticles p g.gParticlesSize.toNat 0 0 with
  | none => none
  | some sumForcesX => some (clamp (sumForcesX * (gPARTICLE_MASS : ℚ)) gMAX_ACCELERATION)

/-- The loop of `getAccelerationY`, lines 592-603, from index `i` on, with `n` iterations
left; the value is `sumForcesY`. -/
def getAccelerationYLoop (sqrt : ℚ → ℚ) (a : List (Option Particle)) (p : Particle) :
    Nat → Int → ℚ → Option ℚ
  | 0, _, sumForcesY => some sumForcesY
  | n + 1, i, sumForcesY =>
    match ChargeGame.readSlot a i with
    | none => none
    | some none => none
    | some (some q) =>
      if p.addr ≠ q.addr then
        let d := getDistance sqrt p q
        let r := (q.yCoord - p.yCoord) / d
        getAccelerationYLoop sqrt a p n (i + 1)
          (sumForcesY + -(((p.charge * q.charge : Int) : ℚ) / (d * d)) * r)
      else getAccelerationYLoop sqrt a p n (i + 1) sumForcesY

/-- The function `getAccelerationY`, lines 587-610. -/
def getAccelerationY (sqrt : ℚ → ℚ) (g : Game) (p : Particle) : Option ℚ :=
  match getAccelerationYLoop sqrt g.gParticles p g.gParticlesSize.toNat 0 0 with
  | none => none
  | some sumForcesY => some (clamp (sumForcesY * (gPARTICLE_MASS : ℚ)) gMAX_ACCELERATION)

/-- The first test of `box`, lines 630-634; `w * 0.5f` is the exact half. -/
def boxLeft (g : Game) (p : Particle) : Particle :=
  if p.xCoord - (g.particleW : ℚ) * (1 / 2) ≤ 0 ∧ p.xSpeed < 0 then
    { p with xSpeed := 0, xCoord := 0 + (g.particleW : ℚ) * (1 / 2) }
  else p

/-- The second test of `box`, lines 635-639. -/
def boxRight (g : Game) (p : Particle) : Particle :=
  if p.xCoord + (g.particleW : ℚ) * (1 / 2) ≥ (g.screenW : ℚ) ∧ p.xSpeed > 0 then
    { p with xSpeed := 0, xCoord := (g.screenW : ℚ) - (g.particleW : ℚ) * (1 / 2) }
  else p

/-- The third test of `box`, lines 640-644. -/
def boxTop (g : Game) (p : Particle) : Particle :=
  if p.yCoord - (g.particleH : ℚ) * (1 / 2) ≤ 0 ∧ p.ySpeed < 0 then
    { p with ySpeed := 0, yCoord := 0 + (g.particleH : ℚ) * (1 / 2) }
  else p

/-- The fourth test of `box`, lines 645-649. -/
def boxBottom (g : Game) (p : Particle) : Particle :=
  if p.yCoord + (g.particleH : ℚ) * (1 / 2) ≥ (g.screenH : ℚ) ∧ p.ySpeed > 0 then
    { p with ySpeed := 0, yCoord := (g.screenH : ℚ) - (g.particleH : ℚ) * (1 / 2) }
  else p

/-- The function `box`, lines 626-651, for a non-null `p`. -/
def box (g : Game) (p : Particle) : Particle :=
  boxBottom g (boxTop g (boxRight g (boxLeft g p)))

/-- The body of the loop of `movementCalculation` for the particle `p = *gParticles[i]`,
lines 530-553: integration followed by `box`.  `int t = gDeltaTime` converts the
`uint32_t` to `int`. -/
def integrateAndBox (sqrt : ℚ → ℚ) (g : Game) (p : Particle) : Option Particle :=
  let t : Int := ChargeGame.toInt32 g.gDeltaTime
  match getAccelerationX sqrt g p, getAccelerationY sqrt g p with
  | some xa, some ya =>
    let x := p.xCoord + (p.xSpeed * (t : ℚ) + 1 / 2 * xa * (t : ℚ) * (t : ℚ))
    let y := p.yCoord + (p.ySpeed * (t : ℚ) + 1 / 2 * ya * (t : ℚ) * (t : ℚ))
    let p1 :=
      if t ≠ 0 then
        { p with xSpeed := clamp ((x - p.xCoord) / (t : ℚ)) gMAX_SPEED,
                 ySpeed := clamp ((y - p.yCoord) / (t : ℚ)) gMAX_SPEED }
      else p
    some (box g { p1 with xCoord := x, yCoord := y })
  | _, _ => none


/-! ## Charges, creation and ordering in the minimal variant -/

/-- Number of particles the program can hold, line 10. -/
def gMAX_PARTICLES : Nat := 100

/-- Maximum charge of a particle, line 11. -/
def gMAX_PARTICULE_CHARGE : Int := 3

/-- Minimum charge of a particle, line 12. -/
def gMIN_PARTICULE_CHARGE : Int := -3

/-- The function `changeParticleCharge`, lines 455-470, for a non-null `p`: the record `*p`
on return. -/
def changeParticleCharge (p : Particle) (c : Int) : Particle :=
  if p.moving = false then
    if c = 1 ∧ p.charge < gMAX_PARTICULE_CHARGE then
      if p.charge = -1 then { p with charge := 1 } else { p with charge := p.charge + 1 }
    else if c = -1 ∧ p.charge > gMIN_PARTICULE_CHARGE then
      if p.charge = 1 then { p with charge := -1 } else { p with charge := p.charge - 1 }
    else p
  else p

/-- The function `changeHandCharge`, lines 472-484. -/
def changeHandCharge (g : Game) (c : Int) : Game :=
  if c = -1 ∧ g.gHandCharge > gMIN_PARTICULE_CHARGE then
    if g.gHandCharge = 1 then { g with gHandCharge := -1 }
    else { g with gHandCharge := g.gHandCharge - 1 }
  else if c = 1 ∧ g.gHandCharge < gMAX_PARTICULE_CHARGE then
    if g.gHandCharge = -1 then { g with gHandCharge := 1 }
    else { g with gHandCharge := g.gHandCharge + 1 }
  else g

/-- The function `createParticle`, lines 119-140.  `mallocResult` is the address returned
by `malloc`, `none` for `NULL`; the result is `none` when the assignment
`gParticles[gParticlesSize] = p` falls outside the array. -/
def createParticle (g : Game) (mallocResult : Option Nat) (moving : Bool) (charge : Int)
    (x y : Int) (vx vy : ℚ) : Option Game :=
  if g.gParticlesSize < (gMAX_PARTICLES : Int) then
    match mallocResult with
    | none => some g
    | some a =>
      if 0 ≤ g.gParticlesSize ∧ g.gParticlesSize.toNat < g.gParticles.length then
        some { g with
          gParticles := g.gParticles.set g.gParticlesSize.toNat
            (some { addr := a, moving := moving, charge := charge, xCoord := (x : ℚ),
                    yCoord := (y : ℚ), xSpeed := vx, ySpeed := vy }),
          gParticlesSize := g.gParticlesSize + 1,
          gNumberOfMovingParticle :=
            if moving = true then g.gNumberOfMovingParticle + 1 else g.gNumberOfMovingParticle }
      else none
  else some g

/-- The loop of `organizeParticleBlitering`, lines 435-444, from index `i` on with
`counterMovingParticles = counter`; `fuel` bounds the number of iterations. -/
def organizeLoop (size : Int) : Nat → List (Option Particle) → Int → Int →
    Option (List (Option Particle))
  | 0, _, _, _ => none
  | fuel + 1, a, i, counter =>
    if i < size - counter then
      match ChargeGame.readSlot a i with
      | none => none
      | some none => organizeLoop size fuel a (i + 1) counter
      | some (some p) =>
        if p.moving = true then
          match ChargeGame.swapSlots a (size - 1 - counter) i with
          | none => none
          | some a1 => organizeLoop size fuel a1 (i + 1) (counter + 1)
        else organizeLoop size fuel a (i + 1) counter
    else some a

/-- The function `organizeParticleBlitering`, lines 429-445. -/
def organizeParticleBlitering (fuel : Nat) (g : Game) : Option Game :=
  match organizeLoop g.gParticlesSize fuel g.gParticles 0 0 with
  | none => none
  | some a => some { g with gParticles := a }

/-- Lines 530-549 of `movementCalculation` for the particle `p = *gParticles[i]`: the
record as it stands when `box` is called on line 551. -/
def integrate (sqrt : ℚ → ℚ) (g : Game) (p : Particle) : Option Particle :=
  let t : Int := ChargeGame.toInt32 g.gDeltaTime
  match getAccelerationX sqrt g p, getAccelerationY sqrt g p with
  | some xa, some ya =>
    let x := p.xCoord + (p.xSpeed * (t : ℚ) + 1 / 2 * xa * (t : ℚ) * (t : ℚ))
    let y := p.yCoord + (p.ySpeed * (t : ℚ) + 1 / 2 * ya * (t : ℚ) * (t : ℚ))
    let p1 :=
      if t ≠ 0 then
        { p with xSpeed := clamp ((x - p.xCoord) / (t : ℚ)) gMAX_SPEED,
                 ySpeed := clamp ((y - p.yCoord) / (t : ℚ)) gMAX_SPEED }
      else p
    some { p1 with xCoord := x, yCoord := y }
  | _, _ => none

/-- The loop `for (j = i; j < gParticlesSize; ++j) gParticles[j] = gParticles[j + 1]` of
lines 418-421, from index `j` on with `n` iterations left: `none` when the read of
`gParticles[j + 1]` or the write of `gParticles[j]` is outside the array. -/
def shiftDown : Nat → Int → List (Option Particle) → Option (List (Option Particle))
  | 0, _, a => some a
  | n + 1, j, a =>
    match ChargeGame.readSlot a (j + 1) with
    | none => none
    | some v =>
      if 0 ≤ j ∧ j.toNat < a.length then shiftDown n (j + 1) (ChargeGame.writeSlot a j v)
      else none

/-- The loop of `destroyParticle`, lines 414-425, from index `i` on; `p` is the address
passed, `none` for `NULL`, and `fuel` bounds the number of iterations. -/
def destroyParticleLoop (p : Option Nat) : Nat → Game → Int → Option Game
  | 0, _, _ => none
  | fuel + 1, g, i =>
    if i < g.gParticlesSize then
      match ChargeGame.readSlot g.gParticles i with
      | none => none
      | some none => destroyParticleLoop p fuel g (i + 1)
      | some (some q) =>
        if p ≠ none ∧ q.moving = false ∧ p = some q.addr then
          match shiftDown (g.gParticlesSize - i).toNat i
              (ChargeGame.writeSlot g.gParticles i none) with
          | none => none
          | some a =>
            destroyParticleLoop p fuel
              { g with gParticles := a, gParticlesSize := g.gParticlesSize - 1 } (i + 1)
        else destroyParticleLoop p fuel g (i + 1)
    else some g

/-- The function `destroyParticle`, lines 409-427. -/
def destroyParticle (fuel : Nat) (g : Game) (p : Option Nat) : Option Game :=
  destroyParticleLoop p fuel g 0

end Minimal

namespace ChargeGame

/-! ## Definitions used to state the properties -/

/-- An instance of the parameter `sqrt` for concrete inputs: the integer square roots of
numerator and denominator, exact on the squares of rationals. -/
def sqrtExact (x : ℚ) : ℚ := (Nat.sqrt x.num.toNat : ℚ) / (Nat.sqrt x.den : ℚ)

/-- The Euclidean distance between target and other, as the specification names it. -/
def euclideanDistance (sqrt : ℚ → ℚ) (target other : Particle) : ℚ :=
  sqrt ((other.xCoord - target.xCoord) ^ 2 + (other.yCoord - target.yCoord) ^ 2)

/-- The clamp of the specification: the value limited to the interval `[-limit, limit]`. -/
def specClamp (v limit : ℚ) : ℚ := max (-limit) (min v limit)

/-- The contribution of `other` to the x axis in the words of the specification:
`-(charge_target * charge_other) / d^2 * (other.x - target.x) / d` with
`d = max(euclideanDistance(target, other), 5)`. -/
def specForceX (sqrt : ℚ → ℚ) (target other : Particle) : ℚ :=
  let d := max (euclideanDistance sqrt target other) 5
  (-((target.charge : ℚ) * (other.charge : ℚ)) / d ^ 2) * ((other.xCoord - target.xCoord) / d)

/-- The contribution of `other` to the y axis in the words of the specification. -/
def specForceY (sqrt : ℚ → ℚ) (target other : Particle) : ℚ :=
  let d := max (euclideanDistance sqrt target other) 5
  (-((target.charge : ℚ) * (other.charge : ℚ)) / d ^ 2) * ((other.yCoord - target.yCoord) / d)

/-- The acceleration of the specification: mass `10` times the sum of the contributions of
the other particles, each axis clamped to `0.005`. -/
def specAcceleration (sqrt : ℚ → ℚ) (target : Particle) (others : List Particle) : ℚ × ℚ :=
  (specClamp (10 * (others.map (specForceX sqrt target)).sum) (5 / 1000),
   specClamp (10 * (others.map (specForceY sqrt target)).sum) (5 / 1000))

/-- Whether slot `k` of the array holds a moving particle. -/
def movingAt (a : List (Option Particle)) (k : Nat) : Bool :=
  match a[k]? with
  | some (some q) => q.moving
  | _ => false

/-- The number of indices below `n` at which `f` holds. -/
def countBelow (f : Nat → Bool) : Nat → Nat
  | 0 => 0
  | n + 1 => countBelow f n + (if f n = true then 1 else 0)

/-- The first `N` slots of the array are in use: each holds a non-null pointer. -/
def slotsInUse (a : List (Option Particle)) (N : Nat) : Prop :=
  ∀ k, k < N → ∃ q, a[k]? = some (some q)

/-- A particle at rest with the given address, motion flag, position and charge. -/
def particleAt (addr : Nat) (moving : Bool) (x y : ℚ) (charge : Int) : Particle :=
  { addr := addr, moving := moving, modifiable := true, xCoord := x, yCoord := y,
    xCoordInit := x, yCoordInit := y, charge := charge, xSpeed := 0, ySpeed := 0,
    goal := false }

/-- A game in play on an 800 by 600 area with particle radius 10 and no goal: the particle
array holds the given particles in its first slots and `NULL` in the others, up to
`gMAX_PARTICLES` slots, the wall array likewise up to `gMAX_WALL` slots; `M` is the count
of moving particles and `deltaTime` the elapsed time. -/
def gameOf (ps : List Particle) (M : Int) (walls : List Wall) (deltaTime : Nat) : Game :=
  { gParticleArray := ps.map some ++ List.replicate (gMAX_PARTICLES - ps.length) none,
    gWallArray := walls.map some ++ List.replicate (gMAX_WALL - walls.length) none,
    gNumberOfParticle := ps.length,
    gNumberOfMovingParticle := M, gNumberOfparticlesInTheLevel := 0,
    gNumberOfParticlesOnGoal := 0, gNumberOfWall := walls.length, gParticleRadius := 10,
    gDeltaTime := deltaTime, gPlay := 1, gWin := 0, gCreativeMode := 0, gLevel := 1,
    gLevelHighScores := [-1, -1, -1], gPositionGoal := ⟨0, 0, 0, 0⟩,
    gPositionCursor := ⟨0, 0, 0, 0⟩, gShiftPickedParticleX := 0, gShiftPickedParticleY := 0,
    gDragedParticle := none, screenW := 800, backgroundH := 600 }

/-- A charge of the set `-3, -2, -1, 1, 2, 3`. -/
def validCharge (z : Int) : Prop := -3 ≤ z ∧ z ≤ 3 ∧ z ≠ 0

/-- The three high scores are well formed: each entry is a score (not negative) or `-1`
for unset, the set scores come first, and they are in ascending order. -/
def scoresWellFormed (a b c : Int) : Prop :=
  -1 ≤ a ∧ -1 ≤ b ∧ -1 ≤ c ∧ (a = -1 → b = -1) ∧ (b = -1 → c = -1) ∧
    (b ≠ -1 → a ≤ b) ∧ (c ≠ -1 → b ≤ c)

/-- The order on high-score entries in which `-1` (unset) is larger than any score. -/
def scoreLe (x y : Int) : Prop := y = -1 ∨ (x ≠ -1 ∧ x ≤ y)

/-- Lines 899-925 of `movementCalculation` (the definition `integrate`) with the division
of the speed update, the only one of these lines, as the parameter `dv`. -/
def integrateWith (dv : ℚ → ℚ → ℚ) (sqrt : ℚ → ℚ) (g : Game) (p : Particle) :
    Option Particle :=
  let t : ℚ := (g.gDeltaTime : ℚ) * gTIME_MULTIPLIER
  match getAcceleration sqrt g p with
  | none => none
  | some (xa, ya) =>
    let x := p.xCoord + (p.xSpeed * t + 1 / 2 * xa * t * t)
    let y := p.yCoord + (p.ySpeed * t + 1 / 2 * ya * t * t)
    let p1 :=
      if t ≠ 0 then
        { p with xSpeed := clamp (dv (x - p.xCoord) t) gMAX_SPEED,
                 ySpeed := clamp (dv (y - p.yCoord) t) gMAX_SPEED }
      else p
    some { p1 with xCoord := x, yCoord := y }

/-- Lines 530-549 of the minimal `movementCalculation` (the definition `Minimal.integrate`)
with the division of the speed update, the only one of these lines, as the parameter
`dv`. -/
def minimalIntegrateWith (dv : ℚ → ℚ → ℚ) (sqrt : ℚ → ℚ) (g : Minimal.Game)
    (p : Minimal.Particle) : Option Minimal.Particle :=
  let t : Int := toInt32 g.gDeltaTime
  match Minimal.getAccelerationX sqrt g p, Minimal.getAccelerationY sqrt g p with
  | some xa, some ya =>
    let x := p.xCoord + (p.xSpeed * (t : ℚ) + 1 / 2 * xa * (t : ℚ) * (t : ℚ))
    let y := p.yCoord + (p.ySpeed * (t : ℚ) + 1 / 2 * ya * (t : ℚ) * (t : ℚ))
    let p1 :=
      if t ≠ 0 then
        { p with xSpeed := Minimal.clamp (dv (x - p.xCoord) (t : ℚ)) Minimal.gMAX_SPEED,
                 ySpeed := Minimal.clamp (dv (y - p.yCoord) (t : ℚ)) Minimal.gMAX_SPEED }
      else p
    some { p1 with xCoord := x, yCoord := y }
  | _, _ => none

/-- A particle of the minimal variant at rest. -/
def minimalParticleAt (addr : Nat) (moving : Bool) (x y : ℚ) (charge : Int) :
    Minimal.Particle :=
  { addr := addr, moving := moving, xCoord := x, yCoord := y, charge := charge, xSpeed := 0,
    ySpeed := 0 }

/-- A state of the minimal variant on a 640 by 480 screen with 20 by 20 sprites: the array
`gParticles` holds the given particles in its first slots and `NULL` in the others, up to
`gMAX_PARTICLES` slots; `M` is the count of moving particles. -/
def minimalGameOf (ps : List Minimal.Particle) (M : Int) (deltaTime : Nat) : Minimal.Game :=
  { gParticles := ps.map some ++ List.replicate (Minimal.gMAX_PARTICLES - ps.length) none,
    gParticlesSize := ps.length, gNumberOfMovingParticle := M, gDeltaTime := deltaTime,
    gHandCharge := 1, screenW := 640, screenH := 480, particleW := 20, particleH := 20 }

/-- A store of `gMAX_PARTICLES` static particles with the addresses `0, ..., 499`. -/
def fullStore : List Particle :=
  (List.range gMAX_PARTICLES).map (fun k => particleAt k false 50 50 1)

/-- A wall array of `gMAX_WALL` walls. -/
def fullWalls : List Wall := List.replicate gMAX_WALL ⟨300, 300, 10, 10⟩

/-- A store of the minimal variant holding `gMAX_PARTICLES` static particles. -/
def minimalFullStore : List Minimal.Particle :=
  (List.range Minimal.gMAX_PARTICLES).map (fun k => minimalParticleAt k false 50 50 1)

/-- What the environment sets before a call of `movementCalculation`: the elapsed time
(`ticks60fps`), the position of the cursor (event handling), and whether a `fopen` made
during the call succeeds. -/
structure Tick where
  deltaTime : Nat
  cursorX : Int
  cursorY : Int
  fopenOk : Bool

/-- A run of calls of `movementCalculation`, one per tick: the last state and, for each call
of `levelFinished` made during the run, the file that call saved. -/
def runTicks (sqrt : ℚ → ℚ) (fuel : Nat) :
    List Tick → Game → Option (Game × List (Option (List Int)))
  | [], g => some (g, [])
  | t :: ts, g =>
    match movementCalculation sqrt fuel t.fopenOk
      { g with gDeltaTime := t.deltaTime,
               gPositionCursor := { g.gPositionCursor with x := t.cursorX, y := t.cursorY } }
    with
    | none => none
    | some (g1, calls) =>
      match runTicks sqrt fuel ts g1 with
      | none => none
      | some (g2, more) => some (g2, calls ++ more)

/-- A level in normal play (not creative mode) whose store is `ps`: the particles fill the
first slots of the array, the counters are those of the store and of the wall array, and
the dragged particle, if any, is in the store. -/
def playState (g : Game) (ps : List Particle) : Prop :=
  (∃ rest, g.gParticleArray = ps.map some ++ rest) ∧
  g.gNumberOfParticle = (ps.length : Int) ∧
  (∃ (ws : List Wall) (wrest : List (Option Wall)),
    g.gWallArray = ws.map some ++ wrest ∧ g.gNumberOfWall = (ws.length : Int)) ∧
  g.gNumberOfMovingParticle = ((ps.countP (fun q => q.moving) : Nat) : Int) ∧
  (∀ x, g.gDragedParticle = some x → ∃ q ∈ ps, q.addr = x) ∧
  g.gCreativeMode = 0

/-- The particle allocated at `x` has its goal flag set in the store `ps`. -/
def flagged (ps : List Particle) (x : Nat) : Prop :=
  ∃ q ∈ ps, q.addr = x ∧ q.goal = true

/-- The integers of the file lines of a list of moving particles: the truncated spawn
point of each. -/
def movingLines : List Particle → List Int
  | [] => []
  | q :: l => truncate q.xCoordInit :: truncate q.yCoordInit :: movingLines l

/-- The integers of the file lines of a list of non-moving particles: truncated position
and charge of each, in normal play only of those that are not modifiable. -/
def nonMovingLines (gCreativeMode : Nat) : List Particle → List Int
  | [] => []
  | q :: l =>
    if gCreativeMode ≠ 0 ∨ q.modifiable = false then
      truncate q.xCoord :: truncate q.yCoord :: q.charge :: nonMovingLines gCreativeMode l
    else nonMovingLines gCreativeMode l

/-- The integers of the file lines of a list of walls. -/
def wallLines : List Wall → List Int
  | [] => []
  | w :: l => w.x :: w.y :: w.w :: w.h :: wallLines l

/-- The relation between a state `g` with store `ps` and a later state `g'` with store `ps'`
of the same play run, `n` being the number of calls of `levelFinished` made in between:
the later state is a level in play, its counter of particles on the goal is the number of
flagged particles of its store, the particles are the same, no flag has been cleared, and
`levelFinished` was called once if the counter has reached `gNumberOfMovingParticle` in
between, and not at all otherwise. -/
def tickStep (g : Game) (ps : List Particle) (g' : Game) (ps' : List Particle) (n : Nat) :
    Prop :=
  playState g' ps' ∧
  g'.gNumberOfParticlesOnGoal = ((ps'.countP (fun q => q.goal) : Nat) : Int) ∧
  (ps'.map Particle.addr).Perm (ps.map Particle.addr) ∧
  (∀ x, flagged ps x → flagged ps' x) ∧
  g.gNumberOfParticlesOnGoal ≤ g'.gNumberOfParticlesOnGoal ∧
  g'.gNumberOfMovingParticle = g.gNumberOfMovingParticle ∧
  n = (if g.gNumberOfParticlesOnGoal < g.gNumberOfMovingParticle ∧
          g.gNumberOfMovingParticle ≤ g'.gNumberOfParticlesOnGoal then 1 else 0)

/-- A level in play with a goal at (300, 300) of size 100 by 100, a static particle and a
moving particle that lies inside the goal. -/
def goalLevel : Game :=
  { gameOf [particleAt 1 false 100 100 2, particleAt 2 true 350 350 1] 1 [] 0 with
    gPositionGoal := ⟨300, 300, 100, 100⟩ }

/-- The record that `createParticle` fills in before it calls `collisions`, lines
1394-1403, for a modifiable particle. -/
def loadedParticle (addr : Nat) (moving : Bool) (charge : Int) (x y : Int) : Particle :=
  { addr := addr, moving := moving, modifiable := true, charge := charge,
    xCoord := (x : ℚ), yCoord := (y : ℚ), xCoordInit := (x : ℚ), yCoordInit := (y : ℚ),
    xSpeed := 0, ySpeed := 0, goal := false }

/-- What a level file keeps of a particle in creative mode: whether it moves, its position
and its charge. -/
def placement (p : Particle) : Bool × ℚ × ℚ × Int := (p.moving, p.xCoord, p.yCoord, p.charge)

/-- An empty level in creative mode, paused, on the 800 by 600 area of `gameOf`. -/
def emptyCreativeLevel : Game :=
  { gameOf [] 0 [] 0 with gCreativeMode := 1, gPlay := 0 }

/-- The particles that the second loop of `loadLevel` creates from the file lines of the
non-moving particles `l`, the first of them at the address `alloc k`. -/
def loadedNonMoving (alloc : Nat → Nat) : Nat → List Particle → List Particle
  | _, [] => []
  | k, p :: l =>
    loadedParticle (alloc k) false p.charge (truncate p.xCoord) (truncate p.yCoord)
      :: loadedNonMoving alloc (k + 1) l

/-- A level in creative mode with a wall, a goal, a static particle and a moving particle
at its spawn point, none of which touches anything. -/
def clearLevel : Game :=
  { gameOf [particleAt 1 false 400 300 2, particleAt 2 true 100 100 1] 1 [⟨600, 400, 50, 50⟩] 0
    with gCreativeMode := 1, gPlay := 0, gPositionGoal := ⟨300, 500, 60, 60⟩ }

/-- The level built in creative mode from `emptyCreativeLevel` by three calls: `createWall`
at (600, 400) of size 50 by 50, `createParticle` of a static particle of charge 2 at
(598, 395), and `createWall` at (500, 393) of size 95 by 50. -/
def pushedLevel : Option Game :=
  (createWall emptyCreativeLevel true 600 400 50 50).bind (fun g1 =>
    (createParticle g1 (some 1) false true 2 598 395).bind (fun g2 =>
      createWall g2 true 500 393 95 50))

/-- The placements of the first three slots after `g` has been saved by `saveLevel` and the
file loaded by `loadLevel` into `emptyCreativeLevel`. -/
def roundTrip (g : Game) : Option (List (Option (Bool × ℚ × ℚ × Int))) :=
  (saveLevel 3 true g).bind (fun r =>
    r.2.bind (fun file =>
      (loadLevel emptyCreativeLevel true file (fun k => some (k + 1)) (fun _ => true)).map
        (fun g' => (g'.gParticleArray.take 3).map (Option.map placement))))

/-- The values of `*ax` and `*ay` after lines 1558-1559 of `getAcceleration`, before the two
calls of `clamp` on lines 1561-1562. -/
def accelerationBeforeClamp (sqrt : ℚ → ℚ) (g : Game) (p : Particle) : Option (ℚ × ℚ) :=
  match getAccelerationLoop sqrt g.gParticleArray p g.gNumberOfParticle.toNat 0 (0, 0) with
  | none => none
  | some sums => some (sums.1 * (gPARTICLE_MASS : ℚ), sums.2 * (gPARTICLE_MASS : ℚ))

/-- The record of the minimal variant with the fields of a particle of the full variant. -/
def toMinimalParticle (p : Particle) : Minimal.Particle :=
  { addr := p.addr, moving := p.moving, xCoord := p.xCoord, yCoord := p.yCoord,
    charge := p.charge, xSpeed := p.xSpeed, ySpeed := p.ySpeed }

/-- The pair of the results of `getAccelerationX` and `getAccelerationY` of the minimal
variant for the same particle. -/
def minimalAcceleration (sqrt : ℚ → ℚ) (g : Minimal.Game) (p : Minimal.Particle) :
    Option (ℚ × ℚ) :=
  match Minimal.getAccelerationX sqrt g p, Minimal.getAccelerationY sqrt g p with
  | some xa, some ya => some (xa, ya)
  | _, _ => none

/-- A store of `gMAX_PARTICLES` moving particles with the addresses `0, ..., 499`. -/
def movingFullStore : List Particle :=
  (List.range gMAX_PARTICLES).map (fun k => particleAt k true 50 50 1)

/-- The particles `ps` of the store are organised: no moving particle comes before a
non-moving one, and within the non-moving and within the moving particles the order is by
ascending `yCoord`. -/
def organised (ps : List Particle) : Prop :=
  (∀ (j k : Nat) (qj qk : Particle), j < k → ps[j]? = some qj → ps[k]? = some qk →
    qj.moving = true → qk.moving = true) ∧
  (∀ (j k : Nat) (qj qk : Particle), j < k → ps[j]? = some qj → ps[k]? = some qk →
    qj.moving = qk.moving → qj.yCoord ≤ qk.yCoord)

/-- The state of the x axis of a particle between integration and the tests against the
limits: when it moves to the right it is not left of `lo`, when it moves to the left it is
not right of `hi`. -/
def inwardX (lo hi : ℚ) (p : Particle) : Prop :=
  (0 < p.xSpeed → lo ≤ p.xCoord) ∧ (p.xSpeed < 0 → p.xCoord ≤ hi)

/-- The state of the y axis of a particle between integration and the tests against the
limits, as `inwardX`. -/
def inwardY (lo hi : ℚ) (p : Particle) : Prop :=
  (0 < p.ySpeed → lo ≤ p.yCoord) ∧ (p.ySpeed < 0 → p.yCoord ≤ hi)

/-- A call `changeParticleCharge(p, c)` made on the store: `p` is `none` for `NULL` and
otherwise the address of a particle; the result is `none` when `p` designates no particle
of the store. -/
def changeChargeOf (g : Game) (p : Option Nat) (c : Int) : Option Game :=
  match p with
  | none => some g
  | some x =>
    match findSlot g.gParticleArray x with
    | none => none
    | some (k, q) =>
      some { g with gParticleArray := g.gParticleArray.set k (some (changeParticleCharge q c)) }

/-- A call of one of the functions that act on the particle store, with its arguments;
for `createParticle` also the address that `malloc` returns in it. -/
inductive StoreCall where
  | create (mallocResult : Option Nat) (moving modifiable : Bool) (charge x y : Int)
  | destroy (p : Option Nat)
  | organize
  | changeCharge (p : Option Nat) (c : Int)
  | free

/-- The state after a call; `fuel` is the budget of the `while` loops. -/
def applyCall (fuel : Nat) (g : Game) : StoreCall → Option Game
  | StoreCall.create m moving modifiable charge x y =>
    createParticle g m moving modifiable charge x y
  | StoreCall.destroy p => destroyParticle fuel g p
  | StoreCall.organize => organizeParticleBlitering fuel g
  | StoreCall.changeCharge p c => changeChargeOf g p c
  | StoreCall.free => freeLevel g

/-- The state after a sequence of calls. -/
def runCalls (fuel : Nat) : Game → List StoreCall → Option Game
  | g, [] => some g
  | g, c :: cs =>
    match applyCall fuel g c with
    | none => none
    | some g1 => runCalls fuel g1 cs

/-- What the environment guarantees for a call in the state `g`: `malloc` returns `NULL` or
the address of a block that is not in use, and the pointer passed to
`changeParticleCharge` is `NULL` or that of a particle of the store. -/
def callAllowed (g : Game) : StoreCall → Prop
  | StoreCall.create (some a) _ _ _ _ _ => ∀ q, some q ∈ g.gParticleArray → q.addr ≠ a
  | StoreCall.changeCharge (some a) _ => ∃ q, some q ∈ g.gParticleArray ∧ q.addr = a
  | _ => True

/-- Every call of the sequence is allowed in the state in which it is made. -/
def runAllowed (fuel : Nat) : Game → List StoreCall → Prop
  | _, [] => True
  | g, c :: cs => callAllowed g c ∧ ∀ g1, applyCall fuel g c = some g1 → runAllowed fuel g1 cs

/-- The empty store: the array of `gMAX_PARTICLES` pointers holds `NULL` only and both
counters are zero; the wall array of `gMAX_WALL` pointers holds `gNumberOfWall` walls in its
first slots and `NULL` in the others. -/
def emptyStore (g : Game) : Prop :=
  g.gParticleArray = List.replicate gMAX_PARTICLES none ∧
  g.gNumberOfParticle = 0 ∧ g.gNumberOfMovingParticle = 0 ∧
  ∃ ws : List Wall, g.gWallArray = ws.map some ++ List.replicate (gMAX_WALL - ws.length) none ∧
    ws.length ≤ gMAX_WALL ∧ g.gNumberOfWall = (ws.length : Int)

/-- The invariant of the store counters in the words of the specification:
`0 ≤ gNumberOfMovingParticle ≤ gNumberOfParticle ≤ 500`, the slots
`0 .. gNumberOfParticle - 1` are non-null and the others are null, and
`gNumberOfMovingParticle` is the number of stored particles with `moving = true`. -/
def storeCounterInvariant (g : Game) : Prop :=
  0 ≤ g.gNumberOfMovingParticle ∧ g.gNumberOfMovingParticle ≤ g.gNumberOfParticle ∧
  g.gNumberOfParticle ≤ 500 ∧
  (∀ k : Nat, (k : Int) < g.gNumberOfParticle → ∃ q, g.gParticleArray[k]? = some (some q)) ∧
  (∀ k : Nat, g.gNumberOfParticle ≤ (k : Int) → k < gMAX_PARTICLES →
    g.gParticleArray[k]? = some none) ∧
  g.gNumberOfMovingParticle
    = ((countBelow (movingAt g.gParticleArray) g.gNumberOfParticle.toNat : Nat) : Int)

/-- The store holds the particles `ps`, with distinct addresses, in its first slots and
`NULL` in the others, the counters are their number and the number of moving ones, and the
wall array holds the walls `ws` in the same way. -/
def storeHolds (g : Game) (ps : List Particle) (ws : List Wall) : Prop :=
  g.gParticleArray = ps.map some ++ List.replicate (gMAX_PARTICLES - ps.length) none ∧
  ps.length ≤ gMAX_PARTICLES ∧
  g.gNumberOfParticle = (ps.length : Int) ∧
  g.gNumberOfMovingParticle = ((ps.countP (fun q => q.moving) : Nat) : Int) ∧
  (ps.map Particle.addr).Nodup ∧
  g.gWallArray = ws.map some ++ List.replicate (gMAX_WALL - ws.length) none ∧
  ws.length ≤ gMAX_WALL ∧ g.gNumberOfWall = (ws.length : Int)

/-- The `yCoord` of the particle in slot `k` of the array (`0` for a slot without a
particle). -/
def yAt (a : List (Option Particle)) (k : Nat) : ℚ :=
  match a[k]? with
  | some (some q) => q.yCoord
  | _ => 0

/-- In the block of the slots `low ≤ j < top`, each of the first `k` slots holds a `yCoord`
that is not above that of any later slot of the block. -/
def settled (a : List (Option Particle)) (low top k : Nat) : Prop :=
  ∀ j1 j2, low ≤ j1 → j1 < low + k → j1 < j2 → j2 < top → yAt a j1 ≤ yAt a j2

/-- Slot `m` holds a `yCoord` that is not above that of any later slot below `top`. -/
def minAt (a : List (Option Particle)) (m top : Nat) : Prop :=
  ∀ j, m < j → j < top → yAt a m ≤ yAt a j

/-- The state after `n` consecutive calls of `organizeParticleBlitering`. -/
def organizeTimes (fuel : Nat) : Nat → Game → Option Game
  | 0, g => some g
  | n + 1, g =>
    match organizeParticleBlitering fuel g with
    | none => none
    | some g1 => organizeTimes fuel n g1

/-- Whether slot `k` of the array of the minimal variant holds a moving particle. -/
def minimalMovingAt (a : List (Option Minimal.Particle)) (k : Nat) : Bool :=
  match a[k]? with
  | some (some q) => q.moving
  | _ => false

/-- A level whose store is `ps`, in normal play or in creative mode: the particles fill the
first slots of the array, the counters are those of the store and of the wall array, and
the dragged particle, if any, is in the store. -/
def levelState (g : Game) (ps : List Particle) : Prop :=
  (∃ rest, g.gParticleArray = ps.map some ++ rest) ∧
  g.gNumberOfParticle = (ps.length : Int) ∧
  (∃ (ws : List Wall) (wrest : List (Option Wall)),
    g.gWallArray = ws.map some ++ wrest ∧ g.gNumberOfWall = (ws.length : Int)) ∧
  g.gNumberOfMovingParticle = ((ps.countP (fun q => q.moving) : Nat) : Int) ∧
  (∀ x, g.gDragedParticle = some x → ∃ q ∈ ps, q.addr = x)

/-- The state `g'` is a state of the level of `g`: particle radius, playable area, goal
rectangle, play and creative flags and the two particle counters are those of `g`. -/
def sameLevel (g g' : Game) : Prop :=
  g'.gParticleRadius = g.gParticleRadius ∧ g'.screenW = g.screenW ∧
  g'.backgroundH = g.backgroundH ∧ g'.gPositionGoal = g.gPositionGoal ∧
  g'.gPlay = g.gPlay ∧ g'.gCreativeMode = g.gCreativeMode ∧
  g'.gNumberOfParticle = g.gNumberOfParticle ∧
  g'.gNumberOfMovingParticle = g.gNumberOfMovingParticle

/-- The test of line 1578 of `onGoal` for the particle `q`: the position lies in the goal
rectangle deflated by the particle radius on its four sides. -/
def insideGoal (g : Game) (q : Particle) : Bool :=
  surfaceHitbox g.gPositionGoal q.xCoord q.yCoord (-(toInt32 g.gParticleRadius))
    (-(toInt32 g.gParticleRadius)) (-(toInt32 g.gParticleRadius))
    (-(toInt32 g.gParticleRadius))

/-- The particle `q` lies in the playable area of `g`: `radius ≤ x ≤ screenW - radius` and
`radius ≤ y ≤ backgroundH - radius`. -/
def inPlayArea (g : Game) (q : Particle) : Prop :=
  (g.gParticleRadius : ℚ) ≤ q.xCoord ∧
  q.xCoord ≤ ((g.screenW - g.gParticleRadius : Int) : ℚ) ∧
  (g.gParticleRadius : ℚ) ≤ q.yCoord ∧
  q.yCoord ≤ ((g.backgroundH - g.gParticleRadius : Int) : ℚ)

/-- A level in creative mode that has been set in play while its moving particle, at
(100, 100) with the horizontal speed 1/100, is being dragged: `gDragedParticle` designates
it and the cursor is at (3, 100). -/
def draggedPlayLevel : Game :=
  { gameOf [{ particleAt 1 true 100 100 1 with xSpeed := 1 / 100 }] 1 [] 16 with
    gCreativeMode := 1, gPlay := 1, gDragedParticle := some 1,
    gPositionCursor := ⟨3, 100, 0, 0⟩ }

/-! ## Array access lemmas -/

theorem readSlot_natCast {α : Type} (a : List (Option α)) (k : Nat) :
    readSlot a (k : Int) = a[k]? := by
  simp [readSlot]

theorem readSlot_map_some_append {α : Type} (ps : List α) (rest : List (Option α)) (k : Nat)
    (hk : k < ps.length) :
    readSlot (ps.map some ++ rest) (k : Int) = some (some (ps.get ⟨k, hk⟩)) := by
  rw [readSlot_natCast]
  rw [List.getElem?_append_left (by simpa using hk)]
  simp [List.getElem?_map, List.getElem?_eq_getElem hk]

/-! ## The clamp -/

theorem clamp_abs_le (v limit : ℚ) (h : 0 ≤ limit) : |clamp v limit| ≤ limit := by
  unfold clamp
  split_ifs with h1 h2
  · rw [abs_neg, abs_of_nonneg h]
  · rw [abs_of_nonneg h]
  · rw [abs_le]
    constructor <;> linarith

theorem clamp_neg (v limit : ℚ) (h : 0 ≤ limit) : clamp (-v) limit = -clamp v limit := by
  unfold clamp
  split_ifs <;> first | rfl | linarith

theorem clamp_eq_specClamp (v limit : ℚ) (h : 0 ≤ limit) : clamp v limit = specClamp v limit := by
  unfold clamp specClamp
  split_ifs with h1 h2
  · rw [min_eq_left (by linarith), max_eq_left (by linarith)]
  · rw [min_eq_right (by linarith), max_eq_right (by linarith)]
  · rw [min_eq_left (by linarith), max_eq_right (by linarith)]

theorem clamp_of_abs_lt (v limit : ℚ) (h : |v| < limit) : clamp v limit = v := by
  rw [abs_lt] at h
  unfold clamp
  split_ifs <;> first | rfl | linarith

theorem cmax_eq_max (a b : ℚ) : cmax a b = max a b := by
  unfold cmax
  split_ifs with h
  · exact (max_eq_left (le_of_lt h)).symm
  · exact (max_eq_right (not_lt.mp h)).symm

theorem effectiveDistance_ge (sqrt : ℚ → ℚ) (p q : Particle) :
    5 ≤ effectiveDistance sqrt p q := by
  unfold effectiveDistance
  rw [cmax_eq_max]
  exact le_max_right _ _

/-! ## Blit ordering: array and counting lemmas -/

theorem getElem?_lt_length {α : Type} (a : List α) (k : Nat) (v : α) (h : a[k]? = some v) :
    k < a.length := by
  by_contra hk
  rw [List.getElem?_eq_none (by omega)] at h
  exact absurd h (by simp)

theorem swapSlots_spec (a : List (Option Particle)) (x y : Nat) (vx vy : Option Particle)
    (hx : a[x]? = some vx) (hy : a[y]? = some vy) :
    ∃ a', swapSlots a (x : Int) (y : Int) = some a' ∧ a'.length = a.length ∧
      ∀ k, a'[k]? = if k = y then some vx else if k = x then some vy else a[k]? := by
  have hxl := getElem?_lt_length a x vx hx
  have hyl := getElem?_lt_length a y vy hy
  refine ⟨(a.set x vy).set y vx, ?_, by simp, ?_⟩
  · unfold swapSlots
    rw [readSlot_natCast, readSlot_natCast, hx, hy]
    simp [writeSlot]
  · intro k
    rw [List.getElem?_set, List.getElem?_set]
    by_cases h1 : k = y
    · subst h1
      simp [hyl]
    · by_cases h2 : k = x
      · subst h2
        have : ¬ y = k := fun h => h1 h.symm
        simp [this, hxl, h1]
      · have e1 : ¬ y = k := fun h => h1 h.symm
        have e2 : ¬ x = k := fun h => h2 h.symm
        simp [e1, e2, h1, h2]

theorem movingAt_of_getElem? (a : List (Option Particle)) (k : Nat) (q : Particle)
    (h : a[k]? = some (some q)) : movingAt a k = q.moving := by
  unfold movingAt
  rw [h]

theorem movingAt_congr (a b : List (Option Particle)) (k : Nat) (h : b[k]? = a[k]?) :
    movingAt b k = movingAt a k := by
  unfold movingAt
  rw [h]

theorem countBelow_le (f : Nat → Bool) : ∀ n, countBelow f n ≤ n := by
  intro n
  induction n with
  | zero => simp [countBelow]
  | succ n ih =>
    rw [countBelow]
    split_ifs <;> omega

theorem countBelow_congr (f h : Nat → Bool) :
    ∀ n, (∀ k, k < n → h k = f k) → countBelow h n = countBelow f n := by
  intro n
  induction n with
  | zero => intro _; rfl
  | succ n ih =>
    intro hk
    rw [countBelow, countBelow, ih (fun k hlt => hk k (by omega)), hk n (by omega)]

theorem countBelow_eq_zero (f : Nat → Bool) :
    ∀ n, countBelow f n = 0 → ∀ k, k < n → f k = false := by
  intro n
  induction n with
  | zero => intro _ k hk; omega
  | succ n ih =>
    intro h k hk
    rw [countBelow] at h
    by_cases hn : f n = true
    · rw [if_pos hn] at h; omega
    · rw [if_neg hn] at h
      by_cases hkn : k = n
      · subst hkn; simpa using hn
      · exact ih (by omega) k (by omega)

theorem countBelow_pos (f : Nat → Bool) :
    ∀ n, 0 < countBelow f n → ∃ m, m < n ∧ f m = true := by
  intro n
  induction n with
  | zero => intro h; simp [countBelow] at h
  | succ n ih =>
    intro h
    rw [countBelow] at h
    by_cases hn : f n = true
    · exact ⟨n, by omega, hn⟩
    · rw [if_neg hn] at h
      obtain ⟨m, hm, hf⟩ := ih (by omega)
      exact ⟨m, by omega, hf⟩

theorem countBelow_flip (f h : Nat → Bool) (m : Nat) (hf : f m = true) (hh : h m = false) :
    ∀ n, m < n → (∀ k, k < n → k ≠ m → h k = f k) → countBelow h n + 1 = countBelow f n := by
  intro n
  induction n with
  | zero => intro hm; omega
  | succ n ih =>
    intro hm hk
    rw [countBelow, countBelow]
    by_cases hmn : m = n
    · subst hmn
      rw [countBelow_congr f h m (fun k hlt => hk k (by omega) (by omega)), hf, hh]
      simp
    · rw [hk n (by omega) (fun e => hmn e.symm)]
      have := ih (by omega) (fun k hlt hne => hk k (by omega) hne)
      omega

theorem countBelow_all (f : Nat → Bool) (lo : Nat) :
    ∀ n, lo ≤ n → (∀ k, lo ≤ k → k < n → f k = true) →
      countBelow f n = countBelow f lo + (n - lo) := by
  intro n
  induction n with
  | zero =>
    intro h _
    have : lo = 0 := by omega
    subst this; rfl
  | succ n ih =>
    intro h hk
    by_cases hlo : lo = n + 1
    · subst hlo; simp
    · rw [countBelow, ih (by omega) (fun k h1 h2 => hk k h1 (by omega)), hk n (by omega) (by omega)]
      simp
      omega

theorem countBelow_movingAt_map_some (ps : List Particle) (rest : List (Option Particle)) :
    ∀ n, n ≤ ps.length →
      countBelow (movingAt (ps.map some ++ rest)) n = (ps.take n).countP (fun q => q.moving) := by
  intro n
  induction n with
  | zero => intro _; simp [countBelow]
  | succ n ih =>
    intro h
    have hn : n < ps.length := by omega
    have hget : (ps.map some ++ rest)[n]? = some (some (ps.get ⟨n, hn⟩)) := by
      rw [← readSlot_natCast]
      exact readSlot_map_some_append ps rest n hn
    rw [countBelow, ih (by omega), movingAt_of_getElem? _ n _ hget, List.take_succ,
      List.countP_append, List.getElem?_eq_getElem hn]
    simp [List.countP_cons, List.countP_nil]

theorem slotsInUse_map_some (ps : List Particle) (rest : List (Option Particle)) :
    slotsInUse (ps.map some ++ rest) ps.length := by
  intro k hk
  refine ⟨ps.get ⟨k, hk⟩, ?_⟩
  rw [← readSlot_natCast]
  exact readSlot_map_some_append ps rest k hk

/-! ## Blit ordering: the partition phase -/

theorem deref_of_getElem? (a : List (Option Particle)) (k : Nat) (q : Particle)
    (h : a[k]? = some (some q)) : deref a (k : Int) = some q := by
  unfold deref
  rw [readSlot_natCast, h]

/-- The search of lines 1611-1622, started at index `t`, stops at the highest index `m ≤ t`
holding a moving particle and swaps it with the slot `N - 1 - i`. -/
theorem partitionSearch_spec (a : List (Option Particle)) (N : Nat) (i : Int)
    (hN : slotsInUse a N) :
    ∀ (fuel t : Nat), t < fuel → t < N → (∃ m, m ≤ t ∧ movingAt a m = true) →
      ∃ m, m ≤ t ∧ movingAt a m = true ∧
        partitionSearch a (N : Int) i fuel ((N : Int) - 1 - (t : Int)) =
          swapSlots a ((N : Int) - 1 - i) (m : Int) := by
  intro fuel
  induction fuel with
  | zero => intro t h; omega
  | succ fuel ih =>
    intro t hfuel ht hex
    obtain ⟨q, hq⟩ := hN t ht
    have hidx : (N : Int) - 1 - ((N : Int) - 1 - (t : Int)) = (t : Int) := by omega
    rw [partitionSearch, hidx, deref_of_getElem? a t q hq]
    simp only []
    by_cases hm : q.moving = true
    · rw [if_pos hm]
      exact ⟨t, le_refl _, by rw [movingAt_of_getElem? a t q hq]; exact hm, rfl⟩
    · rw [if_neg hm]
      obtain ⟨m, hmt, hmm⟩ := hex
      have hne : m ≠ t := by
        intro e
        rw [e, movingAt_of_getElem? a t q hq] at hmm
        exact hm hmm
      have ht1 : 1 ≤ t := by omega
      have hj : (N : Int) - 1 - (t : Int) + 1 = (N : Int) - 1 - ((t - 1 : Nat) : Int) := by
        omega
      rw [hj]
      obtain ⟨m', hm't, hm'm, hres⟩ := ih (t - 1) (by omega) (by omega) ⟨m, by omega, hmm⟩
      exact ⟨m', by omega, hm'm, hres⟩

/-- The loop of lines 1605-1626 from iteration `i` on: when the `i` highest slots hold
moving particles and `M - i` moving particles are left below them, the loop returns, the
`M` highest slots hold moving particles and no moving particle is left below them. -/
theorem partitionLoop_spec (N M inner : Nat) (hMN : M ≤ N) (hinner : N ≤ inner) :
    ∀ (fuel i : Nat) (a : List (Option Particle)), i ≤ M → M - i < fuel →
      slotsInUse a N →
      (∀ k, N - i ≤ k → k < N → movingAt a k = true) →
      countBelow (movingAt a) (N - i) = M - i →
      ∃ a', partitionLoop (N : Int) (M : Int) inner fuel a (i : Int) (i : Int) = some a' ∧
        slotsInUse a' N ∧ a'.length = a.length ∧ (∀ k, N ≤ k → a'[k]? = a[k]?) ∧
        (∀ k, N - M ≤ k → k < N → movingAt a' k = true) ∧
        countBelow (movingAt a') (N - M) = 0 := by
  intro fuel
  induction fuel with
  | zero => intro i a _ h; omega
  | succ fuel ih =>
    intro i a hiM hfuel hN htop hcount
    rw [partitionLoop]
    by_cases hi : i = M
    · -- the loop ends
      subst hi
      have htest : partitionTest a (i : Int) (i : Int) (i : Int) = some false := by
        unfold partitionTest
        rw [readSlot_natCast]
        rcases h : a[i]? with _ | (_ | q) <;> simp
      rw [htest]
      refine ⟨a, rfl, hN, rfl, fun _ _ => rfl, htop, ?_⟩
      simpa using hcount
    · have hlt : i < M := by omega
      obtain ⟨qi, hqi⟩ := hN i (by omega)
      have htest : partitionTest a (M : Int) (i : Int) (i : Int) = some true := by
        unfold partitionTest
        rw [readSlot_natCast, hqi]
        simp only [Option.some.injEq, decide_eq_true_eq]
        omega
      rw [htest]
      simp only []
      have hidx : (N : Int) - 1 - (i : Int) = ((N - 1 - i : Nat) : Int) := by omega
      have hstep : (i : Int) + 1 = ((i + 1 : Nat) : Int) := by push_cast; rfl
      obtain ⟨q, hq⟩ := hN (N - 1 - i) (by omega)
      have hsplit : countBelow (movingAt a) (N - i) =
          countBelow (movingAt a) (N - 1 - i) + (if movingAt a (N - 1 - i) = true then 1 else 0) := by
        have : N - i = (N - 1 - i) + 1 := by omega
        rw [this, countBelow]
      rw [hidx, deref_of_getElem? a _ q hq]
      simp only []
      by_cases hm : q.moving = false
      · -- a non-moving particle on top: search a moving one below
        rw [if_pos hm]
        have hmv : movingAt a (N - 1 - i) = false := by
          rw [movingAt_of_getElem? a _ q hq]; exact hm
        rw [hmv] at hsplit
        simp only [Bool.false_eq_true, if_false, add_zero] at hsplit
        obtain ⟨m, hmlt, hmm⟩ := countBelow_pos (movingAt a) (N - 1 - i) (by omega)
        have ht : (i : Int) + 1 = (N : Int) - 1 - ((N - 2 - i : Nat) : Int) := by omega
        obtain ⟨m', hm't, hm'm, hres⟩ := partitionSearch_spec a N (i : Int) hN inner (N - 2 - i)
          (by omega) (by omega) ⟨m, by omega, hmm⟩
        rw [ht, hres, hidx]
        obtain ⟨qm, hqm⟩ := hN m' (by omega)
        obtain ⟨a1, ha1, hlen, hget⟩ := swapSlots_spec a (N - 1 - i) m' (some q) (some qm) hq hqm
        rw [ha1]
        simp only []
        have hqm_moving : qm.moving = true := by
          rw [← movingAt_of_getElem? a m' qm hqm]; exact hm'm
        have hmv1 : ∀ k, movingAt a1 k =
            if k = m' then false else if k = N - 1 - i then true else movingAt a k := by
          intro k
          unfold movingAt
          rw [hget k]
          by_cases h1 : k = m'
          · rw [if_pos h1, if_pos h1]
            exact hm
          · rw [if_neg h1, if_neg h1]
            by_cases h2 : k = N - 1 - i
            · rw [if_pos h2, if_pos h2]
              exact hqm_moving
            · rw [if_neg h2, if_neg h2]
        have hN1 : slotsInUse a1 N := by
          intro k hk
          rw [hget k]
          by_cases h1 : k = m'
          · exact ⟨q, by rw [if_pos h1]⟩
          · by_cases h2 : k = N - 1 - i
            · exact ⟨qm, by rw [if_neg h1, if_pos h2]⟩
            · obtain ⟨qk, hqk⟩ := hN k hk
              exact ⟨qk, by rw [if_neg h1, if_neg h2, hqk]⟩
        have htop1 : ∀ k, N - (i + 1) ≤ k → k < N → movingAt a1 k = true := by
          intro k hk1 hk2
          rw [hmv1 k]
          have h1 : k ≠ m' := by omega
          rw [if_neg h1]
          by_cases h2 : k = N - 1 - i
          · rw [if_pos h2]
          · rw [if_neg h2]
            exact htop k (by omega) hk2
        have hcount1 : countBelow (movingAt a1) (N - (i + 1)) = M - (i + 1) := by
          have hfl := countBelow_flip (movingAt a) (movingAt a1) m' hm'm
            (by rw [hmv1, if_pos rfl]) (N - 1 - i) (by omega)
            (by
              intro k hk hne
              have h2 : k ≠ N - 1 - i := by omega
              rw [hmv1 k, if_neg hne, if_neg h2])
          have e : N - (i + 1) = N - 1 - i := by omega
          rw [e]
          omega
        rw [← ht, hstep]
        obtain ⟨a', ha', hN', hlen', hrest', htop', hcount'⟩ :=
          ih (i + 1) a1 (by omega) (by omega) hN1 htop1 hcount1
        refine ⟨a', ha', hN', by rw [hlen', hlen], ?_, htop', hcount'⟩
        intro k hk
        have h1 : k ≠ m' := by omega
        have h2 : k ≠ N - 1 - i := by omega
        rw [hrest' k hk, hget k, if_neg h1, if_neg h2]
      · -- a moving particle on top already
        rw [if_neg hm]
        have hm' : q.moving = true := by simpa using hm
        have hmv : movingAt a (N - 1 - i) = true := by
          rw [movingAt_of_getElem? a _ q hq]; exact hm'
        rw [hmv] at hsplit
        simp only [if_true] at hsplit
        rw [hstep]
        have htop1 : ∀ k, N - (i + 1) ≤ k → k < N → movingAt a k = true := by
          intro k hk1 hk2
          by_cases h2 : k = N - 1 - i
          · rw [h2]; exact hmv
          · exact htop k (by omega) hk2
        have hcount1 : countBelow (movingAt a) (N - (i + 1)) = M - (i + 1) := by
          have e : N - (i + 1) = N - 1 - i := by omega
          rw [e]
          omega
        exact ih (i + 1) a (by omega) (by omega) hN htop1 hcount1

/-! ## Blit ordering: the two ordering phases keep the partition -/

/-- A run of the `for` loop of an ordering phase over slots on which the motion flag is
constant returns and leaves the motion flag of every slot as it was. -/
theorem bubblePass_spec (N : Nat) (F : Nat → Bool) :
    ∀ (n i : Nat) (a : List (Option Particle)) (inOrder : Bool),
      slotsInUse a N → (∀ k, k < N → movingAt a k = F k) → i < N → n ≤ i →
      (∀ k, i - n ≤ k → k ≤ i → F k = F i) →
      ∃ a' inOrder', bubblePass n a (i : Int) inOrder = some (a', inOrder') ∧
        slotsInUse a' N ∧ a'.length = a.length ∧ (∀ k, N ≤ k → a'[k]? = a[k]?) ∧
        (∀ k, k < N → movingAt a' k = F k) := by
  intro n
  induction n with
  | zero =>
    intro i a inOrder hN hF _ _ _
    exact ⟨a, inOrder, rfl, hN, rfl, fun _ _ => rfl, hF⟩
  | succ n ih =>
    intro i a inOrder hN hF hi hn hconst
    obtain ⟨pi, hpi⟩ := hN i hi
    obtain ⟨pj, hpj⟩ := hN (i - 1) (by omega)
    have hidx : (i : Int) - 1 = ((i - 1 : Nat) : Int) := by omega
    have hconst' : ∀ k, i - 1 - n ≤ k → k ≤ i - 1 → F k = F (i - 1) := by
      intro k h1 h2
      rw [hconst k (by omega) (by omega), hconst (i - 1) (by omega) (by omega)]
    rw [bubblePass, readSlot_natCast, hpi]
    simp only []
    rw [hidx, readSlot_natCast, hpj]
    simp only []
    by_cases hlt : pi.yCoord < pj.yCoord
    · rw [if_pos hlt]
      obtain ⟨a1, ha1, hlen, hget⟩ := swapSlots_spec a i (i - 1) (some pi) (some pj) hpi hpj
      rw [ha1]
      simp only []
      have hne : i ≠ i - 1 := by omega
      have hN1 : slotsInUse a1 N := by
        intro k hk
        rw [hget k]
        by_cases h1 : k = i - 1
        · exact ⟨pi, by rw [if_pos h1]⟩
        · by_cases h2 : k = i
          · exact ⟨pj, by rw [if_neg h1, if_pos h2]⟩
          · obtain ⟨qk, hqk⟩ := hN k hk
            exact ⟨qk, by rw [if_neg h1, if_neg h2, hqk]⟩
      have hF1 : ∀ k, k < N → movingAt a1 k = F k := by
        intro k hk
        by_cases h1 : k = i - 1
        · have e : a1[k]? = some (some pi) := by rw [hget k, if_pos h1]
          rw [movingAt_of_getElem? a1 k pi e, ← movingAt_of_getElem? a i pi hpi, hF i hi, h1,
            hconst (i - 1) (by omega) (by omega)]
        · by_cases h2 : k = i
          · have e : a1[k]? = some (some pj) := by rw [hget k, if_neg h1, if_pos h2]
            rw [movingAt_of_getElem? a1 k pj e, ← movingAt_of_getElem? a (i - 1) pj hpj,
              hF (i - 1) (by omega), h2, hconst (i - 1) (by omega) (by omega)]
          · have e : a1[k]? = a[k]? := by rw [hget k, if_neg h1, if_neg h2]
            rw [movingAt_congr a a1 k e, hF k hk]
      obtain ⟨a', o', ha', hN', hlen', hrest', hF'⟩ :=
        ih (i - 1) a1 false hN1 hF1 (by omega) (by omega) hconst'
      refine ⟨a', o', ha', hN', by rw [hlen', hlen], ?_, hF'⟩
      intro k hk
      have h1 : k ≠ i - 1 := by omega
      have h2 : k ≠ i := by omega
      rw [hrest' k hk, hget k, if_neg h1, if_neg h2]
    · rw [if_neg hlt]
      exact ih (i - 1) a inOrder hN hF (by omega) (by omega) hconst'

/-- A `while` loop of an ordering phase over the slots `low .. top - 1`, on which the motion
flag is constant, returns within `top - l - low + 1` passes and leaves the motion flag of
every slot as it was. -/
theorem bubbleLoop_spec (N : Nat) (F : Nat → Bool) (top low : Nat) (htop : top ≤ N)
    (hconst : ∀ k, low ≤ k → k < top → F k = F low) :
    ∀ (fuel l : Nat) (a : List (Option Particle)), 1 ≤ l → top - l - low < fuel →
      slotsInUse a N → (∀ k, k < N → movingAt a k = F k) →
      ∃ a', bubbleLoop (top : Int) (low : Int) fuel a (l : Int) = some a' ∧
        slotsInUse a' N ∧ a'.length = a.length ∧ (∀ k, N ≤ k → a'[k]? = a[k]?) ∧
        (∀ k, k < N → movingAt a' k = F k) := by
  intro fuel
  induction fuel with
  | zero => intro l a _ h; omega
  | succ fuel ih =>
    intro l a hl hfuel hN hF
    have hn : ((top : Int) - (l : Int) - (low : Int)).toNat = top - l - low := by omega
    rw [bubbleLoop, hn]
    by_cases h0 : top - l - low = 0
    · rw [h0, bubblePass]
      exact ⟨a, rfl, hN, rfl, fun _ _ => rfl, hF⟩
    · have hidx : (top : Int) - (l : Int) = ((top - l : Nat) : Int) := by omega
      rw [hidx]
      obtain ⟨a1, o1, ha1, hN1, hlen1, hrest1, hF1⟩ :=
        bubblePass_spec N F (top - l - low) (top - l) a true hN hF (by omega) (by omega)
          (by
            intro k h1 h2
            rw [hconst k (by omega) (by omega), hconst (top - l) (by omega) (by omega)])
      rw [ha1]
      cases o1 with
      | true => exact ⟨a1, rfl, hN1, hlen1, hrest1, hF1⟩
      | false =>
        simp only []
        have hstep : (l : Int) + 1 = ((l + 1 : Nat) : Int) := by push_cast; rfl
        rw [hstep]
        obtain ⟨a', ha', hN', hlen', hrest', hF'⟩ :=
          ih (l + 1) a1 (by omega) (by omega) hN1 hF1
        exact ⟨a', ha', hN', by rw [hlen', hlen1],
          fun k hk => by rw [hrest' k hk, hrest1 k hk], hF'⟩

/-- The three phases of `organizeParticleBlitering` on an array whose first `N` slots are in
use and hold `M` moving particles: the call returns, the first `N` slots are still in use,
the slots from `N` on are untouched, and slot `k < N` holds a moving particle exactly when
`N - M ≤ k`. -/
theorem organize_phases (a : List (Option Particle)) (N M fuel : Nat) (hfuel : N < fuel)
    (hN : slotsInUse a N) (hM : countBelow (movingAt a) N = M) :
    ∃ a1 a2 a3,
      partitionLoop (N : Int) (M : Int) fuel fuel a 0 0 = some a1 ∧
      sortMovingParticles (N : Int) (M : Int) fuel a1 = some a2 ∧
      sortNonMovingParticles (N : Int) (M : Int) fuel a2 = some a3 ∧
      slotsInUse a3 N ∧ a3.length = a.length ∧ (∀ k, N ≤ k → a3[k]? = a[k]?) ∧
      (∀ k, k < N → movingAt a3 k = decide (N - M ≤ k)) := by
  have hMN : M ≤ N := by rw [← hM]; exact countBelow_le _ N
  obtain ⟨a1, ha1, hN1, hlen1, hrest1, htop1, hcount1⟩ :=
    partitionLoop_spec N M fuel hMN (by omega) fuel 0 a (by omega) (by omega) hN
      (fun k h1 h2 => by omega) (by simpa using hM)
  have hF1 : ∀ k, k < N → movingAt a1 k = decide (N - M ≤ k) := by
    intro k hk
    by_cases h : N - M ≤ k
    · rw [htop1 k h hk]; simp [h]
    · rw [countBelow_eq_zero _ _ hcount1 k (by omega)]; simp [h]
  have hlow : (N : Int) - (M : Int) = ((N - M : Nat) : Int) := by omega
  obtain ⟨a2, ha2, hN2, hlen2, hrest2, hF2⟩ :=
    bubbleLoop_spec N (fun k => decide (N - M ≤ k)) N (N - M) (le_refl _)
      (fun k h1 h2 => by simp [h1]) fuel 1 a1 (le_refl _) (by omega) hN1 hF1
  obtain ⟨a3, ha3, hN3, hlen3, hrest3, hF3⟩ :=
    bubbleLoop_spec N (fun k => decide (N - M ≤ k)) (N - M) 0 (by omega)
      (fun k h1 h2 => by
        have e1 : ¬ N - M ≤ k := by omega
        have e2 : ¬ N - M ≤ 0 := by omega
        simp [e1, e2]) fuel 1 a2 (le_refl _) (by omega) hN2 hF2
  refine ⟨a1, a2, a3, by simpa using ha1, ?_, ?_, hN3, ?_, ?_, hF3⟩
  · unfold sortMovingParticles
    rw [hlow]
    exact_mod_cast ha2
  · unfold sortNonMovingParticles
    rw [hlow]
    exact_mod_cast ha3
  · rw [hlen3, hlen2, hlen1]
  · intro k hk
    rw [hrest3 k hk, hrest2 k hk, hrest1 k hk]

/-- C2.  For a store whose `N` slots are non-null and whose `gNumberOfMovingParticle = M` is
the number of its moving particles, `organizeParticleBlitering` returns (with a loop budget
above `N`), and afterwards every slot `k < N` is still non-null and holds a moving particle
exactly when `k ≥ N - M`: the moving particles fill the `M` highest slots and every
non-moving particle has a lower index.  Counters and all other globals are unchanged. -/
theorem organizeParticleBlitering_partitions (g : Game) (ps : List Particle)
    (rest : List (Option Particle)) (fuel : Nat)
    (harr : g.gParticleArray = ps.map some ++ rest)
    (hN : g.gNumberOfParticle = (ps.length : Int))
    (hM : g.gNumberOfMovingParticle = ((ps.countP (fun q => q.moving) : Nat) : Int))
    (hfuel : ps.length < fuel) :
    ∃ a', organizeParticleBlitering fuel g = some { g with gParticleArray := a' } ∧
      ∀ k, k < ps.length → ∃ q, a'[k]? = some (some q) ∧
        (q.moving = true ↔ ps.length - ps.countP (fun q => q.moving) ≤ k) := by
  have hcount : countBelow (movingAt (ps.map some ++ rest)) ps.length =
      ps.countP (fun q => q.moving) := by
    rw [countBelow_movingAt_map_some ps rest ps.length (le_refl _), List.take_length]
  obtain ⟨a1, a2, a3, h1, h2, h3, hN3, -, -, hF3⟩ :=
    organize_phases (ps.map some ++ rest) ps.length (ps.countP (fun q => q.moving)) fuel hfuel
      (slotsInUse_map_some ps rest) hcount
  refine ⟨a3, ?_, ?_⟩
  · unfold organizeParticleBlitering
    simp only []
    rw [harr, hN, hM, h1]
    simp only []
    rw [h2]
    simp only []
    rw [h3]
  · intro k hk
    obtain ⟨q, hq⟩ := hN3 k hk
    refine ⟨q, hq, ?_⟩
    have := hF3 k hk
    rw [movingAt_of_getElem? a3 k q hq] at this
    rw [this]
    simp

/-- Witness of C2: moving, fixed, moving, fixed particles in slots `0 .. 3`. -/
theorem organizeParticleBlitering_partitions_witness :
    ∃ a', organizeParticleBlitering 5
        (gameOf [particleAt 1 true 0 3 1, particleAt 2 false 0 2 1, particleAt 3 true 0 1 1,
          particleAt 4 false 0 0 1] 2 [] 16) =
        some { gameOf [particleAt 1 true 0 3 1, particleAt 2 false 0 2 1,
          particleAt 3 true 0 1 1, particleAt 4 false 0 0 1] 2 [] 16 with gParticleArray := a' } ∧
      ∀ k, k < 4 → ∃ q, a'[k]? = some (some q) ∧ (q.moving = true ↔ 4 - 2 ≤ k) :=
  organizeParticleBlitering_partitions
    (gameOf [particleAt 1 true 0 3 1, particleAt 2 false 0 2 1, particleAt 3 true 0 1 1,
      particleAt 4 false 0 0 1] 2 [] 16)
    [particleAt 1 true 0 3 1, particleAt 2 false 0 2 1, particleAt 3 true 0 1 1,
      particleAt 4 false 0 0 1] _ 5 rfl rfl rfl (by decide)

set_option maxRecDepth 100000 in
/-- C1 fails on the code.  Three non-moving particles with `yCoord` 3, 2, 1 in slots 0, 1, 2
(`gNumberOfParticle = 3`, `gNumberOfMovingParticle = 0`): one call of
`organizeParticleBlitering` leaves them in the order 1, 3, 2.  The first pass runs from
index 2 down to 1 and brings the smallest to slot 0; the second pass starts at index 1 and
never compares slots 1 and 2 again, finds nothing to swap and ends the loop. -/
theorem organizeParticleBlitering_single_call_unsorted :
    (organizeParticleBlitering 4
        (gameOf [particleAt 1 false 0 3 1, particleAt 2 false 0 2 1, particleAt 3 false 0 1 1]
          0 [] 16)).map
      (fun g => (g.gParticleArray.take 3).map (Option.map Particle.yCoord)) =
      some [some 1, some 3, some 2] := by
  decide

/-! ## Collision resolution: which tests fire -/

theorem surfaceHitbox_iff (S : SDL_Rect) (x y : ℚ) (a b c d : Int) :
    surfaceHitbox S x y a b c d = true ↔
      (S.x - a ≤ truncate x ∧ truncate x ≤ S.x + S.w + b) ∧
      (S.y - c ≤ truncate y ∧ truncate y ≤ S.y + S.h + d) := by
  unfold surfaceHitbox
  simp only [Bool.and_eq_true, decide_eq_true_eq, ge_iff_le]
  tauto

theorem truncate_intCast (z : Int) : truncate (z : ℚ) = z := by
  simp [truncate]

theorem toInt32_of_small (r : Nat) (h : (r : Int) < 32768) : toInt32 (r : Int) = (r : Int) := by
  unfold toInt32
  omega

theorem toSint16_of_small (z : Int) (h0 : 0 ≤ z) (h : z < 32768) : toSint16 z = z := by
  unfold toSint16
  omega

theorem toUint32_of_small (z : Int) (h0 : 0 ≤ z) (h : z < 4294967296) : toUint32 z = z := by
  unfold toUint32
  omega

theorem collisionsWalls_eq_foldl (g : Game) (ws : List Wall) (wrest : List (Option Wall))
    (hwalls : g.gWallArray = ws.map some ++ wrest) :
    ∀ (n i : Nat) (p : Particle), i + n = ws.length →
      collisionsWalls g n (i : Int) p =
        some ((ws.drop i).foldl (fun q w => collisionsWall g.gParticleRadius w q) p) := by
  intro n
  induction n with
  | zero =>
    intro i p h
    have hi : ws.length ≤ i := by omega
    simp [collisionsWalls, List.drop_eq_nil_of_le hi]
  | succ n ih =>
    intro i p h
    have hi : i < ws.length := by omega
    have hstep : ((i : Int) + 1) = ((i + 1 : Nat) : Int) := by push_cast; rfl
    have hdrop : List.drop i ws = ws.get ⟨i, hi⟩ :: List.drop (i + 1) ws :=
      List.drop_eq_getElem_cons hi
    rw [collisionsWalls]
    unfold deref
    rw [hwalls, readSlot_map_some_append ws wrest i hi]
    simp only []
    rw [hstep, ih (i + 1) _ (by omega), hdrop, List.foldl_cons]

theorem foldl_collisionsWall_noop (r : Nat) (p : Particle) :
    ∀ (l : List Wall), (∀ V ∈ l, collisionsWall r V p = p) →
      l.foldl (fun q w => collisionsWall r w q) p = p := by
  intro l
  induction l with
  | nil => intro _; rfl
  | cons V l ih =>
    intro h
    rw [List.foldl_cons, h V (List.mem_cons_self _ _)]
    exact ih (fun V' hV' => h V' (List.mem_cons_of_mem _ hV'))

/-- A wall whose rectangle, inflated by the radius on the left and on the right, does not
contain the column of the particle leaves the particle as it is. -/
theorem collisionsWall_noop_of_x (r : Nat) (V : Wall) (p : Particle) (hr : 0 ≤ toInt32 (r : Int))
    (h : ¬ ((surfaceTemp V).x - toInt32 (r : Int) ≤ truncate p.xCoord ∧
            truncate p.xCoord ≤ (surfaceTemp V).x + (surfaceTemp V).w + toInt32 (r : Int))) :
    collisionsWall r V p = p := by
  have h1 : wallLeft r V p = p := by
    unfold wallLeft
    rw [if_neg]
    rintro ⟨-, hh⟩
    rw [surfaceHitbox_iff] at hh
    apply h; omega
  have h2 : wallRight r V p = p := by
    unfold wallRight
    rw [if_neg]
    rintro ⟨-, hh⟩
    rw [surfaceHitbox_iff] at hh
    apply h; omega
  have h3 : wallTop r V p = p := by
    unfold wallTop
    rw [if_neg]
    rintro ⟨-, hh⟩
    rw [surfaceHitbox_iff] at hh
    apply h; omega
  have h4 : wallBottom r V p = p := by
    unfold wallBottom
    rw [if_neg]
    rintro ⟨-, hh⟩
    rw [surfaceHitbox_iff] at hh
    apply h; omega
  unfold collisionsWall
  rw [h1, h2, h3, h4]

/-- A wall whose rectangle, inflated by the radius above and below, does not contain the
row of the particle leaves the particle as it is. -/
theorem collisionsWall_noop_of_y (r : Nat) (V : Wall) (p : Particle) (hr : 0 ≤ toInt32 (r : Int))
    (h : ¬ ((surfaceTemp V).y - toInt32 (r : Int) ≤ truncate p.yCoord ∧
            truncate p.yCoord ≤ (surfaceTemp V).y + (surfaceTemp V).h + toInt32 (r : Int))) :
    collisionsWall r V p = p := by
  have h1 : wallLeft r V p = p := by
    unfold wallLeft
    rw [if_neg]
    rintro ⟨-, hh⟩
    rw [surfaceHitbox_iff] at hh
    apply h; omega
  have h2 : wallRight r V p = p := by
    unfold wallRight
    rw [if_neg]
    rintro ⟨-, hh⟩
    rw [surfaceHitbox_iff] at hh
    apply h; omega
  have h3 : wallTop r V p = p := by
    unfold wallTop
    rw [if_neg]
    rintro ⟨-, hh⟩
    rw [surfaceHitbox_iff] at hh
    apply h; omega
  have h4 : wallBottom r V p = p := by
    unfold wallBottom
    rw [if_neg]
    rintro ⟨-, hh⟩
    rw [surfaceHitbox_iff] at hh
    apply h; omega
  unfold collisionsWall
  rw [h1, h2, h3, h4]

/-- A wall whose rectangle, inflated by the radius on every side, does not contain the
particle leaves the particle as it is. -/
theorem collisionsWall_noop_of_outside (r : Nat) (V : Wall) (p : Particle)
    (hr : 0 ≤ toInt32 (r : Int))
    (h : surfaceHitbox (surfaceTemp V) p.xCoord p.yCoord (toInt32 (r : Int)) (toInt32 (r : Int))
      (toInt32 (r : Int)) (toInt32 (r : Int)) = false) :
    collisionsWall r V p = p := by
  have h' : ¬ (surfaceHitbox (surfaceTemp V) p.xCoord p.yCoord (toInt32 (r : Int))
      (toInt32 (r : Int)) (toInt32 (r : Int)) (toInt32 (r : Int)) = true) := by
    rw [h]; simp
  rw [surfaceHitbox_iff] at h'
  by_cases hx : (surfaceTemp V).x - toInt32 (r : Int) ≤ truncate p.xCoord ∧
      truncate p.xCoord ≤ (surfaceTemp V).x + (surfaceTemp V).w + toInt32 (r : Int)
  · exact collisionsWall_noop_of_y r V p hr (fun hy => h' ⟨hx, hy⟩)
  · exact collisionsWall_noop_of_x r V p hr hx

theorem collisionsGoal_noop_of_x (g : Game) (p : Particle)
    (hr : 0 ≤ toInt32 (g.gParticleRadius : Int))
    (h : ¬ (g.gPositionGoal.x - toInt32 (g.gParticleRadius : Int) ≤ truncate p.xCoord ∧
            truncate p.xCoord ≤
              g.gPositionGoal.x + g.gPositionGoal.w + toInt32 (g.gParticleRadius : Int))) :
    collisionsGoal g p = p := by
  have h1 : goalLeft g p = p := by
    unfold goalLeft
    rw [if_neg]
    rintro ⟨-, hh⟩
    rw [surfaceHitbox_iff] at hh
    apply h; omega
  have h2 : goalRight g p = p := by
    unfold goalRight
    rw [if_neg]
    rintro ⟨-, hh⟩
    rw [surfaceHitbox_iff] at hh
    apply h; omega
  have h3 : goalTop g p = p := by
    unfold goalTop
    rw [if_neg]
    rintro ⟨-, hh⟩
    rw [surfaceHitbox_iff] at hh
    apply h; omega
  have h4 : goalBottom g p = p := by
    unfold goalBottom
    rw [if_neg]
    rintro ⟨-, hh⟩
    rw [surfaceHitbox_iff] at hh
    apply h; omega
  unfold collisionsGoal
  rw [h1, h2, h3, h4]

theorem collisionsGoal_noop_of_y (g : Game) (p : Particle)
    (hr : 0 ≤ toInt32 (g.gParticleRadius : Int))
    (h : ¬ (g.gPositionGoal.y - toInt32 (g.gParticleRadius : Int) ≤ truncate p.yCoord ∧
            truncate p.yCoord ≤
              g.gPositionGoal.y + g.gPositionGoal.h + toInt32 (g.gParticleRadius : Int))) :
    collisionsGoal g p = p := by
  have h1 : goalLeft g p = p := by
    unfold goalLeft
    rw [if_neg]
    rintro ⟨-, hh⟩
    rw [surfaceHitbox_iff] at hh
    apply h; omega
  have h2 : goalRight g p = p := by
    unfold goalRight
    rw [if_neg]
    rintro ⟨-, hh⟩
    rw [surfaceHitbox_iff] at hh
    apply h; omega
  have h3 : goalTop g p = p := by
    unfold goalTop
    rw [if_neg]
    rintro ⟨-, hh⟩
    rw [surfaceHitbox_iff] at hh
    apply h; omega
  have h4 : goalBottom g p = p := by
    unfold goalBottom
    rw [if_neg]
    rintro ⟨-, hh⟩
    rw [surfaceHitbox_iff] at hh
    apply h; omega
  unfold collisionsGoal
  rw [h1, h2, h3, h4]

/-- The tests against the limits leave the horizontal state alone when the particle is
strictly between the two horizontal limits. -/
theorem collisionsLimits_x (g : Game) (p : Particle)
    (h1 : p.xCoord < (toUint32 (g.screenW - g.gParticleRadius) : ℚ))
    (h2 : (toUint32 (0 + g.gParticleRadius) : ℚ) < p.xCoord) :
    (collisionsLimits g p).xCoord = p.xCoord ∧ (collisionsLimits g p).xSpeed = p.xSpeed := by
  have e1 : limitRight g p = p := by
    unfold limitRight
    rw [if_neg (fun hh => absurd hh.2 (not_le.mpr h1))]
  have e2 : limitLeft g p = p := by
    unfold limitLeft
    rw [if_neg (fun hh => absurd hh.2 (not_le.mpr h2))]
  have e3 : (limitBottom g p).xCoord = p.xCoord ∧ (limitBottom g p).xSpeed = p.xSpeed := by
    unfold limitBottom
    split_ifs <;> simp
  have e4 : (limitTop g (limitBottom g p)).xCoord = (limitBottom g p).xCoord ∧
      (limitTop g (limitBottom g p)).xSpeed = (limitBottom g p).xSpeed := by
    unfold limitTop
    split_ifs <;> simp
  unfold collisionsLimits
  rw [e1, e2]
  exact ⟨e4.1.trans e3.1, e4.2.trans e3.2⟩

/-- The tests against the limits leave the vertical state alone when the particle is
strictly between the two vertical limits. -/
theorem collisionsLimits_y (g : Game) (p : Particle)
    (h1 : p.yCoord < (toUint32 (g.backgroundH - g.gParticleRadius) : ℚ))
    (h2 : (toUint32 (0 + g.gParticleRadius) : ℚ) < p.yCoord) :
    (collisionsLimits g p).yCoord = p.yCoord ∧ (collisionsLimits g p).ySpeed = p.ySpeed := by
  have e1 : (limitRight g p).yCoord = p.yCoord ∧ (limitRight g p).ySpeed = p.ySpeed := by
    unfold limitRight
    split_ifs <;> simp
  have e2 : (limitLeft g (limitRight g p)).yCoord = (limitRight g p).yCoord ∧
      (limitLeft g (limitRight g p)).ySpeed = (limitRight g p).ySpeed := by
    unfold limitLeft
    split_ifs <;> simp
  have e3 : limitBottom g (limitLeft g (limitRight g p)) = limitLeft g (limitRight g p) := by
    unfold limitBottom
    rw [if_neg]
    rintro ⟨-, hh⟩
    rw [e2.1, e1.1] at hh
    exact absurd hh (not_le.mpr h1)
  have e4 : limitTop g (limitLeft g (limitRight g p)) = limitLeft g (limitRight g p) := by
    unfold limitTop
    rw [if_neg]
    rintro ⟨-, hh⟩
    rw [e2.1, e1.1] at hh
    exact absurd hh (not_le.mpr h2)
  unfold collisionsLimits
  rw [e3, e4]
  exact ⟨e2.1.trans e1.1, e2.2.trans e1.2⟩

theorem collisions_eq (g : Game) (ws : List Wall) (wrest : List (Option Wall))
    (hwalls : g.gWallArray = ws.map some ++ wrest)
    (hNW : g.gNumberOfWall = (ws.length : Int)) (p : Particle) :
    collisions g p = some (collisionsLimits g
      (if (ws.foldl (fun q w => collisionsWall g.gParticleRadius w q) p).moving = false ∨
          (g.gCreativeMode ≠ 0 ∧ g.gPlay = 0)
       then collisionsGoal g (ws.foldl (fun q w => collisionsWall g.gParticleRadius w q) p)
       else ws.foldl (fun q w => collisionsWall g.gParticleRadius w q) p)) := by
  have h := collisionsWalls_eq_foldl g ws wrest hwalls ws.length 0 p (by simp)
  simp only [Nat.cast_zero, List.drop_zero] at h
  unfold collisions
  rw [hNW, Int.toNat_ofNat, h]

/-- C3, amended.  Let `p` have `xSpeed ≥ 0` and let `W` be a wall of the store whose
rectangle inflated on the left by the radius contains `p` on entry.  If the radius is
positive, `radius ≤ W.x < 32768`, the walls before `W` in the store do not contain `p` when
inflated by the radius on every side, the walls after `W` (and the goal, when it is an
obstacle for `p`) do not contain the column `W.x - radius` in their extent inflated by the
radius on the left and on the right, and `W.x - radius` lies strictly between the two
horizontal limits of the playable area, then after `collisions(p)` the particle has
`xCoord = W.x - radius` and `xSpeed = 0`. -/
theorem collisions_wall_left_edge (g : Game) (p : Particle) (before after : List Wall)
    (W : Wall) (wrest : List (Option Wall))
    (hwalls : g.gWallArray = (before ++ W :: after).map some ++ wrest)
    (hNW : g.gNumberOfWall = ((before ++ W :: after).length : Int))
    (hr : 0 < g.gParticleRadius)
    (hrW : (g.gParticleRadius : Int) ≤ W.x)
    (hWx : W.x < 32768)
    (hspeed : p.xSpeed ≥ 0)
    (hhit : surfaceHitbox (surfaceTemp W) p.xCoord p.yCoord (g.gParticleRadius : Int) 0 0 0 = true)
    (hbefore : ∀ V ∈ before, surfaceHitbox (surfaceTemp V) p.xCoord p.yCoord
      (g.gParticleRadius : Int) (g.gParticleRadius : Int) (g.gParticleRadius : Int)
      (g.gParticleRadius : Int) = false)
    (hafter : ∀ V ∈ after, ¬ ((surfaceTemp V).x - (g.gParticleRadius : Int) ≤ W.x - g.gParticleRadius ∧
      W.x - g.gParticleRadius ≤ (surfaceTemp V).x + (surfaceTemp V).w + (g.gParticleRadius : Int)))
    (hgoal : (p.moving = true ∧ ¬ (g.gCreativeMode ≠ 0 ∧ g.gPlay = 0)) ∨
      ¬ (g.gPositionGoal.x - (g.gParticleRadius : Int) ≤ W.x - g.gParticleRadius ∧
        W.x - g.gParticleRadius ≤
          g.gPositionGoal.x + g.gPositionGoal.w + (g.gParticleRadius : Int)))
    (hlim : toUint32 (0 + g.gParticleRadius) < W.x - g.gParticleRadius ∧
      W.x - g.gParticleRadius < toUint32 (g.screenW - g.gParticleRadius)) :
    ∃ p', collisions g p = some p' ∧
      p'.xCoord = ((W.x - g.gParticleRadius : Int) : ℚ) ∧ p'.xSpeed = 0 := by
  have hR : toInt32 (g.gParticleRadius : Int) = (g.gParticleRadius : Int) :=
    toInt32_of_small _ (by omega)
  have hR0 : 0 ≤ toInt32 (g.gParticleRadius : Int) := by rw [hR]; omega
  have hSx : (surfaceTemp W).x = W.x := toSint16_of_small _ (by omega) hWx
  have hU : toUint32 (W.x - g.gParticleRadius) = W.x - g.gParticleRadius :=
    toUint32_of_small _ (by omega) (by omega)
  obtain ⟨p1, hp1⟩ : ∃ p1 : Particle,
      p1 = { p with xSpeed := 0, xCoord := ((W.x - g.gParticleRadius : Int) : ℚ) } := ⟨_, rfl⟩
  have hx1 : p1.xCoord = ((W.x - g.gParticleRadius : Int) : ℚ) := by rw [hp1]
  have hs1 : p1.xSpeed = 0 := by rw [hp1]
  have hm1 : p1.moving = p.moving := by rw [hp1]
  have htr : truncate p1.xCoord = W.x - g.gParticleRadius := by
    rw [hx1]; exact truncate_intCast _
  -- the walls before `W`
  have h1 : before.foldl (fun q w => collisionsWall g.gParticleRadius w q) p = p :=
    foldl_collisionsWall_noop _ p before
      (fun V hV => collisionsWall_noop_of_outside _ V p hR0 (by rw [hR]; exact hbefore V hV))
  -- the wall `W`
  have h2 : wallLeft g.gParticleRadius W p = p1 := by
    unfold wallLeft
    rw [if_pos ⟨hspeed, by rw [hR]; exact hhit⟩, hU, hp1]
  have h3 : collisionsWall g.gParticleRadius W p = p1 := by
    unfold collisionsWall
    rw [h2]
    have e1 : wallRight g.gParticleRadius W p1 = p1 := by
      unfold wallRight
      rw [if_neg]
      rintro ⟨-, hh⟩
      rw [surfaceHitbox_iff, htr, hSx] at hh
      omega
    have e2 : wallTop g.gParticleRadius W p1 = p1 := by
      unfold wallTop
      rw [if_neg]
      rintro ⟨-, hh⟩
      rw [surfaceHitbox_iff, htr, hSx] at hh
      omega
    have e3 : wallBottom g.gParticleRadius W p1 = p1 := by
      unfold wallBottom
      rw [if_neg]
      rintro ⟨-, hh⟩
      rw [surfaceHitbox_iff, htr, hSx] at hh
      omega
    rw [e1, e2, e3]
  -- the walls after `W`
  have h4 : after.foldl (fun q w => collisionsWall g.gParticleRadius w q) p1 = p1 :=
    foldl_collisionsWall_noop _ _ after
      (fun V hV => collisionsWall_noop_of_x _ V _ hR0 (by rw [hR, htr]; exact hafter V hV))
  have h5 : (before ++ W :: after).foldl (fun q w => collisionsWall g.gParticleRadius w q) p
      = p1 := by
    rw [List.foldl_append, h1, List.foldl_cons, h3, h4]
  -- the goal
  have h6 : (if p1.moving = false ∨ (g.gCreativeMode ≠ 0 ∧ g.gPlay = 0)
      then collisionsGoal g p1 else p1) = p1 := by
    split_ifs with hc
    · rcases hgoal with ⟨hm, hn⟩ | hx
      · rcases hc with hc | hc
        · rw [hm1, hm] at hc
          exact absurd hc (by decide)
        · exact absurd hc hn
      · exact collisionsGoal_noop_of_x g _ hR0 (by rw [hR, htr]; exact hx)
    · rfl
  rw [collisions_eq g _ wrest hwalls hNW p, h5, h6]
  have h7 := collisionsLimits_x g p1
    (by rw [hx1]; exact_mod_cast hlim.2) (by rw [hx1]; exact_mod_cast hlim.1)
  exact ⟨_, rfl, h7.1.trans hx1, h7.2.trans hs1⟩

/-- C4, amended.  Let `p` have `ySpeed ≥ 0` and let `W` be a wall of the store whose
rectangle inflated above by the radius contains `p` on entry, while neither horizontal test
of `W` fires on entry.  If the radius is positive, `radius ≤ W.y < 32768`, the walls before
`W` in the store do not contain `p` when inflated by the radius on every side, the walls
after `W` (and the goal, when it is an obstacle for `p`) do not contain the row
`W.y - radius` in their extent inflated by the radius above and below, and `W.y - radius`
lies strictly between the two vertical limits of the playable area, then after
`collisions(p)` the particle has `yCoord = W.y - radius` and `ySpeed = 0`. -/
theorem collisions_wall_top_edge (g : Game) (p : Particle) (before after : List Wall)
    (W : Wall) (wrest : List (Option Wall))
    (hwalls : g.gWallArray = (before ++ W :: after).map some ++ wrest)
    (hNW : g.gNumberOfWall = ((before ++ W :: after).length : Int))
    (hr : 0 < g.gParticleRadius)
    (hrW : (g.gParticleRadius : Int) ≤ W.y)
    (hWy : W.y < 32768)
    (hspeed : p.ySpeed ≥ 0)
    (hhit : surfaceHitbox (surfaceTemp W) p.xCoord p.yCoord 0 0 (g.gParticleRadius : Int) 0 = true)
    (hleft : ¬ (p.xSpeed ≥ 0 ∧
      surfaceHitbox (surfaceTemp W) p.xCoord p.yCoord (g.gParticleRadius : Int) 0 0 0 = true))
    (hright : ¬ (p.xSpeed ≤ 0 ∧
      surfaceHitbox (surfaceTemp W) p.xCoord p.yCoord 0 (g.gParticleRadius : Int) 0 0 = true))
    (hbefore : ∀ V ∈ before, surfaceHitbox (surfaceTemp V) p.xCoord p.yCoord
      (g.gParticleRadius : Int) (g.gParticleRadius : Int) (g.gParticleRadius : Int)
      (g.gParticleRadius : Int) = false)
    (hafter : ∀ V ∈ after, ¬ ((surfaceTemp V).y - (g.gParticleRadius : Int) ≤ W.y - g.gParticleRadius ∧
      W.y - g.gParticleRadius ≤ (surfaceTemp V).y + (surfaceTemp V).h + (g.gParticleRadius : Int)))
    (hgoal : (p.moving = true ∧ ¬ (g.gCreativeMode ≠ 0 ∧ g.gPlay = 0)) ∨
      ¬ (g.gPositionGoal.y - (g.gParticleRadius : Int) ≤ W.y - g.gParticleRadius ∧
        W.y - g.gParticleRadius ≤
          g.gPositionGoal.y + g.gPositionGoal.h + (g.gParticleRadius : Int)))
    (hlim : toUint32 (0 + g.gParticleRadius) < W.y - g.gParticleRadius ∧
      W.y - g.gParticleRadius < toUint32 (g.backgroundH - g.gParticleRadius)) :
    ∃ p', collisions g p = some p' ∧
      p'.yCoord = ((W.y - g.gParticleRadius : Int) : ℚ) ∧ p'.ySpeed = 0 := by
  have hR : toInt32 (g.gParticleRadius : Int) = (g.gParticleRadius : Int) :=
    toInt32_of_small _ (by omega)
  have hR0 : 0 ≤ toInt32 (g.gParticleRadius : Int) := by rw [hR]; omega
  have hSy : (surfaceTemp W).y = W.y := toSint16_of_small _ (by omega) hWy
  have hU : toUint32 (W.y - g.gParticleRadius) = W.y - g.gParticleRadius :=
    toUint32_of_small _ (by omega) (by omega)
  obtain ⟨p1, hp1⟩ : ∃ p1 : Particle,
      p1 = { p with ySpeed := 0, yCoord := ((W.y - g.gParticleRadius : Int) : ℚ) } := ⟨_, rfl⟩
  have hy1 : p1.yCoord = ((W.y - g.gParticleRadius : Int) : ℚ) := by rw [hp1]
  have hs1 : p1.ySpeed = 0 := by rw [hp1]
  have hm1 : p1.moving = p.moving := by rw [hp1]
  have htr : truncate p1.yCoord = W.y - g.gParticleRadius := by
    rw [hy1]; exact truncate_intCast _
  -- the walls before `W`
  have h1 : before.foldl (fun q w => collisionsWall g.gParticleRadius w q) p = p :=
    foldl_collisionsWall_noop _ p before
      (fun V hV => collisionsWall_noop_of_outside _ V p hR0 (by rw [hR]; exact hbefore V hV))
  -- the wall `W`
  have h3 : collisionsWall g.gParticleRadius W p = p1 := by
    have e1 : wallLeft g.gParticleRadius W p = p := by
      unfold wallLeft
      rw [if_neg (by rw [hR]; exact hleft)]
    have e2 : wallRight g.gParticleRadius W p = p := by
      unfold wallRight
      rw [if_neg (by rw [hR]; exact hright)]
    have e3 : wallTop g.gParticleRadius W p = p1 := by
      unfold wallTop
      rw [if_pos ⟨hspeed, by rw [hR]; exact hhit⟩, hU, hp1]
    have e4 : wallBottom g.gParticleRadius W p1 = p1 := by
      unfold wallBottom
      rw [if_neg]
      rintro ⟨-, hh⟩
      rw [surfaceHitbox_iff, htr, hSy] at hh
      omega
    unfold collisionsWall
    rw [e1, e2, e3, e4]
  -- the walls after `W`
  have h4 : after.foldl (fun q w => collisionsWall g.gParticleRadius w q) p1 = p1 :=
    foldl_collisionsWall_noop _ _ after
      (fun V hV => collisionsWall_noop_of_y _ V _ hR0 (by rw [hR, htr]; exact hafter V hV))
  have h5 : (before ++ W :: after).foldl (fun q w => collisionsWall g.gParticleRadius w q) p
      = p1 := by
    rw [List.foldl_append, h1, List.foldl_cons, h3, h4]
  -- the goal
  have h6 : (if p1.moving = false ∨ (g.gCreativeMode ≠ 0 ∧ g.gPlay = 0)
      then collisionsGoal g p1 else p1) = p1 := by
    split_ifs with hc
    · rcases hgoal with ⟨hm, hn⟩ | hx
      · rcases hc with hc | hc
        · rw [hm1, hm] at hc
          exact absurd hc (by decide)
        · exact absurd hc hn
      · exact collisionsGoal_noop_of_y g _ hR0 (by rw [hR, htr]; exact hx)
    · rfl
  rw [collisions_eq g _ wrest hwalls hNW p, h5, h6]
  have h7 := collisionsLimits_y g p1
    (by rw [hy1]; exact_mod_cast hlim.2) (by rw [hy1]; exact_mod_cast hlim.1)
  exact ⟨_, rfl, h7.1.trans hy1, h7.2.trans hs1⟩

/-- Counterexample to C3 as stated.  Radius `10`, a wall at `x = 15` of width `10` and a
particle at rest at `(12, 50)`: the left-inflated test of the wall contains the particle
and moves it to `x = 15 - 10 = 5`, then the test against the left limit of the playable
area moves it to `x = 10`; after `collisions` the particle is at `x = 10`, not at
`W.x - radius = 5`. -/
theorem collisions_wall_left_edge_counterexample :
    (particleAt 1 true 12 50 1).xSpeed ≥ 0 ∧
    surfaceHitbox (surfaceTemp ⟨15, 0, 10, 100⟩) (particleAt 1 true 12 50 1).xCoord
      (particleAt 1 true 12 50 1).yCoord 10 0 0 0 = true ∧
    ∃ p', collisions (gameOf [particleAt 1 true 12 50 1] 1 [⟨15, 0, 10, 100⟩] 16)
        (particleAt 1 true 12 50 1) = some p' ∧
      p'.xCoord = 10 ∧ p'.xCoord ≠ (((15 : Int) - ((10 : Nat) : Int) : Int) : ℚ) := by
  exact ⟨by decide, by decide, { particleAt 1 true 12 50 1 with xCoord := 10 },
    by decide, by decide, by decide⟩

/-- Counterexample to C4 as stated.  Radius `10`, a wall with corner `(100, 100)` and sides
`50`, and a particle at rest at `(120, 120)` inside it: the top-inflated test contains the
particle on entry, but the left test of the same wall moves it to `x = 90` first, after
which the top test no longer applies; after `collisions` the particle still has `y = 120`,
not `W.y - radius = 90`. -/
theorem collisions_wall_top_edge_counterexample :
    (particleAt 1 true 120 120 1).ySpeed ≥ 0 ∧
    surfaceHitbox (surfaceTemp ⟨100, 100, 50, 50⟩) (particleAt 1 true 120 120 1).xCoord
      (particleAt 1 true 120 120 1).yCoord 0 0 10 0 = true ∧
    ∃ p', collisions (gameOf [particleAt 1 true 120 120 1] 1 [⟨100, 100, 50, 50⟩] 16)
        (particleAt 1 true 120 120 1) = some p' ∧
      p'.xCoord = 90 ∧ p'.yCoord = 120 ∧
      p'.yCoord ≠ (((100 : Int) - ((10 : Nat) : Int) : Int) : ℚ) := by
  exact ⟨by decide, by decide, { particleAt 1 true 120 120 1 with xCoord := 90 },
    by decide, by decide, by decide, by decide⟩

/-- Witness of C3 (amended): radius `10`, walls at `x = 300`, `x = 100` and `x = 500`, and a
particle at `(95, 50)` in front of the second one. -/
theorem collisions_wall_left_edge_witness :
    ∃ p', collisions
        (gameOf [particleAt 1 true 95 50 1] 1
          [⟨300, 0, 10, 10⟩, ⟨100, 0, 50, 600⟩, ⟨500, 0, 10, 10⟩] 16)
        (particleAt 1 true 95 50 1) = some p' ∧
      p'.xCoord = (((100 : Int) - ((10 : Nat) : Int) : Int) : ℚ) ∧ p'.xSpeed = 0 :=
  collisions_wall_left_edge
    (gameOf [particleAt 1 true 95 50 1] 1
      [⟨300, 0, 10, 10⟩, ⟨100, 0, 50, 600⟩, ⟨500, 0, 10, 10⟩] 16)
    (particleAt 1 true 95 50 1) [⟨300, 0, 10, 10⟩] [⟨500, 0, 10, 10⟩] ⟨100, 0, 50, 600⟩ _
    rfl rfl (by decide) (by decide) (by decide) (by decide) (by decide) (by decide) (by decide)
    (Or.inl (by decide)) (by decide)

/-- Witness of C4 (amended): radius `10`, walls at `x = 300`, `(100, 100)` and `x = 500`,
and a particle at `(120, 95)` just above the second one. -/
theorem collisions_wall_top_edge_witness :
    ∃ p', collisions
        (gameOf [particleAt 1 true 120 95 1] 1
          [⟨300, 0, 10, 10⟩, ⟨100, 100, 50, 50⟩, ⟨500, 0, 10, 10⟩] 16)
        (particleAt 1 true 120 95 1) = some p' ∧
      p'.yCoord = (((100 : Int) - ((10 : Nat) : Int) : Int) : ℚ) ∧ p'.ySpeed = 0 :=
  collisions_wall_top_edge
    (gameOf [particleAt 1 true 120 95 1] 1
      [⟨300, 0, 10, 10⟩, ⟨100, 100, 50, 50⟩, ⟨500, 0, 10, 10⟩] 16)
    (particleAt 1 true 120 95 1) [⟨300, 0, 10, 10⟩] [⟨500, 0, 10, 10⟩] ⟨100, 100, 50, 50⟩ _
    rfl rfl (by decide) (by decide) (by decide) (by decide) (by decide) (by decide) (by decide)
    (by decide) (by decide) (Or.inl (by decide)) (by decide)

/-! ## The force loop -/

theorem getAccelerationLoop_eq (sqrt : ℚ → ℚ) (ps : List Particle)
    (rest : List (Option Particle)) (p : Particle) :
    ∀ (n i : Nat) (sums : ℚ × ℚ), i + n = ps.length →
      getAccelerationLoop sqrt (ps.map some ++ rest) p n (i : Int) sums =
        some (sums.1 + (((ps.drop i).filter (fun q => decide (p.addr ≠ q.addr))).map
                (forceTermX sqrt p)).sum,
              sums.2 + (((ps.drop i).filter (fun q => decide (p.addr ≠ q.addr))).map
                (forceTermY sqrt p)).sum) := by
  intro n
  induction n with
  | zero =>
    intro i sums h
    have hi : ps.length ≤ i := by omega
    simp [getAccelerationLoop, List.drop_eq_nil_of_le hi]
  | succ n ih =>
    intro i sums h
    have hi : i < ps.length := by omega
    have hstep : ((i : Int) + 1) = ((i + 1 : Nat) : Int) := by push_cast; rfl
    rw [getAccelerationLoop, readSlot_map_some_append ps rest i hi]
    simp only []
    rw [hstep]
    have hdrop : List.drop i ps = ps.get ⟨i, hi⟩ :: List.drop (i + 1) ps :=
      List.drop_eq_getElem_cons hi
    by_cases hq : p.addr ≠ (ps.get ⟨i, hi⟩).addr
    · rw [if_pos hq, ih (i + 1) _ (by omega), hdrop, List.filter_cons]
      simp only [hq, decide_True, if_true, List.map_cons, List.sum_cons, ne_eq,
        not_false_eq_true, add_assoc]
    · rw [if_neg hq, ih (i + 1) _ (by omega), hdrop, List.filter_cons]
      simp only [hq, decide_False, Bool.false_eq_true, if_false]

theorem filter_addr_ne_eq_eraseIdx : ∀ (ps : List Particle) (t : Nat) (ht : t < ps.length),
    (ps.map Particle.addr).Nodup →
      ps.filter (fun q => decide ((ps.get ⟨t, ht⟩).addr ≠ q.addr)) = ps.eraseIdx t := by
  intro ps
  induction ps with
  | nil => intro t ht; simp at ht
  | cons a l ih =>
    intro t ht hnd
    rw [List.map_cons, List.nodup_cons] at hnd
    cases t with
    | zero =>
      simp only [List.get_eq_getElem, List.getElem_cons_zero, List.eraseIdx_cons_zero]
      rw [List.filter_cons]
      simp only [ne_eq, not_true_eq_false, decide_False, Bool.false_eq_true, if_false]
      rw [List.filter_eq_self]
      intro q hq
      have : a.addr ≠ q.addr := by
        intro h
        exact hnd.1 (h ▸ List.mem_map_of_mem _ hq)
      simpa using this
    | succ t =>
      have ht' : t < l.length := by simpa using ht
      have hne : l[t].addr ≠ a.addr := by
        intro h
        exact hnd.1 (h ▸ List.mem_map_of_mem _ (List.getElem_mem ht'))
      simp only [List.get_eq_getElem, List.getElem_cons_succ, List.eraseIdx_cons_succ]
      rw [List.filter_cons]
      simp only [ne_eq, hne, not_false_eq_true, decide_True, if_true]
      congr 1
      exact ih t ht' hnd.2

theorem forceTermX_eq_specForceX (sqrt : ℚ → ℚ) (p q : Particle) :
    forceTermX sqrt p q = specForceX sqrt p q := by
  have hd : effectiveDistance sqrt p q = max (euclideanDistance sqrt p q) 5 := by
    unfold effectiveDistance getDistance euclideanDistance gMIN_DISTANCE
    rw [cmax_eq_max]
    congr 2
    ring
  unfold forceTermX specForceX forceFactor
  rw [hd]
  push_cast
  ring

theorem forceTermY_eq_specForceY (sqrt : ℚ → ℚ) (p q : Particle) :
    forceTermY sqrt p q = specForceY sqrt p q := by
  have hd : effectiveDistance sqrt p q = max (euclideanDistance sqrt p q) 5 := by
    unfold effectiveDistance getDistance euclideanDistance gMIN_DISTANCE
    rw [cmax_eq_max]
    congr 2
    ring
  unfold forceTermY specForceY forceFactor
  rw [hd]
  push_cast
  ring

theorem getAcceleration_eq_sums (sqrt : ℚ → ℚ) (g : Game) (ps : List Particle)
    (rest : List (Option Particle)) (p : Particle)
    (harr : g.gParticleArray = ps.map some ++ rest)
    (hN : g.gNumberOfParticle = (ps.length : Int)) :
    getAcceleration sqrt g p =
      some (clamp ((((ps.filter (fun q => decide (p.addr ≠ q.addr))).map
                (forceTermX sqrt p)).sum) * (gPARTICLE_MASS : ℚ)) gMAX_ACCELERATION,
            clamp ((((ps.filter (fun q => decide (p.addr ≠ q.addr))).map
                (forceTermY sqrt p)).sum) * (gPARTICLE_MASS : ℚ)) gMAX_ACCELERATION) := by
  unfold getAcceleration
  rw [harr, hN, Int.toNat_ofNat]
  have h := getAccelerationLoop_eq sqrt ps rest p ps.length 0 (0, 0) (by simp)
  simp only [Nat.cast_zero, List.drop_zero, zero_add] at h
  rw [h]

theorem gMAX_ACCELERATION_nonneg : (0 : ℚ) ≤ gMAX_ACCELERATION := by
  unfold gMAX_ACCELERATION; norm_num

theorem gMAX_SPEED_nonneg : (0 : ℚ) ≤ gMAX_SPEED := by
  unfold gMAX_SPEED; norm_num

/-- C5.  In a store of `N` non-null particles the result of `getAcceleration` for the
particle `p` at index `t` is, on each axis, the clamp to `0.005` of mass `10` times the sum,
over all store entries `q` whose pointer differs from that of `p` (whatever their
positions), of `-(p.charge * q.charge) / d^2 * (q.coord - p.coord) / d` with
`d = max (euclideanDistance p q) 5`; when the pointers in the store are pairwise distinct
these entries are the whole store without entry `t`. -/
theorem getAcceleration_eq_specAcceleration (sqrt : ℚ → ℚ) (g : Game) (ps : List Particle)
    (rest : List (Option Particle)) (t : Nat) (ht : t < ps.length)
    (harr : g.gParticleArray = ps.map some ++ rest)
    (hN : g.gNumberOfParticle = (ps.length : Int))
    (hdistinct : (ps.map Particle.addr).Nodup) :
    getAcceleration sqrt g (ps.get ⟨t, ht⟩) =
      some (specAcceleration sqrt (ps.get ⟨t, ht⟩)
        (ps.filter (fun q => decide ((ps.get ⟨t, ht⟩).addr ≠ q.addr)))) ∧
    ps.filter (fun q => decide ((ps.get ⟨t, ht⟩).addr ≠ q.addr)) = ps.eraseIdx t := by
  refine ⟨?_, filter_addr_ne_eq_eraseIdx ps t ht hdistinct⟩
  rw [getAcceleration_eq_sums sqrt g ps rest _ harr hN]
  unfold specAcceleration
  rw [clamp_eq_specClamp _ _ gMAX_ACCELERATION_nonneg,
    clamp_eq_specClamp _ _ gMAX_ACCELERATION_nonneg]
  have hX : forceTermX sqrt (ps.get ⟨t, ht⟩) = specForceX sqrt (ps.get ⟨t, ht⟩) :=
    funext (forceTermX_eq_specForceX sqrt _)
  have hY : forceTermY sqrt (ps.get ⟨t, ht⟩) = specForceY sqrt (ps.get ⟨t, ht⟩) :=
    funext (forceTermY_eq_specForceY sqrt _)
  rw [hX, hY]
  unfold gPARTICLE_MASS gMAX_ACCELERATION
  norm_num [mul_comm]

/-- Witness of C5: the target at `(100, 100)`, one particle ten units away and a third,
distinct particle at the position of the target, which is part of the sum. -/
theorem getAcceleration_eq_specAcceleration_witness :
    getAcceleration sqrtExact
        (gameOf [particleAt 1 true 100 100 1, particleAt 2 false 110 100 1,
          particleAt 3 false 100 100 (-2)] 1 [] 16)
        (particleAt 1 true 100 100 1) =
      some (specAcceleration sqrtExact (particleAt 1 true 100 100 1)
        [particleAt 2 false 110 100 1, particleAt 3 false 100 100 (-2)]) :=
  (getAcceleration_eq_specAcceleration sqrtExact
    (gameOf [particleAt 1 true 100 100 1, particleAt 2 false 110 100 1,
      particleAt 3 false 100 100 (-2)] 1 [] 16)
    [particleAt 1 true 100 100 1, particleAt 2 false 110 100 1, particleAt 3 false 100 100 (-2)]
    _ 0 (by decide) rfl rfl (by decide)).1

end ChargeGame

namespace Minimal

theorem getAccelerationXLoop_isSome (sqrt : ℚ → ℚ) (ps : List Particle)
    (rest : List (Option Particle)) (p : Particle) :
    ∀ (n i : Nat) (s : ℚ), i + n = ps.length →
      ∃ v, getAccelerationXLoop sqrt (ps.map some ++ rest) p n (i : Int) s = some v := by
  intro n
  induction n with
  | zero => intro i s _; exact ⟨s, rfl⟩
  | succ n ih =>
    intro i s h
    have hi : i < ps.length := by omega
    have hstep : ((i : Int) + 1) = ((i + 1 : Nat) : Int) := by push_cast; rfl
    rw [getAccelerationXLoop, ChargeGame.readSlot_map_some_append ps rest i hi]
    simp only []
    rw [hstep]
    split_ifs
    · exact ih (i + 1) _ (by omega)
    · exact ih (i + 1) _ (by omega)

theorem getAccelerationYLoop_isSome (sqrt : ℚ → ℚ) (ps : List Particle)
    (rest : List (Option Particle)) (p : Particle) :
    ∀ (n i : Nat) (s : ℚ), i + n = ps.length →
      ∃ v, getAccelerationYLoop sqrt (ps.map some ++ rest) p n (i : Int) s = some v := by
  intro n
  induction n with
  | zero => intro i s _; exact ⟨s, rfl⟩
  | succ n ih =>
    intro i s h
    have hi : i < ps.length := by omega
    have hstep : ((i : Int) + 1) = ((i + 1 : Nat) : Int) := by push_cast; rfl
    rw [getAccelerationYLoop, ChargeGame.readSlot_map_some_append ps rest i hi]
    simp only []
    rw [hstep]
    split_ifs
    · exact ih (i + 1) _ (by omega)
    · exact ih (i + 1) _ (by omega)

theorem minimal_clamp_abs_le (v limit : ℚ) (h : 0 ≤ limit) : |clamp v limit| ≤ limit :=
  ChargeGame.clamp_abs_le v limit h

theorem getAccelerationX_bounded (sqrt : ℚ → ℚ) (g : Game) (ps : List Particle)
    (rest : List (Option Particle)) (p : Particle)
    (harr : g.gParticles = ps.map some ++ rest) (hN : g.gParticlesSize = (ps.length : Int)) :
    ∃ ax, getAccelerationX sqrt g p = some ax ∧ |ax| ≤ gMAX_ACCELERATION := by
  obtain ⟨v, hv⟩ := getAccelerationXLoop_isSome sqrt ps rest p ps.length 0 0 (by simp)
  unfold getAccelerationX
  rw [harr, hN, Int.toNat_ofNat]
  simp only [Nat.cast_zero] at hv
  rw [hv]
  exact ⟨_, rfl, minimal_clamp_abs_le _ _ (by unfold gMAX_ACCELERATION; norm_num)⟩

theorem getAccelerationY_bounded (sqrt : ℚ → ℚ) (g : Game) (ps : List Particle)
    (rest : List (Option Particle)) (p : Particle)
    (harr : g.gParticles = ps.map some ++ rest) (hN : g.gParticlesSize = (ps.length : Int)) :
    ∃ ay, getAccelerationY sqrt g p = some ay ∧ |ay| ≤ gMAX_ACCELERATION := by
  obtain ⟨v, hv⟩ := getAccelerationYLoop_isSome sqrt ps rest p ps.length 0 0 (by simp)
  unfold getAccelerationY
  rw [harr, hN, Int.toNat_ofNat]
  simp only [Nat.cast_zero] at hv
  rw [hv]
  exact ⟨_, rfl, minimal_clamp_abs_le _ _ (by unfold gMAX_ACCELERATION; norm_num)⟩

end Minimal

namespace ChargeGame

theorem getAcceleration_bounded (sqrt : ℚ → ℚ) (g : Game) (ps : List Particle)
    (rest : List (Option Particle)) (p : Particle)
    (harr : g.gParticleArray = ps.map some ++ rest)
    (hN : g.gNumberOfParticle = (ps.length : Int)) :
    ∃ a, getAcceleration sqrt g p = some a ∧
      |a.1| ≤ gMAX_ACCELERATION ∧ |a.2| ≤ gMAX_ACCELERATION := by
  rw [getAcceleration_eq_sums sqrt g ps rest p harr hN]
  exact ⟨_, rfl, clamp_abs_le _ _ gMAX_ACCELERATION_nonneg,
    clamp_abs_le _ _ gMAX_ACCELERATION_nonneg⟩

/-- C6.  For a store of non-null particles and any target particle, `getAcceleration` of the
full variant and `getAccelerationX`, `getAccelerationY` of the minimal variant return, and
every returned component has absolute value at most `gMAX_ACCELERATION = 0.005`. -/
theorem acceleration_components_bounded (sqrt : ℚ → ℚ)
    (g : Game) (ps : List Particle) (rest : List (Option Particle)) (p : Particle)
    (gm : Minimal.Game) (psm : List Minimal.Particle) (restm : List (Option Minimal.Particle))
    (pm : Minimal.Particle)
    (harr : g.gParticleArray = ps.map some ++ rest)
    (hN : g.gNumberOfParticle = (ps.length : Int))
    (harrm : gm.gParticles = psm.map some ++ restm)
    (hNm : gm.gParticlesSize = (psm.length : Int)) :
    (∃ a, getAcceleration sqrt g p = some a ∧ |a.1| ≤ 5 / 1000 ∧ |a.2| ≤ 5 / 1000) ∧
    (∃ ax, Minimal.getAccelerationX sqrt gm pm = some ax ∧ |ax| ≤ 5 / 1000) ∧
    (∃ ay, Minimal.getAccelerationY sqrt gm pm = some ay ∧ |ay| ≤ 5 / 1000) :=
  ⟨getAcceleration_bounded sqrt g ps rest p harr hN,
   Minimal.getAccelerationX_bounded sqrt gm psm restm pm harrm hNm,
   Minimal.getAccelerationY_bounded sqrt gm psm restm pm harrm hNm⟩

/-- Witness of C6: two particles ten units apart in each variant. -/
theorem acceleration_components_bounded_witness :
    (∃ a, getAcceleration sqrtExact
        (gameOf [particleAt 1 true 100 100 1, particleAt 2 false 110 100 1] 1 [] 16)
        (particleAt 1 true 100 100 1) = some a ∧ |a.1| ≤ 5 / 1000 ∧ |a.2| ≤ 5 / 1000) ∧
    (∃ ax, Minimal.getAccelerationX sqrtExact
        ⟨[some ⟨1, true, 100, 100, 1, 0, 0⟩, some ⟨2, false, 110, 100, 1, 0, 0⟩], 2, 1, 16, 1,
          800, 600, 20, 20⟩ ⟨1, true, 100, 100, 1, 0, 0⟩ = some ax ∧ |ax| ≤ 5 / 1000) ∧
    (∃ ay, Minimal.getAccelerationY sqrtExact
        ⟨[some ⟨1, true, 100, 100, 1, 0, 0⟩, some ⟨2, false, 110, 100, 1, 0, 0⟩], 2, 1, 16, 1,
          800, 600, 20, 20⟩ ⟨1, true, 100, 100, 1, 0, 0⟩ = some ay ∧ |ay| ≤ 5 / 1000) :=
  acceleration_components_bounded sqrtExact _
    [particleAt 1 true 100 100 1, particleAt 2 false 110 100 1] _ _ _
    [⟨1, true, 100, 100, 1, 0, 0⟩, ⟨2, false, 110, 100, 1, 0, 0⟩] [] _ rfl rfl rfl rfl

theorem effectiveDistance_symm (sqrt : ℚ → ℚ) (p q : Particle) :
    effectiveDistance sqrt p q = effectiveDistance sqrt q p := by
  unfold effectiveDistance getDistance
  congr 2
  ring

theorem forceTermX_swap (sqrt : ℚ → ℚ) (p q : Particle) :
    forceTermX sqrt q p = -forceTermX sqrt p q := by
  unfold forceTermX forceFactor
  rw [effectiveDistance_symm sqrt q p]
  push_cast
  ring

theorem forceTermY_swap (sqrt : ℚ → ℚ) (p q : Particle) :
    forceTermY sqrt q p = -forceTermY sqrt p q := by
  unfold forceTermY forceFactor
  rw [effectiveDistance_symm sqrt q p]
  push_cast
  ring

/-- C10.  In a store holding exactly two particles `A` and `B` (distinct pointers, any
charges and positions), `getAcceleration` returns for both and the result for `A` is the
componentwise negation of the result for `B`; this holds whether or not the clamp
saturates, so in particular when both raw accelerations are within the limit. -/
theorem getAcceleration_two_particles_opposite (sqrt : ℚ → ℚ) (g : Game) (A B : Particle)
    (rest : List (Option Particle))
    (harr : g.gParticleArray = some A :: some B :: rest)
    (hN : g.gNumberOfParticle = 2)
    (hAB : A.addr ≠ B.addr) :
    ∃ a b, getAcceleration sqrt g A = some a ∧ getAcceleration sqrt g B = some b ∧
      a.1 = -b.1 ∧ a.2 = -b.2 := by
  have hA := getAcceleration_eq_sums sqrt g [A, B] rest A (by simpa using harr) (by simpa using hN)
  have hB := getAcceleration_eq_sums sqrt g [A, B] rest B (by simpa using harr) (by simpa using hN)
  have hBA : B.addr ≠ A.addr := fun h => hAB h.symm
  simp only [List.filter_cons, ne_eq, not_true_eq_false, decide_False, Bool.false_eq_true,
    if_false, hAB, hBA, not_false_eq_true, decide_True, if_true, List.filter_nil, List.map_cons,
    List.map_nil, List.sum_cons, List.sum_nil, add_zero] at hA hB
  refine ⟨_, _, hA, hB, ?_, ?_⟩
  · simp only []
    rw [forceTermX_swap sqrt A B, neg_mul, clamp_neg _ _ gMAX_ACCELERATION_nonneg, neg_neg]
  · simp only []
    rw [forceTermY_swap sqrt A B, neg_mul, clamp_neg _ _ gMAX_ACCELERATION_nonneg, neg_neg]

/-- Witness of C10: charges `+2` and `-3` at `(100, 100)` and `(103, 104)`. -/
theorem getAcceleration_two_particles_opposite_witness :
    ∃ a b,
      getAcceleration sqrtExact
        (gameOf [particleAt 1 true 100 100 2, particleAt 2 false 103 104 (-3)] 1 [] 16)
        (particleAt 1 true 100 100 2) = some a ∧
      getAcceleration sqrtExact
        (gameOf [particleAt 1 true 100 100 2, particleAt 2 false 103 104 (-3)] 1 [] 16)
        (particleAt 2 false 103 104 (-3)) = some b ∧
      a.1 = -b.1 ∧ a.2 = -b.2 :=
  getAcceleration_two_particles_opposite sqrtExact _ _ _ _ rfl rfl (by decide)

theorem sqrtExact_zero : sqrtExact 0 = 0 := by
  simp [sqrtExact]

theorem sqrtExact_25 : sqrtExact 25 = 5 := by
  have h : Nat.sqrt 25 = 5 := Nat.sqrt_eq 5
  have hn : ((25 : ℚ).num).toNat = 25 := by
    have : (25 : ℚ).num = 25 := Rat.num_ofNat 25
    rw [this]; rfl
  have hd : (25 : ℚ).den = 1 := Rat.den_ofNat 25
  unfold sqrtExact
  rw [hn, hd, h]
  norm_num

theorem sqrtExact_100 : sqrtExact 100 = 10 := by
  have h : Nat.sqrt 100 = 10 := Nat.sqrt_eq 10
  have hn : ((100 : ℚ).num).toNat = 100 := by
    have : (100 : ℚ).num = 100 := Rat.num_ofNat 100
    rw [this]; rfl
  have hd : (100 : ℚ).den = 1 := Rat.den_ofNat 100
  unfold sqrtExact
  rw [hn, hd, h]
  norm_num

theorem effectiveDistance_of_same_coordinates (sqrt : ℚ → ℚ) (hs0 : sqrt 0 = 0)
    (p q : Particle) (hx : q.xCoord = p.xCoord) (hy : q.yCoord = p.yCoord) :
    effectiveDistance sqrt p q = 5 := by
  unfold effectiveDistance getDistance gMIN_DISTANCE cmax
  rw [hx, hy]
  simp [hs0]

theorem effectiveDistance_of_distance_five (sqrt : ℚ → ℚ) (p q : Particle)
    (h : getDistance sqrt p q = 5) : effectiveDistance sqrt p q = 5 := by
  unfold effectiveDistance gMIN_DISTANCE cmax
  rw [h]
  simp

theorem abs_forceFactor_five (c1 c2 : Int) :
    |forceFactor c1 c2 5| = |((c1 * c2 : Int) : ℚ)| / 25 := by
  unfold forceFactor
  rw [abs_neg, abs_div]
  norm_num

/-- The terms that `getAcceleration` adds to its two sums for another particle at the same
coordinates are both zero: the direction vector `(q - p) / d` vanishes. -/
theorem forceTerm_zero_of_same_coordinates (sqrt : ℚ → ℚ) (p q : Particle)
    (hx : q.xCoord = p.xCoord) (hy : q.yCoord = p.yCoord) :
    forceTermX sqrt p q = 0 ∧ forceTermY sqrt p q = 0 := by
  unfold forceTermX forceTermY
  rw [hx, hy]
  simp

/-- Counterexample to C9 as stated.  Two distinct particles of charge `+1` at the same point
`(100, 100)`: the terms computed for one due to the other are `0` on both axes, so the
magnitude of the computed force is `0` and not `|1 * 1| / 25`, and `getAcceleration` in
the store of these two returns `(0, 0)`. -/
theorem force_at_identical_coordinates_counterexample :
    forceTermX sqrtExact (particleAt 1 true 100 100 1) (particleAt 2 false 100 100 1) = 0 ∧
    forceTermY sqrtExact (particleAt 1 true 100 100 1) (particleAt 2 false 100 100 1) = 0 ∧
    (forceTermX sqrtExact (particleAt 1 true 100 100 1) (particleAt 2 false 100 100 1)) ^ 2 +
        (forceTermY sqrtExact (particleAt 1 true 100 100 1) (particleAt 2 false 100 100 1)) ^ 2
      ≠ (|(((1 : Int) * 1 : Int) : ℚ)| / 25) ^ 2 ∧
    getAcceleration sqrtExact
        (gameOf [particleAt 1 true 100 100 1, particleAt 2 false 100 100 1] 1 [] 16)
        (particleAt 1 true 100 100 1) = some (0, 0) := by
  have h := forceTerm_zero_of_same_coordinates sqrtExact (particleAt 1 true 100 100 1)
    (particleAt 2 false 100 100 1) rfl rfl
  refine ⟨h.1, h.2, ?_, ?_⟩
  · rw [h.1, h.2]; norm_num
  · rw [getAcceleration_eq_sums sqrtExact _
      [particleAt 1 true 100 100 1, particleAt 2 false 100 100 1] _ _ rfl rfl]
    have h1 : (particleAt 1 true 100 100 1).addr ≠ (particleAt 2 false 100 100 1).addr := by
      decide
    simp only [List.filter_cons, ne_eq, not_true_eq_false, decide_False, Bool.false_eq_true,
      if_false, h1, not_false_eq_true, decide_True, if_true, List.filter_nil, List.map_cons,
      List.map_nil, List.sum_cons, List.sum_nil, add_zero, h.1, h.2, zero_mul]
    norm_num [clamp, gMAX_ACCELERATION]

/-- C9, amended.  For two distinct particles at identical coordinates (and a `sqrt` with
`sqrt 0 = 0`) the distance used by `getAcceleration` is the floor `gMIN_DISTANCE = 5`, so
the factor `-(c1 * c2) / d^2` has magnitude `|c1 * c2| / 25`, the same as for a particle of
the same charge at a separation of exactly `5`; the terms added to the two force sums are
that factor times `(q - p) / d`: they are `0` at identical coordinates and have magnitude
`|c1 * c2| / 25` at separation exactly `5`.  The minimal variant's `getDistance` returns
`5` at identical coordinates as well. -/
theorem force_at_identical_coordinates (sqrt : ℚ → ℚ) (hs0 : sqrt 0 = 0) (hs25 : sqrt 25 = 5)
    (p q q5 : Particle) (pm qm : Minimal.Particle)
    (hx : q.xCoord = p.xCoord) (hy : q.yCoord = p.yCoord)
    (hsep : (p.xCoord - q5.xCoord) ^ 2 + (p.yCoord - q5.yCoord) ^ 2 = 25)
    (hc : q5.charge = q.charge)
    (hxm : qm.xCoord = pm.xCoord) (hym : qm.yCoord = pm.yCoord) :
    effectiveDistance sqrt p q = gMIN_DISTANCE ∧
    effectiveDistance sqrt p q5 = gMIN_DISTANCE ∧
    |forceFactor p.charge q.charge (effectiveDistance sqrt p q)|
      = |((p.charge * q.charge : Int) : ℚ)| / 25 ∧
    |forceFactor p.charge q.charge (effectiveDistance sqrt p q)|
      = |forceFactor p.charge q5.charge (effectiveDistance sqrt p q5)| ∧
    forceTermX sqrt p q = 0 ∧ forceTermY sqrt p q = 0 ∧
    (forceTermX sqrt p q5) ^ 2 + (forceTermY sqrt p q5) ^ 2
      = (|((p.charge * q.charge : Int) : ℚ)| / 25) ^ 2 ∧
    Minimal.getDistance sqrt pm qm = Minimal.gMIN_DISTANCE := by
  have hd := effectiveDistance_of_same_coordinates sqrt hs0 p q hx hy
  have hd5 : effectiveDistance sqrt p q5 = 5 :=
    effectiveDistance_of_distance_five sqrt p q5 (by unfold getDistance; rw [hsep, hs25])
  have hz := forceTerm_zero_of_same_coordinates sqrt p q hx hy
  refine ⟨hd, hd5, ?_, ?_, hz.1, hz.2, ?_, ?_⟩
  · rw [hd, abs_forceFactor_five]
  · rw [hd, hd5, hc]
  · unfold forceTermX forceTermY
    rw [hd5, hc, div_pow, sq_abs]
    unfold forceFactor
    have e : (q5.xCoord - p.xCoord) ^ 2 + (q5.yCoord - p.yCoord) ^ 2 = 25 := by
      rw [← hsep]; ring
    field_simp
    linear_combination
      ((p.charge : ℚ) * (q.charge : ℚ)) ^ 2 * 25 ^ 2 * e
  · unfold Minimal.getDistance Minimal.gMIN_DISTANCE
    rw [hxm, hym]
    simp [hs0]

/-- Witness of C9 (amended): charges `+2`, `-3` at `(100, 100)`, and the second charge again
at `(103, 104)`, five units away. -/
theorem force_at_identical_coordinates_witness :
    effectiveDistance sqrtExact (particleAt 1 true 100 100 2) (particleAt 2 false 100 100 (-3))
      = gMIN_DISTANCE ∧
    effectiveDistance sqrtExact (particleAt 1 true 100 100 2) (particleAt 3 false 103 104 (-3))
      = gMIN_DISTANCE ∧
    |forceFactor 2 (-3)
        (effectiveDistance sqrtExact (particleAt 1 true 100 100 2)
          (particleAt 2 false 100 100 (-3)))| = |(((2 : Int) * (-3) : Int) : ℚ)| / 25 ∧
    |forceFactor 2 (-3)
        (effectiveDistance sqrtExact (particleAt 1 true 100 100 2)
          (particleAt 2 false 100 100 (-3)))|
      = |forceFactor 2 (-3)
        (effectiveDistance sqrtExact (particleAt 1 true 100 100 2)
          (particleAt 3 false 103 104 (-3)))| ∧
    forceTermX sqrtExact (particleAt 1 true 100 100 2) (particleAt 2 false 100 100 (-3)) = 0 ∧
    forceTermY sqrtExact (particleAt 1 true 100 100 2) (particleAt 2 false 100 100 (-3)) = 0 ∧
    (forceTermX sqrtExact (particleAt 1 true 100 100 2) (particleAt 3 false 103 104 (-3))) ^ 2 +
      (forceTermY sqrtExact (particleAt 1 true 100 100 2) (particleAt 3 false 103 104 (-3))) ^ 2
      = (|(((2 : Int) * (-3) : Int) : ℚ)| / 25) ^ 2 ∧
    Minimal.getDistance sqrtExact ⟨1, true, 100, 100, 2, 0, 0⟩ ⟨2, false, 100, 100, -3, 0, 0⟩
      = Minimal.gMIN_DISTANCE :=
  force_at_identical_coordinates sqrtExact sqrtExact_zero sqrtExact_25
    (particleAt 1 true 100 100 2) (particleAt 2 false 100 100 (-3))
    (particleAt 3 false 103 104 (-3)) ⟨1, true, 100, 100, 2, 0, 0⟩ ⟨2, false, 100, 100, -3, 0, 0⟩
    rfl rfl (by norm_num [particleAt]) rfl rfl rfl

/-! ## Integration -/

theorem integrate_eq (sqrt : ℚ → ℚ) (g : Game) (p : Particle) (xa ya : ℚ)
    (hacc : getAcceleration sqrt g p = some (xa, ya)) (hdt : g.gDeltaTime ≠ 0) :
    integrate sqrt g p = some
      { p with
        xSpeed := clamp (p.xSpeed + 1 / 2 * xa * ((g.gDeltaTime : ℚ) * gTIME_MULTIPLIER)) gMAX_SPEED,
        ySpeed := clamp (p.ySpeed + 1 / 2 * ya * ((g.gDeltaTime : ℚ) * gTIME_MULTIPLIER)) gMAX_SPEED,
        xCoord := p.xCoord + (p.xSpeed * ((g.gDeltaTime : ℚ) * gTIME_MULTIPLIER)
          + 1 / 2 * xa * ((g.gDeltaTime : ℚ) * gTIME_MULTIPLIER)
            * ((g.gDeltaTime : ℚ) * gTIME_MULTIPLIER)),
        yCoord := p.yCoord + (p.ySpeed * ((g.gDeltaTime : ℚ) * gTIME_MULTIPLIER)
          + 1 / 2 * ya * ((g.gDeltaTime : ℚ) * gTIME_MULTIPLIER)
            * ((g.gDeltaTime : ℚ) * gTIME_MULTIPLIER)) } := by
  have ht : (g.gDeltaTime : ℚ) * gTIME_MULTIPLIER ≠ 0 := by
    have h1 : (g.gDeltaTime : ℚ) ≠ 0 := by exact_mod_cast hdt
    have h2 : gTIME_MULTIPLIER ≠ 0 := by unfold gTIME_MULTIPLIER; norm_num
    exact mul_ne_zero h1 h2
  have ex : ∀ v a : ℚ,
      (p.xCoord + (v * ((g.gDeltaTime : ℚ) * gTIME_MULTIPLIER)
        + 1 / 2 * a * ((g.gDeltaTime : ℚ) * gTIME_MULTIPLIER)
          * ((g.gDeltaTime : ℚ) * gTIME_MULTIPLIER)) - p.xCoord)
        / ((g.gDeltaTime : ℚ) * gTIME_MULTIPLIER)
      = v + 1 / 2 * a * ((g.gDeltaTime : ℚ) * gTIME_MULTIPLIER) := by
    intro v a
    field_simp
    ring
  have ey : ∀ v a : ℚ,
      (p.yCoord + (v * ((g.gDeltaTime : ℚ) * gTIME_MULTIPLIER)
        + 1 / 2 * a * ((g.gDeltaTime : ℚ) * gTIME_MULTIPLIER)
          * ((g.gDeltaTime : ℚ) * gTIME_MULTIPLIER)) - p.yCoord)
        / ((g.gDeltaTime : ℚ) * gTIME_MULTIPLIER)
      = v + 1 / 2 * a * ((g.gDeltaTime : ℚ) * gTIME_MULTIPLIER) := by
    intro v a
    field_simp
    ring
  unfold integrate
  rw [hacc]
  simp only [ne_eq, ht, not_false_eq_true, if_true, ex, ey]

theorem clamp_ne_clamp_of_inside (u w limit : ℚ) (hu : |u| < limit) (hne : u ≠ w) :
    clamp u limit ≠ clamp w limit := by
  rw [clamp_of_abs_lt u limit hu]
  rw [abs_lt] at hu
  unfold clamp
  split_ifs
  · linarith
  · linarith
  · exact hne

/-- C8.  With `t = gDeltaTime * 0.7` different from `0`, the integration step of
`movementCalculation` (before `collisions` is called) moves the particle to
`x' = x + vx * t + 0.5 * ax * t^2` (the same for `y`) and sets its velocity to
`clamp ((x' - x) / t) gMAX_SPEED`, which equals `clamp (vx + 0.5 * ax * t) gMAX_SPEED`; it
differs from `clamp (vx + ax * t) gMAX_SPEED` whenever the acceleration is not zero and
`vx + 0.5 * ax * t` lies strictly inside the speed limit. -/
theorem integrate_position_and_speed (sqrt : ℚ → ℚ) (g : Game) (ps : List Particle)
    (rest : List (Option Particle)) (p : Particle)
    (harr : g.gParticleArray = ps.map some ++ rest)
    (hN : g.gNumberOfParticle = (ps.length : Int))
    (hdt : g.gDeltaTime ≠ 0) :
    ∃ xa ya p', getAcceleration sqrt g p = some (xa, ya) ∧ integrate sqrt g p = some p' ∧
      p'.xCoord = p.xCoord + p.xSpeed * ((g.gDeltaTime : ℚ) * gTIME_MULTIPLIER)
        + 1 / 2 * xa * ((g.gDeltaTime : ℚ) * gTIME_MULTIPLIER) ^ 2 ∧
      p'.yCoord = p.yCoord + p.ySpeed * ((g.gDeltaTime : ℚ) * gTIME_MULTIPLIER)
        + 1 / 2 * ya * ((g.gDeltaTime : ℚ) * gTIME_MULTIPLIER) ^ 2 ∧
      p'.xSpeed = clamp ((p'.xCoord - p.xCoord) / ((g.gDeltaTime : ℚ) * gTIME_MULTIPLIER))
        gMAX_SPEED ∧
      p'.ySpeed = clamp ((p'.yCoord - p.yCoord) / ((g.gDeltaTime : ℚ) * gTIME_MULTIPLIER))
        gMAX_SPEED ∧
      p'.xSpeed = clamp (p.xSpeed + 1 / 2 * xa * ((g.gDeltaTime : ℚ) * gTIME_MULTIPLIER))
        gMAX_SPEED ∧
      p'.ySpeed = clamp (p.ySpeed + 1 / 2 * ya * ((g.gDeltaTime : ℚ) * gTIME_MULTIPLIER))
        gMAX_SPEED ∧
      (xa ≠ 0 → |p.xSpeed + 1 / 2 * xa * ((g.gDeltaTime : ℚ) * gTIME_MULTIPLIER)| < gMAX_SPEED →
        p'.xSpeed ≠ clamp (p.xSpeed + xa * ((g.gDeltaTime : ℚ) * gTIME_MULTIPLIER)) gMAX_SPEED) ∧
      (ya ≠ 0 → |p.ySpeed + 1 / 2 * ya * ((g.gDeltaTime : ℚ) * gTIME_MULTIPLIER)| < gMAX_SPEED →
        p'.ySpeed ≠ clamp (p.ySpeed + ya * ((g.gDeltaTime : ℚ) * gTIME_MULTIPLIER)) gMAX_SPEED) := by
  obtain ⟨a, ha, -, -⟩ := getAcceleration_bounded sqrt g ps rest p harr hN
  have ht : (g.gDeltaTime : ℚ) * gTIME_MULTIPLIER ≠ 0 := by
    have h1 : (g.gDeltaTime : ℚ) ≠ 0 := by exact_mod_cast hdt
    have h2 : gTIME_MULTIPLIER ≠ 0 := by unfold gTIME_MULTIPLIER; norm_num
    exact mul_ne_zero h1 h2
  refine ⟨a.1, a.2, _, ha, integrate_eq sqrt g p a.1 a.2 ha hdt, ?_, ?_, ?_, ?_, rfl, rfl, ?_, ?_⟩
  · simp only []; ring
  · simp only []; ring
  · simp only []
    congr 1
    field_simp
    ring
  · simp only []
    congr 1
    field_simp
    ring
  · intro hxa hin
    simp only []
    apply clamp_ne_clamp_of_inside _ _ _ hin
    intro h
    have : 1 / 2 * a.1 * ((g.gDeltaTime : ℚ) * gTIME_MULTIPLIER) = 0 := by linarith
    rcases mul_eq_zero.mp this with h1 | h1
    · exact hxa (by linarith)
    · exact ht h1
  · intro hya hin
    simp only []
    apply clamp_ne_clamp_of_inside _ _ _ hin
    intro h
    have : 1 / 2 * a.2 * ((g.gDeltaTime : ℚ) * gTIME_MULTIPLIER) = 0 := by linarith
    rcases mul_eq_zero.mp this with h1 | h1
    · exact hya (by linarith)
    · exact ht h1

/-- Witness of C8: a moving particle of charge `+1` at `(100, 100)`, a fixed one of charge
`+1` at `(110, 100)`, sixteen milliseconds elapsed. -/
theorem integrate_position_and_speed_witness :
    ∃ xa ya p',
      getAcceleration sqrtExact
        (gameOf [particleAt 1 true 100 100 1, particleAt 2 false 110 100 1] 1 [] 16)
        (particleAt 1 true 100 100 1) = some (xa, ya) ∧
      integrate sqrtExact
        (gameOf [particleAt 1 true 100 100 1, particleAt 2 false 110 100 1] 1 [] 16)
        (particleAt 1 true 100 100 1) = some p' ∧
      p'.xSpeed = clamp (0 + 1 / 2 * xa * (((16 : Nat) : ℚ) * gTIME_MULTIPLIER)) gMAX_SPEED := by
  obtain ⟨xa, ya, p', h1, h2, -, -, -, -, h7, -⟩ :=
    integrate_position_and_speed sqrtExact
      (gameOf [particleAt 1 true 100 100 1, particleAt 2 false 110 100 1] 1 [] 16)
      [particleAt 1 true 100 100 1, particleAt 2 false 110 100 1] _
      (particleAt 1 true 100 100 1) rfl rfl (by decide)
  exact ⟨xa, ya, p', h1, h2, h7⟩

/-! ## Collision resolution never raises a speed -/

end ChargeGame

namespace Minimal

end Minimal

namespace ChargeGame

theorem integrate_speed (sqrt : ℚ → ℚ) (g : Game) (ps : List Particle)
    (rest : List (Option Particle)) (p : Particle)
    (harr : g.gParticleArray = ps.map some ++ rest)
    (hN : g.gNumberOfParticle = (ps.length : Int)) :
    ∃ p1, integrate sqrt g p = some p1 ∧
      ((g.gDeltaTime ≠ 0 ∧ |p1.xSpeed| ≤ gMAX_SPEED ∧ |p1.ySpeed| ≤ gMAX_SPEED) ∨
       (g.gDeltaTime = 0 ∧ p1.xSpeed = p.xSpeed ∧ p1.ySpeed = p.ySpeed)) := by
  obtain ⟨a, ha, -, -⟩ := getAcceleration_bounded sqrt g ps rest p harr hN
  by_cases hdt : g.gDeltaTime = 0
  · have ht : ¬ ((g.gDeltaTime : ℚ) * gTIME_MULTIPLIER ≠ 0) := by
      rw [hdt]; simp
    unfold integrate
    rw [ha]
    simp only []
    rw [if_neg ht]
    exact ⟨_, rfl, Or.inr ⟨hdt, rfl, rfl⟩⟩
  · refine ⟨_, integrate_eq sqrt g p a.1 a.2 ha hdt, Or.inl ⟨hdt, ?_, ?_⟩⟩
    · exact clamp_abs_le _ _ gMAX_SPEED_nonneg
    · exact clamp_abs_le _ _ gMAX_SPEED_nonneg

end ChargeGame

namespace Minimal

end Minimal

namespace ChargeGame

end ChargeGame

/-! ## Charges -/

namespace ChargeGame

theorem changeParticleCharge_valid (p : Particle) (c : Int) (h : validCharge p.charge) :
    validCharge (changeParticleCharge p c).charge := by
  unfold validCharge at *
  unfold changeParticleCharge gMAX_PARTICULE_CHARGE gMIN_PARTICULE_CHARGE
  split_ifs <;> simp <;> omega

theorem minimal_changeParticleCharge_valid (p : Minimal.Particle) (c : Int)
    (h : validCharge p.charge) : validCharge (Minimal.changeParticleCharge p c).charge := by
  unfold validCharge at *
  unfold Minimal.changeParticleCharge Minimal.gMAX_PARTICULE_CHARGE
    Minimal.gMIN_PARTICULE_CHARGE
  split_ifs <;> simp <;> omega

theorem changeHandCharge_valid (g : Minimal.Game) (c : Int) (h : validCharge g.gHandCharge) :
    validCharge (Minimal.changeHandCharge g c).gHandCharge := by
  unfold validCharge at *
  unfold Minimal.changeHandCharge Minimal.gMAX_PARTICULE_CHARGE Minimal.gMIN_PARTICULE_CHARGE
  split_ifs <;> simp <;> omega

theorem foldl_invariant {α β : Type} (f : α → β → α) (P : α → Prop)
    (hstep : ∀ a b, P a → P (f a b)) (l : List β) (a : α) (ha : P a) : P (l.foldl f a) := by
  induction l generalizing a with
  | nil => exact ha
  | cons b l ih => exact ih (f a b) (hstep a b ha)

/-- C11: from a charge in `-3, -2, -1, 1, 2, 3`, every finite sequence of calls of
`changeParticleCharge` (full and minimal variant) and of the minimal variant's
`changeHandCharge`, with any step arguments, leaves the charge in that set. -/
theorem charge_stays_valid (p : Particle) (pm : Minimal.Particle) (gm : Minimal.Game)
    (cs : List Int) (hp : validCharge p.charge) (hpm : validCharge pm.charge)
    (hgm : validCharge gm.gHandCharge) :
    validCharge (cs.foldl changeParticleCharge p).charge ∧
    validCharge (cs.foldl Minimal.changeParticleCharge pm).charge ∧
    validCharge (cs.foldl Minimal.changeHandCharge gm).gHandCharge :=
  ⟨foldl_invariant changeParticleCharge (fun q => validCharge q.charge)
      changeParticleCharge_valid cs p hp,
   foldl_invariant Minimal.changeParticleCharge (fun q => validCharge q.charge)
      minimal_changeParticleCharge_valid cs pm hpm,
   foldl_invariant Minimal.changeHandCharge (fun q => validCharge q.gHandCharge)
      changeHandCharge_valid cs gm hgm⟩

/-- Witness of C11: a static modifiable particle of charge 3, a static minimal particle of
charge -1 and a hand charge of 1, under the steps `1, 1, -1, 7, -1, -1, -1, -1`. -/
theorem charge_stays_valid_witness :
    validCharge ([1, 1, -1, 7, -1, -1, -1, -1].foldl changeParticleCharge
      { particleAt 1 false 0 0 3 with modifiable := true }).charge ∧
    validCharge ([1, 1, -1, 7, -1, -1, -1, -1].foldl Minimal.changeParticleCharge
      { addr := 1, moving := false, xCoord := 0, yCoord := 0, charge := -1, xSpeed := 0,
        ySpeed := 0 }).charge ∧
    validCharge ([1, 1, -1, 7, -1, -1, -1, -1].foldl Minimal.changeHandCharge
      { gParticles := [], gParticlesSize := 0, gNumberOfMovingParticle := 0, gDeltaTime := 0,
        gHandCharge := 1, screenW := 640, screenH := 480, particleW := 20,
        particleH := 20 }).gHandCharge :=
  charge_stays_valid _ _ _ _ (by unfold validCharge; decide) (by unfold validCharge; decide)
    (by unfold validCharge; decide)

/-- C12: on a modifiable particle that is not moving, `changeParticleCharge` with `c = 1`
turns a charge of -1 into 1 and with `c = -1` turns a charge of 1 into -1; on a moving
particle or one that is not modifiable the record is left unchanged for every `c`. -/
theorem changeParticleCharge_skips_zero (p : Particle) (c : Int) :
    (p.modifiable = true → p.moving = false → p.charge = -1 →
      (changeParticleCharge p 1).charge = 1) ∧
    (p.modifiable = true → p.moving = false → p.charge = 1 →
      (changeParticleCharge p (-1)).charge = -1) ∧
    (p.moving = true ∨ p.modifiable = false → changeParticleCharge p c = p) := by
  refine ⟨?_, ?_, ?_⟩
  · intro hm hs hc
    simp [changeParticleCharge, hm, hs, hc, gMAX_PARTICULE_CHARGE]
  · intro hm hs hc
    simp [changeParticleCharge, hm, hs, hc, gMAX_PARTICULE_CHARGE, gMIN_PARTICULE_CHARGE]
  · intro h
    unfold changeParticleCharge
    rw [if_neg]
    rcases h with h | h <;> simp [h]

/-- Witness of C12: the static modifiable particles of charge -1 and 1, and a moving
particle of charge 2 under `c = 1`. -/
theorem changeParticleCharge_skips_zero_witness :
    (changeParticleCharge { particleAt 1 false 0 0 (-1) with modifiable := true } 1).charge = 1 ∧
    (changeParticleCharge { particleAt 1 false 0 0 1 with modifiable := true } (-1)).charge
      = -1 ∧
    changeParticleCharge { particleAt 1 true 0 0 2 with modifiable := true } 1
      = { particleAt 1 true 0 0 2 with modifiable := true } :=
  ⟨(changeParticleCharge_skips_zero
      { particleAt 1 false 0 0 (-1) with modifiable := true } 0).1 rfl rfl rfl,
   (changeParticleCharge_skips_zero
      { particleAt 1 false 0 0 1 with modifiable := true } 0).2.1 rfl rfl rfl,
   (changeParticleCharge_skips_zero
      { particleAt 1 true 0 0 2 with modifiable := true } 1).2.2 (Or.inl rfl)⟩

theorem changeCursorState_range (creative : Nat) (s c : Int)
    (h : (if creative = 0 then -3 else -6) ≤ s ∧ s ≤ 3 ∧ s ≠ 0) :
    (if creative = 0 then -3 else -6) ≤ changeCursorState creative s c ∧
      changeCursorState creative s c ≤ 3 ∧ changeCursorState creative s c ≠ 0 := by
  unfold changeCursorState gMAX_PARTICULE_CHARGE gMIN_PARTICULE_CHARGE
  by_cases hc : creative = 0
  · rw [if_pos hc] at h ⊢
    rw [if_neg (not_not.mpr hc)]
    dsimp only
    split_ifs <;> omega
  · rw [if_neg hc] at h ⊢
    rw [if_pos hc]
    dsimp only
    split_ifs <;> omega

/-- C13, counterexample: in creative mode (`gCreativeMode = 1`), four calls with `c = -1`
from `gCursorState = 1` end at -4, outside the set `-3, -2, -1, 1, 2, 3`. -/
theorem changeCursorState_counterexample :
    [-1, -1, -1, -1].foldl (changeCursorState 1) 1 = -4 ∧
    ¬ validCharge ([-1, -1, -1, -1].foldl (changeCursorState 1) 1) := by
  unfold validCharge
  decide

/-- C13, amended: from `gCursorState = 1`, under every finite sequence of calls with `c`
in `1, -1`, the cursor state stays in `-3, -2, -1, 1, 2, 3` when `gCreativeMode` is 0 and in
`-6, ..., -1, 1, 2, 3` when it is not; it is never 0. -/
theorem changeCursorState_stays_in_range (creative : Nat) (cs : List Int)
    (hcs : ∀ c ∈ cs, c = 1 ∨ c = -1) :
    (creative = 0 → validCharge (cs.foldl (changeCursorState creative) 1)) ∧
    (creative ≠ 0 → -6 ≤ cs.foldl (changeCursorState creative) 1 ∧
      cs.foldl (changeCursorState creative) 1 ≤ 3 ∧
      cs.foldl (changeCursorState creative) 1 ≠ 0) := by
  have hcs' := hcs
  have h := foldl_invariant (changeCursorState creative)
    (fun s => (if creative = 0 then -3 else -6) ≤ s ∧ s ≤ 3 ∧ s ≠ 0)
    (fun s c hs => changeCursorState_range creative s c hs) cs 1
    (by constructor
        · split_ifs <;> decide
        · decide)
  constructor
  · intro hc
    simp only [hc, if_true] at h
    simpa [validCharge, hc] using h
  · intro hc
    simpa only [hc, if_false] using h

/-- Witness of C13 (amended): the steps `-1, -1, 1, -1, -1, -1` in normal play and in
creative mode. -/
theorem changeCursorState_stays_in_range_witness :
    validCharge ([-1, -1, 1, -1, -1, -1].foldl (changeCursorState 0) 1) ∧
    (-6 ≤ [-1, -1, 1, -1, -1, -1].foldl (changeCursorState 1) 1 ∧
      [-1, -1, 1, -1, -1, -1].foldl (changeCursorState 1) 1 ≤ 3 ∧
      [-1, -1, 1, -1, -1, -1].foldl (changeCursorState 1) 1 ≠ 0) :=
  ⟨(changeCursorState_stays_in_range 0 [-1, -1, 1, -1, -1, -1] (by decide)).1 rfl,
   (changeCursorState_stays_in_range 1 [-1, -1, 1, -1, -1, -1] (by decide)).2 (by decide)⟩

end ChargeGame

/-! ## Integration with no elapsed time -/

namespace ChargeGame

theorem integrateWith_div (sqrt : ℚ → ℚ) (g : Game) (p : Particle) :
    integrateWith (fun a b => a / b) sqrt g p = integrate sqrt g p := rfl

theorem minimalIntegrateWith_div (sqrt : ℚ → ℚ) (g : Minimal.Game) (p : Minimal.Particle) :
    minimalIntegrateWith (fun a b => a / b) sqrt g p = Minimal.integrate sqrt g p := rfl

theorem integrateAndCollide_eq_bind (sqrt : ℚ → ℚ) (g : Game) (p : Particle) :
    integrateAndCollide sqrt g p = (integrate sqrt g p).bind (collisions g) := by
  unfold integrateAndCollide
  cases h : integrate sqrt g p <;> simp [h]

theorem integrateAndBox_eq_map (sqrt : ℚ → ℚ) (g : Minimal.Game) (p : Minimal.Particle) :
    Minimal.integrateAndBox sqrt g p = (Minimal.integrate sqrt g p).map (Minimal.box g) := by
  unfold Minimal.integrateAndBox Minimal.integrate
  cases Minimal.getAccelerationX sqrt g p <;> cases Minimal.getAccelerationY sqrt g p <;> rfl

theorem integrateWith_zero_time (dv : ℚ → ℚ → ℚ) (sqrt : ℚ → ℚ) (g : Game) (p : Particle)
    (ht : g.gDeltaTime = 0) :
    integrateWith dv sqrt g p = (getAcceleration sqrt g p).map (fun _ => p) := by
  unfold integrateWith
  cases h : getAcceleration sqrt g p with
  | none => rfl
  | some acc =>
    obtain ⟨xa, ya⟩ := acc
    simp [ht]

theorem minimalIntegrateWith_zero_time (dv : ℚ → ℚ → ℚ) (sqrt : ℚ → ℚ) (g : Minimal.Game)
    (p : Minimal.Particle) (ht : g.gDeltaTime = 0) :
    minimalIntegrateWith dv sqrt g p
      = (Minimal.getAccelerationX sqrt g p).bind
          (fun _ => (Minimal.getAccelerationY sqrt g p).map (fun _ => p)) := by
  unfold minimalIntegrateWith
  have h0 : toInt32 g.gDeltaTime = 0 := by rw [ht]; decide
  cases hx : Minimal.getAccelerationX sqrt g p with
  | none => rfl
  | some xa =>
    cases hy : Minimal.getAccelerationY sqrt g p with
    | none => rfl
    | some ya => simp [h0]

/-- C18: with `gDeltaTime = 0` (so `t == 0`) the integration step of `movementCalculation`,
in both variants, hands to collision resolution the record of the particle exactly as it
was (position and both speed components), whenever the acceleration is computed at all; and
it does so whatever the division of the speed update is taken to be, so that no division is
evaluated. -/
theorem integrate_zero_time (dv : ℚ → ℚ → ℚ) (sqrt : ℚ → ℚ) (g : Game) (p : Particle)
    (gm : Minimal.Game) (pm : Minimal.Particle)
    (ht : g.gDeltaTime = 0) (htm : gm.gDeltaTime = 0) :
    integrate sqrt g p = (getAcceleration sqrt g p).map (fun _ => p) ∧
    integrateWith dv sqrt g p = integrate sqrt g p ∧
    integrateAndCollide sqrt g p = (getAcceleration sqrt g p).bind (fun _ => collisions g p) ∧
    Minimal.integrate sqrt gm pm
      = (Minimal.getAccelerationX sqrt gm pm).bind
          (fun _ => (Minimal.getAccelerationY sqrt gm pm).map (fun _ => pm)) ∧
    minimalIntegrateWith dv sqrt gm pm = Minimal.integrate sqrt gm pm ∧
    Minimal.integrateAndBox sqrt gm pm
      = (Minimal.getAccelerationX sqrt gm pm).bind
          (fun _ => (Minimal.getAccelerationY sqrt gm pm).map (fun _ => Minimal.box gm pm)) := by
  have h1 := integrateWith_zero_time (fun a b => a / b) sqrt g p ht
  rw [integrateWith_div] at h1
  have h2 := minimalIntegrateWith_zero_time (fun a b => a / b) sqrt gm pm htm
  rw [minimalIntegrateWith_div] at h2
  refine ⟨h1, ?_, ?_, h2, ?_, ?_⟩
  · rw [h1, integrateWith_zero_time dv sqrt g p ht]
  · rw [integrateAndCollide_eq_bind, h1]
    cases getAcceleration sqrt g p <;> rfl
  · rw [h2, minimalIntegrateWith_zero_time dv sqrt gm pm htm]
  · rw [integrateAndBox_eq_map, h2]
    cases Minimal.getAccelerationX sqrt gm pm <;>
      cases Minimal.getAccelerationY sqrt gm pm <;> rfl

end ChargeGame

/-! ## Integration with no elapsed time: an instance; ordering in the minimal variant -/

namespace ChargeGame

/-- Witness of C18: a moving particle next to a static one, in both variants, with
`gDeltaTime = 0`. -/
theorem integrate_zero_time_witness :
    integrate sqrtExact
        (gameOf [particleAt 1 false 100 100 2, particleAt 2 true 110 100 1] 1 [] 0)
        (particleAt 2 true 110 100 1)
      = (getAcceleration sqrtExact
          (gameOf [particleAt 1 false 100 100 2, particleAt 2 true 110 100 1] 1 [] 0)
          (particleAt 2 true 110 100 1)).map (fun _ => particleAt 2 true 110 100 1) ∧
    Minimal.integrate sqrtExact
        (minimalGameOf [minimalParticleAt 1 false 100 100 2, minimalParticleAt 2 true 110 100 1]
          1 0)
        (minimalParticleAt 2 true 110 100 1)
      = (Minimal.getAccelerationX sqrtExact
          (minimalGameOf
            [minimalParticleAt 1 false 100 100 2, minimalParticleAt 2 true 110 100 1] 1 0)
          (minimalParticleAt 2 true 110 100 1)).bind
          (fun _ => (Minimal.getAccelerationY sqrtExact
            (minimalGameOf
              [minimalParticleAt 1 false 100 100 2, minimalParticleAt 2 true 110 100 1] 1 0)
            (minimalParticleAt 2 true 110 100 1)).map
              (fun _ => minimalParticleAt 2 true 110 100 1)) :=
  ⟨(integrate_zero_time (fun a b => a / b) sqrtExact
      (gameOf [particleAt 1 false 100 100 2, particleAt 2 true 110 100 1] 1 [] 0)
      (particleAt 2 true 110 100 1)
      (minimalGameOf [minimalParticleAt 1 false 100 100 2, minimalParticleAt 2 true 110 100 1]
        1 0)
      (minimalParticleAt 2 true 110 100 1) rfl rfl).1,
   (integrate_zero_time (fun a b => a / b) sqrtExact
      (gameOf [particleAt 1 false 100 100 2, particleAt 2 true 110 100 1] 1 [] 0)
      (particleAt 2 true 110 100 1)
      (minimalGameOf [minimalParticleAt 1 false 100 100 2, minimalParticleAt 2 true 110 100 1]
        1 0)
      (minimalParticleAt 2 true 110 100 1) rfl rfl).2.2.2.1⟩

set_option maxRecDepth 100000 in
/-- Counterexample to C19 as stated: on the store `[moving, static, moving]` (two moving
particles, a store of non-null particles) the swap loop of the minimal
`organizeParticleBlitering` returns with the particles in the order
`[moving, static, moving]`: slot 0 holds a moving particle and slot 1, one of the two
trailing slots, a static one.  The particle swapped into slot 0 is never examined. -/
theorem minimal_organize_leaves_moving_in_front :
    (Minimal.organizeParticleBlitering 10
        (minimalGameOf [minimalParticleAt 1 true 10 10 1, minimalParticleAt 2 false 20 20 1,
          minimalParticleAt 3 true 30 30 1] 2 0)).map (fun g => g.gParticles.take 3)
      = some [some (minimalParticleAt 3 true 30 30 1), some (minimalParticleAt 2 false 20 20 1),
          some (minimalParticleAt 1 true 10 10 1)] := by
  decide

end ChargeGame

/-! ## High scores -/

namespace ChargeGame

theorem updateHighScores_eq (a b c n : Int) :
    updateHighScores [a, b, c] n =
      if n < a ∨ a = -1 then ([n, a, b], true)
      else if n < b ∨ b = -1 then ([a, n, b], true)
      else if n < c ∨ c = -1 then ([a, b, n], true)
      else ([a, b, c], false) := by
  simp only [updateHighScores, updateHighScoresLoop, shiftScores, List.getD_cons_zero,
    List.getD_cons_succ, List.set_cons_succ, List.set_cons_zero]
  split_ifs <;> simp_all

/-- C20: on three well-formed high scores and a `newScore` that is not negative,
`updateHighScores` leaves three well-formed scores which, with one dropped value `d` that
is at least as large as each of them (`-1` counting as the largest), are the old scores and
`newScore`; it returns true exactly when the array has changed; and when all three scores
are set and `newScore` is equal to or larger than each, the array is unchanged and the
value returned is false. -/
theorem updateHighScores_keeps_three_smallest (a b c n : Int)
    (hwf : scoresWellFormed a b c) (hn : 0 ≤ n) :
    (∃ a' b' c' d, (updateHighScores [a, b, c] n).1 = [a', b', c'] ∧
      scoresWellFormed a' b' c' ∧ List.Perm [a', b', c', d] [n, a, b, c] ∧
      scoreLe a' d ∧ scoreLe b' d ∧ scoreLe c' d) ∧
    ((updateHighScores [a, b, c] n).2 = true ↔ (updateHighScores [a, b, c] n).1 ≠ [a, b, c]) ∧
    (a ≠ -1 ∧ b ≠ -1 ∧ c ≠ -1 ∧ a ≤ n ∧ b ≤ n ∧ c ≤ n →
      updateHighScores [a, b, c] n = ([a, b, c], false)) := by
  rw [updateHighScores_eq]
  unfold scoresWellFormed at hwf
  obtain ⟨h1, h2, h3, h4, h5, h6, h7⟩ := hwf
  by_cases ha : n < a ∨ a = -1
  · rw [if_pos ha]
    refine ⟨⟨n, a, b, c, rfl, ?_, List.Perm.refl _, ?_, ?_, ?_⟩, ?_, ?_⟩
    · unfold scoresWellFormed; omega
    · unfold scoreLe; omega
    · unfold scoreLe; omega
    · unfold scoreLe; omega
    · simp only [true_iff, ne_eq, List.cons.injEq, not_and]
      intro h; omega
    · intro h; omega
  · rw [if_neg ha]
    by_cases hb : n < b ∨ b = -1
    · rw [if_pos hb]
      refine ⟨⟨a, n, b, c, rfl, ?_, List.Perm.swap _ _ _, ?_, ?_, ?_⟩, ?_, ?_⟩
      · unfold scoresWellFormed; omega
      · unfold scoreLe; omega
      · unfold scoreLe; omega
      · unfold scoreLe; omega
      · simp only [true_iff, ne_eq, List.cons.injEq, not_and]
        intro _ h; omega
      · intro h; omega
    · rw [if_neg hb]
      by_cases hc : n < c ∨ c = -1
      · rw [if_pos hc]
        refine ⟨⟨a, b, n, c, rfl, ?_,
          ((List.Perm.swap _ _ _).cons a).trans (List.Perm.swap _ _ _), ?_, ?_, ?_⟩, ?_, ?_⟩
        · unfold scoresWellFormed; omega
        · unfold scoreLe; omega
        · unfold scoreLe; omega
        · unfold scoreLe; omega
        · simp only [true_iff, ne_eq, List.cons.injEq, not_and]
          intro _ _ h; omega
        · intro h; omega
      · rw [if_neg hc]
        refine ⟨⟨a, b, c, n, rfl, ?_, @List.perm_append_comm _ [a, b, c] [n], ?_, ?_, ?_⟩,
          ?_, ?_⟩
        · unfold scoresWellFormed; omega
        · unfold scoreLe; omega
        · unfold scoreLe; omega
        · unfold scoreLe; omega
        · simp
        · intro _; rfl

/-- Witness of C20: the scores `2, 5, -1` and the new score 3. -/
theorem updateHighScores_keeps_three_smallest_witness :
    (updateHighScores [2, 5, -1] 3).1 = [2, 3, 5] ∧
    ((updateHighScores [2, 5, -1] 3).2 = true ↔ (updateHighScores [2, 5, -1] 3).1 ≠ [2, 5, -1]) :=
  ⟨by decide,
   (updateHighScores_keeps_three_smallest 2 5 (-1) 3 (by unfold scoresWellFormed; decide)
      (by decide)).2.1⟩

end ChargeGame

/-! ## Creation on a full store -/

namespace ChargeGame

/-- C15: with `gNumberOfParticle = gMAX_PARTICLES` (500 in the full variant, 100 in the
minimal one) `createParticle` returns with the whole state as it was, for every outcome of
`malloc` and all arguments; with `gNumberOfWall = gMAX_WALL` (100) `createWall` returns
with the whole state as it was, the wall array, the count of walls and every particle
included. -/
theorem create_on_full_store (g : Game) (gm : Minimal.Game) (mallocResult : Option Nat)
    (mallocOk moving modifiable : Bool) (charge x y w h : Int) (vx vy : ℚ) :
    (g.gNumberOfParticle = (gMAX_PARTICLES : Int) →
      gMAX_PARTICLES = 500 ∧
      createParticle g mallocResult moving modifiable charge x y = some g) ∧
    (gm.gParticlesSize = (Minimal.gMAX_PARTICLES : Int) →
      Minimal.gMAX_PARTICLES = 100 ∧
      Minimal.createParticle gm mallocResult moving charge x y vx vy = some gm) ∧
    (g.gNumberOfWall = (gMAX_WALL : Int) →
      gMAX_WALL = 100 ∧ createWall g mallocOk x y w h = some g) := by
  refine ⟨fun h => ⟨rfl, ?_⟩, fun h => ⟨rfl, ?_⟩, fun h => ⟨rfl, ?_⟩⟩
  · unfold createParticle
    rw [if_neg (by omega)]
  · unfold Minimal.createParticle
    rw [if_neg (by omega)]
  · unfold createWall
    rw [if_neg (by omega)]

end ChargeGame

namespace ChargeGame

/-- Witness of C15: a store of 500 particles and 100 walls, and a minimal store of 100
particles. -/
theorem create_on_full_store_witness :
    createParticle (gameOf fullStore 0 fullWalls 16) (some 1000) true true 1 400 400
      = some (gameOf fullStore 0 fullWalls 16) ∧
    Minimal.createParticle (minimalGameOf minimalFullStore 0 16) (some 1000) true 1 400 400 0 0
      = some (minimalGameOf minimalFullStore 0 16) ∧
    createWall (gameOf fullStore 0 fullWalls 16) true 10 10 20 20
      = some (gameOf fullStore 0 fullWalls 16) :=
  ⟨((create_on_full_store (gameOf fullStore 0 fullWalls 16)
      (minimalGameOf minimalFullStore 0 16) (some 1000) true true true 1 400 400 20 20 0 0).1
      (by simp [gameOf, fullStore, gMAX_PARTICLES])).2,
   ((create_on_full_store (gameOf fullStore 0 fullWalls 16)
      (minimalGameOf minimalFullStore 0 16) (some 1000) true true true 1 400 400 20 20 0 0).2.1
      (by simp [minimalGameOf, minimalFullStore, Minimal.gMAX_PARTICLES])).2,
   ((create_on_full_store (gameOf fullStore 0 fullWalls 16)
      (minimalGameOf minimalFullStore 0 16) (some 1000) true true true 1 10 10 20 20 0 0).2.2
      (by simp [gameOf, fullWalls, gMAX_WALL])).2⟩

end ChargeGame

/-! ## Deletion of a particle -/

namespace ChargeGame

theorem shiftDown_spec : ∀ (n j : Nat) (a : List (Option Particle)) (N : Nat),
    j + n + 1 = N → N ≤ a.length →
    ∃ a', shiftDown n (j : Int) a = some a' ∧ a'.length = a.length ∧
      ∀ k, a'[k]? = if j ≤ k ∧ k + 1 < N then a[k + 1]? else a[k]? := by
  intro n
  induction n with
  | zero =>
    intro j a N h _
    refine ⟨a, rfl, rfl, fun k => ?_⟩
    rw [if_neg (by omega)]
  | succ n ih =>
    intro j a N h hl
    have hj1 : j + 1 < a.length := by omega
    have hcast : ((j : Int) + 1) = ((j + 1 : Nat) : Int) := by push_cast; rfl
    have hread : readSlot a ((j : Int) + 1) = some (a.get ⟨j + 1, hj1⟩) := by
      rw [hcast, readSlot_natCast, List.getElem?_eq_getElem hj1]
      rfl
    obtain ⟨a', h1, h2, h3⟩ := ih (j + 1) (a.set j (a.get ⟨j + 1, hj1⟩)) N (by omega)
      (by simpa using hl)
    refine ⟨a', ?_, by simpa using h2, fun k => ?_⟩
    · rw [shiftDown, hread]
      simp only []
      rw [if_pos ⟨by omega, by simp; omega⟩]
      rw [hcast]
      simpa [writeSlot] using h1
    · rw [h3 k]
      by_cases hk : k = j
      · subst hk
        rw [if_neg (by omega), if_pos ⟨le_refl _, by omega⟩]
        rw [List.getElem?_set_self (by omega), List.getElem?_eq_getElem hj1]
        rfl
      · by_cases hc : j + 1 ≤ k ∧ k + 1 < N
        · rw [if_pos hc, if_pos ⟨by omega, hc.2⟩, List.getElem?_set_ne (by omega)]
        · rw [if_neg hc, if_neg (by omega), List.getElem?_set_ne (by omega)]

theorem destroyParticleLoop_no_match (p : Option Nat) (ps : List Particle)
    (rest : List (Option Particle)) (g : Game) (hg : g.gParticleArray = ps.map some ++ rest)
    (hN : g.gNumberOfParticle = (ps.length : Int))
    (hno : ∀ q ∈ ps, ¬ (p ≠ none ∧ q.modifiable = true ∧ p = some q.addr)) :
    ∀ (n i fuel : Nat), ps.length - i = n → n < fuel →
      destroyParticleLoop p fuel g (i : Int) = some g := by
  intro n
  induction n with
  | zero =>
    intro i fuel h hf
    obtain ⟨f, rfl⟩ : ∃ f, fuel = f + 1 := ⟨fuel - 1, by omega⟩
    rw [destroyParticleLoop, if_neg (by rw [hN]; omega)]
  | succ n ih =>
    intro i fuel h hf
    obtain ⟨f, rfl⟩ : ∃ f, fuel = f + 1 := ⟨fuel - 1, by omega⟩
    have hi : i < ps.length := by omega
    have hcast : ((i : Int) + 1) = ((i + 1 : Nat) : Int) := by push_cast; rfl
    rw [destroyParticleLoop, if_pos (by rw [hN]; omega), hg,
      readSlot_map_some_append ps rest i hi]
    simp only []
    rw [if_neg (hno _ (List.get_mem ps i hi)), hcast]
    exact ih (i + 1) f (by omega) (by omega)

theorem destroyParticleLoop_skip (p : Option Nat) (ps : List Particle)
    (rest : List (Option Particle)) (g : Game) (hg : g.gParticleArray = ps.map some ++ rest)
    (hN : g.gNumberOfParticle = (ps.length : Int)) (i : Nat) (hi : i ≤ ps.length)
    (hno : ∀ (j : Nat) (hj : j < ps.length), j < i →
      ¬ (p ≠ none ∧ (ps.get ⟨j, hj⟩).modifiable = true ∧ p = some (ps.get ⟨j, hj⟩).addr)) :
    ∀ (n k fuel : Nat), k + n = i →
      destroyParticleLoop p (fuel + n) g (k : Int) = destroyParticleLoop p fuel g (i : Int) := by
  intro n
  induction n with
  | zero =>
    intro k fuel h
    have : k = i := by omega
    rw [this]; rfl
  | succ n ih =>
    intro k fuel h
    have hk : k < ps.length := by omega
    have hcast : ((k : Int) + 1) = ((k + 1 : Nat) : Int) := by push_cast; rfl
    rw [← Nat.add_assoc, destroyParticleLoop, if_pos (by rw [hN]; omega), hg,
      readSlot_map_some_append ps rest k hk]
    simp only []
    rw [if_neg (hno k hk (by omega)), hcast]
    exact ih (k + 1) fuel (by omega)

end ChargeGame

namespace ChargeGame

theorem shifted_array_eq (ps : List Particle) (rest a' : List (Option Particle)) (i : Nat)
    (hi : i < ps.length) (hlen : a'.length = (ps.map some ++ rest).length)
    (h : ∀ k, a'[k]? = if i ≤ k ∧ k + 1 < ps.length
      then ((ps.map some ++ rest).set i none)[k + 1]?
      else ((ps.map some ++ rest).set i none)[k]?) :
    a'.set (ps.length - 1) none = (ps.eraseIdx i).map some ++ none :: rest := by
  apply List.ext_getElem?
  intro k
  have hel : (ps.eraseIdx i).length = ps.length - 1 := List.length_eraseIdx_of_lt hi
  have hal : ps.length - 1 < a'.length := by
    rw [hlen]; simp; omega
  by_cases hk : k = ps.length - 1
  · subst hk
    rw [List.getElem?_set_self hal, List.getElem?_append_right (by simp [hel])]
    simp [hel]
  · rw [List.getElem?_set_ne (by omega), h k]
    by_cases hlt : k < ps.length - 1
    · rw [List.getElem?_append_left (by simp [hel]; omega), List.getElem?_map,
        List.getElem?_eraseIdx]
      by_cases hki : k < i
      · rw [if_neg (by omega), if_pos hki, List.getElem?_set_ne (by omega),
          List.getElem?_append_left (by simp; omega), List.getElem?_map]
      · rw [if_pos ⟨by omega, by omega⟩, if_neg hki, List.getElem?_set_ne (by omega),
          List.getElem?_append_left (by simp; omega), List.getElem?_map]
    · rw [if_neg (by omega), List.getElem?_set_ne (by omega),
        List.getElem?_append_right (by simp; omega),
        List.getElem?_append_right (by simp [hel]; omega)]
      have h1 : k - (List.map some (ps.eraseIdx i)).length = (k - ps.length) + 1 := by
        simp [hel]; omega
      rw [h1, List.getElem?_cons_succ]
      simp

theorem destroyParticleLoop_at (g : Game) (ps : List Particle) (rest : List (Option Particle))
    (fuel i : Nat) (hi : i < ps.length)
    (hg : g.gParticleArray = ps.map some ++ rest)
    (hN : g.gNumberOfParticle = (ps.length : Int))
    (hnd : (ps.map Particle.addr).Nodup) (hfuel : ps.length < fuel + i)
    (hmod : (ps.get ⟨i, hi⟩).modifiable = true) :
    destroyParticleLoop (some (ps.get ⟨i, hi⟩).addr) fuel g (i : Int)
      = some { g with
          gParticleArray := (ps.eraseIdx i).map some ++ none :: rest,
          gNumberOfParticle := (ps.length : Int) - 1,
          gNumberOfMovingParticle :=
            if (ps.get ⟨i, hi⟩).moving = true then g.gNumberOfMovingParticle - 1
            else g.gNumberOfMovingParticle } := by
  obtain ⟨f, rfl⟩ : ∃ f, fuel = f + 1 := ⟨fuel - 1, by omega⟩
  have hcast : ((i : Int) + 1) = ((i + 1 : Nat) : Int) := by push_cast; rfl
  have hel : (ps.eraseIdx i).length = ps.length - 1 := List.length_eraseIdx_of_lt hi
  obtain ⟨a', h1, h2, h3⟩ := shiftDown_spec (ps.length - 1 - i) i
    ((ps.map some ++ rest).set i none) ps.length (by omega) (by simp)
  have hn : ((ps.length : Int) - 1 - (i : Int)).toNat = ps.length - 1 - i := by omega
  have harr := shifted_array_eq ps rest a' i hi (by simpa using h2) h3
  have hw : writeSlot a' ((ps.length : Int) - 1) none = a'.set (ps.length - 1) none := by
    unfold writeSlot
    congr 1
    omega
  rw [destroyParticleLoop, if_pos (by rw [hN]; omega), hg,
    readSlot_map_some_append ps rest i hi]
  simp only []
  rw [if_pos ⟨by simp, hmod, trivial⟩, hN, hn]
  have hw0 : writeSlot (ps.map some ++ rest) (i : Int) none
      = (ps.map some ++ rest).set i none := by
    unfold writeSlot; simp
  rw [hw0, h1]
  simp only []
  rw [if_pos ⟨by omega, by rw [h2]; simp; omega⟩, hw, harr, hcast]
  apply destroyParticleLoop_no_match (some (ps.get ⟨i, hi⟩).addr) (ps.eraseIdx i)
    (none :: rest) _ rfl (by simp only [hel]; omega) _ (ps.length - 1 - (i + 1)) (i + 1) f
    (by rw [hel]) (by omega)
  intro q hq hc
  rw [← filter_addr_ne_eq_eraseIdx ps i hi hnd] at hq
  have hne := (List.mem_filter.mp hq).2
  simp only [decide_eq_true_eq] at hne
  exact hne (Option.some.inj hc.2.2)

end ChargeGame

namespace ChargeGame

/-- C16: on a store of `N` non-null particles with distinct addresses, `destroyParticle`
called with the address of the modifiable particle at index `i` returns with the old
sequence without element `i` in the first `N - 1` slots (the survivors in their order),
slot `N - 1` empty, `gNumberOfParticle` one less and `gNumberOfMovingParticle` one less
exactly when the removed particle was moving; called with `NULL`, with an address that is
not in the store or with that of a particle that is not modifiable, it returns with the
state as it was. -/
theorem destroyParticle_deletes_one (g : Game) (ps : List Particle)
    (rest : List (Option Particle)) (fuel : Nat) (p : Option Nat)
    (hg : g.gParticleArray = ps.map some ++ rest)
    (hN : g.gNumberOfParticle = (ps.length : Int))
    (hnd : (ps.map Particle.addr).Nodup) (hfuel : ps.length < fuel) :
    (∀ (i : Nat) (hi : i < ps.length), p = some (ps.get ⟨i, hi⟩).addr →
      (ps.get ⟨i, hi⟩).modifiable = true →
      destroyParticle fuel g p
        = some { g with
            gParticleArray := (ps.eraseIdx i).map some ++ none :: rest,
            gNumberOfParticle := (ps.length : Int) - 1,
            gNumberOfMovingParticle :=
              if (ps.get ⟨i, hi⟩).moving = true then g.gNumberOfMovingParticle - 1
              else g.gNumberOfMovingParticle }) ∧
    (p = none ∨ (∀ q ∈ ps, p = some q.addr → q.modifiable = false) →
      destroyParticle fuel g p = some g) := by
  constructor
  · intro i hi hp hmod
    subst hp
    unfold destroyParticle
    have hskip := destroyParticleLoop_skip (some (ps.get ⟨i, hi⟩).addr) ps rest g hg hN i
      (by omega)
      (by
        intro j hj hji hc
        have hinj := (List.nodup_iff_injective_get.mp hnd)
        have := @hinj ⟨j, by simpa using hj⟩ ⟨i, by simpa using hi⟩
          (by simpa using (Option.some.inj hc.2.2).symm)
        have := congrArg Fin.val this
        simp at this
        omega)
      i 0 (fuel - i) (by omega)
    have hf : fuel - i + i = fuel := by omega
    rw [hf] at hskip
    have h0 : ((0 : Nat) : Int) = 0 := rfl
    rw [h0] at hskip
    rw [hskip]
    exact destroyParticleLoop_at g ps rest (fuel - i) i hi hg hN hnd (by omega) hmod
  · intro h
    unfold destroyParticle
    have h0 : (0 : Int) = ((0 : Nat) : Int) := rfl
    rw [h0]
    apply destroyParticleLoop_no_match p ps rest g hg hN _ ps.length 0 fuel rfl hfuel
    intro q hq hc
    rcases h with h | h
    · exact hc.1 h
    · rw [h q hq hc.2.2] at hc
      exact absurd hc.2.1 (by simp)

/-- Witness of C16: from the store of three particles with the addresses 1, 2, 3, the
moving particle at index 1 is destroyed. -/
theorem destroyParticle_deletes_one_witness :
    destroyParticle 4
        (gameOf [particleAt 1 false 100 100 2, particleAt 2 true 200 100 1,
          particleAt 3 false 300 100 (-1)] 1 [] 16) (some 2)
      = some { gameOf [particleAt 1 false 100 100 2, particleAt 2 true 200 100 1,
                particleAt 3 false 300 100 (-1)] 1 [] 16 with
          gParticleArray := [some (particleAt 1 false 100 100 2),
            some (particleAt 3 false 300 100 (-1))] ++ none :: List.replicate 497 none,
          gNumberOfParticle := 2,
          gNumberOfMovingParticle := 0 } :=
  (destroyParticle_deletes_one
    (gameOf [particleAt 1 false 100 100 2, particleAt 2 true 200 100 1,
      particleAt 3 false 300 100 (-1)] 1 [] 16)
    [particleAt 1 false 100 100 2, particleAt 2 true 200 100 1,
      particleAt 3 false 300 100 (-1)] _ 4 (some 2) rfl rfl (by decide) (by decide)).1
    1 (by decide) rfl rfl

end ChargeGame

/-! ## The blit ordering permutes the store -/

namespace ChargeGame

theorem perm_cons_set {α : Type} : ∀ (t : List α) (k : Nat) (h : α) (hk : k < t.length),
    List.Perm (t.get ⟨k, hk⟩ :: t.set k h) (h :: t) := by
  intro t
  induction t with
  | nil => intro k h hk; simp at hk
  | cons u t ih =>
    intro k h hk
    cases k with
    | zero => exact List.Perm.swap _ _ _
    | succ k =>
      have hk' : k < t.length := by simpa using hk
      have h1 := ih k h hk'
      exact (List.Perm.swap _ _ _).trans (((h1.cons u)).trans (List.Perm.swap _ _ _))

theorem perm_swap_set {α : Type} : ∀ (a : List α) (x y : Nat) (hx : x < a.length)
    (hy : y < a.length), x < y →
    List.Perm ((a.set x (a.get ⟨y, hy⟩)).set y (a.get ⟨x, hx⟩)) a := by
  intro a
  induction a with
  | nil => intro x y hx; simp at hx
  | cons u t ih =>
    intro x y hx hy hxy
    cases y with
    | zero => omega
    | succ y =>
      have hy' : y < t.length := by simpa using hy
      cases x with
      | zero => exact perm_cons_set t y u hy'
      | succ x =>
        have hx' : x < t.length := by simpa using hx
        exact (ih x y hx' hy' (by omega)).cons u

theorem set_get_self {α : Type} : ∀ (a : List α) (k : Nat) (hk : k < a.length),
    a.set k (a.get ⟨k, hk⟩) = a := by
  intro a
  induction a with
  | nil => intro k hk; simp at hk
  | cons u t ih =>
    intro k hk
    cases k with
    | zero => rfl
    | succ k =>
      have hk' : k < t.length := by simpa using hk
      have := ih k hk'
      simpa using this

theorem swapSlots_perm (a a' : List (Option Particle)) (i j : Int)
    (h : swapSlots a i j = some a') : a'.Perm a := by
  unfold swapSlots at h
  cases hi : readSlot a i with
  | none => rw [hi] at h; simp at h
  | some vi =>
    cases hj : readSlot a j with
    | none => rw [hi, hj] at h; simp at h
    | some vj =>
      rw [hi, hj] at h
      simp only [Option.some.injEq] at h
      subst h
      unfold readSlot at hi hj
      by_cases hi0 : 0 ≤ i
      · by_cases hj0 : 0 ≤ j
        · rw [if_pos hi0] at hi
          rw [if_pos hj0] at hj
          have hil := getElem?_lt_length a _ _ hi
          have hjl := getElem?_lt_length a _ _ hj
          have hvi : vi = a.get ⟨i.toNat, hil⟩ := by
            rw [List.getElem?_eq_getElem hil] at hi
            exact (Option.some.inj hi).symm
          have hvj : vj = a.get ⟨j.toNat, hjl⟩ := by
            rw [List.getElem?_eq_getElem hjl] at hj
            exact (Option.some.inj hj).symm
          unfold writeSlot
          rcases Nat.lt_trichotomy i.toNat j.toNat with hlt | heq | hgt
          · rw [hvi, hvj]
            exact perm_swap_set a _ _ hil hjl hlt
          · have e : vi = vj := by
              rw [hvi, hvj]
              congr 2
            rw [heq, List.set_set]
            have hself : a.set j.toNat vi = a := by
              rw [← heq, hvi]
              exact set_get_self a _ hil
            rw [hself]
          · have hne : i.toNat ≠ j.toNat := by omega
            rw [List.set_comm _ _ _ hne, hvi, hvj]
            exact perm_swap_set a _ _ hjl hil hgt
        · rw [if_neg hj0] at hj; simp at hj
      · rw [if_neg hi0] at hi; simp at hi

theorem partitionSearch_perm (a : List (Option Particle)) (N i : Int) :
    ∀ (fuel : Nat) (j : Int) (a' : List (Option Particle)),
      partitionSearch a N i fuel j = some a' → a'.Perm a := by
  intro fuel
  induction fuel with
  | zero => intro j a' h; simp [partitionSearch] at h
  | succ fuel ih =>
    intro j a' h
    rw [partitionSearch] at h
    cases hd : deref a (N - 1 - j) with
    | none => rw [hd] at h; simp at h
    | some q =>
      rw [hd] at h
      simp only [] at h
      split_ifs at h
      · exact swapSlots_perm a a' _ _ h
      · exact ih _ a' h

theorem partitionLoop_perm (N M : Int) (inner : Nat) :
    ∀ (fuel : Nat) (a : List (Option Particle)) (i counter : Int)
      (a' : List (Option Particle)),
      partitionLoop N M inner fuel a i counter = some a' → a'.Perm a := by
  intro fuel
  induction fuel with
  | zero => intro a i counter a' h; simp [partitionLoop] at h
  | succ fuel ih =>
    intro a i counter a' h
    rw [partitionLoop] at h
    cases ht : partitionTest a M i counter with
    | none => rw [ht] at h; simp at h
    | some b =>
      rw [ht] at h
      cases b with
      | false =>
        simp only [Option.some.injEq] at h
        rw [← h]
      | true =>
        simp only [] at h
        cases hd : deref a (N - 1 - i) with
        | none => rw [hd] at h; simp at h
        | some q =>
          rw [hd] at h
          simp only [] at h
          split_ifs at h
          · cases hs : partitionSearch a N i inner (i + 1) with
            | none => rw [hs] at h; simp at h
            | some a1 =>
              rw [hs] at h
              exact (ih a1 _ _ a' h).trans (partitionSearch_perm a N i inner _ a1 hs)
          · exact ih a _ _ a' h

theorem bubblePass_perm : ∀ (n : Nat) (a : List (Option Particle)) (i : Int) (b : Bool)
    (r : List (Option Particle) × Bool), bubblePass n a i b = some r → r.1.Perm a := by
  intro n
  induction n with
  | zero =>
    intro a i b r h
    simp only [bubblePass, Option.some.injEq] at h
    rw [← h]
  | succ n ih =>
    intro a i b r h
    rw [bubblePass] at h
    cases h1 : readSlot a i with
    | none => rw [h1] at h; simp at h
    | some v1 =>
      rw [h1] at h
      cases v1 with
      | none => exact ih a _ _ r h
      | some pi =>
        simp only [] at h
        cases h2 : readSlot a (i - 1) with
        | none => rw [h2] at h; simp at h
        | some v2 =>
          rw [h2] at h
          cases v2 with
          | none => exact ih a _ _ r h
          | some pj =>
            simp only [] at h
            split_ifs at h
            · cases hs : swapSlots a i (i - 1) with
              | none => rw [hs] at h; simp at h
              | some a1 =>
                rw [hs] at h
                exact (ih a1 _ _ r h).trans (swapSlots_perm a a1 _ _ hs)
            · exact ih a _ _ r h

theorem bubbleLoop_perm (top low : Int) : ∀ (fuel : Nat) (a : List (Option Particle))
    (l : Int) (a' : List (Option Particle)),
    bubbleLoop top low fuel a l = some a' → a'.Perm a := by
  intro fuel
  induction fuel with
  | zero => intro a l a' h; simp [bubbleLoop] at h
  | succ fuel ih =>
    intro a l a' h
    rw [bubbleLoop] at h
    cases hp : bubblePass (top - l - low).toNat a (top - l) true with
    | none => rw [hp] at h; simp at h
    | some r =>
      rw [hp] at h
      obtain ⟨a1, b⟩ := r
      have h1 := bubblePass_perm _ a _ _ _ hp
      cases b with
      | true =>
        simp only [Option.some.injEq] at h
        rw [← h]
        exact h1
      | false =>
        simp only [] at h
        exact (ih a1 _ a' h).trans h1

end ChargeGame

namespace ChargeGame

theorem shape_of_slotsInUse : ∀ (N : Nat) (a : List (Option Particle)), slotsInUse a N →
    ∃ (ps : List Particle) (rest : List (Option Particle)),
      a = ps.map some ++ rest ∧ ps.length = N := by
  intro N
  induction N with
  | zero => intro a _; exact ⟨[], a, rfl, rfl⟩
  | succ N ih =>
    intro a h
    obtain ⟨q, hq⟩ := h 0 (by omega)
    cases a with
    | nil => simp at hq
    | cons u t =>
      simp only [List.getElem?_cons_zero, Option.some.injEq] at hq
      subst hq
      have ht : slotsInUse t N := by
        intro k hk
        obtain ⟨r, hr⟩ := h (k + 1) (by omega)
        exact ⟨r, by simpa using hr⟩
      obtain ⟨ps, rest, hps, hlen⟩ := ih t ht
      exact ⟨q :: ps, rest, by simp [hps], by simp [hlen]⟩

theorem perm_of_map_some {α : Type} (l1 l2 : List α)
    (h : (l1.map some).Perm (l2.map some)) : l1.Perm l2 := by
  have := h.filterMap id
  simpa [List.filterMap_map] using this

theorem organize_store (g : Game) (ps : List Particle) (rest : List (Option Particle))
    (fuel : Nat) (harr : g.gParticleArray = ps.map some ++ rest)
    (hN : g.gNumberOfParticle = (ps.length : Int))
    (hM : g.gNumberOfMovingParticle = ((ps.countP (fun q => q.moving) : Nat) : Int))
    (hfuel : ps.length < fuel) :
    ∃ ps' : List Particle, organizeParticleBlitering fuel g
        = some { g with gParticleArray := ps'.map some ++ rest } ∧
      ps'.Perm ps ∧
      ∀ (k : Nat) (hk : k < ps'.length),
        ((ps'.get ⟨k, hk⟩).moving = true ↔ ps.length - ps.countP (fun q => q.moving) ≤ k) := by
  have hcount : countBelow (movingAt (ps.map some ++ rest)) ps.length =
      ps.countP (fun q => q.moving) := by
    rw [countBelow_movingAt_map_some ps rest ps.length (le_refl _), List.take_length]
  obtain ⟨a1, a2, a3, h1, h2, h3, hN3, hlen3, hrest3, hF3⟩ :=
    organize_phases (ps.map some ++ rest) ps.length (ps.countP (fun q => q.moving)) fuel hfuel
      (slotsInUse_map_some ps rest) hcount
  have hperm : a3.Perm (ps.map some ++ rest) :=
    ((bubbleLoop_perm _ _ _ _ _ _ h3).trans (bubbleLoop_perm _ _ _ _ _ _ h2)).trans
      (partitionLoop_perm _ _ _ _ _ _ _ _ h1)
  obtain ⟨ps', rest', hshape, hlen'⟩ := shape_of_slotsInUse ps.length a3 hN3
  have hrest : rest' = rest := by
    apply List.ext_getElem?
    intro k
    have e1 := hrest3 (ps.length + k) (by omega)
    rw [hshape, List.getElem?_append_right (by simp [hlen']),
      List.getElem?_append_right (by simp)] at e1
    simpa [hlen'] using e1
  subst hrest
  refine ⟨ps', ?_, ?_, ?_⟩
  · unfold organizeParticleBlitering
    simp only []
    rw [harr, hN, hM, h1]
    simp only []
    rw [h2]
    simp only []
    rw [h3, hshape]
  · rw [hshape] at hperm
    exact perm_of_map_some _ _ ((List.perm_append_right_iff _).mp hperm)
  · intro k hk
    have hk' : k < ps.length := by omega
    have := hF3 k hk'
    unfold movingAt at this
    rw [hshape, List.getElem?_append_left (by simpa using hk)] at this
    simp only [List.getElem?_map, List.getElem?_eq_getElem hk, Option.map_some'] at this
    rw [show ps'.get ⟨k, hk⟩ = ps'[k] from rfl, this]
    simp

end ChargeGame

/-! ## What collision resolution and integration leave alone -/

namespace ChargeGame

theorem collisionsWall_frame (r : Nat) (w : Wall) (p : Particle) :
    (collisionsWall r w p).addr = p.addr ∧ (collisionsWall r w p).moving = p.moving ∧
      (collisionsWall r w p).goal = p.goal ∧
      (collisionsWall r w p).modifiable = p.modifiable := by
  unfold collisionsWall wallBottom wallTop wallRight wallLeft
  split_ifs <;> exact ⟨rfl, rfl, rfl, rfl⟩

theorem collisionsGoal_frame (g : Game) (p : Particle) :
    (collisionsGoal g p).addr = p.addr ∧ (collisionsGoal g p).moving = p.moving ∧
      (collisionsGoal g p).goal = p.goal ∧
      (collisionsGoal g p).modifiable = p.modifiable := by
  unfold collisionsGoal goalBottom goalTop goalRight goalLeft
  split_ifs <;> exact ⟨rfl, rfl, rfl, rfl⟩

theorem collisionsLimits_frame (g : Game) (p : Particle) :
    (collisionsLimits g p).addr = p.addr ∧ (collisionsLimits g p).moving = p.moving ∧
      (collisionsLimits g p).goal = p.goal ∧
      (collisionsLimits g p).modifiable = p.modifiable := by
  unfold collisionsLimits limitTop limitBottom limitLeft limitRight
  split_ifs <;> exact ⟨rfl, rfl, rfl, rfl⟩

theorem foldl_collisionsWall_frame (r : Nat) : ∀ (ws : List Wall) (p : Particle),
    (ws.foldl (fun q w => collisionsWall r w q) p).addr = p.addr ∧
      (ws.foldl (fun q w => collisionsWall r w q) p).moving = p.moving ∧
      (ws.foldl (fun q w => collisionsWall r w q) p).goal = p.goal ∧
      (ws.foldl (fun q w => collisionsWall r w q) p).modifiable = p.modifiable := by
  intro ws
  induction ws with
  | nil => intro p; exact ⟨rfl, rfl, rfl, rfl⟩
  | cons w ws ih =>
    intro p
    obtain ⟨h1, h2, h3, h4⟩ := ih (collisionsWall r w p)
    obtain ⟨e1, e2, e3, e4⟩ := collisionsWall_frame r w p
    exact ⟨h1.trans e1, h2.trans e2, h3.trans e3, h4.trans e4⟩

theorem collisions_frame (g : Game) (ws : List Wall) (wrest : List (Option Wall))
    (hwalls : g.gWallArray = ws.map some ++ wrest)
    (hNW : g.gNumberOfWall = (ws.length : Int)) (p : Particle) :
    ∃ p', collisions g p = some p' ∧ p'.addr = p.addr ∧ p'.moving = p.moving ∧
      p'.goal = p.goal ∧ p'.modifiable = p.modifiable := by
  refine ⟨_, collisions_eq g ws wrest hwalls hNW p, ?_⟩
  obtain ⟨l1, l2, l3, l4⟩ := collisionsLimits_frame g
    (if (ws.foldl (fun q w => collisionsWall g.gParticleRadius w q) p).moving = false ∨
          (g.gCreativeMode ≠ 0 ∧ g.gPlay = 0)
       then collisionsGoal g (ws.foldl (fun q w => collisionsWall g.gParticleRadius w q) p)
       else ws.foldl (fun q w => collisionsWall g.gParticleRadius w q) p)
  obtain ⟨f1, f2, f3, f4⟩ := foldl_collisionsWall_frame g.gParticleRadius ws p
  obtain ⟨g1, g2, g3, g4⟩ := collisionsGoal_frame g
    (ws.foldl (fun q w => collisionsWall g.gParticleRadius w q) p)
  rw [l1, l2, l3, l4]
  split_ifs
  · exact ⟨g1.trans f1, g2.trans f2, g3.trans f3, g4.trans f4⟩
  · exact ⟨f1, f2, f3, f4⟩

theorem integrate_frame (sqrt : ℚ → ℚ) (g : Game) (p p1 : Particle)
    (h : integrate sqrt g p = some p1) :
    p1.addr = p.addr ∧ p1.moving = p.moving ∧ p1.goal = p.goal ∧
      p1.modifiable = p.modifiable := by
  unfold integrate at h
  cases hacc : getAcceleration sqrt g p with
  | none => rw [hacc] at h; simp at h
  | some acc =>
    rw [hacc] at h
    simp only [Option.some.injEq] at h
    rw [← h]
    split_ifs <;> exact ⟨rfl, rfl, rfl, rfl⟩

theorem integrateAndCollide_frame (sqrt : ℚ → ℚ) (g : Game) (ps : List Particle)
    (rest : List (Option Particle)) (ws : List Wall) (wrest : List (Option Wall))
    (harr : g.gParticleArray = ps.map some ++ rest)
    (hN : g.gNumberOfParticle = (ps.length : Int))
    (hwalls : g.gWallArray = ws.map some ++ wrest)
    (hNW : g.gNumberOfWall = (ws.length : Int)) (p : Particle) :
    ∃ p', integrateAndCollide sqrt g p = some p' ∧ p'.addr = p.addr ∧ p'.moving = p.moving ∧
      p'.goal = p.goal ∧ p'.modifiable = p.modifiable := by
  obtain ⟨p1, h1, -⟩ := integrate_speed sqrt g ps rest p harr hN
  obtain ⟨i1, i2, i3, i4⟩ := integrate_frame sqrt g p p1 h1
  obtain ⟨p2, h2, c1, c2, c3, c4⟩ := collisions_frame g ws wrest hwalls hNW p1
  refine ⟨p2, ?_, c1.trans i1, c2.trans i2, c3.trans i3, c4.trans i4⟩
  rw [integrateAndCollide_eq_bind, h1]
  exact h2

end ChargeGame

/-! ## Writing to a slot of the store -/

namespace ChargeGame

theorem writeSlot_natCast {α : Type} (a : List (Option α)) (k : Nat) (v : Option α) :
    writeSlot a (k : Int) v = a.set k v := by
  unfold writeSlot
  simp

theorem set_map_some_append (ps : List Particle) (rest : List (Option Particle)) (k : Nat)
    (hk : k < ps.length) (q : Particle) :
    (ps.map some ++ rest).set k (some q) = (ps.set k q).map some ++ rest := by
  rw [List.set_append_left _ _ (by simpa using hk), List.map_set]

theorem countP_set (f : Particle → Bool) : ∀ (ps : List Particle) (k : Nat)
    (hk : k < ps.length) (q : Particle),
    (ps.set k q).countP f + (if f (ps.get ⟨k, hk⟩) = true then 1 else 0)
      = ps.countP f + (if f q = true then 1 else 0) := by
  intro ps
  induction ps with
  | nil => intro k hk; simp at hk
  | cons u t ih =>
    intro k hk q
    cases k with
    | zero =>
      simp only [List.set_cons_zero, List.countP_cons, List.get_eq_getElem,
        List.getElem_cons_zero]
      omega
    | succ k =>
      have hk' : k < t.length := by simpa using hk
      have := ih k hk' q
      simp only [List.set_cons_succ, List.countP_cons, List.get_eq_getElem,
        List.getElem_cons_succ] at this ⊢
      omega

theorem map_set_of_eq {β : Type} (f : Particle → β) (ps : List Particle) (k : Nat)
    (hk : k < ps.length) (q : Particle) (h : f q = f (ps.get ⟨k, hk⟩)) :
    (ps.set k q).map f = ps.map f := by
  rw [List.map_set, h]
  have e : f (ps.get ⟨k, hk⟩) = (ps.map f).get ⟨k, by simpa using hk⟩ := by simp
  rw [e]
  exact set_get_self _ _ _

theorem flagged_set (ps : List Particle) (k : Nat) (hk : k < ps.length) (q : Particle)
    (haddr : q.addr = (ps.get ⟨k, hk⟩).addr)
    (hgoal : (ps.get ⟨k, hk⟩).goal = true → q.goal = true) (x : Nat)
    (h : flagged ps x) : flagged (ps.set k q) x := by
  obtain ⟨q0, hq0, hx, hg⟩ := h
  obtain ⟨j, hj, hj2⟩ := List.mem_iff_getElem.mp hq0
  by_cases hjk : j = k
  · subst hjk
    refine ⟨q, ?_, ?_, ?_⟩
    · exact List.mem_iff_getElem.mpr ⟨j, by simpa using hj, by simp⟩
    · rw [haddr, ← hx, ← hj2]; rfl
    · apply hgoal
      rw [← hg, ← hj2]; rfl
  · refine ⟨q0, ?_, hx, hg⟩
    refine List.mem_iff_getElem.mpr ⟨j, by simpa using hj, ?_⟩
    rw [List.getElem_set_ne (by omega)]
    exact hj2

theorem flagged_perm (ps ps' : List Particle) (h : ps'.Perm ps) (x : Nat)
    (hf : flagged ps x) : flagged ps' x := by
  obtain ⟨q, hq, hx, hg⟩ := hf
  exact ⟨q, h.mem_iff.mpr hq, hx, hg⟩

theorem findSlot_of_mem (rest : List (Option Particle)) (x : Nat) :
    ∀ (ps : List Particle), (∃ q ∈ ps, q.addr = x) →
      ∃ (k : Nat) (q : Particle) (hk : k < ps.length),
        findSlot (ps.map some ++ rest) x = some (k, q) ∧ ps.get ⟨k, hk⟩ = q ∧ q.addr = x := by
  intro ps
  induction ps with
  | nil => intro h; obtain ⟨q, hq, -⟩ := h; simp at hq
  | cons u t ih =>
    intro h
    by_cases hu : u.addr = x
    · refine ⟨0, u, by simp, ?_, rfl, hu⟩
      simp [findSlot, hu]
    · have ht : ∃ q ∈ t, q.addr = x := by
        obtain ⟨q, hq, hx⟩ := h
        rcases List.mem_cons.mp hq with e | e
        · rw [e] at hx; exact absurd hx hu
        · exact ⟨q, e, hx⟩
      obtain ⟨k, q, hk, h1, h2, h3⟩ := ih ht
      refine ⟨k + 1, q, by simpa using hk, ?_, by simpa using h2, h3⟩
      simp [findSlot, hu, h1]

end ChargeGame

/-! ## The file written by `saveLevel` -/

namespace ChargeGame

theorem deref_map_some_append {α : Type} (ps : List α) (rest : List (Option α)) (k : Nat)
    (hk : k < ps.length) :
    deref (ps.map some ++ rest) (k : Int) = some (ps.get ⟨k, hk⟩) := by
  unfold deref
  rw [readSlot_map_some_append ps rest k hk]

theorem drop_take_succ {α : Type} (l : List α) (i n : Nat) (hi : i < l.length) :
    (l.drop i).take (n + 1) = l.get ⟨i, hi⟩ :: (l.drop (i + 1)).take n := by
  rw [List.drop_eq_getElem_cons hi, List.take_succ_cons]
  rfl

theorem saveMoving_eq (ps : List Particle) (rest : List (Option Particle)) :
    ∀ (n i : Nat), i + n ≤ ps.length →
      saveMoving (ps.map some ++ rest) n (i : Int) = some (movingLines ((ps.drop i).take n)) := by
  intro n
  induction n with
  | zero => intro i _; simp [saveMoving, movingLines]
  | succ n ih =>
    intro i h
    have hi : i < ps.length := by omega
    have hcast : ((i : Int) + 1) = ((i + 1 : Nat) : Int) := by push_cast; rfl
    rw [saveMoving, deref_map_some_append ps rest i hi]
    simp only []
    rw [hcast, ih (i + 1) (by omega), drop_take_succ ps i n hi]
    rfl

theorem saveNonMoving_eq (c : Nat) (ps : List Particle) (rest : List (Option Particle)) :
    ∀ (n i : Nat), i + n ≤ ps.length →
      saveNonMoving c (ps.map some ++ rest) n (i : Int)
        = some (nonMovingLines c ((ps.drop i).take n)) := by
  intro n
  induction n with
  | zero => intro i _; simp [saveNonMoving, nonMovingLines]
  | succ n ih =>
    intro i h
    have hi : i < ps.length := by omega
    have hcast : ((i : Int) + 1) = ((i + 1 : Nat) : Int) := by push_cast; rfl
    rw [saveNonMoving, deref_map_some_append ps rest i hi]
    simp only []
    rw [hcast, ih (i + 1) (by omega), drop_take_succ ps i n hi]
    rfl

theorem saveWalls_eq (ws : List Wall) (wrest : List (Option Wall)) :
    ∀ (n i : Nat), i + n ≤ ws.length →
      saveWalls (ws.map some ++ wrest) n (i : Int) = some (wallLines ((ws.drop i).take n)) := by
  intro n
  induction n with
  | zero => intro i _; simp [saveWalls, wallLines]
  | succ n ih =>
    intro i h
    have hi : i < ws.length := by omega
    have hcast : ((i : Int) + 1) = ((i + 1 : Nat) : Int) := by push_cast; rfl
    rw [saveWalls, deref_map_some_append ws wrest i hi]
    simp only []
    rw [hcast, ih (i + 1) (by omega), drop_take_succ ws i n hi]
    rfl

theorem saveLevelData_isSome (g : Game) (ps : List Particle) (rest : List (Option Particle))
    (ws : List Wall) (wrest : List (Option Wall)) (m : Nat) (hm : m ≤ ps.length)
    (harr : g.gParticleArray = ps.map some ++ rest)
    (hN : g.gNumberOfParticle = (ps.length : Int))
    (hM : g.gNumberOfMovingParticle = (m : Int))
    (hwalls : g.gWallArray = ws.map some ++ wrest)
    (hNW : g.gNumberOfWall = (ws.length : Int)) :
    ∃ header, saveLevelData g
      = some (header ++ movingLines (ps.drop (ps.length - m))
          ++ nonMovingLines g.gCreativeMode (ps.take (ps.length - m)) ++ wallLines ws) ∧
      header = (if g.gCreativeMode ≠ 0 then [-1, -1, -1]
          else [g.gLevelHighScores.getD 0 0, g.gLevelHighScores.getD 1 0,
            g.gLevelHighScores.getD 2 0])
        ++ [g.gPositionGoal.x, g.gPositionGoal.y, g.gPositionGoal.w, g.gPositionGoal.h]
        ++ (if g.gCreativeMode ≠ 0 then [(m : Int), (ps.length : Int) - m, (ws.length : Int)]
          else [(m : Int), toInt32 (toUint32 ((g.gNumberOfparticlesInTheLevel : Int) - m)),
            (ws.length : Int)]) := by
  refine ⟨_, ?_, rfl⟩
  have e1 : ((ps.length : Int) - ((ps.length : Int) - (m : Int))).toNat = m := by omega
  have e2 : ((ps.length : Int) - (m : Int)).toNat = ps.length - m := by omega
  have e3 : ((ps.length : Int) - (m : Int)) = ((ps.length - m : Nat) : Int) := by omega
  have h1 := saveMoving_eq ps rest m (ps.length - m) (by omega)
  have h2 := saveNonMoving_eq g.gCreativeMode ps rest (ps.length - m) 0 (by omega)
  have h3 := saveWalls_eq ws wrest ws.length 0 (by omega)
  have t1 : (ps.drop (ps.length - m)).take m = ps.drop (ps.length - m) := by
    apply List.take_of_length_le
    simp
    omega
  have t3 : (ws.drop 0).take ws.length = ws := by simp
  rw [t1] at h1
  rw [List.drop_zero] at h2
  rw [t3] at h3
  unfold saveLevelData
  simp only []
  rw [harr, hN, hM, hwalls, hNW, e1, e2, Int.toNat_ofNat, e3, h1]
  simp only [Nat.cast_zero] at h2 h3
  rw [h2, h3]

end ChargeGame

/-! ## Goal detection: the steps of a tick -/

namespace ChargeGame

theorem tickStep_refl (g : Game) (ps : List Particle) (h : playState g ps)
    (hc : g.gNumberOfParticlesOnGoal = ((ps.countP (fun q => q.goal) : Nat) : Int)) :
    tickStep g ps g ps 0 := by
  refine ⟨h, hc, List.Perm.refl _, fun _ hx => hx, le_refl _, rfl, ?_⟩
  rw [if_neg (by omega)]

theorem tickStep_trans (g g1 g2 : Game) (ps ps1 ps2 : List Particle) (n1 n2 : Nat)
    (h1 : tickStep g ps g1 ps1 n1) (h2 : tickStep g1 ps1 g2 ps2 n2) :
    tickStep g ps g2 ps2 (n1 + n2) := by
  obtain ⟨-, -, a1, f1, c1, m1, e1⟩ := h1
  obtain ⟨p2, k2, a2, f2, c2, m2, e2⟩ := h2
  refine ⟨p2, k2, a2.trans a1, fun x hx => f2 x (f1 x hx), le_trans c1 c2, m2.trans m1, ?_⟩
  rw [e1, e2, m1]
  split_ifs <;> omega

theorem playState_set (g : Game) (ps : List Particle) (h : playState g ps) (k : Nat)
    (hk : k < ps.length) (q : Particle) (haddr : q.addr = (ps.get ⟨k, hk⟩).addr)
    (hmov : q.moving = (ps.get ⟨k, hk⟩).moving) :
    playState { g with gParticleArray := g.gParticleArray.set k (some q) } (ps.set k q) := by
  obtain ⟨⟨rest, harr⟩, hN, hw, hM, hd, hcr⟩ := h
  refine ⟨⟨rest, ?_⟩, ?_, hw, ?_, ?_, hcr⟩
  · show g.gParticleArray.set k (some q) = _
    rw [harr, set_map_some_append ps rest k hk q]
  · show g.gNumberOfParticle = _
    rw [hN]; simp
  · show g.gNumberOfMovingParticle = _
    rw [hM]
    have := countP_set (fun q => q.moving) ps k hk q
    simp only [hmov] at this
    congr 1
    omega
  · intro x hx
    obtain ⟨q0, hq0, hq1⟩ := hd x hx
    have hmem : x ∈ (ps.set k q).map Particle.addr := by
      rw [map_set_of_eq Particle.addr ps k hk q haddr]
      exact List.mem_map.mpr ⟨q0, hq0, hq1⟩
    obtain ⟨q2, h2, h3⟩ := List.mem_map.mp hmem
    exact ⟨q2, h2, h3⟩

theorem tickStep_set (g : Game) (ps : List Particle) (h : playState g ps)
    (hc : g.gNumberOfParticlesOnGoal = ((ps.countP (fun q => q.goal) : Nat) : Int))
    (k : Nat) (hk : k < ps.length) (q : Particle) (haddr : q.addr = (ps.get ⟨k, hk⟩).addr)
    (hmov : q.moving = (ps.get ⟨k, hk⟩).moving) (hgoal : q.goal = (ps.get ⟨k, hk⟩).goal) :
    tickStep g ps { g with gParticleArray := g.gParticleArray.set k (some q) }
      (ps.set k q) 0 := by
  refine ⟨playState_set g ps h k hk q haddr hmov, ?_, ?_, ?_, le_refl _, rfl, ?_⟩
  · show g.gNumberOfParticlesOnGoal = _
    rw [hc]
    have := countP_set (fun q => q.goal) ps k hk q
    simp only [hgoal] at this
    congr 1
    omega
  · rw [map_set_of_eq Particle.addr ps k hk q haddr]
  · intro x hx
    exact flagged_set ps k hk q haddr (fun e => by rw [hgoal]; exact e) x hx
  · show 0 = if _ ∧ g.gNumberOfMovingParticle ≤ g.gNumberOfParticlesOnGoal then 1 else 0
    rw [if_neg (by omega)]

theorem playState_perm (g : Game) (ps ps' : List Particle) (rest : List (Option Particle))
    (h : playState g ps) (hp : ps'.Perm ps) (g' : Game)
    (harr : g'.gParticleArray = ps'.map some ++ rest)
    (hN : g'.gNumberOfParticle = g.gNumberOfParticle)
    (hM : g'.gNumberOfMovingParticle = g.gNumberOfMovingParticle)
    (hW : g'.gWallArray = g.gWallArray) (hNW : g'.gNumberOfWall = g.gNumberOfWall)
    (hD : g'.gDragedParticle = g.gDragedParticle)
    (hC : g'.gCreativeMode = g.gCreativeMode) : playState g' ps' := by
  obtain ⟨-, hN0, hw, hM0, hd, hcr⟩ := h
  refine ⟨⟨rest, harr⟩, ?_, ?_, ?_, ?_, ?_⟩
  · rw [hN, hN0, hp.length_eq]
  · rw [hW, hNW]; exact hw
  · rw [hM, hM0, hp.countP_eq]
  · intro x hx
    rw [hD] at hx
    obtain ⟨q, hq, hq1⟩ := hd x hx
    exact ⟨q, hp.mem_iff.mpr hq, hq1⟩
  · rw [hC, hcr]

theorem levelFinished_spec (fuel : Nat) (ok : Bool) (g : Game) (ps : List Particle)
    (h : playState g ps) (hfuel : ps.length < fuel) :
    ∃ (g' : Game) (ps' : List Particle) (file : Option (List Int)),
      levelFinished fuel ok g = some (g', file) ∧ playState g' ps' ∧ ps'.Perm ps ∧
      g'.gNumberOfParticlesOnGoal = g.gNumberOfParticlesOnGoal ∧
      g'.gNumberOfMovingParticle = g.gNumberOfMovingParticle := by
  obtain ⟨⟨rest, harr⟩, hN, ⟨ws, wrest, hwalls, hNW⟩, hM, hd, hcr⟩ := id h
  unfold levelFinished
  simp only []
  split_ifs with hr
  · obtain ⟨g1, hg1⟩ : ∃ g1 : Game, g1 = { g with gWin := 1, gLevelHighScores :=
        (updateHighScores g.gLevelHighScores (toInt32 (toUint32
          (g.gNumberOfParticle - (g.gNumberOfparticlesInTheLevel : Int))))).1 } := ⟨_, rfl⟩
    rw [← hg1]
    have a1 : g1.gParticleArray = ps.map some ++ rest := by rw [hg1]; exact harr
    have a2 : g1.gNumberOfParticle = (ps.length : Int) := by rw [hg1]; exact hN
    have a3 : g1.gNumberOfMovingParticle = ((ps.countP (fun q => q.moving) : Nat) : Int) := by
      rw [hg1]; exact hM
    obtain ⟨ps', ho, hperm, -⟩ := organize_store g1 ps rest fuel a1 a2 a3 hfuel
    have hps : playState { g1 with gParticleArray := ps'.map some ++ rest } ps' := by
      apply playState_perm g ps ps' rest h hperm _ rfl
      · rw [hg1]
      · rw [hg1]
      · rw [hg1]
      · rw [hg1]
      · rw [hg1]
      · rw [hg1]
    unfold saveLevel
    rw [ho]
    simp only []
    by_cases hok : ok = true
    · rw [if_pos hok]
      obtain ⟨header, hdata, -⟩ := saveLevelData_isSome
        { g1 with gParticleArray := ps'.map some ++ rest } ps' rest ws wrest
        (ps.countP (fun q => q.moving))
        (by rw [hperm.length_eq]; exact List.countP_le_length _) rfl
        (by show g1.gNumberOfParticle = _; rw [a2, hperm.length_eq])
        (by show g1.gNumberOfMovingParticle = _; rw [a3])
        (by show g1.gWallArray = _; rw [hg1]; exact hwalls)
        (by show g1.gNumberOfWall = _; rw [hg1]; exact hNW)
      rw [hdata]
      refine ⟨_, ps', _, rfl, hps, hperm, ?_, ?_⟩
      · rw [hg1]
      · rw [hg1]
    · rw [if_neg hok]
      refine ⟨_, ps', _, rfl, hps, hperm, ?_, ?_⟩
      · rw [hg1]
      · rw [hg1]
  · refine ⟨_, ps, _, rfl, ?_, List.Perm.refl _, rfl, rfl⟩
    exact playState_perm g ps ps rest h (List.Perm.refl _) _ harr rfl rfl rfl rfl rfl rfl

end ChargeGame

namespace ChargeGame

theorem tickStep_flag (g : Game) (ps : List Particle) (h : playState g ps)
    (hc : g.gNumberOfParticlesOnGoal = ((ps.countP (fun q => q.goal) : Nat) : Int))
    (k : Nat) (hk : k < ps.length) (hgoal : (ps.get ⟨k, hk⟩).goal = false) (q : Particle)
    (haddr : q.addr = (ps.get ⟨k, hk⟩).addr) (hmov : q.moving = (ps.get ⟨k, hk⟩).moving)
    (hq : q.goal = true) :
    tickStep g ps
      { g with gParticleArray := g.gParticleArray.set k (some q),
               gNumberOfParticlesOnGoal := g.gNumberOfParticlesOnGoal + 1 }
      (ps.set k q)
      (if g.gNumberOfParticlesOnGoal + 1 = g.gNumberOfMovingParticle then 1 else 0) := by
  refine ⟨playState_set g ps h k hk q haddr hmov, ?_, ?_, ?_, ?_, rfl, ?_⟩
  · show g.gNumberOfParticlesOnGoal + 1 = _
    rw [hc]
    have := countP_set (fun q => q.goal) ps k hk q
    simp only [hgoal, hq] at this
    simp only [if_true] at this
    rw [if_neg (by simp)] at this
    omega
  · rw [map_set_of_eq Particle.addr ps k hk q haddr]
  · intro x hx
    exact flagged_set ps k hk q haddr (fun _ => hq) x hx
  · show g.gNumberOfParticlesOnGoal ≤ g.gNumberOfParticlesOnGoal + 1
    omega
  · show _ = if _ ∧ g.gNumberOfMovingParticle ≤ g.gNumberOfParticlesOnGoal + 1 then 1 else 0
    split_ifs <;> omega

theorem tickStep_levelFinished (g g1 g2 : Game) (ps ps1 ps2 : List Particle) (n : Nat)
    (h : tickStep g ps g1 ps1 n) (hps : playState g2 ps2) (hperm : ps2.Perm ps1)
    (hc : g2.gNumberOfParticlesOnGoal = g1.gNumberOfParticlesOnGoal)
    (hM : g2.gNumberOfMovingParticle = g1.gNumberOfMovingParticle) :
    tickStep g ps g2 ps2 n := by
  obtain ⟨-, k1, a1, f1, c1, m1, e1⟩ := h
  refine ⟨hps, ?_, (hperm.map _).trans a1, fun x hx => flagged_perm ps1 ps2 hperm x (f1 x hx),
    ?_, hM.trans m1, ?_⟩
  · rw [hc, k1, hperm.countP_eq]
  · rw [hc]; exact c1
  · rw [hc]; exact e1

theorem onGoal_spec (fuel : Nat) (ok : Bool) (g : Game) (ps : List Particle)
    (h : playState g ps)
    (hc : g.gNumberOfParticlesOnGoal = ((ps.countP (fun q => q.goal) : Nat) : Int))
    (hfuel : ps.length < fuel) (i : Nat) (hi : i < ps.length)
    (hgoal : (ps.get ⟨i, hi⟩).goal = false) :
    ∃ (g' : Game) (ps' : List Particle) (out : List (Option (List Int))),
      onGoal fuel ok g (i : Int) = some (g', out) ∧ tickStep g ps g' ps' out.length := by
  obtain ⟨⟨rest, harr⟩, hN, hw, hM, hd, hcr⟩ := id h
  unfold onGoal
  rw [harr, deref_map_some_append ps rest i hi]
  simp only []
  split_ifs with hhit hfin
  · have hstep := tickStep_flag g ps h hc i hi hgoal
      { ps.get ⟨i, hi⟩ with goal := true } rfl rfl rfl
    rw [harr] at hstep
    rw [writeSlot_natCast]
    obtain ⟨g1, hg1⟩ : ∃ g1 : Game, g1 = { g with
        gParticleArray := (ps.map some ++ rest).set i (some { ps.get ⟨i, hi⟩ with goal := true }),
        gNumberOfParticlesOnGoal := g.gNumberOfParticlesOnGoal + 1 } := ⟨_, rfl⟩
    rw [← hg1] at hstep ⊢
    have hlen : (ps.set i { ps.get ⟨i, hi⟩ with goal := true }).length < fuel := by
      simpa using hfuel
    obtain ⟨g2, ps2, file, hlf, hps2, hperm, hc2, hM2⟩ :=
      levelFinished_spec fuel ok g1 _ hstep.1 hlen
    rw [hlf]
    refine ⟨g2, ps2, [file], rfl, ?_⟩
    have hone : g.gNumberOfParticlesOnGoal + 1 = g.gNumberOfMovingParticle := by
      exact hfin.2
    rw [if_pos hone] at hstep
    exact tickStep_levelFinished g g1 g2 ps _ ps2 1 hstep hps2 hperm hc2 hM2
  · have hstep := tickStep_flag g ps h hc i hi hgoal
      { ps.get ⟨i, hi⟩ with goal := true } rfl rfl rfl
    rw [harr] at hstep
    rw [writeSlot_natCast]
    refine ⟨_, ps.set i { ps.get ⟨i, hi⟩ with goal := true }, [], rfl, ?_⟩
    have hne : ¬ g.gNumberOfParticlesOnGoal + 1 = g.gNumberOfMovingParticle := by
      intro e
      exact hfin ⟨hcr, e⟩
    rw [if_neg hne] at hstep
    exact hstep
  · exact ⟨g, ps, [], rfl, tickStep_refl g ps h hc⟩

theorem moveParticle_spec (g : Game) (ps : List Particle) (h : playState g ps)
    (hc : g.gNumberOfParticlesOnGoal = ((ps.countP (fun q => q.goal) : Nat) : Int)) :
    ∃ (g' : Game) (ps' : List Particle),
      moveParticle g = some g' ∧ tickStep g ps g' ps' 0 ∧ g'.gPlay = g.gPlay ∧
      ps'.length = ps.length := by
  obtain ⟨⟨rest, harr⟩, hN, ⟨ws, wrest, hwalls, hNW⟩, hM, hd, hcr⟩ := id h
  unfold moveParticle
  cases hdr : g.gDragedParticle with
  | none => exact ⟨g, ps, rfl, tickStep_refl g ps h hc, rfl, rfl⟩
  | some x =>
    obtain ⟨k, q, hk, hfind, hget, -⟩ := findSlot_of_mem rest x ps (hd x hdr)
    simp only []
    rw [harr, hfind]
    simp only []
    split_ifs
    · obtain ⟨q1, hq1, f1, f2, f3, -⟩ := collisions_frame g ws wrest hwalls hNW
        { q with
          xCoord := (toUint32 (g.gPositionCursor.x + (g.gShiftPickedParticleX : Int)) : ℚ),
          yCoord := (toUint32 (g.gPositionCursor.y + (g.gShiftPickedParticleY : Int)) : ℚ) }
      rw [hq1]
      have hstep := tickStep_set g ps h hc k hk q1 (by rw [f1, hget]) (by rw [f2, hget])
        (by rw [f3, hget])
      rw [harr] at hstep
      rw [hdr] at hstep
      exact ⟨_, ps.set k q1, rfl, hstep, rfl, by simp⟩
    · exact ⟨g, ps, rfl, tickStep_refl g ps h hc, rfl, rfl⟩

end ChargeGame

/-! ## Goal detection: a tick and a run -/

namespace ChargeGame

theorem tickStep_length (g g' : Game) (ps ps' : List Particle) (n : Nat)
    (h : tickStep g ps g' ps' n) : ps'.length = ps.length := by
  have := h.2.2.1.length_eq
  simpa using this

theorem movementLoop_spec (sqrt : ℚ → ℚ) (fuel : Nat) (ok : Bool) :
    ∀ (n i budget : Nat) (g : Game) (ps : List Particle) (calls : List (Option (List Int))),
      i + n = ps.length → n < budget → ps.length < fuel → playState g ps →
      g.gNumberOfParticlesOnGoal = ((ps.countP (fun q => q.goal) : Nat) : Int) →
      ∃ (g' : Game) (ps' : List Particle) (new : List (Option (List Int))),
        movementLoop sqrt fuel ok budget g (i : Int) calls = some (g', calls ++ new) ∧
        tickStep g ps g' ps' new.length := by
  intro n
  induction n with
  | zero =>
    intro i budget g ps calls hin hb hfuel h hc
    obtain ⟨b, rfl⟩ : ∃ b, budget = b + 1 := ⟨budget - 1, by omega⟩
    have hN := h.2.1
    rw [movementLoop, if_neg (by rw [hN]; omega)]
    exact ⟨g, ps, [], by simp, tickStep_refl g ps h hc⟩
  | succ n ih =>
    intro i budget g ps calls hin hb hfuel h hc
    obtain ⟨b, rfl⟩ : ∃ b, budget = b + 1 := ⟨budget - 1, by omega⟩
    obtain ⟨⟨rest, harr⟩, hN, ⟨ws, wrest, hwalls, hNW⟩, hM, hd, hcr⟩ := id h
    have hi : i < ps.length := by omega
    have hcast : ((i : Int) + 1) = ((i + 1 : Nat) : Int) := by push_cast; rfl
    have hread : readSlot g.gParticleArray (i : Int) = some (some (ps.get ⟨i, hi⟩)) := by
      rw [harr]; exact readSlot_map_some_append ps rest i hi
    rw [movementLoop, if_pos (by rw [hN]; omega), hread]
    simp only []
    by_cases hgoal : (ps.get ⟨i, hi⟩).goal = false
    · rw [if_pos hgoal]
      obtain ⟨p1, hp1, f1, f2, f3, -⟩ := integrateAndCollide_frame sqrt g ps rest ws wrest harr
        hN hwalls hNW (ps.get ⟨i, hi⟩)
      rw [hp1]
      simp only []
      rw [writeSlot_natCast]
      have hstep := tickStep_set g ps h hc i hi p1 f1 f2 f3
      obtain ⟨gw, hgw⟩ : ∃ gw : Game,
        gw = { g with gParticleArray := g.gParticleArray.set i (some p1) } := ⟨_, rfl⟩
      rw [← hgw] at hstep ⊢
      have hlenw : (ps.set i p1).length = ps.length := by simp
      have hgoalw : ((ps.set i p1).get ⟨i, by rw [hlenw]; exact hi⟩).goal = false := by
        simp only [List.get_eq_getElem, List.getElem_set_self]
        rw [f3]; exact hgoal
      obtain ⟨g1, ps1, out, hog, hstep1⟩ := onGoal_spec fuel ok gw (ps.set i p1) hstep.1
        hstep.2.1 (by rw [hlenw]; exact hfuel) i (by rw [hlenw]; exact hi) hgoalw
      rw [hog]
      simp only []
      have hlen1 := tickStep_length gw g1 _ ps1 _ hstep1
      obtain ⟨g', ps', new, hloop, hstep2⟩ := ih (i + 1) b g1 ps1 (calls ++ out)
        (by rw [hlen1, hlenw]; omega) (by omega) (by rw [hlen1, hlenw]; exact hfuel)
        hstep1.1 hstep1.2.1
      rw [hcast, hloop]
      refine ⟨g', ps', out ++ new, by simp, ?_⟩
      have := tickStep_trans g gw g' ps _ ps' 0 (out.length + new.length) hstep
        (tickStep_trans gw g1 g' _ ps1 ps' out.length new.length hstep1 hstep2)
      simpa using this
    · rw [if_neg hgoal, hcast]
      exact ih (i + 1) b g ps calls (by omega) (by omega) hfuel h hc

theorem movementCalculation_spec (sqrt : ℚ → ℚ) (fuel : Nat) (ok : Bool) (g : Game)
    (ps : List Particle) (h : playState g ps)
    (hc : g.gNumberOfParticlesOnGoal = ((ps.countP (fun q => q.goal) : Nat) : Int))
    (hfuel : ps.length < fuel) :
    ∃ (g' : Game) (ps' : List Particle) (calls : List (Option (List Int))),
      movementCalculation sqrt fuel ok g = some (g', calls) ∧
      tickStep g ps g' ps' calls.length := by
  obtain ⟨g1, ps1, hmove, hstep1, -, hlen1⟩ := moveParticle_spec g ps h hc
  unfold movementCalculation
  rw [hmove]
  simp only []
  split_ifs
  · have hN1 := hstep1.1.2.1
    have hM1 := hstep1.1.2.2.2.1
    have hle : ps1.countP (fun q => q.moving) ≤ ps1.length := List.countP_le_length _
    have hstart : g1.gNumberOfParticle - g1.gNumberOfMovingParticle
        = ((ps1.length - ps1.countP (fun q => q.moving) : Nat) : Int) := by
      rw [hN1, hM1]; omega
    rw [hstart]
    obtain ⟨g', ps', new, hloop, hstep2⟩ := movementLoop_spec sqrt fuel ok
      (ps1.countP (fun q => q.moving)) (ps1.length - ps1.countP (fun q => q.moving)) fuel g1 ps1
      [] (by omega) (by omega) (by rw [hlen1]; exact hfuel) hstep1.1 hstep1.2.1
    rw [hloop]
    refine ⟨g', ps', new, by simp, ?_⟩
    have := tickStep_trans g g1 g' ps ps1 ps' 0 new.length hstep1 hstep2
    simpa using this
  · exact ⟨g1, ps1, [], rfl, hstep1⟩

end ChargeGame

namespace ChargeGame

theorem runTicks_spec (sqrt : ℚ → ℚ) (fuel : Nat) :
    ∀ (ticks : List Tick) (g : Game) (ps : List Particle), playState g ps →
      g.gNumberOfParticlesOnGoal = ((ps.countP (fun q => q.goal) : Nat) : Int) →
      ps.length < fuel →
      ∃ (g' : Game) (ps' : List Particle) (calls : List (Option (List Int))),
        runTicks sqrt fuel ticks g = some (g', calls) ∧ tickStep g ps g' ps' calls.length := by
  intro ticks
  induction ticks with
  | nil =>
    intro g ps h hc _
    exact ⟨g, ps, [], rfl, tickStep_refl g ps h hc⟩
  | cons t ts ih =>
    intro g ps h hc hfuel
    obtain ⟨g1, ps1, calls, h1, hstep1⟩ := movementCalculation_spec sqrt fuel t.fopenOk
      { g with gDeltaTime := t.deltaTime,
               gPositionCursor := { g.gPositionCursor with x := t.cursorX, y := t.cursorY } }
      ps h hc hfuel
    have hlen1 := tickStep_length _ g1 ps ps1 _ hstep1
    obtain ⟨g2, ps2, more, h2, hstep2⟩ := ih g1 ps1 hstep1.1 hstep1.2.1
      (by rw [hlen1]; exact hfuel)
    refine ⟨g2, ps2, calls ++ more, ?_, ?_⟩
    · rw [runTicks, h1]
      simp only []
      rw [h2]
    · have hstep0 : tickStep g ps g1 ps1 calls.length := hstep1
      have := tickStep_trans g g1 g2 ps ps1 ps2 _ _ hstep0 hstep2
      simpa using this

theorem runTicks_append (sqrt : ℚ → ℚ) (fuel : Nat) (post : List Tick) :
    ∀ (pre : List Tick) (g g1 g2 : Game) (calls1 calls2 : List (Option (List Int))),
      runTicks sqrt fuel pre g = some (g1, calls1) →
      runTicks sqrt fuel post g1 = some (g2, calls2) →
      runTicks sqrt fuel (pre ++ post) g = some (g2, calls1 ++ calls2) := by
  intro pre
  induction pre with
  | nil =>
    intro g g1 g2 calls1 calls2 h1 h2
    simp only [runTicks, Option.some.injEq, Prod.mk.injEq] at h1
    obtain ⟨e1, e2⟩ := h1
    subst e1 e2
    simpa using h2
  | cons t ts ih =>
    intro g g1 g2 calls1 calls2 h1 h2
    rw [runTicks] at h1
    rw [List.cons_append, runTicks]
    cases hm : movementCalculation sqrt fuel t.fopenOk
      { g with gDeltaTime := t.deltaTime,
               gPositionCursor := { g.gPositionCursor with x := t.cursorX, y := t.cursorY } } with
    | none => rw [hm] at h1; simp at h1
    | some r =>
      obtain ⟨gm, cm⟩ := r
      rw [hm] at h1
      simp only [] at h1 ⊢
      cases hr : runTicks sqrt fuel ts gm with
      | none => rw [hr] at h1; simp at h1
      | some r2 =>
        obtain ⟨gr, cr⟩ := r2
        rw [hr] at h1
        simp only [Option.some.injEq, Prod.mk.injEq] at h1
        obtain ⟨e1, e2⟩ := h1
        subst e1 e2
        rw [ih gm gr g2 cr calls2 hr h2]
        simp

end ChargeGame

/-! ## Saving and loading a level -/

namespace ChargeGame

theorem collisionsGoal_noop_of_outside (g : Game) (p : Particle)
    (hr : 0 ≤ toInt32 (g.gParticleRadius : Int))
    (h : surfaceHitbox g.gPositionGoal p.xCoord p.yCoord (toInt32 (g.gParticleRadius : Int))
      (toInt32 (g.gParticleRadius : Int)) (toInt32 (g.gParticleRadius : Int))
      (toInt32 (g.gParticleRadius : Int)) = false) :
    collisionsGoal g p = p := by
  have h' : ¬ surfaceHitbox g.gPositionGoal p.xCoord p.yCoord
      (toInt32 (g.gParticleRadius : Int)) (toInt32 (g.gParticleRadius : Int))
      (toInt32 (g.gParticleRadius : Int)) (toInt32 (g.gParticleRadius : Int)) = true := by
    rw [h]; simp
  rw [surfaceHitbox_iff] at h'
  by_cases hx : g.gPositionGoal.x - toInt32 (g.gParticleRadius : Int) ≤ truncate p.xCoord ∧
      truncate p.xCoord ≤
        g.gPositionGoal.x + g.gPositionGoal.w + toInt32 (g.gParticleRadius : Int)
  · exact collisionsGoal_noop_of_y g p hr (fun hy => h' ⟨hx, hy⟩)
  · exact collisionsGoal_noop_of_x g p hr hx

theorem collisionsLimits_noop (g : Game) (p : Particle)
    (h1 : (toUint32 (0 + g.gParticleRadius) : ℚ) < p.xCoord)
    (h2 : p.xCoord < (toUint32 (g.screenW - g.gParticleRadius) : ℚ))
    (h3 : (toUint32 (0 + g.gParticleRadius) : ℚ) < p.yCoord)
    (h4 : p.yCoord < (toUint32 (g.backgroundH - g.gParticleRadius) : ℚ)) :
    collisionsLimits g p = p := by
  have e1 : limitRight g p = p := by
    unfold limitRight
    rw [if_neg (fun h => absurd h.2 (not_le.mpr h2))]
  have e2 : limitLeft g p = p := by
    unfold limitLeft
    rw [if_neg (fun h => absurd h.2 (not_le.mpr h1))]
  have e3 : limitBottom g p = p := by
    unfold limitBottom
    rw [if_neg (fun h => absurd h.2 (not_le.mpr h4))]
  have e4 : limitTop g p = p := by
    unfold limitTop
    rw [if_neg (fun h => absurd h.2 (not_le.mpr h3))]
  unfold collisionsLimits
  rw [e1, e2, e3, e4]

end ChargeGame

namespace ChargeGame

theorem set_replicate_none {α : Type} (cur : List α) (k : Nat) (q : α) :
    (cur.map some ++ List.replicate (k + 1) none).set cur.length (some q)
      = (cur ++ [q]).map some ++ List.replicate k none := by
  rw [List.set_append_right _ _ (by simp)]
  simp [List.replicate_succ]

end ChargeGame

namespace ChargeGame

end ChargeGame

namespace ChargeGame

theorem loadedNonMoving_length (alloc : Nat → Nat) : ∀ (st : List Particle) (k : Nat),
    (loadedNonMoving alloc k st).length = st.length := by
  intro st
  induction st with
  | nil => intro k; rfl
  | cons p l ih => intro k; simp [loadedNonMoving, ih]

end ChargeGame

namespace ChargeGame

end ChargeGame

namespace ChargeGame

end ChargeGame

namespace ChargeGame

set_option maxRecDepth 1000000 in
/-- The round trip of `clearLevel` gives its two particles back, the moving one first. -/
theorem roundTrip_clearLevel :
    roundTrip clearLevel = some [some (true, 100, 100, 1), some (false, 400, 300, 2), none] := by
  decide

set_option maxRecDepth 1000000 in
/-- The three further conditions of the round trip, each on a variant of `clearLevel`: a
moving particle of charge 2 is loaded with charge 1; a static particle at x = 801/2 is
loaded at x = 400; a static particle inside the wall, at (605, 420), is loaded at
(590, 420), where `collisions` pushes it when the wall is created. -/
theorem roundTrip_conditions :
    roundTrip { clearLevel with
        gParticleArray := (gameOf [particleAt 1 false 400 300 2, particleAt 2 true 100 100 2]
          1 [] 0).gParticleArray }
      = some [some (true, 100, 100, 1), some (false, 400, 300, 2), none] ∧
    roundTrip { clearLevel with
        gParticleArray := (gameOf [particleAt 1 false (801 / 2) 300 2,
          particleAt 2 true 100 100 1] 1 [] 0).gParticleArray }
      = some [some (true, 100, 100, 1), some (false, 400, 300, 2), none] ∧
    roundTrip { clearLevel with
        gParticleArray := (gameOf [particleAt 1 false 605 420 2, particleAt 2 true 100 100 1]
          1 [] 0).gParticleArray }
      = some [some (true, 100, 100, 1), some (false, 590, 420, 2), none] := by
  refine ⟨?_, ?_, ?_⟩
  · decide!
  · decide!
  · decide!

set_option maxRecDepth 1000000 in
/-- A state that the program reaches in creative mode and in which a particle does not
rest.  In `pushedLevel` the second call of `createWall` pushes the static particle from
(598, 395) to (605, 395), the right side of the second wall; there the top test of the first
wall, which `collisions` had run before, contains it.  `saveLevel` writes (605, 395), and
`loadLevel`, which creates the walls after the particles, returns with the particle at
(605, 390). -/
theorem roundTrip_pushedLevel :
    pushedLevel.map (fun g => (g.gParticleArray.take 2).map (Option.map placement))
      = some [some (false, 605, 395, 2), none] ∧
    pushedLevel.map (fun g =>
        (g.gWallArray.take 3).map (Option.map (fun w => [w.x, w.y, w.w, w.h])))
      = some [some [600, 400, 50, 50], some [500, 393, 95, 50], none] ∧
    pushedLevel.map (fun g => [g.gCreativeMode, g.gPlay]) = some [1, 0] ∧
    pushedLevel.bind roundTrip = some [some (false, 605, 390, 2), none, none] := by
  refine ⟨?_, ?_, ?_, ?_⟩
  · decide!
  · decide!
  · decide!
  · decide!

end ChargeGame

namespace ChargeGame

theorem movementLoop_exit (sqrt : ℚ → ℚ) (fuel : Nat) (ok : Bool) (budget : Nat) (g : Game)
    (i : Int) (calls : List (Option (List Int))) (h : ¬ i < g.gNumberOfParticle) :
    movementLoop sqrt fuel ok (budget + 1) g i calls = some (g, calls) := by
  rw [movementLoop, if_neg h]

theorem movementCalculation_goalLevel_loop :
    movementCalculation sqrtExact 3 true goalLevel
      = movementLoop sqrtExact 3 true 3 goalLevel 1 [] := by
  have hmove : moveParticle goalLevel = some goalLevel := rfl
  have hplay : goalLevel.gPlay ≠ 0 := by decide
  have hstart : goalLevel.gNumberOfParticle - goalLevel.gNumberOfMovingParticle = 1 := rfl
  unfold movementCalculation
  rw [hmove]
  simp only []
  rw [if_pos hplay, hstart]

theorem integrateAndCollide_goalLevel :
    integrateAndCollide sqrtExact goalLevel (particleAt 2 true 350 350 1)
      = some (particleAt 2 true 350 350 1) := by
  have hacc : ∃ acc, getAcceleration sqrtExact goalLevel (particleAt 2 true 350 350 1)
      = some acc :=
    ⟨_, getAcceleration_eq_sums sqrtExact goalLevel
      [particleAt 1 false 100 100 2, particleAt 2 true 350 350 1] _ _ rfl rfl⟩
  have hint : integrate sqrtExact goalLevel (particleAt 2 true 350 350 1)
      = some (particleAt 2 true 350 350 1) := by
    have h := integrateWith_zero_time (fun a b => a / b) sqrtExact goalLevel
      (particleAt 2 true 350 350 1) rfl
    rw [integrateWith_div] at h
    obtain ⟨acc, hacc⟩ := hacc
    rw [h, hacc]
    rfl
  have hcol : collisions goalLevel (particleAt 2 true 350 350 1)
      = some (particleAt 2 true 350 350 1) := by decide
  rw [integrateAndCollide_eq_bind, hint]
  exact hcol

set_option maxRecDepth 1000000 in
theorem onGoal_goalLevel :
    (onGoal 3 true
      { goalLevel with gParticleArray := writeSlot goalLevel.gParticleArray 1 (some (particleAt 2 true 350 350 1)) } 1).map
        (fun r => (r.1.gNumberOfParticle, r.1.gWin, r.1.gNumberOfParticlesOnGoal,
          r.1.gLevelHighScores, r.2.length))
      = some (2, 1, 1, [2, -1, -1], 1) := by
  decide

set_option maxRecDepth 1000000 in
theorem movementLoop_goalLevel :
    movementLoop sqrtExact 3 true 3 goalLevel 1 []
      = match onGoal 3 true { goalLevel with gParticleArray := writeSlot goalLevel.gParticleArray 1 (some (particleAt 2 true 350 350 1)) } 1 with
        | none => none
        | some (g1, new) => movementLoop sqrtExact 3 true 2 g1 2 ([] ++ new) := by
  have hread : readSlot goalLevel.gParticleArray 1
      = some (some (particleAt 2 true 350 350 1)) := by decide
  have hN : (1 : Int) < goalLevel.gNumberOfParticle := by decide
  rw [movementLoop, if_pos hN, hread]
  simp only []
  rw [if_pos (show (particleAt 2 true 350 350 1).goal = false from rfl),
    integrateAndCollide_goalLevel]
  rfl

/-- A tick of `goalLevel` without elapsed time: the moving particle is found on the goal,
the counter reaches `gNumberOfMovingParticle = 1`, and `levelFinished` is called once; it
sets `gWin` and enters the score 2 in the high scores. -/
theorem movementCalculation_goalLevel :
    (movementCalculation sqrtExact 3 true goalLevel).map
        (fun r => (r.1.gWin, r.1.gNumberOfParticlesOnGoal, r.1.gLevelHighScores, r.2.length))
      = some (1, 1, [2, -1, -1], 1) := by
  have hog := onGoal_goalLevel
  rw [movementCalculation_goalLevel_loop, movementLoop_goalLevel]
  cases hr : onGoal 3 true
      { goalLevel with gParticleArray := writeSlot goalLevel.gParticleArray 1 (some (particleAt 2 true 350 350 1)) } 1 with
  | none => rw [hr] at hog; simp at hog
  | some r =>
    obtain ⟨g1, out⟩ := r
    rw [hr] at hog
    simp only [Option.map_some', Option.some.injEq, Prod.mk.injEq] at hog
    obtain ⟨e1, e2, e3, e4, e5⟩ := hog
    simp only []
    rw [movementLoop_exit sqrtExact 3 true 1 g1 2 _ (by rw [e1]; decide)]
    simp only [Option.map_some', List.nil_append, e2, e3, e4, e5]

end ChargeGame

namespace ChargeGame

/-! ## Collision resolution: the unsigned push targets -/

theorem toUint32_of_negative (z : Int) (h0 : z < 0) (h : -4294967296 ≤ z) :
    toUint32 z = z + 4294967296 := by
  unfold toUint32
  omega

/-- C29.  The radius is a `uint32_t`, so the targets of the left and top pushes are computed
modulo `2^32`.  For a wall `w` with `0 ≤ w.x < radius` whose rectangle inflated on the left
by the radius contains a particle with `xSpeed ≥ 0`, the first wall test assigns
`w.x - radius + 2^32` to `xCoord` (and not the negative `w.x - radius`); the same holds for
the goal rectangle, and for the top pushes of a wall or goal with `0 ≤ y < radius` on a
particle with `ySpeed ≥ 0`, which assign `y - radius + 2^32` to `yCoord`. -/
theorem collisions_push_target_wraps (g : Game) (hr : g.gParticleRadius < 4294967296) :
    (∀ (w : Wall) (p : Particle), 0 ≤ w.x → w.x < g.gParticleRadius → p.xSpeed ≥ 0 →
      surfaceHitbox (surfaceTemp w) p.xCoord p.yCoord (toInt32 g.gParticleRadius) 0 0 0 = true →
      (wallLeft g.gParticleRadius w p).xCoord
        = ((w.x - g.gParticleRadius + 4294967296 : Int) : ℚ) ∧
      (wallLeft g.gParticleRadius w p).xCoord ≠ ((w.x - g.gParticleRadius : Int) : ℚ)) ∧
    (∀ p : Particle, 0 ≤ g.gPositionGoal.x → g.gPositionGoal.x < g.gParticleRadius →
      p.xSpeed ≥ 0 →
      surfaceHitbox g.gPositionGoal p.xCoord p.yCoord (toInt32 g.gParticleRadius) 0 0 0 = true →
      (goalLeft g p).xCoord
        = ((g.gPositionGoal.x - g.gParticleRadius + 4294967296 : Int) : ℚ)) ∧
    (∀ (w : Wall) (p : Particle), 0 ≤ w.y → w.y < g.gParticleRadius → p.ySpeed ≥ 0 →
      surfaceHitbox (surfaceTemp w) p.xCoord p.yCoord 0 0 (toInt32 g.gParticleRadius) 0 = true →
      (wallTop g.gParticleRadius w p).yCoord
        = ((w.y - g.gParticleRadius + 4294967296 : Int) : ℚ)) ∧
    (∀ p : Particle, 0 ≤ g.gPositionGoal.y → g.gPositionGoal.y < g.gParticleRadius →
      p.ySpeed ≥ 0 →
      surfaceHitbox g.gPositionGoal p.xCoord p.yCoord 0 0 (toInt32 g.gParticleRadius) 0 = true →
      (goalTop g p).yCoord
        = ((g.gPositionGoal.y - g.gParticleRadius + 4294967296 : Int) : ℚ)) := by
  refine ⟨?_, ?_, ?_, ?_⟩
  · intro w p h0 h1 hs hhit
    have hU := toUint32_of_negative (w.x - g.gParticleRadius) (by omega) (by omega)
    unfold wallLeft
    rw [if_pos ⟨hs, hhit⟩]
    refine ⟨by simp only []; rw [hU], ?_⟩
    simp only []
    rw [hU]
    intro h
    have h' : (w.x - g.gParticleRadius + 4294967296 : Int) = w.x - g.gParticleRadius := by
      exact_mod_cast h
    omega
  · intro p h0 h1 hs hhit
    have hU := toUint32_of_negative (g.gPositionGoal.x - g.gParticleRadius) (by omega) (by omega)
    unfold goalLeft
    rw [if_pos ⟨hs, hhit⟩]
    simp only []
    rw [hU]
  · intro w p h0 h1 hs hhit
    have hU := toUint32_of_negative (w.y - g.gParticleRadius) (by omega) (by omega)
    unfold wallTop
    rw [if_pos ⟨hs, hhit⟩]
    simp only []
    rw [hU]
  · intro p h0 h1 hs hhit
    have hU := toUint32_of_negative (g.gPositionGoal.y - g.gParticleRadius) (by omega) (by omega)
    unfold goalTop
    rw [if_pos ⟨hs, hhit⟩]
    simp only []
    rw [hU]

/-- Witness of C29: radius `10`, a wall with corner `(5, 0)` and a particle at rest at
`(0, 50)`; the first wall test assigns `5 - 10 + 2^32 = 4294967291` to `xCoord`. -/
theorem collisions_push_target_wraps_witness :
    (wallLeft 10 ⟨5, 0, 10, 100⟩ (particleAt 1 true 0 50 1)).xCoord
      = (((5 : Int) - ((10 : Nat) : Int) + 4294967296 : Int) : ℚ) ∧
    (wallLeft 10 ⟨5, 0, 10, 100⟩ (particleAt 1 true 0 50 1)).xCoord
      ≠ (((5 : Int) - ((10 : Nat) : Int) : Int) : ℚ) :=
  (collisions_push_target_wraps (gameOf [] 0 [] 16) (by decide)).1
    ⟨5, 0, 10, 100⟩ (particleAt 1 true 0 50 1) (by decide) (by decide) (by decide) (by decide)

end ChargeGame

namespace ChargeGame

/-! ## Blit ordering: what a call leaves unchanged -/

/-- C27.  For a store whose `N` slots hold the particles `ps` and whose
`gNumberOfMovingParticle` is the number of moving particles among them,
`organizeParticleBlitering` returns (with a loop budget above `N`) and only reorders: the
first `N` slots afterwards hold a permutation `ps'` of the records `ps`, so every particle
is present with all of its fields as before, the slots from `N` on are as before, and
`gNumberOfParticle`, `gNumberOfMovingParticle` and all other globals are unchanged. -/
theorem organizeParticleBlitering_only_reorders (g : Game) (ps : List Particle)
    (rest : List (Option Particle)) (fuel : Nat)
    (harr : g.gParticleArray = ps.map some ++ rest)
    (hN : g.gNumberOfParticle = (ps.length : Int))
    (hM : g.gNumberOfMovingParticle = ((ps.countP (fun q => q.moving) : Nat) : Int))
    (hfuel : ps.length < fuel) :
    ∃ (g' : Game) (ps' : List Particle), organizeParticleBlitering fuel g = some g' ∧
      g'.gParticleArray = ps'.map some ++ rest ∧ ps'.Perm ps ∧
      g'.gNumberOfParticle = g.gNumberOfParticle ∧
      g'.gNumberOfMovingParticle = g.gNumberOfMovingParticle ∧
      g' = { g with gParticleArray := g'.gParticleArray } := by
  obtain ⟨ps', h, hperm, -⟩ := organize_store g ps rest fuel harr hN hM hfuel
  exact ⟨_, ps', h, rfl, hperm, rfl, rfl, rfl⟩

/-- Witness of C27: moving, fixed, moving, fixed particles in slots `0 .. 3`. -/
theorem organizeParticleBlitering_only_reorders_witness :
    ∃ (g' : Game) (ps' : List Particle),
      organizeParticleBlitering 5
        (gameOf [particleAt 1 true 0 3 1, particleAt 2 false 0 2 1, particleAt 3 true 0 1 1,
          particleAt 4 false 0 0 1] 2 [] 16) = some g' ∧
      g'.gParticleArray = ps'.map some ++ List.replicate (gMAX_PARTICLES - 4) none ∧
      ps'.Perm [particleAt 1 true 0 3 1, particleAt 2 false 0 2 1, particleAt 3 true 0 1 1,
          particleAt 4 false 0 0 1] ∧
      g'.gNumberOfParticle = 4 ∧ g'.gNumberOfMovingParticle = 2 ∧
      g' = { gameOf [particleAt 1 true 0 3 1, particleAt 2 false 0 2 1, particleAt 3 true 0 1 1,
          particleAt 4 false 0 0 1] 2 [] 16 with gParticleArray := g'.gParticleArray } :=
  organizeParticleBlitering_only_reorders
    (gameOf [particleAt 1 true 0 3 1, particleAt 2 false 0 2 1, particleAt 3 true 0 1 1,
      particleAt 4 false 0 0 1] 2 [] 16)
    [particleAt 1 true 0 3 1, particleAt 2 false 0 2 1, particleAt 3 true 0 1 1,
      particleAt 4 false 0 0 1] _ 5 rfl rfl rfl (by decide)

end ChargeGame

namespace ChargeGame

/-! ## Forces: the sign convention -/

theorem getAcceleration_eq_clamp_accelerationBeforeClamp (sqrt : ℚ → ℚ) (g : Game)
    (p : Particle) :
    getAcceleration sqrt g p = (accelerationBeforeClamp sqrt g p).map
      (fun a => (clamp a.1 gMAX_ACCELERATION, clamp a.2 gMAX_ACCELERATION)) := by
  unfold getAcceleration accelerationBeforeClamp
  cases getAccelerationLoop sqrt g.gParticleArray p g.gNumberOfParticle.toNat 0 (0, 0) <;> rfl

theorem accelerationBeforeClamp_eq_sums (sqrt : ℚ → ℚ) (g : Game) (ps : List Particle)
    (rest : List (Option Particle)) (p : Particle)
    (harr : g.gParticleArray = ps.map some ++ rest)
    (hN : g.gNumberOfParticle = (ps.length : Int)) :
    accelerationBeforeClamp sqrt g p =
      some ((((ps.filter (fun q => decide (p.addr ≠ q.addr))).map
                (forceTermX sqrt p)).sum) * (gPARTICLE_MASS : ℚ),
            (((ps.filter (fun q => decide (p.addr ≠ q.addr))).map
                (forceTermY sqrt p)).sum) * (gPARTICLE_MASS : ℚ)) := by
  unfold accelerationBeforeClamp
  rw [harr, hN, Int.toNat_ofNat]
  have h := getAccelerationLoop_eq sqrt ps rest p ps.length 0 (0, 0) (by simp)
  simp only [Nat.cast_zero, List.drop_zero, zero_add] at h
  rw [h]

theorem forceTerm_direction (sqrt : ℚ → ℚ) (p q : Particle) :
    ∃ k : ℚ, forceTermX sqrt p q = k * (q.xCoord - p.xCoord) ∧
      forceTermY sqrt p q = k * (q.yCoord - p.yCoord) ∧
      (0 < p.charge * q.charge → k < 0) ∧ (p.charge * q.charge < 0 → 0 < k) := by
  have hd : (0 : ℚ) < effectiveDistance sqrt p q :=
    lt_of_lt_of_le (by norm_num) (effectiveDistance_ge sqrt p q)
  have hdd : (0 : ℚ) < effectiveDistance sqrt p q * effectiveDistance sqrt p q := mul_pos hd hd
  refine ⟨forceFactor p.charge q.charge (effectiveDistance sqrt p q)
    / effectiveDistance sqrt p q, ?_, ?_, ?_, ?_⟩
  · unfold forceTermX
    ring
  · unfold forceTermY
    ring
  · intro hc
    have hc' : (0 : ℚ) < ((p.charge * q.charge : Int) : ℚ) := by exact_mod_cast hc
    apply div_neg_of_neg_of_pos _ hd
    unfold forceFactor
    exact neg_neg_of_pos (div_pos hc' hdd)
  · intro hc
    have hc' : ((p.charge * q.charge : Int) : ℚ) < 0 := by exact_mod_cast hc
    apply div_pos _ hd
    unfold forceFactor
    exact neg_pos.mpr (div_neg_of_neg_of_pos hc' hdd)

theorem forceTerm_at_distance_ten (sqrt : ℚ → ℚ) (h100 : sqrt 100 = 10) :
    forceTermX sqrt (particleAt 1 true 100 100 1) (particleAt 2 true 110 100 1) = -1 / 100 ∧
    forceTermY sqrt (particleAt 1 true 100 100 1) (particleAt 2 true 110 100 1) = 0 ∧
    forceTermX sqrt (particleAt 2 true 110 100 1) (particleAt 1 true 100 100 1) = 1 / 100 ∧
    forceTermY sqrt (particleAt 2 true 110 100 1) (particleAt 1 true 100 100 1) = 0 := by
  have e1 : effectiveDistance sqrt (particleAt 1 true 100 100 1) (particleAt 2 true 110 100 1)
      = 10 := by
    unfold effectiveDistance getDistance cmax gMIN_DISTANCE particleAt
    norm_num [h100]
  have e2 : effectiveDistance sqrt (particleAt 2 true 110 100 1) (particleAt 1 true 100 100 1)
      = 10 := by
    rw [effectiveDistance_symm]; exact e1
  refine ⟨?_, ?_, ?_, ?_⟩
  · unfold forceTermX forceFactor
    rw [e1]
    norm_num [particleAt]
  · unfold forceTermY forceFactor
    rw [e1]
    norm_num [particleAt]
  · unfold forceTermX forceFactor
    rw [e2]
    norm_num [particleAt]
  · unfold forceTermY forceFactor
    rw [e2]
    norm_num [particleAt]

/-- C21.  The term that `getAcceleration` adds for another particle `q` is a multiple
`k * (q - p)` of the vector from the target `p` to `q`, with `k < 0` when the charges have
the same sign (the force points away from `q`) and `k > 0` when they have opposite signs
(the force points toward `q`); the result of `getAcceleration` is the clamp of the values
before the clamp.  With `A` at `(100, 100)` and `B` at `(110, 100)`, both of charge `+1`
and alone in the store, the acceleration before the clamp is `(-1/10, 0)` on `A` and
`(1/10, 0)` on `B`: magnitude `1 / 10^2` times the mass `10`. -/
theorem getAcceleration_sign_convention (sqrt : ℚ → ℚ) (h100 : sqrt 100 = 10) :
    (∀ p q : Particle, ∃ k : ℚ,
      forceTermX sqrt p q = k * (q.xCoord - p.xCoord) ∧
      forceTermY sqrt p q = k * (q.yCoord - p.yCoord) ∧
      (0 < p.charge * q.charge → k < 0) ∧ (p.charge * q.charge < 0 → 0 < k)) ∧
    (∀ (g : Game) (p : Particle), getAcceleration sqrt g p =
      (accelerationBeforeClamp sqrt g p).map
        (fun a => (clamp a.1 gMAX_ACCELERATION, clamp a.2 gMAX_ACCELERATION))) ∧
    accelerationBeforeClamp sqrt
      (gameOf [particleAt 1 true 100 100 1, particleAt 2 true 110 100 1] 2 [] 16)
      (particleAt 1 true 100 100 1) = some (-1 / 10, 0) ∧
    accelerationBeforeClamp sqrt
      (gameOf [particleAt 1 true 100 100 1, particleAt 2 true 110 100 1] 2 [] 16)
      (particleAt 2 true 110 100 1) = some (1 / 10, 0) := by
  obtain ⟨f1, f2, f3, f4⟩ := forceTerm_at_distance_ten sqrt h100
  refine ⟨forceTerm_direction sqrt, getAcceleration_eq_clamp_accelerationBeforeClamp sqrt, ?_, ?_⟩
  · rw [accelerationBeforeClamp_eq_sums sqrt _
      [particleAt 1 true 100 100 1, particleAt 2 true 110 100 1] _ _ rfl rfl]
    have hf : [particleAt 1 true 100 100 1, particleAt 2 true 110 100 1].filter
        (fun q => decide ((particleAt 1 true 100 100 1).addr ≠ q.addr))
        = [particleAt 2 true 110 100 1] := by decide
    rw [hf]
    simp only [List.map_cons, List.map_nil, List.sum_cons, List.sum_nil, f1, f2]
    norm_num [gPARTICLE_MASS]
  · rw [accelerationBeforeClamp_eq_sums sqrt _
      [particleAt 1 true 100 100 1, particleAt 2 true 110 100 1] _ _ rfl rfl]
    have hf : [particleAt 1 true 100 100 1, particleAt 2 true 110 100 1].filter
        (fun q => decide ((particleAt 2 true 110 100 1).addr ≠ q.addr))
        = [particleAt 1 true 100 100 1] := by decide
    rw [hf]
    simp only [List.map_cons, List.map_nil, List.sum_cons, List.sum_nil, f3, f4]
    norm_num [gPARTICLE_MASS]

/-- Witness of C21, with the square root that is exact on squares. -/
theorem getAcceleration_sign_convention_witness :
    accelerationBeforeClamp sqrtExact
      (gameOf [particleAt 1 true 100 100 1, particleAt 2 true 110 100 1] 2 [] 16)
      (particleAt 1 true 100 100 1) = some (-1 / 10, 0) ∧
    accelerationBeforeClamp sqrtExact
      (gameOf [particleAt 1 true 100 100 1, particleAt 2 true 110 100 1] 2 [] 16)
      (particleAt 2 true 110 100 1) = some (1 / 10, 0) :=
  (getAcceleration_sign_convention sqrtExact sqrtExact_100).2.2

end ChargeGame

namespace ChargeGame

/-! ## Forces: the distance floor in the two variants -/

theorem minimal_getDistance_eq_effectiveDistance (sqrt : ℚ → ℚ) (p q : Particle) :
    Minimal.getDistance sqrt (toMinimalParticle p) (toMinimalParticle q)
      = effectiveDistance sqrt p q := by
  unfold Minimal.getDistance effectiveDistance getDistance cmax Minimal.gMIN_DISTANCE
    gMIN_DISTANCE toMinimalParticle
  simp only []
  split_ifs with h1 h2 h2
  · exact absurd h1 (not_le.mpr h2)
  · rfl
  · rfl
  · exact absurd (not_le.mp h1) h2

theorem getAccelerationLoop_eq_minimal (sqrt : ℚ → ℚ) (a : List (Option Particle))
    (b : List (Option Minimal.Particle)) (p : Particle) :
    ∀ (n i : Nat) (sx sy : ℚ),
      (∀ k : Nat, i ≤ k → k < i + n →
        readSlot b (k : Int) = (readSlot a (k : Int)).map (Option.map toMinimalParticle)) →
      getAccelerationLoop sqrt a p n (i : Int) (sx, sy) =
        match Minimal.getAccelerationXLoop sqrt b (toMinimalParticle p) n (i : Int) sx,
          Minimal.getAccelerationYLoop sqrt b (toMinimalParticle p) n (i : Int) sy with
        | some x, some y => some (x, y)
        | _, _ => none := by
  intro n
  induction n with
  | zero => intro i sx sy _; rfl
  | succ n ih =>
    intro i sx sy hb
    have hnext : ∀ k : Nat, i + 1 ≤ k → k < i + 1 + n →
        readSlot b (k : Int) = (readSlot a (k : Int)).map (Option.map toMinimalParticle) :=
      fun k h1 h2 => hb k (by omega) (by omega)
    have hcast : ((i : Int) + 1) = ((i + 1 : Nat) : Int) := by push_cast; rfl
    rw [getAccelerationLoop, Minimal.getAccelerationXLoop, Minimal.getAccelerationYLoop,
      hb i (le_refl _) (by omega), hcast]
    cases hr : readSlot a (i : Int) with
    | none => rfl
    | some s =>
      cases s with
      | none => rfl
      | some q =>
        simp only [Option.map_some']
        have haddr : (toMinimalParticle p).addr = p.addr := rfl
        have haddr' : (toMinimalParticle q).addr = q.addr := rfl
        rw [haddr, haddr', minimal_getDistance_eq_effectiveDistance]
        by_cases hpq : p.addr ≠ q.addr
        · rw [if_pos hpq, if_pos hpq, if_pos hpq, ih (i + 1) _ _ hnext]
          rfl
        · rw [if_neg hpq, if_neg hpq, if_neg hpq, ih (i + 1) _ _ hnext]

theorem getAcceleration_eq_minimal (sqrt : ℚ → ℚ) (g : Game) (mg : Minimal.Game)
    (ps : List Particle) (rest : List (Option Particle))
    (mrest : List (Option Minimal.Particle)) (p : Particle)
    (harr : g.gParticleArray = ps.map some ++ rest)
    (hN : g.gNumberOfParticle = (ps.length : Int))
    (hmarr : mg.gParticles = (ps.map toMinimalParticle).map some ++ mrest)
    (hmN : mg.gParticlesSize = (ps.length : Int)) :
    getAcceleration sqrt g p = minimalAcceleration sqrt mg (toMinimalParticle p) := by
  have hloop := getAccelerationLoop_eq_minimal sqrt g.gParticleArray mg.gParticles p
    ps.length 0 0 0 (by
      intro k _ hk
      have hk' : k < ps.length := by omega
      rw [harr, hmarr, readSlot_map_some_append ps rest k hk',
        readSlot_map_some_append (ps.map toMinimalParticle) mrest k (by simpa using hk')]
      simp)
  unfold getAcceleration minimalAcceleration Minimal.getAccelerationX Minimal.getAccelerationY
  rw [hN, hmN, Int.toNat_ofNat]
  simp only [Nat.cast_zero] at hloop
  rw [hloop]
  cases Minimal.getAccelerationXLoop sqrt mg.gParticles
      (toMinimalParticle p) ps.length 0 0 <;>
    cases Minimal.getAccelerationYLoop sqrt mg.gParticles
      (toMinimalParticle p) ps.length 0 0 <;> rfl

/-- C23, amended.  The two variants floor the distance in the same way: `getDistance` of the
minimal variant returns `gMIN_DISTANCE` when the distance is at most `gMIN_DISTANCE`, the
full variant takes `max(getDistance, gMIN_DISTANCE)`, and both use the floored value for
the direction vector and for the magnitude.  For stores holding the same particles, the
full variant's `getAcceleration` and the minimal variant's `getAccelerationX`,
`getAccelerationY` return the same pair for every particle, at every separation. -/
theorem acceleration_variants_agree (sqrt : ℚ → ℚ) (g : Game) (mg : Minimal.Game)
    (ps : List Particle) (rest : List (Option Particle))
    (mrest : List (Option Minimal.Particle)) (p : Particle)
    (harr : g.gParticleArray = ps.map some ++ rest)
    (hN : g.gNumberOfParticle = (ps.length : Int))
    (hmarr : mg.gParticles = (ps.map toMinimalParticle).map some ++ mrest)
    (hmN : mg.gParticlesSize = (ps.length : Int)) :
    (∀ q : Particle, Minimal.getDistance sqrt (toMinimalParticle p) (toMinimalParticle q)
      = effectiveDistance sqrt p q) ∧
    getAcceleration sqrt g p = minimalAcceleration sqrt mg (toMinimalParticle p) ∧
    (getAcceleration sqrt g p).isSome = true :=
  ⟨minimal_getDistance_eq_effectiveDistance sqrt p,
    getAcceleration_eq_minimal sqrt g mg ps rest mrest p harr hN hmarr hmN,
    by rw [getAcceleration_eq_sums sqrt g ps rest p harr hN]; rfl⟩

/-- Witness of C23 (amended): two particles of charge `+1` at distance `3`. -/
theorem acceleration_variants_agree_witness :
    (∀ q : Particle,
      Minimal.getDistance sqrtExact (toMinimalParticle (particleAt 1 true 100 100 1))
        (toMinimalParticle q)
      = effectiveDistance sqrtExact (particleAt 1 true 100 100 1) q) ∧
    getAcceleration sqrtExact
      (gameOf [particleAt 1 true 100 100 1, particleAt 2 true 103 100 1] 2 [] 16)
      (particleAt 1 true 100 100 1) =
    minimalAcceleration sqrtExact
      (minimalGameOf [minimalParticleAt 1 true 100 100 1, minimalParticleAt 2 true 103 100 1]
        2 16)
      (toMinimalParticle (particleAt 1 true 100 100 1)) ∧
    (getAcceleration sqrtExact
      (gameOf [particleAt 1 true 100 100 1, particleAt 2 true 103 100 1] 2 [] 16)
      (particleAt 1 true 100 100 1)).isSome = true :=
  acceleration_variants_agree sqrtExact _ _
    [particleAt 1 true 100 100 1, particleAt 2 true 103 100 1] _ _ _ rfl rfl rfl rfl

/-- Counterexample to C23 as stated.  There is no configuration of two particles, at a
separation below `gMIN_DISTANCE` or at any other, for which the accelerations of the two
variants differ. -/
theorem acceleration_variants_counterexample :
    ¬ ∃ (sqrt : ℚ → ℚ) (A B : Particle), A.addr ≠ B.addr ∧
      getDistance sqrt A B < gMIN_DISTANCE ∧
      (getAcceleration sqrt (gameOf [A, B] 2 [] 16) A ≠
          minimalAcceleration sqrt
            (minimalGameOf [toMinimalParticle A, toMinimalParticle B] 2 16)
            (toMinimalParticle A) ∨
        getAcceleration sqrt (gameOf [A, B] 2 [] 16) B ≠
          minimalAcceleration sqrt
            (minimalGameOf [toMinimalParticle A, toMinimalParticle B] 2 16)
            (toMinimalParticle B)) := by
  rintro ⟨sqrt, A, B, -, -, h⟩
  rcases h with h | h
  · exact h (getAcceleration_eq_minimal sqrt _ _ [A, B] _ _ A rfl rfl rfl rfl)
  · exact h (getAcceleration_eq_minimal sqrt _ _ [A, B] _ _ B rfl rfl rfl rfl)

end ChargeGame

namespace ChargeGame

/-! ## The minimal variant: the compaction loop of `destroyParticle` -/

theorem minimal_shiftDown_isSome (L : Nat) :
    ∀ (n j : Nat) (a : List (Option Minimal.Particle)), a.length = L →
      ((Minimal.shiftDown n (j : Int) a).isSome = true ↔ (n = 0 ∨ j + n < L)) := by
  intro n
  induction n with
  | zero => intro j a _; simp [Minimal.shiftDown]
  | succ n ih =>
    intro j a ha
    have hcast : ((j : Int) + 1) = ((j + 1 : Nat) : Int) := by push_cast; rfl
    rw [Minimal.shiftDown, hcast, readSlot_natCast]
    by_cases hj : j + 1 < L
    · have hlt : j + 1 < a.length := by omega
      rw [List.getElem?_eq_getElem hlt]
      simp only []
      rw [if_pos ⟨by omega, by simp; omega⟩]
      rw [ih (j + 1) _ (by simp [writeSlot, ha])]
      constructor
      · intro h
        right
        rcases h with h | h
        · omega
        · omega
      · intro h
        rcases h with h | h
        · omega
        · by_cases hn : n = 0
          · exact Or.inl hn
          · exact Or.inr (by omega)
    · rw [List.getElem?_eq_none (by omega)]
      simp only [Option.isSome_none, Bool.false_eq_true, false_iff]
      intro h
      rcases h with h | h
      · omega
      · omega

theorem minimal_shiftDown_full (a : List (Option Minimal.Particle)) (size : Nat)
    (ha : a.length = size) (hpos : 0 < size) : Minimal.shiftDown size 0 a = none := by
  have h := minimal_shiftDown_isSome size size 0 a ha
  rw [Nat.cast_zero] at h
  cases hs : Minimal.shiftDown size 0 a with
  | none => rfl
  | some v =>
    rw [hs] at h
    have := h.mp rfl
    omega

theorem minimalFullStore_length : minimalFullStore.length = 100 := by
  simp [minimalFullStore, Minimal.gMAX_PARTICLES]

theorem minimalFullStore_gParticles_length :
    (minimalGameOf minimalFullStore 0 16).gParticles.length = 100 := by
  simp [minimalGameOf, minimalFullStore, Minimal.gMAX_PARTICLES]

theorem minimalFullStore_first :
    readSlot (minimalGameOf minimalFullStore 0 16).gParticles 0
      = some (some (minimalParticleAt 0 false 50 50 1)) := by
  have h := readSlot_map_some_append minimalFullStore
    (List.replicate (Minimal.gMAX_PARTICLES - minimalFullStore.length) none) 0
    (by rw [minimalFullStore_length]; decide)
  rw [Nat.cast_zero] at h
  have hget : minimalFullStore.get ⟨0, by rw [minimalFullStore_length]; decide⟩
      = minimalParticleAt 0 false 50 50 1 := by
    simp [minimalFullStore]
  rw [hget] at h
  exact h

/-- C30 fails on the code.  With the store full (`gParticlesSize = 100`, the array of 100
slots holding non-moving particles) and `p` the particle of slot 0, the compaction loop of
`destroyParticle` runs `j` from `0` to `gParticlesSize - 1 = 99` and its last iteration
reads `gParticles[j + 1] = gParticles[100]`, outside `[0, 99]`: the loop has no result, and
neither has `destroyParticle`, whatever the loop budget. -/
theorem minimal_destroyParticle_reads_past_the_array :
    (minimalGameOf minimalFullStore 0 16).gParticles.length = Minimal.gMAX_PARTICLES ∧
    (minimalGameOf minimalFullStore 0 16).gParticlesSize = 100 ∧
    readSlot (minimalGameOf minimalFullStore 0 16).gParticles 0
      = some (some (minimalParticleAt 0 false 50 50 1)) ∧
    Minimal.shiftDown 100 0
      (writeSlot (minimalGameOf minimalFullStore 0 16).gParticles 0 none) = none ∧
    ∀ fuel, Minimal.destroyParticle fuel (minimalGameOf minimalFullStore 0 16) (some 0)
      = none := by
  have hlen := minimalFullStore_gParticles_length
  have hsize : (minimalGameOf minimalFullStore 0 16).gParticlesSize = 100 := by
    simp [minimalGameOf, minimalFullStore, Minimal.gMAX_PARTICLES]
  have hread := minimalFullStore_first
  have hshift : Minimal.shiftDown 100 0
      (writeSlot (minimalGameOf minimalFullStore 0 16).gParticles 0 none) = none :=
    minimal_shiftDown_full _ 100 (by simp [writeSlot, hlen]) (by decide)
  refine ⟨hlen, hsize, hread, hshift, ?_⟩
  intro fuel
  cases fuel with
  | zero => rfl
  | succ fuel =>
    unfold Minimal.destroyParticle
    rw [Minimal.destroyParticleLoop, if_pos (by rw [hsize]; decide), hread]
    simp only []
    rw [if_pos ⟨by simp, rfl, rfl⟩, hsize]
    have h100 : ((100 : Int) - 0).toNat = 100 := by decide
    rw [h100, hshift]

end ChargeGame

namespace ChargeGame

/-! ## Blit ordering: the read of the loop test at the exit of the partition loop -/

theorem partitionLoopChecked_all_moving (a : List (Option Particle)) (inner : Nat)
    (hall : ∀ k, k < a.length → ∃ q, a[k]? = some (some q) ∧ q.moving = true) :
    ∀ (fuel i : Nat), i ≤ a.length → a.length - i < fuel →
      partitionLoopChecked (a.length : Int) (a.length : Int) inner fuel a (i : Int) (i : Int)
        = Except.error (a.length : Int) := by
  intro fuel
  induction fuel with
  | zero => intro i _ h; omega
  | succ fuel ih =>
    intro i hi hfuel
    rw [partitionLoopChecked]
    unfold partitionTestChecked
    rw [readSlot_natCast]
    by_cases hlt : i < a.length
    · obtain ⟨q, hq, hmov⟩ := hall i hlt
      obtain ⟨q', hq', hmov'⟩ := hall (a.length - 1 - i) (by omega)
      rw [hq]
      simp only []
      have hdec : decide ((i : Int) < (a.length : Int)) = true := by
        rw [decide_eq_true_iff]; exact_mod_cast hlt
      rw [hdec]
      simp only []
      have hidx : ((a.length : Int) - 1 - (i : Int)) = ((a.length - 1 - i : Nat) : Int) := by
        omega
      have hd : deref a ((a.length : Int) - 1 - (i : Int)) = some q' := by
        rw [hidx]
        unfold deref
        rw [readSlot_natCast, hq']
      rw [hd]
      simp only []
      rw [if_neg (by rw [hmov']; decide)]
      have hcast : ((i : Int) + 1) = ((i + 1 : Nat) : Int) := by push_cast; rfl
      rw [hcast]
      exact ih (i + 1) (by omega) (by omega)
    · have hiN : i = a.length := by omega
      rw [List.getElem?_eq_none (by omega)]
      simp only []
      rw [hiN]

theorem movingFullStore_all_moving :
    ∀ k, k < (movingFullStore.map some).length →
      ∃ q, (movingFullStore.map some)[k]? = some (some q) ∧ q.moving = true := by
  intro k hk
  have hk' : k < gMAX_PARTICLES := by
    simpa [movingFullStore] using hk
  refine ⟨particleAt k true 50 50 1, ?_, rfl⟩
  simp [movingFullStore, List.getElem?_map, List.getElem?_range hk']

theorem movingFullStore_array :
    (gameOf movingFullStore 500 [] 16).gParticleArray = movingFullStore.map some := by
  have hlen : movingFullStore.length = gMAX_PARTICLES := by simp [movingFullStore]
  unfold gameOf
  simp only []
  rw [hlen, Nat.sub_self]
  simp

/-- C26 fails on the code.  With the store full of moving particles
(`gNumberOfParticle = gNumberOfMovingParticle = 500`, every slot of the array of 500
pointers in use) the partition loop leaves every particle in place and, after its 500th
iteration, evaluates the test of line 1605 with `i = 500`: the test reads
`gParticleArray[500]` before it compares the counters.  That index is outside `[0, N - 1]`
and outside the array. -/
theorem organizeParticleBlitering_reads_past_the_array :
    (gameOf movingFullStore 500 [] 16).gParticleArray.length = gMAX_PARTICLES ∧
    (gameOf movingFullStore 500 [] 16).gNumberOfParticle = 500 ∧
    (gameOf movingFullStore 500 [] 16).gNumberOfMovingParticle = 500 ∧
    ∀ fuel inner : Nat, 500 < fuel →
      partitionLoopChecked (gameOf movingFullStore 500 [] 16).gNumberOfParticle
        (gameOf movingFullStore 500 [] 16).gNumberOfMovingParticle inner fuel
        (gameOf movingFullStore 500 [] 16).gParticleArray 0 0 = Except.error 500 := by
  have hlen : (movingFullStore.map some).length = 500 := by
    simp [movingFullStore, gMAX_PARTICLES]
  have hN : (gameOf movingFullStore 500 [] 16).gNumberOfParticle = 500 := by
    simp [gameOf, movingFullStore, gMAX_PARTICLES]
  refine ⟨?_, hN, rfl, ?_⟩
  · rw [movingFullStore_array, hlen]; rfl
  · intro fuel inner hfuel
    have hM : (gameOf movingFullStore 500 [] 16).gNumberOfMovingParticle = 500 := rfl
    rw [hN, hM, movingFullStore_array]
    have h := partitionLoopChecked_all_moving (movingFullStore.map some) inner
      movingFullStore_all_moving fuel 0 (by omega) (by omega)
    rw [hlen] at h
    exact h

end ChargeGame

namespace ChargeGame

/-! ## The particle under a position -/

theorem handOnParticleLoop_spec (sqrt : ℚ → ℚ) (g : Game) (ps : List Particle)
    (rest : List (Option Particle)) (x y : Int)
    (harr : g.gParticleArray = ps.map some ++ rest) :
    ∀ n : Nat, n ≤ ps.length →
      (handOnParticleLoop sqrt g x y n ((n : Int) - 1) = some none ∧
        ∀ (k : Nat) (q : Particle), k < n → ps[k]? = some q →
          particleHit sqrt g.gParticleRadius q x y = false) ∨
      (∃ (k : Nat) (q : Particle), k < n ∧ ps[k]? = some q ∧
        handOnParticleLoop sqrt g x y n ((n : Int) - 1) = some (some q) ∧
        particleHit sqrt g.gParticleRadius q x y = true ∧
        ∀ (j : Nat) (q' : Particle), k < j → j < n → ps[j]? = some q' →
          particleHit sqrt g.gParticleRadius q' x y = false) := by
  intro n
  induction n with
  | zero =>
    intro _
    left
    exact ⟨rfl, fun k q hk => absurd hk (Nat.not_lt_zero k)⟩
  | succ n ih =>
    intro hn
    have hlt : n < ps.length := by omega
    have hidx : (((n + 1 : Nat) : Int) - 1) = (n : Int) := by push_cast; omega
    have hread : readSlot g.gParticleArray (n : Int) = some (some (ps.get ⟨n, hlt⟩)) := by
      rw [harr]; exact readSlot_map_some_append ps rest n hlt
    have hget : ps[n]? = some (ps.get ⟨n, hlt⟩) := by
      rw [List.getElem?_eq_getElem hlt]; rfl
    rw [hidx, handOnParticleLoop, hread]
    simp only []
    by_cases hhit : particleHit sqrt g.gParticleRadius (ps.get ⟨n, hlt⟩) x y = true
    · right
      rw [if_pos hhit]
      refine ⟨n, ps.get ⟨n, hlt⟩, by omega, hget, rfl, hhit, ?_⟩
      intro j q' h1 h2 _
      omega
    · rw [if_neg hhit]
      have hmiss : particleHit sqrt g.gParticleRadius (ps.get ⟨n, hlt⟩) x y = false := by
        simpa using hhit
      rcases ih (by omega) with ⟨h0, hnone⟩ | ⟨k, q, hk, hq, hres, hqhit, hafter⟩
      · left
        refine ⟨h0, ?_⟩
        intro k q hk hq
        by_cases hkn : k = n
        · subst hkn
          rw [hget] at hq
          rw [← Option.some.inj hq]
          exact hmiss
        · exact hnone k q (by omega) hq
      · right
        refine ⟨k, q, by omega, hq, hres, hqhit, ?_⟩
        intro j q' h1 h2 hq'
        by_cases hjn : j = n
        · subst hjn
          rw [hget] at hq'
          rw [← Option.some.inj hq']
          exact hmiss
        · exact hafter j q' h1 (by omega) hq'

end ChargeGame

namespace ChargeGame

theorem handOnParticle_spec (sqrt : ℚ → ℚ) (g : Game) (ps : List Particle)
    (rest : List (Option Particle)) (x y : Int)
    (harr : g.gParticleArray = ps.map some ++ rest)
    (hN : g.gNumberOfParticle = (ps.length : Int)) :
    (handOnParticle sqrt g x y = some none ∧
      ∀ (k : Nat) (q : Particle), ps[k]? = some q →
        particleHit sqrt g.gParticleRadius q x y = false) ∨
    (∃ (k : Nat) (q : Particle), ps[k]? = some q ∧
      handOnParticle sqrt g x y = some (some q) ∧
      particleHit sqrt g.gParticleRadius q x y = true ∧
      ∀ (j : Nat) (q' : Particle), k < j → ps[j]? = some q' →
        particleHit sqrt g.gParticleRadius q' x y = false) := by
  unfold handOnParticle
  rw [hN, Int.toNat_ofNat]
  rcases handOnParticleLoop_spec sqrt g ps rest x y harr ps.length (le_refl _) with
    ⟨h0, hnone⟩ | ⟨k, q, hk, hq, hres, hqhit, hafter⟩
  · left
    refine ⟨h0, ?_⟩
    intro k q hq
    exact hnone k q (getElem?_lt_length ps k q hq) hq
  · right
    refine ⟨k, q, hq, hres, hqhit, ?_⟩
    intro j q' h1 hq'
    exact hafter j q' h1 (getElem?_lt_length ps j q' hq') hq'

/-- What `handOnParticle` does on an organised store (no moving particle before a
non-moving one, each of the two blocks in ascending `yCoord`): it returns; it returns `NULL`
if and only if no particle of the store is hit by the position; and a particle `q` it
returns is in the store, is hit, is a moving particle if any moving particle is hit, and has
the greatest `yCoord` among the hit particles with its own motion flag.  It is the hit
particle of the highest index, which need not be the hit particle of the greatest
`yCoord`. -/
theorem handOnParticle_returns_last_hit (sqrt : ℚ → ℚ) (g : Game) (ps : List Particle)
    (rest : List (Option Particle)) (x y : Int)
    (harr : g.gParticleArray = ps.map some ++ rest)
    (hN : g.gNumberOfParticle = (ps.length : Int))
    (horg : organised ps) :
    ∃ r : Option Particle, handOnParticle sqrt g x y = some r ∧
      (r = none ↔ ∀ q ∈ ps, particleHit sqrt g.gParticleRadius q x y = false) ∧
      ∀ q, r = some q → q ∈ ps ∧ particleHit sqrt g.gParticleRadius q x y = true ∧
        ∀ q' ∈ ps, particleHit sqrt g.gParticleRadius q' x y = true →
          (q'.moving = true → q.moving = true) ∧
          (q'.moving = q.moving → q'.yCoord ≤ q.yCoord) := by
  rcases handOnParticle_spec sqrt g ps rest x y harr hN with
    ⟨h0, hnone⟩ | ⟨k, q, hq, hres, hqhit, hafter⟩
  · refine ⟨none, h0, ?_, ?_⟩
    · constructor
      · intro _ q hq
        obtain ⟨k, hk⟩ := List.mem_iff_getElem?.mp hq
        exact hnone k q hk
      · intro _; rfl
    · intro q hq
      exact absurd hq (by simp)
  · have hqmem : q ∈ ps := List.mem_iff_getElem?.mpr ⟨k, hq⟩
    refine ⟨some q, hres, ?_, ?_⟩
    · constructor
      · intro h; exact absurd h (by simp)
      · intro h
        have := h q hqmem
        rw [hqhit] at this
        exact absurd this (by decide)
    · intro q0 hq0
      have hq0' : q = q0 := Option.some.inj hq0
      subst hq0'
      refine ⟨hqmem, hqhit, ?_⟩
      intro q' hq'mem hq'hit
      obtain ⟨j, hj⟩ := List.mem_iff_getElem?.mp hq'mem
      have hjk : j ≤ k := by
        by_contra hcon
        have := hafter j q' (by omega) hj
        rw [hq'hit] at this
        exact absurd this (by decide)
      by_cases hjeq : j = k
      · subst hjeq
        rw [hq] at hj
        have hqq : q = q' := Option.some.inj hj
        subst hqq
        exact ⟨fun h => h, fun _ => le_refl _⟩
      · have hlt : j < k := by omega
        exact ⟨horg.1 j k q' q hlt hj hq, horg.2 j k q' q hlt hj hq⟩

theorem organised_static_then_moving (s m : Particle) (hs : s.moving = false)
    (hm : m.moving = true) : organised [s, m] := by
  constructor
  · intro j k qj qk hjk hj hk _
    have hk2 : k < 2 := getElem?_lt_length [s, m] k qk hk
    have hk1 : k = 1 := by omega
    subst hk1
    simp only [List.getElem?_cons_succ, List.getElem?_cons_zero, Option.some.injEq] at hk
    rw [← hk]
    exact hm
  · intro j k qj qk hjk hj hk hsame
    have hk2 : k < 2 := getElem?_lt_length [s, m] k qk hk
    have hk1 : k = 1 := by omega
    have hj0 : j = 0 := by omega
    subst hk1
    subst hj0
    simp only [List.getElem?_cons_succ, List.getElem?_cons_zero, Option.some.injEq] at hj hk
    rw [← hj, ← hk, hs, hm] at hsame
    exact absurd hsame (by decide)

theorem particleHit_static_example :
    particleHit sqrtExact 10 (particleAt 1 false 100 120 1) 100 115 = true := by
  have hx : truncate (particleAt 1 false 100 120 1).xCoord = 100 := by decide
  have hy : truncate (particleAt 1 false 100 120 1).yCoord = 120 := by decide
  unfold particleHit
  rw [hx, hy]
  have h25 : (((100 - 100 : Int) : ℚ) ^ 2 + ((120 - 115 : Int) : ℚ) ^ 2) = 25 := by norm_num
  rw [h25, sqrtExact_25]
  decide

theorem particleHit_moving_example :
    particleHit sqrtExact 10 (particleAt 2 true 100 110 1) 100 115 = true := by
  have hx : truncate (particleAt 2 true 100 110 1).xCoord = 100 := by decide
  have hy : truncate (particleAt 2 true 100 110 1).yCoord = 110 := by decide
  unfold particleHit
  rw [hx, hy]
  have h25 : (((100 - 100 : Int) : ℚ) ^ 2 + ((110 - 115 : Int) : ℚ) ^ 2) = 25 := by norm_num
  rw [h25, sqrtExact_25]
  decide

/-- An instance of `handOnParticle_returns_last_hit`: a non-moving particle at `(100, 120)`
and a moving one at `(100, 110)`, radius `10`, position `(100, 115)`. -/
theorem handOnParticle_returns_last_hit_witness :
    ∃ r : Option Particle,
      handOnParticle sqrtExact
        (gameOf [particleAt 1 false 100 120 1, particleAt 2 true 100 110 1] 1 [] 16) 100 115
        = some r ∧
      (r = none ↔ ∀ q ∈ [particleAt 1 false 100 120 1, particleAt 2 true 100 110 1],
        particleHit sqrtExact 10 q 100 115 = false) ∧
      ∀ q, r = some q →
        q ∈ [particleAt 1 false 100 120 1, particleAt 2 true 100 110 1] ∧
        particleHit sqrtExact 10 q 100 115 = true ∧
        ∀ q' ∈ [particleAt 1 false 100 120 1, particleAt 2 true 100 110 1],
          particleHit sqrtExact 10 q' 100 115 = true →
          (q'.moving = true → q.moving = true) ∧
          (q'.moving = q.moving → q'.yCoord ≤ q.yCoord) :=
  handOnParticle_returns_last_hit sqrtExact
    (gameOf [particleAt 1 false 100 120 1, particleAt 2 true 100 110 1] 1 [] 16)
    [particleAt 1 false 100 120 1, particleAt 2 true 100 110 1] _ 100 115 rfl rfl
    (organised_static_then_moving _ _ rfl rfl)

/-- C22 fails on the code.  Radius `10`; the organised store holds a non-moving particle at
`(100, 120)` in slot 0 and a moving particle at `(100, 110)` in slot 1.  The position
`(100, 115)` is at distance `5` from both, inside both hitboxes.  The loop starts at slot 1
and returns the moving particle, whose `yCoord` `110` is smaller than the `120` of the other
hit particle, while the comment of the function (lines 476-478) says that the array is
browsed in reverse to select the particle with the greatest y coordinate. -/
theorem handOnParticle_returns_smaller_y :
    organised [particleAt 1 false 100 120 1, particleAt 2 true 100 110 1] ∧
    particleHit sqrtExact 10 (particleAt 1 false 100 120 1) 100 115 = true ∧
    particleHit sqrtExact 10 (particleAt 2 true 100 110 1) 100 115 = true ∧
    handOnParticle sqrtExact
      (gameOf [particleAt 1 false 100 120 1, particleAt 2 true 100 110 1] 1 [] 16) 100 115
      = some (some (particleAt 2 true 100 110 1)) ∧
    (particleAt 2 true 100 110 1).yCoord < (particleAt 1 false 100 120 1).yCoord := by
  refine ⟨organised_static_then_moving _ _ rfl rfl, particleHit_static_example,
    particleHit_moving_example, ?_, by decide⟩
  rcases handOnParticle_spec sqrtExact
    (gameOf [particleAt 1 false 100 120 1, particleAt 2 true 100 110 1] 1 [] 16)
    [particleAt 1 false 100 120 1, particleAt 2 true 100 110 1] _ 100 115 rfl rfl with
    ⟨-, hnone⟩ | ⟨k, q, hq, hres, -, hafter⟩
  · have h := hnone 0 (particleAt 1 false 100 120 1) rfl
    have h' := particleHit_static_example
    change particleHit sqrtExact 10 (particleAt 1 false 100 120 1) 100 115 = false at h
    rw [h'] at h
    exact absurd h (by decide)
  · have hk2 : k < 2 := getElem?_lt_length _ k q hq
    by_cases hk0 : k = 0
    · subst hk0
      have h := hafter 1 (particleAt 2 true 100 110 1) (by decide) rfl
      have h' := particleHit_moving_example
      change particleHit sqrtExact 10 (particleAt 2 true 100 110 1) 100 115 = false at h
      rw [h'] at h
      exact absurd h (by decide)
    · have hk1 : k = 1 := by omega
      subst hk1
      simp only [List.getElem?_cons_succ, List.getElem?_cons_zero, Option.some.injEq] at hq
      rw [hres, hq]

end ChargeGame

namespace ChargeGame

/-! ## The playable area is kept by a tick -/

theorem clamp_pos_imp (v limit : ℚ) (hl : 0 ≤ limit) (h : 0 < clamp v limit) : 0 < v := by
  unfold clamp at h
  split_ifs at h with h1 h2
  · linarith
  · linarith
  · exact h

theorem clamp_neg_imp (v limit : ℚ) (hl : 0 ≤ limit) (h : clamp v limit < 0) : v < 0 := by
  unfold clamp at h
  split_ifs at h with h1 h2
  · linarith
  · linarith
  · exact h

theorem num_neg_of_div_neg (a t : ℚ) (ht : 0 < t) (h : a / t < 0) : a < 0 := by
  rcases div_neg_iff.mp h with ⟨_, h2⟩ | ⟨h1, _⟩
  · linarith
  · exact h1

theorem integrate_inward (sqrt : ℚ → ℚ) (g : Game) (p p' : Particle)
    (h : integrate sqrt g p = some p') (xlo xhi ylo yhi : ℚ)
    (hx1 : xlo ≤ p.xCoord) (hx2 : p.xCoord ≤ xhi)
    (hy1 : ylo ≤ p.yCoord) (hy2 : p.yCoord ≤ yhi) :
    inwardX xlo xhi p' ∧ inwardY ylo yhi p' := by
  have hms : (0 : ℚ) ≤ gMAX_SPEED := by unfold gMAX_SPEED; norm_num
  have ht0 : (0 : ℚ) ≤ (g.gDeltaTime : ℚ) * gTIME_MULTIPLIER := by
    have h1 : (0 : ℚ) ≤ (g.gDeltaTime : ℚ) := Nat.cast_nonneg _
    have h2 : (0 : ℚ) ≤ gTIME_MULTIPLIER := by unfold gTIME_MULTIPLIER; norm_num
    exact mul_nonneg h1 h2
  unfold integrate at h
  cases hacc : getAcceleration sqrt g p with
  | none => rw [hacc] at h; simp at h
  | some acc =>
    obtain ⟨xa, ya⟩ := acc
    rw [hacc] at h
    simp only [Option.some.injEq] at h
    by_cases ht : (g.gDeltaTime : ℚ) * gTIME_MULTIPLIER ≠ 0
    · rw [if_pos ht] at h
      have htpos : 0 < (g.gDeltaTime : ℚ) * gTIME_MULTIPLIER := lt_of_le_of_ne ht0 (Ne.symm ht)
      subst h
      refine ⟨⟨?_, ?_⟩, ⟨?_, ?_⟩⟩
      · intro hs
        have hd := clamp_pos_imp _ _ hms hs
        have hnum := (div_pos_iff_of_pos_right htpos).mp hd
        simp only []
        linarith
      · intro hs
        have hd := clamp_neg_imp _ _ hms hs
        have hnum := num_neg_of_div_neg _ _ htpos hd
        simp only []
        linarith
      · intro hs
        have hd := clamp_pos_imp _ _ hms hs
        have hnum := (div_pos_iff_of_pos_right htpos).mp hd
        simp only []
        linarith
      · intro hs
        have hd := clamp_neg_imp _ _ hms hs
        have hnum := num_neg_of_div_neg _ _ htpos hd
        simp only []
        linarith
    · rw [if_neg ht] at h
      have ht' : (g.gDeltaTime : ℚ) * gTIME_MULTIPLIER = 0 := not_not.mp ht
      subst h
      rw [ht']
      refine ⟨⟨?_, ?_⟩, ⟨?_, ?_⟩⟩ <;> intro _ <;> simp only [] <;> linarith

theorem wallLeft_inward (r : Nat) (w : Wall) (p : Particle) (xlo xhi ylo yhi : ℚ)
    (h : inwardX xlo xhi p ∧ inwardY ylo yhi p) :
    inwardX xlo xhi (wallLeft r w p) ∧ inwardY ylo yhi (wallLeft r w p) := by
  unfold wallLeft
  split_ifs with hc
  · exact ⟨⟨fun h0 => absurd h0 (lt_irrefl _), fun h0 => absurd h0 (lt_irrefl _)⟩, h.2⟩
  · exact h

theorem wallRight_inward (r : Nat) (w : Wall) (p : Particle) (xlo xhi ylo yhi : ℚ)
    (h : inwardX xlo xhi p ∧ inwardY ylo yhi p) :
    inwardX xlo xhi (wallRight r w p) ∧ inwardY ylo yhi (wallRight r w p) := by
  unfold wallRight
  split_ifs with hc
  · exact ⟨⟨fun h0 => absurd h0 (lt_irrefl _), fun h0 => absurd h0 (lt_irrefl _)⟩, h.2⟩
  · exact h

theorem wallTop_inward (r : Nat) (w : Wall) (p : Particle) (xlo xhi ylo yhi : ℚ)
    (h : inwardX xlo xhi p ∧ inwardY ylo yhi p) :
    inwardX xlo xhi (wallTop r w p) ∧ inwardY ylo yhi (wallTop r w p) := by
  unfold wallTop
  split_ifs with hc
  · exact ⟨h.1, ⟨fun h0 => absurd h0 (lt_irrefl _), fun h0 => absurd h0 (lt_irrefl _)⟩⟩
  · exact h

theorem wallBottom_inward (r : Nat) (w : Wall) (p : Particle) (xlo xhi ylo yhi : ℚ)
    (h : inwardX xlo xhi p ∧ inwardY ylo yhi p) :
    inwardX xlo xhi (wallBottom r w p) ∧ inwardY ylo yhi (wallBottom r w p) := by
  unfold wallBottom
  split_ifs with hc
  · exact ⟨h.1, ⟨fun h0 => absurd h0 (lt_irrefl _), fun h0 => absurd h0 (lt_irrefl _)⟩⟩
  · exact h

theorem collisionsWall_inward (r : Nat) (xlo xhi ylo yhi : ℚ) (p : Particle) (w : Wall)
    (h : inwardX xlo xhi p ∧ inwardY ylo yhi p) :
    inwardX xlo xhi (collisionsWall r w p) ∧ inwardY ylo yhi (collisionsWall r w p) := by
  unfold collisionsWall
  exact wallBottom_inward r w _ xlo xhi ylo yhi (wallTop_inward r w _ xlo xhi ylo yhi
    (wallRight_inward r w _ xlo xhi ylo yhi (wallLeft_inward r w p xlo xhi ylo yhi h)))

theorem goalLeft_inward (g : Game) (p : Particle) (xlo xhi ylo yhi : ℚ)
    (h : inwardX xlo xhi p ∧ inwardY ylo yhi p) :
    inwardX xlo xhi (goalLeft g p) ∧ inwardY ylo yhi (goalLeft g p) := by
  unfold goalLeft
  split_ifs with hc
  · exact ⟨⟨fun h0 => absurd h0 (lt_irrefl _), fun h0 => absurd h0 (lt_irrefl _)⟩, h.2⟩
  · exact h

theorem goalRight_inward (g : Game) (p : Particle) (xlo xhi ylo yhi : ℚ)
    (h : inwardX xlo xhi p ∧ inwardY ylo yhi p) :
    inwardX xlo xhi (goalRight g p) ∧ inwardY ylo yhi (goalRight g p) := by
  unfold goalRight
  split_ifs with hc
  · exact ⟨⟨fun h0 => absurd h0 (lt_irrefl _), fun h0 => absurd h0 (lt_irrefl _)⟩, h.2⟩
  · exact h

theorem goalTop_inward (g : Game) (p : Particle) (xlo xhi ylo yhi : ℚ)
    (h : inwardX xlo xhi p ∧ inwardY ylo yhi p) :
    inwardX xlo xhi (goalTop g p) ∧ inwardY ylo yhi (goalTop g p) := by
  unfold goalTop
  split_ifs with hc
  · exact ⟨h.1, ⟨fun h0 => absurd h0 (lt_irrefl _), fun h0 => absurd h0 (lt_irrefl _)⟩⟩
  · exact h

theorem goalBottom_inward (g : Game) (p : Particle) (xlo xhi ylo yhi : ℚ)
    (h : inwardX xlo xhi p ∧ inwardY ylo yhi p) :
    inwardX xlo xhi (goalBottom g p) ∧ inwardY ylo yhi (goalBottom g p) := by
  unfold goalBottom
  split_ifs with hc
  · exact ⟨h.1, ⟨fun h0 => absurd h0 (lt_irrefl _), fun h0 => absurd h0 (lt_irrefl _)⟩⟩
  · exact h

theorem collisionsGoal_inward (g : Game) (p : Particle) (xlo xhi ylo yhi : ℚ)
    (h : inwardX xlo xhi p ∧ inwardY ylo yhi p) :
    inwardX xlo xhi (collisionsGoal g p) ∧ inwardY ylo yhi (collisionsGoal g p) := by
  unfold collisionsGoal
  exact goalBottom_inward g _ xlo xhi ylo yhi (goalTop_inward g _ xlo xhi ylo yhi
    (goalRight_inward g _ xlo xhi ylo yhi (goalLeft_inward g p xlo xhi ylo yhi h)))

theorem limits_x_bounds (g : Game) (p : Particle)
    (hlohi : (toUint32 (0 + g.gParticleRadius) : ℚ) ≤ (toUint32 (g.screenW - g.gParticleRadius) : ℚ))
    (h : inwardX (toUint32 (0 + g.gParticleRadius) : ℚ)
      (toUint32 (g.screenW - g.gParticleRadius) : ℚ) p) :
    (toUint32 (0 + g.gParticleRadius) : ℚ) ≤ (limitLeft g (limitRight g p)).xCoord ∧
    (limitLeft g (limitRight g p)).xCoord ≤ (toUint32 (g.screenW - g.gParticleRadius) : ℚ) := by
  obtain ⟨h1, h2⟩ := h
  unfold limitLeft limitRight
  split_ifs with c1 c2 c3
  · exact ⟨le_refl _, hlohi⟩
  · simp only [not_and_or, not_le] at c2
    rcases c2 with c2 | c2
    · exact absurd c2 (lt_irrefl _)
    · exact ⟨le_of_lt c2, le_refl _⟩
  · exact ⟨le_refl _, hlohi⟩
  · simp only [not_and_or, not_le] at c1 c3
    constructor
    · rcases c3 with c3 | c3
      · exact h1 c3
      · exact le_of_lt c3
    · rcases c1 with c1 | c1
      · exact h2 (by simpa using c1)
      · exact le_of_lt c1

theorem limits_y_bounds (g : Game) (p : Particle)
    (hlohi : (toUint32 (0 + g.gParticleRadius) : ℚ)
      ≤ (toUint32 (g.backgroundH - g.gParticleRadius) : ℚ))
    (h : inwardY (toUint32 (0 + g.gParticleRadius) : ℚ)
      (toUint32 (g.backgroundH - g.gParticleRadius) : ℚ) p) :
    (toUint32 (0 + g.gParticleRadius) : ℚ) ≤ (limitTop g (limitBottom g p)).yCoord ∧
    (limitTop g (limitBottom g p)).yCoord
      ≤ (toUint32 (g.backgroundH - g.gParticleRadius) : ℚ) := by
  obtain ⟨h1, h2⟩ := h
  unfold limitTop limitBottom
  split_ifs with c1 c2 c3
  · exact ⟨le_refl _, hlohi⟩
  · simp only [not_and_or, not_le] at c2
    rcases c2 with c2 | c2
    · exact absurd c2 (lt_irrefl _)
    · exact ⟨le_of_lt c2, le_refl _⟩
  · exact ⟨le_refl _, hlohi⟩
  · simp only [not_and_or, not_le] at c1 c3
    constructor
    · rcases c3 with c3 | c3
      · exact h1 c3
      · exact le_of_lt c3
    · rcases c1 with c1 | c1
      · exact h2 (by simpa using c1)
      · exact le_of_lt c1

theorem limitsLeftRight_inwardY (g : Game) (p : Particle) (lo hi : ℚ) (h : inwardY lo hi p) :
    inwardY lo hi (limitLeft g (limitRight g p)) := by
  unfold limitLeft limitRight
  split_ifs <;> exact h

theorem limitsTopBottom_xCoord (g : Game) (p : Particle) :
    (limitTop g (limitBottom g p)).xCoord = p.xCoord := by
  unfold limitTop limitBottom
  split_ifs <;> rfl

theorem collisionsLimits_bounds (g : Game) (p : Particle)
    (hx : (toUint32 (0 + g.gParticleRadius) : ℚ) ≤ (toUint32 (g.screenW - g.gParticleRadius) : ℚ))
    (hy : (toUint32 (0 + g.gParticleRadius) : ℚ)
      ≤ (toUint32 (g.backgroundH - g.gParticleRadius) : ℚ))
    (h : inwardX (toUint32 (0 + g.gParticleRadius) : ℚ)
        (toUint32 (g.screenW - g.gParticleRadius) : ℚ) p ∧
      inwardY (toUint32 (0 + g.gParticleRadius) : ℚ)
        (toUint32 (g.backgroundH - g.gParticleRadius) : ℚ) p) :
    (toUint32 (0 + g.gParticleRadius) : ℚ) ≤ (collisionsLimits g p).xCoord ∧
    (collisionsLimits g p).xCoord ≤ (toUint32 (g.screenW - g.gParticleRadius) : ℚ) ∧
    (toUint32 (0 + g.gParticleRadius) : ℚ) ≤ (collisionsLimits g p).yCoord ∧
    (collisionsLimits g p).yCoord ≤ (toUint32 (g.backgroundH - g.gParticleRadius) : ℚ) := by
  have hX := limits_x_bounds g p hx h.1
  have hY := limits_y_bounds g (limitLeft g (limitRight g p)) hy
    (limitsLeftRight_inwardY g p _ _ h.2)
  unfold collisionsLimits
  rw [limitsTopBottom_xCoord]
  exact ⟨hX.1, hX.2, hY.1, hY.2⟩

/-- Integration followed by `collisions` keeps a particle in the playable area.  In a
state whose first `gNumberOfParticle` slots of the particle array and first `gNumberOfWall`
slots of the wall array are in use, with `screenW ≥ 2 * radius` and
`backgroundH ≥ 2 * radius` (both within the range of `int`), let a particle satisfy
`radius ≤ x ≤ screenW - radius` and `radius ≤ y ≤ backgroundH - radius`.  Then lines
899-928 of `movementCalculation` return, and the particle satisfies the same bounds
afterwards, for every elapsed time, velocity, charge, wall and goal rectangle. -/
theorem integrate_collide_bounds (sqrt : ℚ → ℚ) (g : Game) (ps : List Particle)
    (rest : List (Option Particle)) (ws : List Wall) (wrest : List (Option Wall))
    (p : Particle)
    (harr : g.gParticleArray = ps.map some ++ rest)
    (hN : g.gNumberOfParticle = (ps.length : Int))
    (hwalls : g.gWallArray = ws.map some ++ wrest)
    (hNW : g.gNumberOfWall = (ws.length : Int))
    (hsw : g.screenW < 2147483648) (hbh : g.backgroundH < 2147483648)
    (hw : 2 * (g.gParticleRadius : Int) ≤ g.screenW)
    (hh : 2 * (g.gParticleRadius : Int) ≤ g.backgroundH)
    (hx1 : (g.gParticleRadius : ℚ) ≤ p.xCoord)
    (hx2 : p.xCoord ≤ ((g.screenW - g.gParticleRadius : Int) : ℚ))
    (hy1 : (g.gParticleRadius : ℚ) ≤ p.yCoord)
    (hy2 : p.yCoord ≤ ((g.backgroundH - g.gParticleRadius : Int) : ℚ)) :
    ∃ p', integrateAndCollide sqrt g p = some p' ∧
      (g.gParticleRadius : ℚ) ≤ p'.xCoord ∧
      p'.xCoord ≤ ((g.screenW - g.gParticleRadius : Int) : ℚ) ∧
      (g.gParticleRadius : ℚ) ≤ p'.yCoord ∧
      p'.yCoord ≤ ((g.backgroundH - g.gParticleRadius : Int) : ℚ) := by
  have hlo : toUint32 (0 + g.gParticleRadius) = (g.gParticleRadius : Int) := by
    rw [toUint32_of_small _ (by omega) (by omega)]
    omega
  have hxhi : toUint32 (g.screenW - g.gParticleRadius) = g.screenW - g.gParticleRadius :=
    toUint32_of_small _ (by omega) (by omega)
  have hyhi : toUint32 (g.backgroundH - g.gParticleRadius)
      = g.backgroundH - g.gParticleRadius :=
    toUint32_of_small _ (by omega) (by omega)
  have hloq : ((toUint32 (0 + g.gParticleRadius) : Int) : ℚ) = (g.gParticleRadius : ℚ) := by
    rw [hlo]; norm_cast
  obtain ⟨p1, hp1⟩ : ∃ p1, integrate sqrt g p = some p1 := by
    unfold integrate
    rw [getAcceleration_eq_sums sqrt g ps rest p harr hN]
    exact ⟨_, rfl⟩
  have hin := integrate_inward sqrt g p p1 hp1
    ((toUint32 (0 + g.gParticleRadius) : Int) : ℚ)
    ((toUint32 (g.screenW - g.gParticleRadius) : Int) : ℚ)
    ((toUint32 (0 + g.gParticleRadius) : Int) : ℚ)
    ((toUint32 (g.backgroundH - g.gParticleRadius) : Int) : ℚ)
    (by rw [hloq]; exact hx1) (by rw [hxhi]; exact hx2)
    (by rw [hloq]; exact hy1) (by rw [hyhi]; exact hy2)
  have hfold := foldl_invariant (fun q w => collisionsWall g.gParticleRadius w q)
    (fun q => inwardX ((toUint32 (0 + g.gParticleRadius) : Int) : ℚ)
        ((toUint32 (g.screenW - g.gParticleRadius) : Int) : ℚ) q ∧
      inwardY ((toUint32 (0 + g.gParticleRadius) : Int) : ℚ)
        ((toUint32 (g.backgroundH - g.gParticleRadius) : Int) : ℚ) q)
    (fun q w hq => collisionsWall_inward g.gParticleRadius _ _ _ _ q w hq) ws p1 hin
  have hxle : ((toUint32 (0 + g.gParticleRadius) : Int) : ℚ)
      ≤ ((toUint32 (g.screenW - g.gParticleRadius) : Int) : ℚ) := by
    rw [hlo, hxhi]; exact_mod_cast (by omega : (g.gParticleRadius : Int) ≤ g.screenW - g.gParticleRadius)
  have hyle : ((toUint32 (0 + g.gParticleRadius) : Int) : ℚ)
      ≤ ((toUint32 (g.backgroundH - g.gParticleRadius) : Int) : ℚ) := by
    rw [hlo, hyhi]
    exact_mod_cast (by omega : (g.gParticleRadius : Int) ≤ g.backgroundH - g.gParticleRadius)
  have hgoal := collisionsGoal_inward g _ _ _ _ _ hfold
  have hcol := collisions_eq g ws wrest hwalls hNW p1
  have hb := collisionsLimits_bounds g
    (if (ws.foldl (fun q w => collisionsWall g.gParticleRadius w q) p1).moving = false ∨
        (g.gCreativeMode ≠ 0 ∧ g.gPlay = 0)
     then collisionsGoal g (ws.foldl (fun q w => collisionsWall g.gParticleRadius w q) p1)
     else ws.foldl (fun q w => collisionsWall g.gParticleRadius w q) p1) hxle hyle
    (by split_ifs
        · exact hgoal
        · exact hfold)
  rw [hloq, hxhi, hyhi] at hb
  rw [integrateAndCollide_eq_bind, hp1]
  exact ⟨_, hcol, hb⟩

/-- An instance of `integrate_collide_bounds`: a moving particle at `(10, 590)`, in the lower
left corner of the playable area of 800 by 600 with radius `10`, a second particle of the
same charge to its right, a wall next to it, and an elapsed time of 16. -/
theorem integrate_collide_bounds_example :
    ∃ p', integrateAndCollide sqrtExact
        (gameOf [particleAt 1 true 10 590 1, particleAt 2 false 40 590 1] 1
          [⟨5, 570, 10, 10⟩] 16)
        (particleAt 1 true 10 590 1) = some p' ∧
      (((10 : Nat) : ℚ)) ≤ p'.xCoord ∧
      p'.xCoord ≤ (((800 : Int) - ((10 : Nat) : Int) : Int) : ℚ) ∧
      (((10 : Nat) : ℚ)) ≤ p'.yCoord ∧
      p'.yCoord ≤ (((600 : Int) - ((10 : Nat) : Int) : Int) : ℚ) :=
  integrate_collide_bounds sqrtExact
    (gameOf [particleAt 1 true 10 590 1, particleAt 2 false 40 590 1] 1 [⟨5, 570, 10, 10⟩] 16)
    [particleAt 1 true 10 590 1, particleAt 2 false 40 590 1] _ [⟨5, 570, 10, 10⟩] _
    (particleAt 1 true 10 590 1) rfl rfl rfl rfl (by decide) (by decide) (by decide) (by decide)
    (by decide) (by decide) (by decide) (by decide)

end ChargeGame

namespace ChargeGame

/-! ## The counters of the store over sequences of calls -/

theorem storeCounterInvariant_of_storeHolds (g : Game) (ps : List Particle) (ws : List Wall)
    (h : storeHolds g ps ws) : storeCounterInvariant g := by
  obtain ⟨h1, h2, h3, h4, -, -, -, -⟩ := h
  have hcp : ps.countP (fun q => q.moving) ≤ ps.length := List.countP_le_length _
  refine ⟨by rw [h4]; omega, by rw [h4, h3]; exact_mod_cast hcp,
    by rw [h3]; unfold gMAX_PARTICLES at h2; omega, ?_, ?_, ?_⟩
  · intro k hk
    rw [h3] at hk
    have hk' : k < ps.length := by omega
    refine ⟨ps.get ⟨k, hk'⟩, ?_⟩
    rw [h1, ← readSlot_natCast]
    exact readSlot_map_some_append ps _ k hk'
  · intro k hk hk5
    rw [h3] at hk
    have hk' : ps.length ≤ k := by omega
    rw [h1, List.getElem?_append_right (by simpa using hk')]
    rw [List.getElem?_replicate]
    simp only [List.length_map]
    rw [if_pos (by omega)]
  · rw [h4, h3, Int.toNat_ofNat, h1,
      countBelow_movingAt_map_some ps _ ps.length (le_refl _), List.take_length]

theorem freeSlots_spec {α : Type} : ∀ (n i : Nat) (a : List (Option α)), i + n ≤ a.length →
    ∃ a', freeSlots n (i : Int) a = some a' ∧ a'.length = a.length ∧
      ∀ k, a'[k]? = if i ≤ k ∧ k < i + n then some none else a[k]? := by
  intro n
  induction n with
  | zero =>
    intro i a _
    refine ⟨a, rfl, rfl, fun k => ?_⟩
    rw [if_neg (by omega)]
  | succ n ih =>
    intro i a h
    have hcast : ((i : Int) + 1) = ((i + 1 : Nat) : Int) := by push_cast; rfl
    rw [freeSlots, if_pos ⟨by omega, by simp; omega⟩, hcast, writeSlot_natCast]
    obtain ⟨a', h1, h2, h3⟩ := ih (i + 1) (a.set i none) (by simp; omega)
    refine ⟨a', h1, by rw [h2]; simp, fun k => ?_⟩
    rw [h3 k]
    by_cases hk : k = i
    · subst hk
      rw [if_neg (by omega), if_pos (by omega), List.getElem?_set_self (by omega)]
    · by_cases hr : i + 1 ≤ k ∧ k < i + 1 + n
      · rw [if_pos hr, if_pos (by omega)]
      · rw [if_neg hr, if_neg (by omega), List.getElem?_set_ne (by omega)]

theorem freeSlots_all {α : Type} (xs : List α) (cap : Nat) (hcap : xs.length ≤ cap) :
    freeSlots xs.length 0 (xs.map some ++ List.replicate (cap - xs.length) none)
      = some (List.replicate cap (none : Option α)) := by
  obtain ⟨a', h1, h2, h3⟩ := freeSlots_spec xs.length 0
    (xs.map some ++ List.replicate (cap - xs.length) none) (by simp)
  rw [Nat.cast_zero] at h1
  rw [h1]
  congr 1
  apply List.ext_getElem?
  intro k
  rw [h3 k, List.getElem?_replicate]
  by_cases hk : k < xs.length
  · rw [if_pos (by omega), if_pos (by omega)]
  · rw [if_neg (by omega), List.getElem?_append_right (by simpa using hk),
      List.getElem?_replicate]
    simp only [List.length_map]
    by_cases hk2 : k < cap
    · rw [if_pos (by omega), if_pos hk2]
    · rw [if_neg (by omega), if_neg hk2]

theorem freeLevel_storeHolds (g : Game) (ps : List Particle) (ws : List Wall)
    (h : storeHolds g ps ws) :
    ∃ g', freeLevel g = some g' ∧ storeHolds g' [] [] := by
  obtain ⟨h1, h2, h3, h4, h5, h6, h7, h8⟩ := h
  unfold freeLevel
  rw [h3, h8, Int.toNat_ofNat, Int.toNat_ofNat, h1, h6, freeSlots_all ps _ h2,
    freeSlots_all ws _ h7]
  refine ⟨_, rfl, ?_⟩
  refine ⟨by simp, by simp, rfl, rfl, by simp, by simp, by simp, rfl⟩

theorem mem_store_iff (ps : List Particle) (n : Nat) (q : Particle) :
    some q ∈ ps.map some ++ List.replicate n (none : Option Particle) ↔ q ∈ ps := by
  constructor
  · intro h
    rcases List.mem_append.mp h with h | h
    · obtain ⟨q', hq', e⟩ := List.mem_map.mp h
      rw [← Option.some.inj e]; exact hq'
    · have := List.eq_of_mem_replicate h
      exact absurd this (by simp)
  · intro h
    exact List.mem_append_left _ (List.mem_map_of_mem _ h)

theorem createParticle_storeHolds (g : Game) (ps : List Particle) (ws : List Wall)
    (m : Option Nat) (moving modifiable : Bool) (charge x y : Int)
    (h : storeHolds g ps ws)
    (hfresh : callAllowed g (StoreCall.create m moving modifiable charge x y)) :
    ∃ (g' : Game) (ps' : List Particle),
      createParticle g m moving modifiable charge x y = some g' ∧ storeHolds g' ps' ws := by
  obtain ⟨h1, h2, h3, h4, h5, h6, h7, h8⟩ := h
  unfold createParticle
  by_cases hcap : g.gNumberOfParticle < (gMAX_PARTICLES : Int)
  · rw [if_pos hcap]
    cases m with
    | none => exact ⟨g, ps, rfl, h1, h2, h3, h4, h5, h6, h7, h8⟩
    | some a =>
      simp only []
      obtain ⟨p', hcol, haddr, hmov, -, -⟩ := collisions_frame g ws _ h6 h8
        { addr := a, moving := moving, modifiable := modifiable, charge := charge,
          xCoord := (x : ℚ), yCoord := (y : ℚ), xCoordInit := (x : ℚ), yCoordInit := (y : ℚ),
          xSpeed := 0, ySpeed := 0, goal := false }
      rw [hcol]
      simp only []
      have hlt : ps.length < gMAX_PARTICLES := by rw [h3] at hcap; exact_mod_cast hcap
      have hlen : g.gParticleArray.length = gMAX_PARTICLES := by
        rw [h1]; simp; omega
      rw [if_pos ⟨by rw [h3]; omega, by rw [h3, hlen]; simpa using hlt⟩]
      obtain ⟨k, hk⟩ : ∃ k, gMAX_PARTICLES - ps.length = k + 1 :=
        ⟨gMAX_PARTICLES - ps.length - 1, by omega⟩
      refine ⟨_, ps ++ [p'], rfl, ?_, ?_, ?_, ?_, ?_, h6, h7, h8⟩
      · show writeSlot g.gParticleArray g.gNumberOfParticle (some p') = _
        rw [h3, writeSlot_natCast, h1, hk, set_replicate_none]
        have : gMAX_PARTICLES - (ps ++ [p']).length = k := by simp; omega
        rw [this]
      · simp; omega
      · show g.gNumberOfParticle + 1 = _
        rw [h3]; simp
      · show (if moving = true then g.gNumberOfMovingParticle + 1
          else g.gNumberOfMovingParticle) = _
        have hm : p'.moving = moving := hmov
        rw [h4, List.countP_append]
        cases moving <;> simp [List.countP_cons, hm]
      · rw [List.map_append, List.nodup_append]
        refine ⟨h5, by simp, ?_⟩
        intro z hz hz'
        simp only [List.map_cons, List.map_nil, List.mem_singleton] at hz'
        obtain ⟨q, hq, e⟩ := List.mem_map.mp hz
        have hq' : some q ∈ g.gParticleArray := by
          rw [h1]; exact (mem_store_iff ps _ q).mpr hq
        have := hfresh q hq'
        apply this
        rw [e, hz', haddr]
  · rw [if_neg hcap]
    exact ⟨g, ps, rfl, h1, h2, h3, h4, h5, h6, h7, h8⟩

end ChargeGame

namespace ChargeGame

theorem destroyParticle_cases (g : Game) (ps : List Particle)
    (rest : List (Option Particle)) (fuel : Nat) (p : Option Nat)
    (hg : g.gParticleArray = ps.map some ++ rest)
    (hN : g.gNumberOfParticle = (ps.length : Int))
    (hnd : (ps.map Particle.addr).Nodup) (hfuel : ps.length < fuel) :
    (∀ (i : Nat) (hi : i < ps.length), p = some (ps.get ⟨i, hi⟩).addr →
      (ps.get ⟨i, hi⟩).modifiable = true →
      destroyParticle fuel g p
        = some { g with
            gParticleArray := (ps.eraseIdx i).map some ++ none :: rest,
            gNumberOfParticle := (ps.length : Int) - 1,
            gNumberOfMovingParticle :=
              if (ps.get ⟨i, hi⟩).moving = true then g.gNumberOfMovingParticle - 1
              else g.gNumberOfMovingParticle }) ∧
    (p = none ∨ (∀ q ∈ ps, p = some q.addr → q.modifiable = false) →
      destroyParticle fuel g p = some g) := by
  constructor
  · intro i hi hp hmod
    subst hp
    unfold destroyParticle
    have hskip := destroyParticleLoop_skip (some (ps.get ⟨i, hi⟩).addr) ps rest g hg hN i
      (by omega)
      (by
        intro j hj hji hc
        have hinj := (List.nodup_iff_injective_get.mp hnd)
        have := @hinj ⟨j, by simpa using hj⟩ ⟨i, by simpa using hi⟩
          (by simpa using (Option.some.inj hc.2.2).symm)
        have := congrArg Fin.val this
        simp at this
        omega)
      i 0 (fuel - i) (by omega)
    have hf : fuel - i + i = fuel := by omega
    rw [hf] at hskip
    have h0 : ((0 : Nat) : Int) = 0 := rfl
    rw [h0] at hskip
    rw [hskip]
    exact destroyParticleLoop_at g ps rest (fuel - i) i hi hg hN hnd (by omega) hmod
  · intro h
    unfold destroyParticle
    have h0 : (0 : Int) = ((0 : Nat) : Int) := rfl
    rw [h0]
    apply destroyParticleLoop_no_match p ps rest g hg hN _ ps.length 0 fuel rfl hfuel
    intro q hq hc
    rcases h with h | h
    · exact hc.1 h
    · rw [h q hq hc.2.2] at hc
      exact absurd hc.2.1 (by simp)

theorem countP_eraseIdx (f : Particle → Bool) : ∀ (ps : List Particle) (i : Nat)
    (hi : i < ps.length),
    (ps.eraseIdx i).countP f + (if f (ps.get ⟨i, hi⟩) = true then 1 else 0) = ps.countP f := by
  intro ps
  induction ps with
  | nil => intro i hi; simp at hi
  | cons u t ih =>
    intro i hi
    cases i with
    | zero =>
      simp only [List.eraseIdx_cons_zero, List.get_eq_getElem, List.getElem_cons_zero,
        List.countP_cons]
    | succ i =>
      have hi' : i < t.length := by simpa using hi
      have := ih i hi'
      simp only [List.eraseIdx_cons_succ, List.get_eq_getElem, List.getElem_cons_succ,
        List.countP_cons] at this ⊢
      omega

theorem destroyParticle_storeHolds (g : Game) (ps : List Particle) (ws : List Wall)
    (fuel : Nat) (p : Option Nat) (h : storeHolds g ps ws) (hfuel : ps.length < fuel) :
    ∃ (g' : Game) (ps' : List Particle),
      destroyParticle fuel g p = some g' ∧ storeHolds g' ps' ws := by
  obtain ⟨h1, h2, h3, h4, h5, h6, h7, h8⟩ := h
  obtain ⟨hdel, hkeep⟩ := destroyParticle_cases g ps _ fuel p h1 h3 h5 hfuel
  by_cases hex : ∃ (i : Nat) (hi : i < ps.length), p = some (ps.get ⟨i, hi⟩).addr ∧
      (ps.get ⟨i, hi⟩).modifiable = true
  · obtain ⟨i, hi, hp, hmod⟩ := hex
    have hel : (ps.eraseIdx i).length = ps.length - 1 := List.length_eraseIdx_of_lt hi
    refine ⟨_, ps.eraseIdx i, hdel i hi hp hmod, ?_, ?_, ?_, ?_, ?_, h6, h7, h8⟩
    · show (ps.eraseIdx i).map some ++ none :: List.replicate (gMAX_PARTICLES - ps.length) none
        = _
      rw [hel]
      have : gMAX_PARTICLES - (ps.length - 1) = (gMAX_PARTICLES - ps.length) + 1 := by omega
      rw [this, List.replicate_succ]
    · rw [hel]; omega
    · show (ps.length : Int) - 1 = _
      rw [hel]; omega
    · show (if (ps.get ⟨i, hi⟩).moving = true then g.gNumberOfMovingParticle - 1
        else g.gNumberOfMovingParticle) = _
      have hc := countP_eraseIdx (fun q => q.moving) ps i hi
      simp only [] at hc
      rw [h4]
      split_ifs with hm
      · rw [if_pos hm] at hc; omega
      · rw [if_neg hm] at hc; omega
    · exact List.Nodup.sublist ((List.eraseIdx_sublist ps i).map Particle.addr) h5
  · refine ⟨g, ps, hkeep ?_, h1, h2, h3, h4, h5, h6, h7, h8⟩
    right
    intro q hq hp
    obtain ⟨i, hi, hget⟩ := List.mem_iff_getElem.mp hq
    by_contra hmod
    apply hex
    refine ⟨i, hi, ?_, ?_⟩
    · rw [hp]; congr 2; exact hget.symm
    · have : (ps.get ⟨i, hi⟩) = q := hget
      rw [this]
      simpa using hmod

end ChargeGame

namespace ChargeGame

theorem organize_storeHolds (g : Game) (ps : List Particle) (ws : List Wall) (fuel : Nat)
    (h : storeHolds g ps ws) (hfuel : ps.length < fuel) :
    ∃ (g' : Game) (ps' : List Particle),
      organizeParticleBlitering fuel g = some g' ∧ storeHolds g' ps' ws := by
  obtain ⟨h1, h2, h3, h4, h5, h6, h7, h8⟩ := h
  obtain ⟨ps', hres, hperm, -⟩ := organize_store g ps _ fuel h1 h3 h4 hfuel
  refine ⟨_, ps', hres, ?_, ?_, ?_, ?_, ?_, h6, h7, h8⟩
  · show ps'.map some ++ List.replicate (gMAX_PARTICLES - ps.length) none = _
    rw [hperm.length_eq]
  · rw [hperm.length_eq]; exact h2
  · show g.gNumberOfParticle = _
    rw [h3, hperm.length_eq]
  · show g.gNumberOfMovingParticle = _
    rw [h4, hperm.countP_eq]
  · exact ((hperm.map Particle.addr).nodup_iff).mpr h5

theorem changeParticleCharge_frame (q : Particle) (c : Int) :
    (changeParticleCharge q c).addr = q.addr ∧
      (changeParticleCharge q c).moving = q.moving := by
  unfold changeParticleCharge
  split_ifs <;> exact ⟨rfl, rfl⟩

theorem changeChargeOf_storeHolds (g : Game) (ps : List Particle) (ws : List Wall)
    (p : Option Nat) (c : Int) (h : storeHolds g ps ws)
    (hp : callAllowed g (StoreCall.changeCharge p c)) :
    ∃ (g' : Game) (ps' : List Particle),
      changeChargeOf g p c = some g' ∧ storeHolds g' ps' ws := by
  obtain ⟨h1, h2, h3, h4, h5, h6, h7, h8⟩ := h
  cases p with
  | none => exact ⟨g, ps, rfl, h1, h2, h3, h4, h5, h6, h7, h8⟩
  | some a =>
    obtain ⟨q0, hq0, ha⟩ := hp
    rw [h1] at hq0
    have hmem : ∃ q ∈ ps, q.addr = a := ⟨q0, (mem_store_iff ps _ q0).mp hq0, ha⟩
    obtain ⟨k, q, hk, hfind, hget, -⟩ := findSlot_of_mem
      (List.replicate (gMAX_PARTICLES - ps.length) none) a ps hmem
    obtain ⟨fa, fm⟩ := changeParticleCharge_frame q c
    unfold changeChargeOf
    simp only []
    rw [h1, hfind]
    refine ⟨_, ps.set k (changeParticleCharge q c), rfl, ?_, ?_, ?_, ?_, ?_, h6, h7, h8⟩
    · show (ps.map some ++ List.replicate (gMAX_PARTICLES - ps.length) none).set k
          (some (changeParticleCharge q c)) = _
      rw [set_map_some_append ps _ k hk, List.length_set]
    · rw [List.length_set]; exact h2
    · show g.gNumberOfParticle = _
      rw [h3, List.length_set]
    · show g.gNumberOfMovingParticle = _
      rw [h4]
      have hc := countP_set (fun q => q.moving) ps k hk (changeParticleCharge q c)
      simp only [] at hc
      rw [hget, fm] at hc
      have : (ps.set k (changeParticleCharge q c)).countP (fun q => q.moving)
          = ps.countP (fun q => q.moving) := by omega
      rw [this]
    · rw [map_set_of_eq Particle.addr ps k hk (changeParticleCharge q c) (by rw [hget, fa])]
      exact h5

theorem applyCall_storeHolds (fuel : Nat) (g : Game) (ps : List Particle) (ws : List Wall)
    (c : StoreCall) (h : storeHolds g ps ws) (hfuel : gMAX_PARTICLES < fuel)
    (hc : callAllowed g c) :
    ∃ (g' : Game) (ps' : List Particle) (ws' : List Wall),
      applyCall fuel g c = some g' ∧ storeHolds g' ps' ws' := by
  have hlen : ps.length < fuel := lt_of_le_of_lt h.2.1 hfuel
  cases c with
  | create m moving modifiable charge x y =>
    obtain ⟨g', ps', h1, h2⟩ := createParticle_storeHolds g ps ws m moving modifiable charge
      x y h hc
    exact ⟨g', ps', ws, h1, h2⟩
  | destroy p =>
    obtain ⟨g', ps', h1, h2⟩ := destroyParticle_storeHolds g ps ws fuel p h hlen
    exact ⟨g', ps', ws, h1, h2⟩
  | organize =>
    obtain ⟨g', ps', h1, h2⟩ := organize_storeHolds g ps ws fuel h hlen
    exact ⟨g', ps', ws, h1, h2⟩
  | changeCharge p c =>
    obtain ⟨g', ps', h1, h2⟩ := changeChargeOf_storeHolds g ps ws p c h hc
    exact ⟨g', ps', ws, h1, h2⟩
  | free =>
    obtain ⟨g', h1, h2⟩ := freeLevel_storeHolds g ps ws h
    exact ⟨g', [], [], h1, h2⟩

theorem runCalls_storeHolds (fuel : Nat) (hfuel : gMAX_PARTICLES < fuel) :
    ∀ (calls : List StoreCall) (g : Game) (ps : List Particle) (ws : List Wall),
      storeHolds g ps ws → runAllowed fuel g calls →
      ∃ (g' : Game) (ps' : List Particle) (ws' : List Wall),
        runCalls fuel g calls = some g' ∧ storeHolds g' ps' ws' := by
  intro calls
  induction calls with
  | nil => intro g ps ws h _; exact ⟨g, ps, ws, rfl, h⟩
  | cons c cs ih =>
    intro g ps ws h hall
    obtain ⟨hc, hrest⟩ := hall
    obtain ⟨g1, ps1, ws1, h1, hs1⟩ := applyCall_storeHolds fuel g ps ws c h hfuel hc
    obtain ⟨g', ps', ws', h2, hs2⟩ := ih g1 ps1 ws1 hs1 (hrest g1 h1)
    refine ⟨g', ps', ws', ?_, hs2⟩
    rw [runCalls, h1]
    exact h2

theorem storeHolds_of_emptyStore (g : Game) (h : emptyStore g) : ∃ ws, storeHolds g [] ws := by
  obtain ⟨h1, h2, h3, ws, h4, h5, h6⟩ := h
  exact ⟨ws, by simpa using h1, by simp, by simpa using h2, by simpa using h3, by simp,
    h4, h5, h6⟩

/-- C28.  From the empty store, every sequence of calls of `createParticle`,
`destroyParticle`, `organizeParticleBlitering`, `changeParticleCharge` and `freeLevel`
returns (with a loop budget above `gMAX_PARTICLES`) and ends in a state with
`0 ≤ gNumberOfMovingParticle ≤ gNumberOfParticle ≤ 500`, the slots
`0 .. gNumberOfParticle - 1` non-null, the other slots null, and
`gNumberOfMovingParticle` equal to the number of stored particles with `moving = true`.
The calls are those the environment allows: `malloc` returns `NULL` or a block that is not
in use, and `changeParticleCharge` is given `NULL` or a pointer to a particle of the
store. -/
theorem store_counter_invariant (fuel : Nat) (g0 : Game) (calls : List StoreCall)
    (hfuel : gMAX_PARTICLES < fuel) (h0 : emptyStore g0)
    (hcalls : runAllowed fuel g0 calls) :
    ∃ g, runCalls fuel g0 calls = some g ∧ storeCounterInvariant g := by
  obtain ⟨ws, hs⟩ := storeHolds_of_emptyStore g0 h0
  obtain ⟨g, ps', ws', hrun, hs'⟩ := runCalls_storeHolds fuel hfuel calls g0 [] ws hs hcalls
  exact ⟨g, hrun, storeCounterInvariant_of_storeHolds g ps' ws' hs'⟩

end ChargeGame

namespace ChargeGame

/-- Witness of C28: on the empty store of `gameOf`, a moving particle is created at the
address 1, the store is organised, the particle is destroyed and the level is freed. -/
theorem store_counter_invariant_witness :
    ∃ g, runCalls 501 (gameOf [] 0 [] 16)
        [StoreCall.create (some 1) true true 1 100 100, StoreCall.organize,
          StoreCall.destroy (some 1), StoreCall.free] = some g ∧
      storeCounterInvariant g :=
  store_counter_invariant 501 (gameOf [] 0 [] 16)
    [StoreCall.create (some 1) true true 1 100 100, StoreCall.organize,
      StoreCall.destroy (some 1), StoreCall.free]
    (by decide) ⟨rfl, rfl, rfl, [], rfl, by decide, rfl⟩
    ⟨fun _ hq => absurd (List.eq_of_mem_replicate hq) (by simp),
      fun _ _ => ⟨trivial, fun _ _ => ⟨trivial, fun _ _ => ⟨trivial, fun _ _ => trivial⟩⟩⟩⟩

end ChargeGame

namespace ChargeGame

/-! ## Blit ordering: repeated calls order both blocks -/

theorem yAt_of_getElem? (a : List (Option Particle)) (k : Nat) (q : Particle)
    (h : a[k]? = some (some q)) : yAt a k = q.yCoord := by
  unfold yAt
  rw [h]

theorem yAt_congr (a b : List (Option Particle)) (k : Nat) (h : b[k]? = a[k]?) :
    yAt b k = yAt a k := by
  unfold yAt
  rw [h]

theorem bubblePass_settled (N low top k : Nat) (htop : top ≤ N) :
    ∀ (n i : Nat) (a : List (Option Particle)) (inOrder : Bool),
      slotsInUse a N → i < top → low + n ≤ i → settled a low top k →
      ∃ a' inOrder', bubblePass n a (i : Int) inOrder = some (a', inOrder') ∧
        slotsInUse a' N ∧
        (∀ j, j < low ∨ top ≤ j → a'[j]? = a[j]?) ∧
        settled a' low top k ∧
        (minAt a (max i (low + k)) top → minAt a' (max (i - n) (low + k)) top) := by
  intro n
  induction n with
  | zero =>
    intro i a inOrder hN _ _ hs
    exact ⟨a, inOrder, rfl, hN, fun _ _ => rfl, hs, fun h => h⟩
  | succ n ih =>
    intro i a inOrder hN hi hn hs
    obtain ⟨pi, hpi⟩ := hN i (by omega)
    obtain ⟨pj, hpj⟩ := hN (i - 1) (by omega)
    have hidx : (i : Int) - 1 = ((i - 1 : Nat) : Int) := by omega
    have hyi : yAt a i = pi.yCoord := yAt_of_getElem? a i pi hpi
    have hyj : yAt a (i - 1) = pj.yCoord := yAt_of_getElem? a (i - 1) pj hpj
    rw [bubblePass, readSlot_natCast, hpi]
    simp only []
    rw [hidx, readSlot_natCast, hpj]
    simp only []
    by_cases hlt : pi.yCoord < pj.yCoord
    · rw [if_pos hlt]
      obtain ⟨a1, ha1, hlen, hget⟩ := swapSlots_spec a i (i - 1) (some pi) (some pj) hpi hpj
      rw [ha1]
      simp only []
      have hN1 : slotsInUse a1 N := by
        intro j hj
        rw [hget j]
        by_cases h1 : j = i - 1
        · exact ⟨pi, by rw [if_pos h1]⟩
        · by_cases h2 : j = i
          · exact ⟨pj, by rw [if_neg h1, if_pos h2]⟩
          · obtain ⟨qk, hqk⟩ := hN j hj
            exact ⟨qk, by rw [if_neg h1, if_neg h2, hqk]⟩
      have hy1 : yAt a1 (i - 1) = yAt a i := by
        rw [yAt_of_getElem? a1 (i - 1) pi (by rw [hget, if_pos rfl]), hyi]
      have hy2 : yAt a1 i = yAt a (i - 1) := by
        rw [yAt_of_getElem? a1 i pj (by rw [hget, if_neg (by omega), if_pos rfl]), hyj]
      have hy3 : ∀ j, j ≠ i - 1 → j ≠ i → yAt a1 j = yAt a j := by
        intro j h1 h2
        exact yAt_congr a a1 j (by rw [hget, if_neg h1, if_neg h2])
      have hbound : low + k ≤ i - 1 := by
        by_contra hcon
        have := hs (i - 1) i (by omega) (by omega) (by omega) hi
        rw [hyi, hyj] at this
        exact absurd hlt (not_lt.mpr this)
      have hs1 : settled a1 low top k := by
        intro j1 j2 h1 h2 h3 h4
        rw [hy3 j1 (by omega) (by omega)]
        by_cases e1 : j2 = i - 1
        · rw [e1, hy1]
          exact hs j1 i h1 h2 (by omega) hi
        · by_cases e2 : j2 = i
          · rw [e2, hy2]
            exact hs j1 (i - 1) h1 h2 (by omega) (by omega)
          · rw [hy3 j2 e1 e2]
            exact hs j1 j2 h1 h2 h3 h4
      obtain ⟨a', o', ha', hN', hrest', hs', hmin'⟩ :=
        ih (i - 1) a1 false hN1 (by omega) (by omega) hs1
      refine ⟨a', o', ha', hN', ?_, hs', ?_⟩
      · intro j hj
        rw [hrest' j hj, hget j, if_neg (by omega), if_neg (by omega)]
      · intro hmin
        have e1 : max i (low + k) = i := by omega
        have e2 : max (i - 1) (low + k) = i - 1 := by omega
        have e3 : i - 1 - n = i - (n + 1) := by omega
        rw [e1] at hmin
        rw [← e3]
        apply hmin'
        rw [e2]
        intro j h1 h2
        rw [hy1]
        by_cases e : j = i
        · rw [e, hy2, hyi, hyj]
          exact le_of_lt hlt
        · rw [hy3 j (by omega) e]
          exact hmin j (by omega) h2
    · rw [if_neg hlt]
      obtain ⟨a', o', ha', hN', hrest', hs', hmin'⟩ :=
        ih (i - 1) a inOrder hN (by omega) (by omega) hs
      refine ⟨a', o', ha', hN', hrest', hs', ?_⟩
      intro hmin
      have e3 : i - 1 - n = i - (n + 1) := by omega
      rw [← e3]
      apply hmin'
      by_cases hb : low + k ≤ i - 1
      · have e1 : max i (low + k) = i := by omega
        have e2 : max (i - 1) (low + k) = i - 1 := by omega
        rw [e1] at hmin
        rw [e2]
        intro j h1 h2
        have hle : yAt a (i - 1) ≤ yAt a i := by
          rw [hyi, hyj]; exact not_lt.mp hlt
        by_cases e : j = i
        · rw [e]; exact hle
        · exact le_trans hle (hmin j (by omega) h2)
      · have e1 : max i (low + k) = low + k := by omega
        have e2 : max (i - 1) (low + k) = low + k := by omega
        rw [e1] at hmin
        rw [e2]
        exact hmin

end ChargeGame

namespace ChargeGame

theorem bubblePass_sorted (N : Nat) :
    ∀ (n i : Nat) (a : List (Option Particle)) (inOrder : Bool),
      slotsInUse a N → i < N → n ≤ i →
      (∀ j, i - n < j → j ≤ i → yAt a (j - 1) ≤ yAt a j) →
      bubblePass n a (i : Int) inOrder = some (a, inOrder) := by
  intro n
  induction n with
  | zero => intro i a inOrder _ _ _ _; rfl
  | succ n ih =>
    intro i a inOrder hN hi hn hsorted
    obtain ⟨pi, hpi⟩ := hN i hi
    obtain ⟨pj, hpj⟩ := hN (i - 1) (by omega)
    have hidx : (i : Int) - 1 = ((i - 1 : Nat) : Int) := by omega
    have hle := hsorted i (by omega) (le_refl _)
    rw [yAt_of_getElem? a i pi hpi, yAt_of_getElem? a (i - 1) pj hpj] at hle
    rw [bubblePass, readSlot_natCast, hpi]
    simp only []
    rw [hidx, readSlot_natCast, hpj]
    simp only []
    rw [if_neg (not_lt.mpr hle)]
    exact ih (i - 1) a inOrder hN (by omega) (by omega)
      (fun j h1 h2 => hsorted j (by omega) (by omega))

theorem bubbleLoop_settled (N low top k : Nat) (htop : top ≤ N) :
    ∀ (fuel l : Nat) (a : List (Option Particle)), 1 ≤ l → top - l - low < fuel →
      slotsInUse a N → settled a low top k →
      ∃ a', bubbleLoop (top : Int) (low : Int) fuel a (l : Int) = some a' ∧
        slotsInUse a' N ∧ (∀ j, j < low ∨ top ≤ j → a'[j]? = a[j]?) ∧
        settled a' low top k := by
  intro fuel
  induction fuel with
  | zero => intro l a _ h; omega
  | succ fuel ih =>
    intro l a hl hfuel hN hs
    have hn : ((top : Int) - (l : Int) - (low : Int)).toNat = top - l - low := by omega
    rw [bubbleLoop, hn]
    by_cases h0 : top - l - low = 0
    · rw [h0, bubblePass]
      exact ⟨a, rfl, hN, fun _ _ => rfl, hs⟩
    · have hidx : (top : Int) - (l : Int) = ((top - l : Nat) : Int) := by omega
      rw [hidx]
      obtain ⟨a1, o1, ha1, hN1, hrest1, hs1, -⟩ :=
        bubblePass_settled N low top k htop (top - l - low) (top - l) a true hN (by omega)
          (by omega) hs
      rw [ha1]
      cases o1 with
      | true => exact ⟨a1, rfl, hN1, hrest1, hs1⟩
      | false =>
        simp only []
        have hstep : (l : Int) + 1 = ((l + 1 : Nat) : Int) := by push_cast; rfl
        rw [hstep]
        obtain ⟨a', ha', hN', hrest', hs'⟩ := ih (l + 1) a1 (by omega) (by omega) hN1 hs1
        exact ⟨a', ha', hN', fun j hj => by rw [hrest' j hj, hrest1 j hj], hs'⟩

theorem bubbleLoop_first (N low top k fuel : Nat) (htop : top ≤ N)
    (a : List (Option Particle)) (hfuel : top - low < fuel + 1)
    (hN : slotsInUse a N) (hs : settled a low top k) :
    ∃ a', bubbleLoop (top : Int) (low : Int) (fuel + 1) a 1 = some a' ∧
      slotsInUse a' N ∧ (∀ j, j < low ∨ top ≤ j → a'[j]? = a[j]?) ∧
      settled a' low top (k + 1) := by
  have hn : ((top : Int) - 1 - (low : Int)).toNat = top - 1 - low := by omega
  rw [bubbleLoop, hn]
  by_cases h0 : top - 1 - low = 0
  · rw [h0, bubblePass]
    refine ⟨a, rfl, hN, fun _ _ => rfl, ?_⟩
    intro j1 j2 h1 h2 h3 h4
    omega
  · have hidx : (top : Int) - 1 = ((top - 1 : Nat) : Int) := by omega
    rw [hidx]
    obtain ⟨a1, o1, ha1, hN1, hrest1, hs1, hmin1⟩ :=
      bubblePass_settled N low top k htop (top - 1 - low) (top - 1) a true hN (by omega)
        (by omega) hs
    have hmin : minAt a1 (low + k) top := by
      have e : max (top - 1 - (top - 1 - low)) (low + k) = low + k := by omega
      rw [← e]
      apply hmin1
      intro j h1 h2
      omega
    have hs2 : settled a1 low top (k + 1) := by
      intro j1 j2 h1 h2 h3 h4
      by_cases e : j1 = low + k
      · rw [e]
        exact hmin j2 (by omega) h4
      · exact hs1 j1 j2 h1 (by omega) h3 h4
    rw [ha1]
    cases o1 with
    | true => exact ⟨a1, rfl, hN1, hrest1, hs2⟩
    | false =>
      simp only []
      have hstep : (1 : Int) + 1 = ((2 : Nat) : Int) := by norm_num
      rw [hstep]
      obtain ⟨a', ha', hN', hrest', hs'⟩ :=
        bubbleLoop_settled N low top (k + 1) htop fuel 2 a1 (by omega) (by omega) hN1 hs2
      exact ⟨a', ha', hN', fun j hj => by rw [hrest' j hj, hrest1 j hj], hs'⟩

theorem settled_congr (a b : List (Option Particle)) (low top k : Nat)
    (h : ∀ j, low ≤ j → j < top → b[j]? = a[j]?) (hs : settled a low top k) :
    settled b low top k := by
  intro j1 j2 h1 h2 h3 h4
  rw [yAt_congr a b j1 (h j1 h1 (by omega)), yAt_congr a b j2 (h j2 (by omega) h4)]
  exact hs j1 j2 h1 h2 h3 h4

theorem bubbleLoop_sorted (N low top fuel : Nat) (htop : top ≤ N)
    (a : List (Option Particle)) (hN : slotsInUse a N)
    (hsorted : ∀ j, low < j → j < top → yAt a (j - 1) ≤ yAt a j) :
    bubbleLoop (top : Int) (low : Int) (fuel + 1) a 1 = some a := by
  have hn : ((top : Int) - 1 - (low : Int)).toNat = top - 1 - low := by omega
  rw [bubbleLoop, hn]
  by_cases h0 : top - 1 - low = 0
  · rw [h0, bubblePass]
  · have hidx : (top : Int) - 1 = ((top - 1 : Nat) : Int) := by omega
    rw [hidx, bubblePass_sorted N (top - 1 - low) (top - 1) a true hN (by omega) (by omega)
      (fun j h1 h2 => hsorted j (by omega) (by omega))]

end ChargeGame

namespace ChargeGame

theorem partitionLoop_partitioned (N M inner : Nat) (hMN : M ≤ N)
    (a : List (Option Particle)) (hN : slotsInUse a N)
    (hpart : ∀ k, N - M ≤ k → k < N → movingAt a k = true) :
    ∀ (fuel i : Nat), i ≤ M → M - i < fuel →
      partitionLoop (N : Int) (M : Int) inner fuel a (i : Int) (i : Int) = some a := by
  intro fuel
  induction fuel with
  | zero => intro i _ h; omega
  | succ fuel ih =>
    intro i hiM hfuel
    rw [partitionLoop]
    by_cases hi : i = M
    · subst hi
      have htest : partitionTest a (i : Int) (i : Int) (i : Int) = some false := by
        unfold partitionTest
        rw [readSlot_natCast]
        rcases h : a[i]? with _ | (_ | q) <;> simp
      rw [htest]
    · have hlt : i < M := by omega
      obtain ⟨q, hq⟩ := hN i (by omega)
      obtain ⟨q', hq'⟩ := hN (N - 1 - i) (by omega)
      have hmov : q'.moving = true := by
        rw [← movingAt_of_getElem? a (N - 1 - i) q' hq']
        exact hpart (N - 1 - i) (by omega) (by omega)
      have htest : partitionTest a (M : Int) (i : Int) (i : Int) = some true := by
        unfold partitionTest
        rw [readSlot_natCast, hq]
        simp only []
        rw [decide_eq_true_iff.mpr (by exact_mod_cast hlt)]
      have hidx : ((N : Int) - 1 - (i : Int)) = ((N - 1 - i : Nat) : Int) := by omega
      have hcast : ((i : Int) + 1) = ((i + 1 : Nat) : Int) := by push_cast; rfl
      rw [htest]
      simp only []
      rw [hidx, deref_of_getElem? a (N - 1 - i) q' hq']
      simp only []
      rw [if_neg (by rw [hmov]; decide), hcast]
      exact ih (i + 1) (by omega) (by omega)

theorem sortPhases_settled (N M fuel k1 k2 : Nat) (hMN : M ≤ N) (hfuel : N < fuel)
    (a : List (Option Particle)) (hN : slotsInUse a N)
    (hs1 : settled a 0 (N - M) k1) (hs2 : settled a (N - M) N k2) :
    ∃ a2 a3, sortMovingParticles (N : Int) (M : Int) fuel a = some a2 ∧
      sortNonMovingParticles (N : Int) (M : Int) fuel a2 = some a3 ∧
      settled a3 0 (N - M) (k1 + 1) ∧ settled a3 (N - M) N (k2 + 1) := by
  obtain ⟨f, rfl⟩ : ∃ f, fuel = f + 1 := ⟨fuel - 1, by omega⟩
  have hlow : (N : Int) - (M : Int) = ((N - M : Nat) : Int) := by omega
  obtain ⟨a2, ha2, hN2, hrest2, hsm⟩ :=
    bubbleLoop_first N (N - M) N k2 f (le_refl _) a (by omega) hN hs2
  have hs1' : settled a2 0 (N - M) k1 :=
    settled_congr a a2 0 (N - M) k1 (fun j _ h => hrest2 j (Or.inl h)) hs1
  obtain ⟨a3, ha3, hN3, hrest3, hsn⟩ :=
    bubbleLoop_first N 0 (N - M) k1 f (by omega) a2 (by omega) hN2 hs1'
  have hsm' : settled a3 (N - M) N (k2 + 1) :=
    settled_congr a2 a3 (N - M) N (k2 + 1) (fun j h _ => hrest3 j (Or.inr h)) hsm
  refine ⟨a2, a3, ?_, ?_, hsn, hsm'⟩
  · unfold sortMovingParticles
    rw [hlow]
    exact ha2
  · unfold sortNonMovingParticles
    rw [hlow]
    have h0 : ((0 : Nat) : Int) = 0 := rfl
    rw [← h0]
    exact ha3

theorem organize_settled (g : Game) (N M fuel k1 k2 : Nat) (hMN : M ≤ N) (hfuel : N < fuel)
    (hgN : g.gNumberOfParticle = (N : Int)) (hgM : g.gNumberOfMovingParticle = (M : Int))
    (hN : slotsInUse g.gParticleArray N)
    (hpart : ∀ k, N - M ≤ k → k < N → movingAt g.gParticleArray k = true)
    (hs1 : settled g.gParticleArray 0 (N - M) k1)
    (hs2 : settled g.gParticleArray (N - M) N k2) :
    ∃ a3, organizeParticleBlitering fuel g = some { g with gParticleArray := a3 } ∧
      settled a3 0 (N - M) (k1 + 1) ∧ settled a3 (N - M) N (k2 + 1) := by
  have hp := partitionLoop_partitioned N M fuel hMN g.gParticleArray hN hpart fuel 0
    (by omega) (by omega)
  rw [Nat.cast_zero] at hp
  obtain ⟨a2, a3, h2, h3, hsn, hsm⟩ :=
    sortPhases_settled N M fuel k1 k2 hMN hfuel g.gParticleArray hN hs1 hs2
  refine ⟨a3, ?_, hsn, hsm⟩
  unfold organizeParticleBlitering
  simp only []
  rw [hgN, hgM, hp]
  simp only []
  rw [h2]
  simp only []
  rw [h3]

theorem organize_sorted (g : Game) (N M fuel : Nat) (hMN : M ≤ N) (hfuel : N < fuel)
    (hgN : g.gNumberOfParticle = (N : Int)) (hgM : g.gNumberOfMovingParticle = (M : Int))
    (hN : slotsInUse g.gParticleArray N)
    (hpart : ∀ k, N - M ≤ k → k < N → movingAt g.gParticleArray k = true)
    (hs1 : ∀ j, 0 < j → j < N - M → yAt g.gParticleArray (j - 1) ≤ yAt g.gParticleArray j)
    (hs2 : ∀ j, N - M < j → j < N → yAt g.gParticleArray (j - 1) ≤ yAt g.gParticleArray j) :
    organizeParticleBlitering fuel g = some g := by
  obtain ⟨f, rfl⟩ : ∃ f, fuel = f + 1 := ⟨fuel - 1, by omega⟩
  have hp := partitionLoop_partitioned N M (f + 1) hMN g.gParticleArray hN hpart (f + 1) 0
    (by omega) (by omega)
  rw [Nat.cast_zero] at hp
  have hlow : (N : Int) - (M : Int) = ((N - M : Nat) : Int) := by omega
  have h2 := bubbleLoop_sorted N (N - M) N f (le_refl _) g.gParticleArray hN hs2
  have h3 := bubbleLoop_sorted N 0 (N - M) f (by omega) g.gParticleArray hN hs1
  rw [Nat.cast_zero] at h3
  have h : organizeParticleBlitering (f + 1) g
      = some { g with gParticleArray := g.gParticleArray } := by
    unfold organizeParticleBlitering sortMovingParticles sortNonMovingParticles
    simp only []
    rw [hgN, hgM, hp]
    simp only []
    rw [hlow, h2]
    simp only []
    rw [h3]
  exact h

end ChargeGame

namespace ChargeGame

theorem getElem?_map_some_append (ps : List Particle) (rest : List (Option Particle))
    (j : Nat) (hj : j < ps.length) :
    (ps.map some ++ rest)[j]? = some (some (ps.get ⟨j, hj⟩)) := by
  rw [← readSlot_natCast]
  exact readSlot_map_some_append ps rest j hj

/-- What a call of `organizeParticleBlitering` keeps and what it gains, for a store of the
particles `ps'` whose moving particles are in the last slots: the store is a permutation,
the moving particles stay in the last slots, and one more slot of each block is settled. -/
theorem organize_call_settled (g : Game) (ps' : List Particle)
    (rest : List (Option Particle)) (fuel k : Nat)
    (harr : g.gParticleArray = ps'.map some ++ rest)
    (hN : g.gNumberOfParticle = (ps'.length : Int))
    (hM : g.gNumberOfMovingParticle = ((ps'.countP (fun q => q.moving) : Nat) : Int))
    (hfuel : ps'.length < fuel)
    (hpart : ∀ (j : Nat) (hj : j < ps'.length),
      ((ps'.get ⟨j, hj⟩).moving = true ↔ ps'.length - ps'.countP (fun q => q.moving) ≤ j))
    (hs1 : settled (ps'.map some ++ rest) 0
      (ps'.length - ps'.countP (fun q => q.moving)) k)
    (hs2 : settled (ps'.map some ++ rest)
      (ps'.length - ps'.countP (fun q => q.moving)) ps'.length k) :
    ∃ ps'' : List Particle,
      organizeParticleBlitering fuel g = some { g with gParticleArray := ps''.map some ++ rest } ∧
      ps''.Perm ps' ∧
      (∀ (j : Nat) (hj : j < ps''.length),
        ((ps''.get ⟨j, hj⟩).moving = true ↔ ps'.length - ps'.countP (fun q => q.moving) ≤ j)) ∧
      settled (ps''.map some ++ rest) 0 (ps'.length - ps'.countP (fun q => q.moving)) (k + 1) ∧
      settled (ps''.map some ++ rest) (ps'.length - ps'.countP (fun q => q.moving))
        ps'.length (k + 1) := by
  obtain ⟨ps'', hres, hperm, hpart''⟩ := organize_store g ps' rest fuel harr hN hM hfuel
  have hcp : ps'.countP (fun q => q.moving) ≤ ps'.length := List.countP_le_length _
  obtain ⟨a3, hres3, h1, h2⟩ := organize_settled g ps'.length
    (ps'.countP (fun q => q.moving)) fuel k k hcp hfuel hN hM
    (by rw [harr]; exact slotsInUse_map_some ps' rest)
    (by
      intro j h1 h2
      rw [harr, movingAt_of_getElem? _ j _ (getElem?_map_some_append ps' rest j h2)]
      exact (hpart j h2).mpr h1)
    (by rw [harr]; exact hs1) (by rw [harr]; exact hs2)
  have ha3 : a3 = ps''.map some ++ rest := by
    rw [hres3] at hres
    exact congrArg Game.gParticleArray (Option.some.inj hres)
  rw [ha3] at h1 h2
  exact ⟨ps'', hres, hperm, hpart'', h1, h2⟩

theorem organizeTimes_settled (g : Game) (ps : List Particle) (rest : List (Option Particle))
    (fuel : Nat)
    (hN : g.gNumberOfParticle = (ps.length : Int))
    (hM : g.gNumberOfMovingParticle = ((ps.countP (fun q => q.moving) : Nat) : Int))
    (hfuel : ps.length < fuel) :
    ∀ (n k : Nat) (ps' : List Particle), ps'.Perm ps →
      (∀ (j : Nat) (hj : j < ps'.length),
        ((ps'.get ⟨j, hj⟩).moving = true ↔ ps.length - ps.countP (fun q => q.moving) ≤ j)) →
      settled (ps'.map some ++ rest) 0 (ps.length - ps.countP (fun q => q.moving)) k →
      settled (ps'.map some ++ rest) (ps.length - ps.countP (fun q => q.moving)) ps.length k →
      ∃ ps'' : List Particle,
        organizeTimes fuel n { g with gParticleArray := ps'.map some ++ rest }
          = some { g with gParticleArray := ps''.map some ++ rest } ∧
        ps''.Perm ps ∧
        (∀ (j : Nat) (hj : j < ps''.length),
          ((ps''.get ⟨j, hj⟩).moving = true ↔ ps.length - ps.countP (fun q => q.moving) ≤ j)) ∧
        settled (ps''.map some ++ rest) 0 (ps.length - ps.countP (fun q => q.moving)) (k + n) ∧
        settled (ps''.map some ++ rest) (ps.length - ps.countP (fun q => q.moving))
          ps.length (k + n) := by
  intro n
  induction n with
  | zero =>
    intro k ps' hperm hpart hs1 hs2
    exact ⟨ps', rfl, hperm, hpart, hs1, hs2⟩
  | succ n ih =>
    intro k ps' hperm hpart hs1 hs2
    have hl : ps'.length = ps.length := hperm.length_eq
    have hc : ps'.countP (fun q => q.moving) = ps.countP (fun q => q.moving) :=
      hperm.countP_eq _
    obtain ⟨ps1, hres, hperm1, hpart1, h1, h2⟩ := organize_call_settled
      { g with gParticleArray := ps'.map some ++ rest } ps' rest fuel k rfl
      (by rw [hl]; exact hN) (by rw [hc]; exact hM) (by rw [hl]; exact hfuel)
      (fun j hj => (hpart j hj).trans (by rw [hl, hc])) (by rw [hl, hc]; exact hs1) (by rw [hl, hc]; exact hs2)
    rw [hl, hc] at hpart1 h1 h2
    obtain ⟨ps'', hres', hperm', hpart', h1', h2'⟩ :=
      ih (k + 1) ps1 (hperm1.trans hperm) hpart1 h1 h2
    refine ⟨ps'', ?_, hperm', hpart', ?_, ?_⟩
    · rw [organizeTimes, hres]
      exact hres'
    · have e : k + (n + 1) = k + 1 + n := by omega
      rw [e]; exact h1'
    · have e : k + (n + 1) = k + 1 + n := by omega
      rw [e]; exact h2'

end ChargeGame

namespace ChargeGame

theorem organised_of_settled (ps' : List Particle) (rest : List (Option Particle))
    (N M K : Nat) (hlen : ps'.length = N) (hK : N ≤ K + 1)
    (hpart : ∀ (j : Nat) (hj : j < ps'.length),
      ((ps'.get ⟨j, hj⟩).moving = true ↔ N - M ≤ j))
    (h1 : settled (ps'.map some ++ rest) 0 (N - M) K)
    (h2 : settled (ps'.map some ++ rest) (N - M) N K) : organised ps' := by
  have hget : ∀ (j : Nat) (q : Particle), ps'[j]? = some q →
      ∃ hj : j < ps'.length, ps'.get ⟨j, hj⟩ = q := by
    intro j q h
    have hj := getElem?_lt_length ps' j q h
    rw [List.getElem?_eq_getElem hj] at h
    exact ⟨hj, Option.some.inj h⟩
  constructor
  · intro j k qj qk hjk hj hk hmov
    obtain ⟨hjl, ej⟩ := hget j qj hj
    obtain ⟨hkl, ek⟩ := hget k qk hk
    rw [← ej] at hmov
    rw [← ek]
    exact (hpart k hkl).mpr (le_trans ((hpart j hjl).mp hmov) (le_of_lt hjk))
  · intro j k qj qk hjk hj hk hsame
    obtain ⟨hjl, ej⟩ := hget j qj hj
    obtain ⟨hkl, ek⟩ := hget k qk hk
    have yj : yAt (ps'.map some ++ rest) j = qj.yCoord := by
      rw [yAt_of_getElem? _ j _ (getElem?_map_some_append ps' rest j hjl), ej]
    have yk : yAt (ps'.map some ++ rest) k = qk.yCoord := by
      rw [yAt_of_getElem? _ k _ (getElem?_map_some_append ps' rest k hkl), ek]
    rw [← yj, ← yk]
    by_cases hb : N - M ≤ j
    · exact h2 j k hb (by omega) hjk (by omega)
    · have hnj : ¬ (ps'.get ⟨j, hjl⟩).moving = true := fun h => hb ((hpart j hjl).mp h)
      have hnk : ¬ N - M ≤ k := by
        intro h
        have := (hpart k hkl).mpr h
        rw [ek, ← hsame, ← ej] at this
        exact hnj this
      exact h1 j k (by omega) (by omega) hjk (by omega)

theorem organizeTimes_fixed (fuel : Nat) (g : Game)
    (h : organizeParticleBlitering fuel g = some g) :
    ∀ m, organizeTimes fuel m g = some g := by
  intro m
  induction m with
  | zero => rfl
  | succ m ih => rw [organizeTimes, h]; exact ih

theorem organizeTimes_store (g : Game) (ps : List Particle) (rest : List (Option Particle))
    (fuel : Nat) (harr : g.gParticleArray = ps.map some ++ rest)
    (hN : g.gNumberOfParticle = (ps.length : Int))
    (hM : g.gNumberOfMovingParticle = ((ps.countP (fun q => q.moving) : Nat) : Int))
    (hfuel : ps.length < fuel) :
    ∃ (ps' : List Particle) (K : Nat),
      organizeTimes fuel ps.length g = some { g with gParticleArray := ps'.map some ++ rest } ∧
      ps'.Perm ps ∧ ps.length ≤ K + 1 ∧
      (∀ (j : Nat) (hj : j < ps'.length),
        ((ps'.get ⟨j, hj⟩).moving = true ↔ ps.length - ps.countP (fun q => q.moving) ≤ j)) ∧
      settled (ps'.map some ++ rest) 0 (ps.length - ps.countP (fun q => q.moving)) K ∧
      settled (ps'.map some ++ rest) (ps.length - ps.countP (fun q => q.moving))
        ps.length K := by
  cases hps : ps with
  | nil =>
    subst hps
    refine ⟨[], 0, ?_, List.Perm.refl _, by simp, ?_, ?_, ?_⟩
    · show some g = some _
      rw [← harr]
    · intro j hj
      simp at hj
    · intro j1 j2 _ _ _ h
      simp at h
    · intro j1 j2 _ _ _ h
      simp at h
  | cons p t =>
    rw [← hps]
    have hlen : ps.length = t.length + 1 := by rw [hps]; rfl
    obtain ⟨ps1, hres1, hperm1, hpart1⟩ := organize_store g ps rest fuel harr hN hM hfuel
    obtain ⟨ps', hres, hperm, hpart, h1, h2⟩ :=
      organizeTimes_settled g ps rest fuel hN hM hfuel t.length 0 ps1 hperm1 hpart1
        (fun j1 j2 _ h _ _ => by omega) (fun j1 j2 h1 h2 _ _ => by omega)
    refine ⟨ps', 0 + t.length, ?_, hperm, by omega, hpart, h1, h2⟩
    rw [hlen, organizeTimes, hres1]
    exact hres

/-- C25.  For a store whose `N` slots hold the particles `ps` and whose
`gNumberOfMovingParticle` is the number of moving particles among them, `N` consecutive
calls of `organizeParticleBlitering` return (with a loop budget above `N`) and leave a
permutation `ps'` of `ps` in the first `N` slots, in which no moving particle comes before
a non-moving one and the non-moving particles as well as the moving particles are in
ascending order of `yCoord`; the rest of the state is as before.  Any number of further
calls leaves that state unchanged. -/
theorem organizeParticleBlitering_repeated_sorts (g : Game) (ps : List Particle)
    (rest : List (Option Particle)) (fuel : Nat)
    (harr : g.gParticleArray = ps.map some ++ rest)
    (hN : g.gNumberOfParticle = (ps.length : Int))
    (hM : g.gNumberOfMovingParticle = ((ps.countP (fun q => q.moving) : Nat) : Int))
    (hfuel : ps.length < fuel) :
    ∃ ps' : List Particle,
      organizeTimes fuel ps.length g = some { g with gParticleArray := ps'.map some ++ rest } ∧
      ps'.Perm ps ∧ organised ps' ∧
      ∀ m, organizeTimes fuel m { g with gParticleArray := ps'.map some ++ rest }
        = some { g with gParticleArray := ps'.map some ++ rest } := by
  obtain ⟨ps', K, hres, hperm, hK, hpart, h1, h2⟩ :=
    organizeTimes_store g ps rest fuel harr hN hM hfuel
  have hl : ps'.length = ps.length := hperm.length_eq
  have hcp : ps.countP (fun q => q.moving) ≤ ps.length := List.countP_le_length _
  refine ⟨ps', hres, hperm,
    organised_of_settled ps' rest ps.length (ps.countP (fun q => q.moving)) K hl hK hpart h1 h2,
    ?_⟩
  apply organizeTimes_fixed
  apply organize_sorted { g with gParticleArray := ps'.map some ++ rest } ps.length
    (ps.countP (fun q => q.moving)) fuel hcp hfuel hN hM
  · show slotsInUse (ps'.map some ++ rest) ps.length
    rw [← hl]
    exact slotsInUse_map_some ps' rest
  · intro j hj1 hj2
    show movingAt (ps'.map some ++ rest) j = true
    rw [movingAt_of_getElem? _ j _ (getElem?_map_some_append ps' rest j (by omega))]
    exact (hpart j (by omega)).mpr hj1
  · intro j hj1 hj2
    exact h1 (j - 1) j (by omega) (by omega) (by omega) hj2
  · intro j hj1 hj2
    exact h2 (j - 1) j (by omega) (by omega) (by omega) hj2

/-- Witness of C25: the three non-moving particles with `yCoord` 3, 2, 1 that one call
leaves in the order 1, 3, 2. -/
theorem organizeParticleBlitering_repeated_sorts_witness :
    ∃ ps' : List Particle,
      organizeTimes 4 3
        (gameOf [particleAt 1 false 0 3 1, particleAt 2 false 0 2 1, particleAt 3 false 0 1 1]
          0 [] 16)
        = some { gameOf [particleAt 1 false 0 3 1, particleAt 2 false 0 2 1,
            particleAt 3 false 0 1 1] 0 [] 16 with
          gParticleArray := ps'.map some ++ List.replicate (gMAX_PARTICLES - 3) none } ∧
      ps'.Perm [particleAt 1 false 0 3 1, particleAt 2 false 0 2 1, particleAt 3 false 0 1 1] ∧
      organised ps' ∧
      ∀ m, organizeTimes 4 m
          { gameOf [particleAt 1 false 0 3 1, particleAt 2 false 0 2 1,
              particleAt 3 false 0 1 1] 0 [] 16 with
            gParticleArray := ps'.map some ++ List.replicate (gMAX_PARTICLES - 3) none }
        = some { gameOf [particleAt 1 false 0 3 1, particleAt 2 false 0 2 1,
            particleAt 3 false 0 1 1] 0 [] 16 with
          gParticleArray := ps'.map some ++ List.replicate (gMAX_PARTICLES - 3) none } :=
  organizeParticleBlitering_repeated_sorts
    (gameOf [particleAt 1 false 0 3 1, particleAt 2 false 0 2 1, particleAt 3 false 0 1 1]
      0 [] 16)
    [particleAt 1 false 0 3 1, particleAt 2 false 0 2 1, particleAt 3 false 0 1 1] _ 4
    rfl rfl rfl (by decide)

end ChargeGame

namespace ChargeGame

/-! ## The minimal variant: the swap loop with at most one moving particle -/

theorem swapSlots_spec_any {α : Type} (a : List (Option α)) (x y : Nat) (vx vy : Option α)
    (hx : a[x]? = some vx) (hy : a[y]? = some vy) :
    ∃ a', swapSlots a (x : Int) (y : Int) = some a' ∧ a'.length = a.length ∧
      ∀ k, a'[k]? = if k = y then some vx else if k = x then some vy else a[k]? := by
  have hxl : x < a.length := by
    by_contra hcon
    rw [List.getElem?_eq_none (by omega)] at hx
    exact absurd hx (by simp)
  have hyl : y < a.length := by
    by_contra hcon
    rw [List.getElem?_eq_none (by omega)] at hy
    exact absurd hy (by simp)
  refine ⟨(a.set x vy).set y vx, ?_, by simp, ?_⟩
  · unfold swapSlots
    rw [readSlot_natCast, readSlot_natCast, hx, hy]
    simp [writeSlot]
  · intro k
    rw [List.getElem?_set, List.getElem?_set]
    by_cases h1 : k = y
    · subst h1
      simp [hyl]
    · by_cases h2 : k = x
      · subst h2
        have : ¬ y = k := fun h => h1 h.symm
        simp [this, hxl, h1]
      · have e1 : ¬ y = k := fun h => h1 h.symm
        have e2 : ¬ x = k := fun h => h2 h.symm
        simp [e1, e2, h1, h2]

theorem minimalMovingAt_of_getElem? (a : List (Option Minimal.Particle)) (k : Nat)
    (q : Minimal.Particle) (h : a[k]? = some (some q)) : minimalMovingAt a k = q.moving := by
  unfold minimalMovingAt
  rw [h]

theorem minimal_organizeLoop_done (N : Nat) (a : List (Option Minimal.Particle))
    (hN : ∀ k, k < N → ∃ q, a[k]? = some (some q))
    (hstill : ∀ k, k + 1 < N → minimalMovingAt a k = false) :
    ∀ (fuel i : Nat), N - i < fuel →
      Minimal.organizeLoop (N : Int) fuel a (i : Int) 1 = some a := by
  intro fuel
  induction fuel with
  | zero => intro i h; omega
  | succ fuel ih =>
    intro i hfuel
    rw [Minimal.organizeLoop]
    by_cases hi : i + 1 < N
    · obtain ⟨q, hq⟩ := hN i (by omega)
      have hm : q.moving = false := by
        rw [← minimalMovingAt_of_getElem? a i q hq]; exact hstill i hi
      have hcast : ((i : Int) + 1) = ((i + 1 : Nat) : Int) := by push_cast; rfl
      rw [if_pos (by omega), readSlot_natCast, hq]
      simp only []
      rw [if_neg (by rw [hm]; decide), hcast]
      exact ih (i + 1) (by omega)
    · rw [if_neg (by omega)]

theorem minimal_organizeLoop_one (N : Nat) :
    ∀ (fuel i : Nat) (a : List (Option Minimal.Particle)), N - i < fuel →
      (∀ k, k < N → ∃ q, a[k]? = some (some q)) →
      (∀ j k, j < N → k < N → minimalMovingAt a j = true → minimalMovingAt a k = true →
        j = k) →
      (∀ k, k < i → k < N → minimalMovingAt a k = false) →
      ∃ a', Minimal.organizeLoop (N : Int) fuel a (i : Int) 0 = some a' ∧
        (∀ k, k < N → ∃ q, a'[k]? = some (some q)) ∧
        (((∀ k, k < N → minimalMovingAt a k = false) ∧
            (∀ k, k < N → minimalMovingAt a' k = false)) ∨
          ((∃ m, m < N ∧ minimalMovingAt a m = true) ∧
            ∀ k, k < N → (minimalMovingAt a' k = true ↔ N - 1 ≤ k))) := by
  intro fuel
  induction fuel with
  | zero => intro i a h; omega
  | succ fuel ih =>
    intro i a hfuel hN huniq hbefore
    rw [Minimal.organizeLoop]
    by_cases hi : i < N
    · obtain ⟨q, hq⟩ := hN i hi
      have hcast : ((i : Int) + 1) = ((i + 1 : Nat) : Int) := by push_cast; rfl
      rw [if_pos (by omega), readSlot_natCast, hq]
      simp only []
      by_cases hm : q.moving = true
      · rw [if_pos hm]
        obtain ⟨qe, hqe⟩ := hN (N - 1) (by omega)
        have hidx : ((N : Int) - 1 - 0) = ((N - 1 : Nat) : Int) := by omega
        obtain ⟨a1, hswap, hlen, hget⟩ :=
          swapSlots_spec_any a (N - 1) i (some qe) (some q) hqe hq
        rw [hidx, hswap]
        simp only []
        have hmi : minimalMovingAt a i = true := by
          rw [minimalMovingAt_of_getElem? a i q hq]; exact hm
        have hN1 : ∀ k, k < N → ∃ q, a1[k]? = some (some q) := by
          intro k hk
          rw [hget k]
          by_cases h1 : k = i
          · exact ⟨qe, by rw [if_pos h1]⟩
          · by_cases h2 : k = N - 1
            · exact ⟨q, by rw [if_neg h1, if_pos h2]⟩
            · obtain ⟨qk, hqk⟩ := hN k hk
              exact ⟨qk, by rw [if_neg h1, if_neg h2, hqk]⟩
        have hother : ∀ k, k < N → k ≠ i → minimalMovingAt a k = false := by
          intro k hk hne
          by_contra hcon
          have : minimalMovingAt a k = true := by simpa using hcon
          exact hne (huniq k i hk hi this hmi)
        have htop : minimalMovingAt a1 (N - 1) = true := by
          by_cases h1 : N - 1 = i
          · have e : a1[N - 1]? = some (some qe) := by rw [hget, if_pos h1]
            rw [minimalMovingAt_of_getElem? a1 _ qe e,
              ← minimalMovingAt_of_getElem? a (N - 1) qe hqe, h1]
            exact hmi
          · have e : a1[N - 1]? = some (some q) := by rw [hget, if_neg h1, if_pos rfl]
            rw [minimalMovingAt_of_getElem? a1 _ q e]; exact hm
        have hstill : ∀ k, k + 1 < N → minimalMovingAt a1 k = false := by
          intro k hk
          by_cases h1 : k = i
          · have hne : N - 1 ≠ i := by omega
            have e : a1[k]? = some (some qe) := by rw [hget, if_pos h1]
            rw [minimalMovingAt_of_getElem? a1 k qe e,
              ← minimalMovingAt_of_getElem? a (N - 1) qe hqe]
            exact hother (N - 1) (by omega) hne
          · have e : a1[k]? = a[k]? := by rw [hget, if_neg h1, if_neg (by omega)]
            unfold minimalMovingAt
            rw [e]
            exact hother k (by omega) h1
        have h01 : ((0 : Int) + 1) = 1 := by norm_num
        rw [hcast, h01, minimal_organizeLoop_done N a1 hN1 hstill fuel (i + 1) (by omega)]
        refine ⟨a1, rfl, hN1, Or.inr ⟨⟨i, hi, hmi⟩, ?_⟩⟩
        intro k hk
        constructor
        · intro hk1
          by_contra hcon
          rw [hstill k (by omega)] at hk1
          exact absurd hk1 (by decide)
        · intro hk1
          have : k = N - 1 := by omega
          rw [this]; exact htop
      · rw [if_neg hm, hcast]
        apply ih (i + 1) a (by omega) hN huniq
        intro k hk hkN
        by_cases hki : k = i
        · rw [hki, minimalMovingAt_of_getElem? a i q hq]
          simpa using hm
        · exact hbefore k (by omega) hkN
    · rw [if_neg (by omega)]
      have hall : ∀ k, k < N → minimalMovingAt a k = false :=
        fun k hk => hbefore k (by omega) hk
      exact ⟨a, rfl, hN, Or.inl ⟨hall, hall⟩⟩

theorem countP_le_one_unique {α : Type} (f : α → Bool) : ∀ (ps : List α), ps.countP f ≤ 1 →
    ∀ (j k : Nat) (x y : α), ps[j]? = some x → f x = true → ps[k]? = some y → f y = true →
      j = k := by
  intro ps
  induction ps with
  | nil => intro _ j k x y hx; simp at hx
  | cons u t ih =>
    intro hc j k x y hx hfx hy hfy
    have hpos : ∀ (n : Nat) (z : α), t[n]? = some z → f z = true → 0 < t.countP f := by
      intro n z hz hfz
      exact List.countP_pos_iff.mpr ⟨z, List.mem_iff_getElem?.mpr ⟨n, hz⟩, hfz⟩
    cases j with
    | zero =>
      cases k with
      | zero => rfl
      | succ k =>
        simp only [List.getElem?_cons_zero, Option.some.injEq] at hx
        simp only [List.getElem?_cons_succ] at hy
        have := hpos k y hy hfy
        rw [List.countP_cons, hx, hfx, if_pos rfl] at hc
        omega
    | succ j =>
      cases k with
      | zero =>
        simp only [List.getElem?_cons_zero, Option.some.injEq] at hy
        simp only [List.getElem?_cons_succ] at hx
        have := hpos j x hx hfx
        rw [List.countP_cons, hy, hfy, if_pos rfl] at hc
        omega
      | succ k =>
        simp only [List.getElem?_cons_succ] at hx hy
        have hct : t.countP f ≤ 1 := by
          rw [List.countP_cons] at hc
          omega
        rw [ih hct j k x y hx hfx hy hfy]

theorem minimal_getElem?_store (ps : List Minimal.Particle)
    (rest : List (Option Minimal.Particle)) (j : Nat) (hj : j < ps.length) :
    (ps.map some ++ rest)[j]? = some (some (ps.get ⟨j, hj⟩)) := by
  rw [List.getElem?_append_left (by simpa using hj), List.getElem?_map,
    List.getElem?_eq_getElem hj]
  rfl

theorem minimalMovingAt_store (ps : List Minimal.Particle)
    (rest : List (Option Minimal.Particle)) (j : Nat) (hj : j < ps.length) :
    minimalMovingAt (ps.map some ++ rest) j = (ps.get ⟨j, hj⟩).moving :=
  minimalMovingAt_of_getElem? _ j _ (minimal_getElem?_store ps rest j hj)

/-- C19, amended: for every store of non-null particles that holds at most one moving
particle (the stores the minimal program builds: `init` creates its only moving particle and
`destroyParticle` refuses to remove it), the swap loop of the minimal
`organizeParticleBlitering` returns, and afterwards every slot of the store holds a
particle that is moving exactly when the slot is one of the trailing
`gNumberOfMovingParticle` slots. -/
theorem minimal_organize_partitions_one_moving (fuel : Nat) (g : Minimal.Game)
    (ps : List Minimal.Particle) (rest : List (Option Minimal.Particle))
    (harr : g.gParticles = ps.map some ++ rest)
    (hN : g.gParticlesSize = (ps.length : Int))
    (hM : g.gNumberOfMovingParticle = ((ps.countP (fun q => q.moving) : Nat) : Int))
    (hone : ps.countP (fun q => q.moving) ≤ 1)
    (hfuel : ps.length < fuel) :
    ∃ a', Minimal.organizeParticleBlitering fuel g = some { g with gParticles := a' } ∧
      ∀ k, k < ps.length → ∃ q, a'[k]? = some (some q) ∧
        (q.moving = true ↔ g.gParticlesSize - g.gNumberOfMovingParticle ≤ (k : Int)) := by
  have hslots : ∀ k, k < ps.length → ∃ q, (ps.map some ++ rest)[k]? = some (some q) :=
    fun k hk => ⟨_, minimal_getElem?_store ps rest k hk⟩
  have huniq : ∀ j k, j < ps.length → k < ps.length →
      minimalMovingAt (ps.map some ++ rest) j = true →
      minimalMovingAt (ps.map some ++ rest) k = true → j = k := by
    intro j k hj hk h1 h2
    rw [minimalMovingAt_store ps rest j hj] at h1
    rw [minimalMovingAt_store ps rest k hk] at h2
    exact countP_le_one_unique (fun q => q.moving) ps hone j k _ _
      (List.getElem?_eq_getElem hj) h1 (List.getElem?_eq_getElem hk) h2
  obtain ⟨a', hloop, hslots', hcases⟩ :=
    minimal_organizeLoop_one ps.length fuel 0 (ps.map some ++ rest) (by omega) hslots huniq
      (fun k hk _ => by omega)
  refine ⟨a', ?_, ?_⟩
  · unfold Minimal.organizeParticleBlitering
    rw [harr, hN]
    have h0 : ((0 : Nat) : Int) = 0 := rfl
    rw [h0] at hloop
    rw [hloop]
  · intro k hk
    obtain ⟨q, hq⟩ := hslots' k hk
    refine ⟨q, hq, ?_⟩
    rw [← minimalMovingAt_of_getElem? a' k q hq, hN, hM]
    rcases hcases with ⟨hnone, hnone'⟩ | ⟨⟨m, hm, hmov⟩, hlast⟩
    · have hzero : ps.countP (fun q => q.moving) = 0 := by
        rw [List.countP_eq_zero]
        intro x hx
        obtain ⟨n, hn, hnx⟩ := List.getElem_of_mem hx
        have := hnone n hn
        rw [minimalMovingAt_store ps rest n hn] at this
        have e : ps.get ⟨n, hn⟩ = x := hnx
        rw [e] at this
        simp [this]
      rw [hzero, hnone' k hk]
      constructor
      · intro h; exact absurd h (by decide)
      · intro h; omega
    · have hcount : ps.countP (fun q => q.moving) = 1 := by
        have hpos : 0 < ps.countP (fun q => q.moving) := by
          rw [minimalMovingAt_store ps rest m hm] at hmov
          exact List.countP_pos_iff.mpr ⟨ps.get ⟨m, hm⟩, List.get_mem ps m hm, hmov⟩
        omega
      rw [hcount, hlast k hk]
      omega

set_option maxRecDepth 100000 in
/-- Witness of C19 (amended): the store `[moving, static, static]`, as after `init` and two
particles created by the player; the loop puts the moving particle in the last slot. -/
theorem minimal_organize_partitions_one_moving_witness :
    (minimalGameOf [minimalParticleAt 1 true 300 200 1, minimalParticleAt 2 false 20 20 1,
        minimalParticleAt 3 false 30 30 1] 1 0).gParticlesSize = 3 ∧
    ∃ a', Minimal.organizeParticleBlitering 4
        (minimalGameOf [minimalParticleAt 1 true 300 200 1, minimalParticleAt 2 false 20 20 1,
          minimalParticleAt 3 false 30 30 1] 1 0)
        = some { (minimalGameOf [minimalParticleAt 1 true 300 200 1,
          minimalParticleAt 2 false 20 20 1, minimalParticleAt 3 false 30 30 1] 1 0) with
            gParticles := a' } ∧
      ∀ k : Nat, k < 3 → ∃ q, a'[k]? = some (some q) ∧
        (q.moving = true ↔ (3 : Int) - 1 ≤ (k : Int)) :=
  ⟨rfl, minimal_organize_partitions_one_moving 4
    (minimalGameOf [minimalParticleAt 1 true 300 200 1, minimalParticleAt 2 false 20 20 1,
      minimalParticleAt 3 false 30 30 1] 1 0)
    [minimalParticleAt 1 true 300 200 1, minimalParticleAt 2 false 20 20 1,
      minimalParticleAt 3 false 30 30 1] (List.replicate (Minimal.gMAX_PARTICLES - 3) none)
    rfl rfl rfl (by decide) (by decide)⟩

end ChargeGame

namespace ChargeGame

/-! ## A tick of `movementCalculation`: what every step keeps -/

theorem levelState_of_playState (g : Game) (ps : List Particle) (h : playState g ps) :
    levelState g ps :=
  ⟨h.1, h.2.1, h.2.2.1, h.2.2.2.1, h.2.2.2.2.1⟩

theorem playState_of_levelState (g : Game) (ps : List Particle) (h : levelState g ps)
    (hcr : g.gCreativeMode = 0) : playState g ps :=
  ⟨h.1, h.2.1, h.2.2.1, h.2.2.2.1, h.2.2.2.2, hcr⟩

theorem levelState_unique (g : Game) (ps ps' : List Particle) (h : levelState g ps)
    (h' : levelState g ps') : ps = ps' := by
  obtain ⟨⟨rest, harr⟩, hN, -⟩ := h
  obtain ⟨⟨rest', harr'⟩, hN', -⟩ := h'
  have hlen : ps.length = ps'.length := by
    have : (ps.length : Int) = (ps'.length : Int) := by rw [← hN, ← hN']
    exact_mod_cast this
  have e := harr.symm.trans harr'
  have e1 := (List.append_inj e (by simpa using hlen)).1
  exact List.map_injective_iff.mpr (Option.some_injective _) e1

theorem sameLevel_refl (g : Game) : sameLevel g g :=
  ⟨rfl, rfl, rfl, rfl, rfl, rfl, rfl, rfl⟩

theorem sameLevel_trans (g g1 g2 : Game) (h1 : sameLevel g g1) (h2 : sameLevel g1 g2) :
    sameLevel g g2 := by
  obtain ⟨a1, a2, a3, a4, a5, a6, a7, a8⟩ := h1
  obtain ⟨b1, b2, b3, b4, b5, b6, b7, b8⟩ := h2
  exact ⟨b1.trans a1, b2.trans a2, b3.trans a3, b4.trans a4, b5.trans a5, b6.trans a6,
    b7.trans a7, b8.trans a8⟩

theorem insideGoal_sameLevel (g g' : Game) (h : sameLevel g g') (q : Particle) :
    insideGoal g' q = insideGoal g q := by
  unfold insideGoal
  rw [h.1, h.2.2.2.1]

theorem levelState_set (g : Game) (ps : List Particle) (h : levelState g ps) (k : Nat)
    (hk : k < ps.length) (q : Particle) (haddr : q.addr = (ps.get ⟨k, hk⟩).addr)
    (hmov : q.moving = (ps.get ⟨k, hk⟩).moving) :
    levelState { g with gParticleArray := g.gParticleArray.set k (some q) } (ps.set k q) := by
  obtain ⟨⟨rest, harr⟩, hN, hw, hM, hd⟩ := h
  refine ⟨⟨rest, ?_⟩, ?_, hw, ?_, ?_⟩
  · show g.gParticleArray.set k (some q) = _
    rw [harr, set_map_some_append ps rest k hk q]
  · show g.gNumberOfParticle = _
    rw [hN]; simp
  · show g.gNumberOfMovingParticle = _
    rw [hM]
    have := countP_set (fun q => q.moving) ps k hk q
    simp only [hmov] at this
    congr 1
    omega
  · intro x hx
    obtain ⟨q0, hq0, hq1⟩ := hd x hx
    have hmem : x ∈ (ps.set k q).map Particle.addr := by
      rw [map_set_of_eq Particle.addr ps k hk q haddr]
      exact List.mem_map.mpr ⟨q0, hq0, hq1⟩
    obtain ⟨q2, h2, h3⟩ := List.mem_map.mp hmem
    exact ⟨q2, h2, h3⟩

theorem organize_sameFields (fuel : Nat) (g g' : Game)
    (h : organizeParticleBlitering fuel g = some g') :
    ∃ a, g' = { g with gParticleArray := a } := by
  unfold organizeParticleBlitering at h
  simp only [] at h
  split at h
  · simp at h
  · split at h
    · simp at h
    · split at h
      · simp at h
      · simp only [Option.some.injEq] at h
        exact ⟨_, h.symm⟩

theorem saveLevel_sameLevel (fuel : Nat) (ok : Bool) (g g' : Game) (file : Option (List Int))
    (h : saveLevel fuel ok g = some (g', file)) : sameLevel g g' := by
  unfold saveLevel at h
  cases ho : organizeParticleBlitering fuel g with
  | none => rw [ho] at h; simp at h
  | some g1 =>
    obtain ⟨a, ha⟩ := organize_sameFields fuel g g1 ho
    rw [ho] at h
    simp only [] at h
    have hg : g' = g1 := by
      split_ifs at h
      · cases hd : saveLevelData g1 with
        | none => rw [hd] at h; simp at h
        | some f =>
          rw [hd] at h
          simp only [Option.some.injEq, Prod.mk.injEq] at h
          exact h.1.symm
      · simp only [Option.some.injEq, Prod.mk.injEq] at h
        exact h.1.symm
    rw [hg, ha]
    exact ⟨rfl, rfl, rfl, rfl, rfl, rfl, rfl, rfl⟩

theorem levelFinished_sameLevel (fuel : Nat) (ok : Bool) (g g' : Game)
    (file : Option (List Int)) (h : levelFinished fuel ok g = some (g', file)) :
    sameLevel g g' := by
  unfold levelFinished at h
  simp only [] at h
  split_ifs at h
  · have hs := saveLevel_sameLevel fuel ok _ g' file h
    exact sameLevel_trans g _ g' ⟨rfl, rfl, rfl, rfl, rfl, rfl, rfl, rfl⟩ hs
  · simp only [Option.some.injEq, Prod.mk.injEq] at h
    rw [← h.1]
    exact ⟨rfl, rfl, rfl, rfl, rfl, rfl, rfl, rfl⟩

theorem onGoal_step (fuel : Nat) (ok : Bool) (g : Game) (ps : List Particle)
    (h : levelState g ps) (hfuel : ps.length < fuel) (i : Nat) (hi : i < ps.length) :
    ∃ (g' : Game) (ps' : List Particle) (out : List (Option (List Int))),
      onGoal fuel ok g (i : Int) = some (g', out) ∧ levelState g' ps' ∧ sameLevel g g' ∧
      ps'.Perm (ps.set i (if insideGoal g (ps.get ⟨i, hi⟩) = true
        then { ps.get ⟨i, hi⟩ with goal := true } else ps.get ⟨i, hi⟩)) ∧
      (out = [] → ps' = ps.set i (if insideGoal g (ps.get ⟨i, hi⟩) = true
        then { ps.get ⟨i, hi⟩ with goal := true } else ps.get ⟨i, hi⟩)) := by
  obtain ⟨⟨rest, harr⟩, hN, hw, hM, hd⟩ := id h
  have hset : levelState
      { g with
        gParticleArray := g.gParticleArray.set i (some { ps.get ⟨i, hi⟩ with goal := true }),
        gNumberOfParticlesOnGoal := g.gNumberOfParticlesOnGoal + 1 }
      (ps.set i { ps.get ⟨i, hi⟩ with goal := true }) :=
    levelState_set g ps h i hi { ps.get ⟨i, hi⟩ with goal := true } rfl rfl
  by_cases hhit : insideGoal g (ps.get ⟨i, hi⟩) = true
  · rw [if_pos hhit]
    have hhit' : surfaceHitbox g.gPositionGoal (ps.get ⟨i, hi⟩).xCoord (ps.get ⟨i, hi⟩).yCoord
        (-(toInt32 g.gParticleRadius)) (-(toInt32 g.gParticleRadius))
        (-(toInt32 g.gParticleRadius)) (-(toInt32 g.gParticleRadius)) = true := hhit
    unfold onGoal
    rw [harr, deref_map_some_append ps rest i hi]
    simp only []
    rw [if_pos hhit', writeSlot_natCast, ← harr]
    by_cases hfin : g.gCreativeMode = 0 ∧
        g.gNumberOfParticlesOnGoal + 1 = g.gNumberOfMovingParticle
    · rw [if_pos hfin]
      have hlen : (ps.set i { ps.get ⟨i, hi⟩ with goal := true }).length < fuel := by
        simpa using hfuel
      obtain ⟨g2, ps2, file, hlf, hps2, hperm, -, -⟩ :=
        levelFinished_spec fuel ok _ _ (playState_of_levelState _ _ hset hfin.1) hlen
      rw [hlf]
      refine ⟨g2, ps2, [file], rfl, levelState_of_playState g2 ps2 hps2, ?_, hperm, ?_⟩
      · have hs := levelFinished_sameLevel fuel ok _ g2 file hlf
        exact sameLevel_trans g _ g2 ⟨rfl, rfl, rfl, rfl, rfl, rfl, rfl, rfl⟩ hs
      · intro e; simp at e
    · rw [if_neg hfin]
      exact ⟨_, _, [], rfl, hset, ⟨rfl, rfl, rfl, rfl, rfl, rfl, rfl, rfl⟩,
        List.Perm.refl _, fun _ => rfl⟩
  · rw [if_neg hhit]
    have hhit' : ¬ surfaceHitbox g.gPositionGoal (ps.get ⟨i, hi⟩).xCoord
        (ps.get ⟨i, hi⟩).yCoord
        (-(toInt32 g.gParticleRadius)) (-(toInt32 g.gParticleRadius))
        (-(toInt32 g.gParticleRadius)) (-(toInt32 g.gParticleRadius)) = true := hhit
    unfold onGoal
    rw [harr, deref_map_some_append ps rest i hi]
    simp only []
    rw [if_neg hhit', set_get_self ps i hi]
    exact ⟨g, ps, [], rfl, h, sameLevel_refl g, List.Perm.refl _, fun _ => rfl⟩

theorem moveParticle_step (g : Game) (ps : List Particle) (h : levelState g ps) :
    ∃ (g' : Game) (ps' : List Particle),
      moveParticle g = some g' ∧ levelState g' ps' ∧ sameLevel g g' ∧
      (ps'.map Particle.addr).Perm (ps.map Particle.addr) ∧
      ∀ q' ∈ ps', q' ∈ ps ∨
        ∃ q ∈ ps, g.gDragedParticle = some q.addr ∧ q'.addr = q.addr ∧ q'.goal = q.goal := by
  obtain ⟨⟨rest, harr⟩, hN, ⟨ws, wrest, hwalls, hNW⟩, hM, hd⟩ := id h
  unfold moveParticle
  cases hdr : g.gDragedParticle with
  | none =>
    exact ⟨g, ps, rfl, h, sameLevel_refl g, List.Perm.refl _, fun q hq => Or.inl hq⟩
  | some x =>
    obtain ⟨k, q, hk, hfind, hget, hqx⟩ := findSlot_of_mem rest x ps (hd x hdr)
    simp only []
    rw [harr, hfind]
    simp only []
    split_ifs
    · obtain ⟨q1, hq1, f1, f2, f3, -⟩ := collisions_frame g ws wrest hwalls hNW
        { q with
          xCoord := (toUint32 (g.gPositionCursor.x + (g.gShiftPickedParticleX : Int)) : ℚ),
          yCoord := (toUint32 (g.gPositionCursor.y + (g.gShiftPickedParticleY : Int)) : ℚ) }
      rw [hq1]
      have hstate := levelState_set g ps h k hk q1 (by rw [f1, hget]) (by rw [f2, hget])
      rw [harr] at hstate
      rw [hdr] at hstate
      refine ⟨_, ps.set k q1, rfl, hstate, ⟨rfl, rfl, rfl, rfl, rfl, rfl, rfl, rfl⟩, ?_, ?_⟩
      · rw [map_set_of_eq Particle.addr ps k hk q1 (by rw [f1, hget])]
      · intro q' hq'
        rcases List.mem_or_eq_of_mem_set hq' with e | e
        · exact Or.inl e
        · refine Or.inr ⟨q, ?_, ?_, ?_, ?_⟩
          · rw [← hget]; exact List.get_mem ps k hk
          · rw [hqx]
          · rw [e, f1]
          · rw [e, f3]
    · exact ⟨g, ps, rfl, h, sameLevel_refl g, List.Perm.refl _, fun q hq => Or.inl hq⟩

theorem movementLoop_invariant (sqrt : ℚ → ℚ) (fuel : Nat) (ok : Bool) (g0 : Game)
    (Q : Particle → Prop)
    (hQint : ∀ (g : Game) (ps : List Particle) (p p1 : Particle), levelState g ps →
      sameLevel g0 g → Q p → p.goal = false → integrateAndCollide sqrt g p = some p1 → Q p1)
    (hQflag : ∀ p : Particle, Q p → insideGoal g0 p = true → Q { p with goal := true }) :
    ∀ (n i budget : Nat) (g : Game) (ps : List Particle) (calls : List (Option (List Int))),
      i + n = ps.length → n < budget → ps.length < fuel → levelState g ps →
      sameLevel g0 g → (∀ q ∈ ps, Q q) →
      ∃ (g' : Game) (ps' : List Particle) (new : List (Option (List Int))),
        movementLoop sqrt fuel ok budget g (i : Int) calls = some (g', calls ++ new) ∧
        levelState g' ps' ∧ sameLevel g0 g' ∧
        (ps'.map Particle.addr).Perm (ps.map Particle.addr) ∧ (∀ q ∈ ps', Q q) ∧
        (new = [] → ∀ (k : Nat) (q : Particle), ps'[k]? = some q →
          (k < i → ps[k]? = some q) ∧
          (i ≤ k → q.goal = true ∨ insideGoal g0 q = false)) := by
  intro n
  induction n with
  | zero =>
    intro i budget g ps calls hin hb hfuel h hsame hall
    obtain ⟨b, rfl⟩ : ∃ b, budget = b + 1 := ⟨budget - 1, by omega⟩
    have hN := h.2.1
    rw [movementLoop, if_neg (by rw [hN]; omega)]
    refine ⟨g, ps, [], by simp, h, hsame, List.Perm.refl _, hall, ?_⟩
    intro _ k q hq
    have hk : k < ps.length := getElem?_lt_length ps k q hq
    exact ⟨fun _ => hq, fun hik => by omega⟩
  | succ n ih =>
    intro i budget g ps calls hin hb hfuel h hsame hall
    obtain ⟨b, rfl⟩ : ∃ b, budget = b + 1 := ⟨budget - 1, by omega⟩
    obtain ⟨⟨rest, harr⟩, hN, ⟨ws, wrest, hwalls, hNW⟩, hM, hd⟩ := id h
    have hi : i < ps.length := by omega
    have hcast : ((i : Int) + 1) = ((i + 1 : Nat) : Int) := by push_cast; rfl
    have hread : readSlot g.gParticleArray (i : Int) = some (some (ps.get ⟨i, hi⟩)) := by
      rw [harr]; exact readSlot_map_some_append ps rest i hi
    have hpi : ps[i]? = some (ps.get ⟨i, hi⟩) := List.getElem?_eq_getElem hi
    rw [movementLoop, if_pos (by rw [hN]; omega), hread]
    simp only []
    by_cases hgoal : (ps.get ⟨i, hi⟩).goal = false
    · rw [if_pos hgoal]
      obtain ⟨p1, hp1, f1, f2, f3, -⟩ := integrateAndCollide_frame sqrt g ps rest ws wrest harr
        hN hwalls hNW (ps.get ⟨i, hi⟩)
      have hQp1 : Q p1 :=
        hQint g ps (ps.get ⟨i, hi⟩) p1 h hsame (hall _ (List.get_mem ps i hi)) hgoal hp1
      rw [hp1]
      simp only []
      rw [writeSlot_natCast]
      have hstate := levelState_set g ps h i hi p1 f1 f2
      obtain ⟨gw, hgw⟩ : ∃ gw : Game,
        gw = { g with gParticleArray := g.gParticleArray.set i (some p1) } := ⟨_, rfl⟩
      rw [← hgw] at hstate ⊢
      have hsamew : sameLevel g gw := by
        rw [hgw]; exact ⟨rfl, rfl, rfl, rfl, rfl, rfl, rfl, rfl⟩
      have hlenw : (ps.set i p1).length = ps.length := by simp
      have hiw : i < (ps.set i p1).length := by rw [hlenw]; exact hi
      have hgetw : (ps.set i p1).get ⟨i, hiw⟩ = p1 := by
        simp only [List.get_eq_getElem, List.getElem_set_self]
      obtain ⟨g1, ps1, out, hog, hstate1, hsame1, hperm1, hout1⟩ :=
        onGoal_step fuel ok gw (ps.set i p1) hstate (by rw [hlenw]; exact hfuel) i hiw
      rw [hgetw, List.set_set, insideGoal_sameLevel g0 gw (sameLevel_trans g0 g gw hsame hsamew)]
        at hperm1 hout1
      obtain ⟨w1, hw1⟩ : ∃ w1 : Particle,
        w1 = (if insideGoal g0 p1 = true then { p1 with goal := true } else p1) := ⟨_, rfl⟩
      rw [← hw1] at hperm1 hout1
      have hw1addr : w1.addr = (ps.get ⟨i, hi⟩).addr := by
        rw [hw1, ← f1]; split_ifs <;> rfl
      have hQw1 : Q w1 := by
        rw [hw1]
        split_ifs with hin1
        · exact hQflag p1 hQp1 hin1
        · exact hQp1
      have hCw1 : w1.goal = true ∨ insideGoal g0 w1 = false := by
        rw [hw1]
        split_ifs with hin1
        · exact Or.inl rfl
        · exact Or.inr (by simpa using hin1)
      have hall1 : ∀ q ∈ ps1, Q q := by
        intro q hq
        rcases List.mem_or_eq_of_mem_set (hperm1.mem_iff.mp hq) with e | e
        · exact hall q e
        · rw [e]; exact hQw1
      have hlen1 : ps1.length = ps.length := by
        rw [hperm1.length_eq]; simp
      rw [hog]
      simp only []
      obtain ⟨g', ps', new, hloop, hstate2, hsame2, hperm2, hall2, hdone2⟩ :=
        ih (i + 1) b g1 ps1 (calls ++ out) (by rw [hlen1]; omega) (by omega)
          (by rw [hlen1]; exact hfuel) hstate1
          (sameLevel_trans g0 gw g1 (sameLevel_trans g0 g gw hsame hsamew) hsame1) hall1
      rw [hcast, hloop]
      refine ⟨g', ps', out ++ new, by simp, hstate2, hsame2, ?_, hall2, ?_⟩
      · refine hperm2.trans ((hperm1.map _).trans ?_)
        rw [map_set_of_eq Particle.addr ps i hi w1 hw1addr]
      · intro hnil k q hq
        obtain ⟨ho, hn⟩ := List.append_eq_nil.mp hnil
        have hps1 := hout1 ho
        obtain ⟨d1, d2⟩ := hdone2 hn k q hq
        constructor
        · intro hk
          have := d1 (by omega)
          rw [hps1, List.getElem?_set_ne (by omega)] at this
          exact this
        · intro hk
          by_cases hki : k = i
          · have := d1 (by omega)
            rw [hps1, hki, List.getElem?_set_self hi] at this
            simp only [Option.some.injEq] at this
            rw [← this]
            exact hCw1
          · exact d2 (by omega)
    · rw [if_neg hgoal, hcast]
      obtain ⟨g', ps', new, hloop, hstate2, hsame2, hperm2, hall2, hdone2⟩ :=
        ih (i + 1) b g ps calls (by omega) (by omega) hfuel h hsame hall
      refine ⟨g', ps', new, hloop, hstate2, hsame2, hperm2, hall2, ?_⟩
      intro hnil k q hq
      obtain ⟨d1, d2⟩ := hdone2 hnil k q hq
      constructor
      · intro hk
        exact d1 (by omega)
      · intro hk
        by_cases hki : k = i
        · have := d1 (by omega)
          rw [hki, hpi] at this
          simp only [Option.some.injEq] at this
          rw [← this]
          exact Or.inl (by simpa using hgoal)
        · exact d2 (by omega)

theorem movementCalculation_invariant (sqrt : ℚ → ℚ) (fuel : Nat) (ok : Bool) (g : Game)
    (ps : List Particle) (Q : Particle → Prop)
    (hQint : ∀ (gi : Game) (psi : List Particle) (p p1 : Particle), levelState gi psi →
      sameLevel g gi → Q p → p.goal = false → integrateAndCollide sqrt gi p = some p1 → Q p1)
    (hQflag : ∀ p : Particle, Q p → insideGoal g p = true → Q { p with goal := true })
    (hQmove : ∀ q ∈ ps, ∀ q' : Particle, g.gDragedParticle = some q.addr →
      q'.addr = q.addr → q'.goal = q.goal → Q q')
    (hlevel : levelState g ps) (hfuel : ps.length < fuel) (hall : ∀ q ∈ ps, Q q) :
    ∃ (g' : Game) (ps' : List Particle) (calls : List (Option (List Int))),
      movementCalculation sqrt fuel ok g = some (g', calls) ∧
      levelState g' ps' ∧ sameLevel g g' ∧
      (ps'.map Particle.addr).Perm (ps.map Particle.addr) ∧ (∀ q ∈ ps', Q q) ∧
      (g.gPlay ≠ 0 → calls = [] → ∀ (k : Nat) (q : Particle), ps'[k]? = some q →
        g.gNumberOfParticle - g.gNumberOfMovingParticle ≤ (k : Int) →
        q.goal = true ∨ insideGoal g q = false) := by
  obtain ⟨g1, ps1, hmove, hstate1, hsame1, hperm1, hmem1⟩ := moveParticle_step g ps hlevel
  have hall1 : ∀ q ∈ ps1, Q q := by
    intro q hq
    rcases hmem1 q hq with e | ⟨q0, hq0, hdr, ha, hg⟩
    · exact hall q e
    · exact hQmove q0 hq0 q hdr ha hg
  have hlen1 : ps1.length = ps.length := by
    have := hperm1.length_eq
    simpa using this
  unfold movementCalculation
  rw [hmove]
  simp only []
  by_cases hplay : g1.gPlay ≠ 0
  · rw [if_pos hplay]
    have hN1 := hstate1.2.1
    have hM1 := hstate1.2.2.2.1
    have hle : ps1.countP (fun q => q.moving) ≤ ps1.length := List.countP_le_length _
    have hstart : g1.gNumberOfParticle - g1.gNumberOfMovingParticle
        = ((ps1.length - ps1.countP (fun q => q.moving) : Nat) : Int) := by
      rw [hN1, hM1]; omega
    rw [hstart]
    obtain ⟨g', ps', new, hloop, hstate2, hsame2, hperm2, hall2, hdone2⟩ :=
      movementLoop_invariant sqrt fuel ok g Q hQint hQflag
        (ps1.countP (fun q => q.moving)) (ps1.length - ps1.countP (fun q => q.moving)) fuel
        g1 ps1 [] (by omega) (by omega) (by rw [hlen1]; exact hfuel) hstate1 hsame1 hall1
    rw [hloop]
    refine ⟨g', ps', new, by simp, hstate2, hsame2, hperm2.trans hperm1, hall2, ?_⟩
    intro _ hnil k q hq hk
    have hstart' : g.gNumberOfParticle - g.gNumberOfMovingParticle
        = ((ps1.length - ps1.countP (fun q => q.moving) : Nat) : Int) := by
      rw [← hstart, hsame1.2.2.2.2.2.2.1, hsame1.2.2.2.2.2.2.2]
    rw [hstart'] at hk
    exact (hdone2 (by simpa using hnil) k q hq).2 (by exact_mod_cast hk)
  · rw [if_neg hplay]
    refine ⟨g1, ps1, [], rfl, hstate1, hsame1, hperm1, hall1, ?_⟩
    intro hp
    exact absurd (by rw [hsame1.2.2.2.2.1]; exact hp) hplay

end ChargeGame

namespace ChargeGame

/-! ## Play-area containment over a tick -/

set_option maxRecDepth 1000000 in
/-- Counterexample to C24 as stated: in `draggedPlayLevel` the moving particle satisfies
`radius ≤ x ≤ screenW - radius` and `radius ≤ y ≤ backgroundH - radius` before the tick
(it is at (100, 100), the radius is 10, the area 800 by 600).  `movementCalculation` first
calls `moveParticle`, which puts the dragged particle at the cursor, x = 3; its speed is
positive, so that the test of `collisions` against the left limit does not apply, and
integration followed by `collisions` leaves it at x = 389/125, below the radius. -/
theorem tick_moves_dragged_particle_out :
    (draggedPlayLevel.gParticleArray.take 1).map
        (Option.map (fun q => (q.addr, q.moving, q.xCoord, q.yCoord)))
      = [some (1, true, 100, 100)] ∧
    (draggedPlayLevel.gParticleRadius, draggedPlayLevel.screenW, draggedPlayLevel.backgroundH)
      = (10, 800, 600) ∧
    (movementCalculation sqrtExact 3 true draggedPlayLevel).map
        (fun r => (r.1.gParticleArray.take 1).map
          (Option.map (fun q => (q.addr, q.moving, q.xCoord, q.yCoord))))
      = some [some (1, true, 389 / 125, 100)] := by
  refine ⟨?_, ?_, ?_⟩
  · decide
  · decide
  · decide!

/-- C24, amended: in a well-formed state (`levelState`: the first `gNumberOfParticle` slots
of the particle array and the first `gNumberOfWall` slots of the wall array in use), in
normal play or in creative mode, with `screenW ≥ 2 * radius` and
`backgroundH ≥ 2 * radius` (both within the range of `int`), let every particle allocated
at `x` satisfy `radius ≤ x ≤ screenW - radius` and `radius ≤ y ≤ backgroundH - radius`, and
let `x` not be the particle that is being dragged.  Then `movementCalculation` returns (the
budget `fuel` of the loops of `organizeParticleBlitering` exceeding the number of
particles), the store holds the same particles, and every particle allocated at `x`
satisfies the same bounds afterwards: for every elapsed time, every velocity, and every
configuration of walls, goal and other particles. -/
theorem tick_keeps_undragged_in_play_area (sqrt : ℚ → ℚ) (fuel : Nat) (ok : Bool) (g : Game)
    (ps : List Particle) (x : Nat)
    (hlevel : levelState g ps) (hfuel : ps.length < fuel)
    (hsw : g.screenW < 2147483648) (hbh : g.backgroundH < 2147483648)
    (hw : 2 * (g.gParticleRadius : Int) ≤ g.screenW)
    (hh : 2 * (g.gParticleRadius : Int) ≤ g.backgroundH)
    (hfree : g.gDragedParticle ≠ some x)
    (hin : ∀ q ∈ ps, q.addr = x →
      (g.gParticleRadius : ℚ) ≤ q.xCoord ∧
      q.xCoord ≤ ((g.screenW - g.gParticleRadius : Int) : ℚ) ∧
      (g.gParticleRadius : ℚ) ≤ q.yCoord ∧
      q.yCoord ≤ ((g.backgroundH - g.gParticleRadius : Int) : ℚ)) :
    ∃ (g' : Game) (ps' : List Particle) (calls : List (Option (List Int))),
      movementCalculation sqrt fuel ok g = some (g', calls) ∧
      levelState g' ps' ∧
      (ps'.map Particle.addr).Perm (ps.map Particle.addr) ∧
      g'.gParticleRadius = g.gParticleRadius ∧ g'.screenW = g.screenW ∧
      g'.backgroundH = g.backgroundH ∧
      ∀ q ∈ ps', q.addr = x →
        (g.gParticleRadius : ℚ) ≤ q.xCoord ∧
        q.xCoord ≤ ((g.screenW - g.gParticleRadius : Int) : ℚ) ∧
        (g.gParticleRadius : ℚ) ≤ q.yCoord ∧
        q.yCoord ≤ ((g.backgroundH - g.gParticleRadius : Int) : ℚ) := by
  obtain ⟨g', ps', calls, hmc, hstate, hsame, hperm, hall, -⟩ :=
    movementCalculation_invariant sqrt fuel ok g ps (fun q => q.addr = x → inPlayArea g q)
      (by
        intro gi psi p p1 hst hsm hQp _ hiac hp1x
        obtain ⟨⟨rest, harr⟩, hN, ⟨ws, wrest, hwalls, hNW⟩, -, -⟩ := hst
        obtain ⟨e1, e2, e3, -⟩ := hsm
        obtain ⟨p', hp', f1, -⟩ := integrateAndCollide_frame sqrt gi psi rest ws wrest harr hN
          hwalls hNW p
        have hpp : p' = p1 := by
          rw [hp'] at hiac
          simpa using hiac
        have hpx : p.addr = x := by rw [← f1, hpp]; exact hp1x
        have hb := hQp hpx
        unfold inPlayArea at hb ⊢
        rw [← e1, ← e2, ← e3] at hb ⊢
        obtain ⟨b1, b2, b3, b4⟩ := hb
        obtain ⟨p2, hp2, hbounds⟩ := integrate_collide_bounds sqrt gi psi rest ws wrest p harr
          hN hwalls hNW (by rw [e2]; exact hsw) (by rw [e3]; exact hbh)
          (by rw [e1, e2]; exact hw) (by rw [e1, e3]; exact hh) b1 b2 b3 b4
        have : p2 = p1 := by
          rw [hp2] at hiac
          simpa using hiac
        rw [← this]
        exact hbounds)
      (fun p hQp _ hx => hQp hx)
      (by
        intro q _ q' hdr ha _ hx
        exact absurd (by rw [hdr, ← ha, hx]) hfree)
      hlevel hfuel (fun q hq hx => hin q hq hx)
  exact ⟨g', ps', calls, hmc, hstate, hperm, hsame.1, hsame.2.1, hsame.2.2.1,
    fun q hq hx => hall q hq hx⟩

/-- Witness of C24 (amended): a moving particle at `(10, 590)`, in the lower left corner of
the playable area of 800 by 600 with radius `10`, a static particle of the same charge to
its right, a wall next to it, and an elapsed time of 16; no particle is dragged. -/
theorem tick_keeps_undragged_in_play_area_witness :
    ∃ (g' : Game) (ps' : List Particle) (calls : List (Option (List Int))),
      movementCalculation sqrtExact 3 true
        (gameOf [particleAt 2 false 40 590 1, particleAt 1 true 10 590 1] 1
          [⟨5, 570, 10, 10⟩] 16) = some (g', calls) ∧
      levelState g' ps' ∧
      (ps'.map Particle.addr).Perm [2, 1] ∧
      ∀ q ∈ ps', q.addr = 1 →
        (((10 : Nat) : ℚ)) ≤ q.xCoord ∧
        q.xCoord ≤ (((800 : Int) - ((10 : Nat) : Int) : Int) : ℚ) ∧
        (((10 : Nat) : ℚ)) ≤ q.yCoord ∧
        q.yCoord ≤ (((600 : Int) - ((10 : Nat) : Int) : Int) : ℚ) := by
  obtain ⟨g', ps', calls, h1, h2, h3, -, -, -, h4⟩ :=
    tick_keeps_undragged_in_play_area sqrtExact 3 true
      (gameOf [particleAt 2 false 40 590 1, particleAt 1 true 10 590 1] 1 [⟨5, 570, 10, 10⟩] 16)
      [particleAt 2 false 40 590 1, particleAt 1 true 10 590 1] 1
      ⟨⟨_, rfl⟩, rfl, ⟨[⟨5, 570, 10, 10⟩], _, rfl, rfl⟩, rfl,
        fun x hx => by simp [gameOf] at hx⟩
      (by decide) (by decide) (by decide) (by decide) (by decide) (by decide)
      (by
        intro q hq hx
        simp only [List.mem_cons, List.mem_singleton, List.not_mem_nil, or_false] at hq
        rcases hq with rfl | rfl
        · exact absurd hx (by decide)
        · decide)
  exact ⟨g', ps', calls, h1, h2, h3, h4⟩

end ChargeGame

namespace ChargeGame

/-! ## Goal detection: the goal rectangle over a run -/

theorem movementCalculation_sameLevel (sqrt : ℚ → ℚ) (fuel : Nat) (ok : Bool) (g g' : Game)
    (ps : List Particle) (calls : List (Option (List Int))) (hlevel : levelState g ps)
    (hfuel : ps.length < fuel) (h : movementCalculation sqrt fuel ok g = some (g', calls)) :
    sameLevel g g' := by
  obtain ⟨g2, ps2, calls2, hmc, -, hsame, -⟩ :=
    movementCalculation_invariant sqrt fuel ok g ps (fun _ => True)
      (fun _ _ _ _ _ _ _ _ _ => trivial) (fun _ _ _ => trivial)
      (fun _ _ _ _ _ _ => trivial) hlevel hfuel (fun _ _ => trivial)
  rw [hmc] at h
  simp only [Option.some.injEq, Prod.mk.injEq] at h
  rw [← h.1]
  exact hsame

theorem runTicks_sameLevel (sqrt : ℚ → ℚ) (fuel : Nat) :
    ∀ (ticks : List Tick) (g g' : Game) (ps : List Particle)
      (calls : List (Option (List Int))), playState g ps →
      g.gNumberOfParticlesOnGoal = ((ps.countP (fun q => q.goal) : Nat) : Int) →
      ps.length < fuel → runTicks sqrt fuel ticks g = some (g', calls) → sameLevel g g' := by
  intro ticks
  induction ticks with
  | nil =>
    intro g g' ps calls _ _ _ h
    simp only [runTicks, Option.some.injEq, Prod.mk.injEq] at h
    rw [← h.1]
    exact sameLevel_refl g
  | cons t ts ih =>
    intro g g' ps calls hp hc hfuel h
    obtain ⟨g1, ps1, calls1, h1, hstep1⟩ := movementCalculation_spec sqrt fuel t.fopenOk
      { g with gDeltaTime := t.deltaTime,
               gPositionCursor := { g.gPositionCursor with x := t.cursorX, y := t.cursorY } }
      ps hp hc hfuel
    have hp0 : playState
        { g with gDeltaTime := t.deltaTime,
                 gPositionCursor := { g.gPositionCursor with x := t.cursorX, y := t.cursorY } }
        ps := hp
    have hs0 := movementCalculation_sameLevel sqrt fuel t.fopenOk _ g1 ps calls1
      (levelState_of_playState _ ps hp0) hfuel h1
    have hs1 : sameLevel g g1 :=
      sameLevel_trans g _ g1 ⟨rfl, rfl, rfl, rfl, rfl, rfl, rfl, rfl⟩ hs0
    have hlen1 := tickStep_length _ g1 ps ps1 _ hstep1
    rw [runTicks, h1] at h
    simp only [] at h
    cases hr : runTicks sqrt fuel ts g1 with
    | none => rw [hr] at h; simp at h
    | some r =>
      obtain ⟨gr, cr⟩ := r
      rw [hr] at h
      simp only [Option.some.injEq, Prod.mk.injEq] at h
      rw [← h.1]
      exact sameLevel_trans g g1 gr hs1
        (ih g1 gr ps1 cr hstep1.1 hstep1.2.1 (by rw [hlen1]; exact hfuel) hr)

/-- C14: from a level in normal play whose goal flags are all false and whose counter
`gNumberOfParticlesOnGoal` is 0, every run of calls of `movementCalculation` returns.  For
every tick `t` of the run (after the ticks `pre`, before the ticks `post`):
before `t`, after `t` and at the end of the run the counter equals the number of particles
of the store whose goal flag is set, and the particles are the same; a flag that is set is
still set later (it is never cleared, so that it is set at most once); a particle whose
flag is set after `t` had it set before `t` or lies in the goal rectangle deflated by the
radius on its four sides (the hit test `surfaceHitbox` of `onGoal` on `gPositionGoal`);
when the game is in play and `levelFinished` is not called during `t`, every particle of
the slots from `gNumberOfParticle - gNumberOfMovingParticle` on (the slots of the moving
particles) that lies in the deflated goal rectangle has its flag set after `t`;
`levelFinished` is called during `t` once if the counter reaches
`gNumberOfMovingParticle` during `t` and not at all otherwise, likewise from `t` to the end
of the run, and over the whole run it is called once if the counter has reached
`gNumberOfMovingParticle` and not at all otherwise, never more than once. -/
theorem goal_detection_over_a_run (sqrt : ℚ → ℚ) (fuel : Nat) (g : Game) (ps : List Particle)
    (pre : List Tick) (t : Tick) (post : List Tick)
    (hlevel : playState g ps) (hflags : ∀ q ∈ ps, q.goal = false)
    (hzero : g.gNumberOfParticlesOnGoal = 0) (hfuel : ps.length < fuel) :
    ∃ (g1 : Game) (ps1 : List Particle) (calls1 : List (Option (List Int)))
      (gt : Game) (pst : List Particle) (callst : List (Option (List Int)))
      (g2 : Game) (ps2 : List Particle) (calls2 : List (Option (List Int))),
      runTicks sqrt fuel pre g = some (g1, calls1) ∧
      movementCalculation sqrt fuel t.fopenOk
        { g1 with gDeltaTime := t.deltaTime,
                  gPositionCursor := { g1.gPositionCursor with x := t.cursorX, y := t.cursorY } }
        = some (gt, callst) ∧
      runTicks sqrt fuel post gt = some (g2, calls2) ∧
      runTicks sqrt fuel (pre ++ t :: post) g = some (g2, calls1 ++ (callst ++ calls2)) ∧
      playState g1 ps1 ∧ playState gt pst ∧ playState g2 ps2 ∧
      g1.gNumberOfParticlesOnGoal = ((ps1.countP (fun q => q.goal) : Nat) : Int) ∧
      gt.gNumberOfParticlesOnGoal = ((pst.countP (fun q => q.goal) : Nat) : Int) ∧
      g2.gNumberOfParticlesOnGoal = ((ps2.countP (fun q => q.goal) : Nat) : Int) ∧
      (ps1.map Particle.addr).Perm (ps.map Particle.addr) ∧
      (pst.map Particle.addr).Perm (ps1.map Particle.addr) ∧
      (ps2.map Particle.addr).Perm (pst.map Particle.addr) ∧
      (∀ x, flagged ps1 x → flagged pst x) ∧
      (∀ x, flagged pst x → flagged ps2 x) ∧
      g1.gNumberOfParticlesOnGoal ≤ gt.gNumberOfParticlesOnGoal ∧
      gt.gNumberOfParticlesOnGoal ≤ g2.gNumberOfParticlesOnGoal ∧
      (∀ q ∈ pst, q.goal = true → flagged ps1 q.addr ∨
        surfaceHitbox g.gPositionGoal q.xCoord q.yCoord (-(toInt32 g.gParticleRadius))
          (-(toInt32 g.gParticleRadius)) (-(toInt32 g.gParticleRadius))
          (-(toInt32 g.gParticleRadius)) = true) ∧
      (g.gPlay ≠ 0 → callst = [] → ∀ (k : Nat) (q : Particle), pst[k]? = some q →
        g.gNumberOfParticle - g.gNumberOfMovingParticle ≤ (k : Int) →
        q.goal = true ∨
        surfaceHitbox g.gPositionGoal q.xCoord q.yCoord (-(toInt32 g.gParticleRadius))
          (-(toInt32 g.gParticleRadius)) (-(toInt32 g.gParticleRadius))
          (-(toInt32 g.gParticleRadius)) = false) ∧
      callst.length = (if g1.gNumberOfParticlesOnGoal < g.gNumberOfMovingParticle ∧
        g.gNumberOfMovingParticle ≤ gt.gNumberOfParticlesOnGoal then 1 else 0) ∧
      (callst ++ calls2).length = (if g1.gNumberOfParticlesOnGoal < g.gNumberOfMovingParticle ∧
        g.gNumberOfMovingParticle ≤ g2.gNumberOfParticlesOnGoal then 1 else 0) ∧
      (calls1 ++ (callst ++ calls2)).length = (if 0 < g.gNumberOfMovingParticle ∧
        g.gNumberOfMovingParticle ≤ g2.gNumberOfParticlesOnGoal then 1 else 0) ∧
      (calls1 ++ (callst ++ calls2)).length ≤ 1 := by
  have hcount : ps.countP (fun q => q.goal) = 0 := by
    rw [List.countP_eq_zero]
    intro q hq
    rw [hflags q hq]
    simp
  have hc : g.gNumberOfParticlesOnGoal = ((ps.countP (fun q => q.goal) : Nat) : Int) := by
    rw [hzero, hcount]; rfl
  obtain ⟨g1, ps1, calls1, h1, s1⟩ := runTicks_spec sqrt fuel pre g ps hlevel hc hfuel
  have hsame1 := runTicks_sameLevel sqrt fuel pre g g1 ps calls1 hlevel hc hfuel h1
  have hlen1 := tickStep_length g g1 ps ps1 _ s1
  have hfuel1 : ps1.length < fuel := by rw [hlen1]; exact hfuel
  obtain ⟨g0, hg0⟩ : ∃ g0 : Game, g0 =
      { g1 with gDeltaTime := t.deltaTime,
                gPositionCursor := { g1.gPositionCursor with x := t.cursorX, y := t.cursorY } } :=
    ⟨_, rfl⟩
  have hp0 : playState g0 ps1 := by rw [hg0]; exact s1.1
  have hc0 : g0.gNumberOfParticlesOnGoal = ((ps1.countP (fun q => q.goal) : Nat) : Int) := by
    rw [hg0]; exact s1.2.1
  have hsame0 : sameLevel g g0 := by
    rw [hg0]
    exact sameLevel_trans g g1 _ hsame1 ⟨rfl, rfl, rfl, rfl, rfl, rfl, rfl, rfl⟩
  obtain ⟨gt, pst, callst, ht, st⟩ :=
    movementCalculation_spec sqrt fuel t.fopenOk g0 ps1 hp0 hc0 hfuel1
  have hlent := tickStep_length g0 gt ps1 pst _ st
  obtain ⟨g2, ps2, calls2, h2, s2⟩ := runTicks_spec sqrt fuel post gt pst st.1 st.2.1
    (by rw [hlent]; exact hfuel1)
  obtain ⟨gt', pst', callst', ht', hstate', -, -, hall', hdone'⟩ :=
    movementCalculation_invariant sqrt fuel t.fopenOk g0 ps1
      (fun q => q.goal = true → flagged ps1 q.addr ∨ insideGoal g0 q = true)
      (by
        intro gi psi p p1 hst _ _ hgoal hiac hp1
        obtain ⟨⟨rest, harr⟩, hN, ⟨ws, wrest, hwalls, hNW⟩, -, -⟩ := hst
        obtain ⟨p', hp', -, -, f3, -⟩ := integrateAndCollide_frame sqrt gi psi rest ws wrest
          harr hN hwalls hNW p
        have hpp : p' = p1 := by
          rw [hp'] at hiac
          simpa using hiac
        rw [← hpp, f3, hgoal] at hp1
        exact absurd hp1 (by decide))
      (fun p _ hin _ => Or.inr hin)
      (fun q hq q' _ ha hg hq' => Or.inl ⟨q, hq, ha.symm, by rw [← hg]; exact hq'⟩)
      (levelState_of_playState g0 ps1 hp0) hfuel1
      (fun q hq hg => Or.inl ⟨q, hq, rfl, hg⟩)
  have hres : gt' = gt ∧ callst' = callst := by
    rw [ht] at ht'
    simp only [Option.some.injEq, Prod.mk.injEq] at ht'
    exact ⟨ht'.1.symm, ht'.2.symm⟩
  rw [hres.1] at hstate'
  rw [hres.2] at hdone'
  have hpst : pst' = pst :=
    levelState_unique gt pst' pst hstate' (levelState_of_playState gt pst st.1)
  rw [hpst] at hall' hdone'
  have hin0 : ∀ q, insideGoal g0 q = insideGoal g q := insideGoal_sameLevel g g0 hsame0
  have hrun : runTicks sqrt fuel (t :: post) g1 = some (g2, callst ++ calls2) := by
    rw [runTicks, ← hg0, ht]
    simp only []
    rw [h2]
  have st2 := tickStep_trans g0 gt g2 ps1 pst ps2 _ _ st s2
  have s012 := tickStep_trans g g1 g2 ps ps1 ps2 _ _ s1
    (by rw [hg0] at st2; exact st2)
  obtain ⟨p1, k1, a1, -, -, m1, -⟩ := s1
  obtain ⟨pt, kt, at1, ft, ct, -, et⟩ := st
  obtain ⟨p2, k2, a2, f2, c2, -, -⟩ := s2
  have e02 := st2.2.2.2.2.2.2
  have e012 := s012.2.2.2.2.2.2
  have hM0 : g0.gNumberOfMovingParticle = g.gNumberOfMovingParticle := by
    rw [hg0]; exact m1
  have hC0 : g0.gNumberOfParticlesOnGoal = g1.gNumberOfParticlesOnGoal := by rw [hg0]
  rw [hM0, hC0] at et e02
  rw [hzero] at e012
  refine ⟨g1, ps1, calls1, gt, pst, callst, g2, ps2, calls2, h1, by rw [← hg0]; exact ht, h2,
    runTicks_append sqrt fuel (t :: post) pre g g1 g2 calls1 (callst ++ calls2) h1 hrun,
    p1, pt, p2, k1, kt, k2, a1, at1, a2, ft, f2, by rw [← hC0]; exact ct, c2, ?_, ?_, et, ?_,
    ?_, ?_⟩
  · intro q hq hg
    rcases hall' q hq hg with e | e
    · exact Or.inl e
    · exact Or.inr (by rw [hin0 q] at e; exact e)
  · intro hplay hnil k q hq hk
    have := hdone' (by rw [hsame0.2.2.2.2.1]; exact hplay) hnil k q hq
      (by rw [hsame0.2.2.2.2.2.2.1, hsame0.2.2.2.2.2.2.2]; exact hk)
    rw [hin0 q] at this
    exact this
  · rw [List.length_append, e02]
  · simp only [List.length_append]
    exact e012
  · simp only [List.length_append]
    split_ifs at e012 <;> omega

set_option maxRecDepth 100000 in
/-- Witness of C14: the level `goalLevel`, whose moving particle lies inside the goal, run
for two ticks.  `levelFinished` is called once, in the first tick, in which the counter
reaches `gNumberOfMovingParticle = 1`, and not in the second; every particle flagged after
the first tick lies in the goal rectangle deflated by the radius. -/
theorem goal_detection_over_a_run_witness :
    ∃ (gt : Game) (pst : List Particle) (callst : List (Option (List Int))) (g2 : Game)
      (calls2 : List (Option (List Int))),
      movementCalculation sqrtExact 3 true goalLevel = some (gt, callst) ∧
      runTicks sqrtExact 3 [⟨0, 5, 5, false⟩] gt = some (g2, calls2) ∧
      playState gt pst ∧
      callst.length = 1 ∧ calls2.length = 0 ∧
      gt.gNumberOfParticlesOnGoal = 1 ∧ 1 ≤ g2.gNumberOfParticlesOnGoal ∧
      ∀ q ∈ pst, q.goal = true →
        surfaceHitbox goalLevel.gPositionGoal q.xCoord q.yCoord
          (-(toInt32 goalLevel.gParticleRadius)) (-(toInt32 goalLevel.gParticleRadius))
          (-(toInt32 goalLevel.gParticleRadius)) (-(toInt32 goalLevel.gParticleRadius))
          = true := by
  have hplay : playState goalLevel
      [particleAt 1 false 100 100 2, particleAt 2 true 350 350 1] :=
    ⟨⟨_, rfl⟩, rfl, ⟨[], _, rfl, rfl⟩, rfl, fun x hx => by simp [goalLevel, gameOf] at hx, rfl⟩
  obtain ⟨g1, ps1, calls1, gt, pst, callst, g2, ps2, calls2, h1, ht, h2, -, p1, pt, -, -, -, -,
      -, -, -, -, -, -, c2, hsound, -, -, -, -, hle⟩ :=
    goal_detection_over_a_run sqrtExact 3 goalLevel
      [particleAt 1 false 100 100 2, particleAt 2 true 350 350 1]
      [] ⟨0, 0, 0, true⟩ [⟨0, 5, 5, false⟩] hplay (by decide) rfl (by decide)
  simp only [runTicks, Option.some.injEq, Prod.mk.injEq] at h1
  obtain ⟨e1, e2⟩ := h1
  subst e1 e2
  have ht' : movementCalculation sqrtExact 3 true goalLevel = some (gt, callst) := ht
  have hfact := movementCalculation_goalLevel
  rw [ht'] at hfact
  simp only [Option.map_some', Option.some.injEq, Prod.mk.injEq] at hfact
  obtain ⟨-, hcount, -, hcalls⟩ := hfact
  have hps1 : ps1 = [particleAt 1 false 100 100 2, particleAt 2 true 350 350 1] :=
    levelState_unique goalLevel ps1 _ (levelState_of_playState _ _ p1)
      (levelState_of_playState _ _ hplay)
  refine ⟨gt, pst, callst, g2, calls2, ht', h2, pt, hcalls, ?_, hcount, ?_, ?_⟩
  · simp only [List.length_append, List.length_nil] at hle
    omega
  · omega
  · intro q hq hg
    rcases hsound q hq hg with ⟨q0, hq0, -, hg0⟩ | e
    · rw [hps1] at hq0
      simp only [List.mem_cons, List.mem_singleton, List.not_mem_nil, or_false] at hq0
      rcases hq0 with rfl | rfl <;> exact absurd hg0 (by decide)
    · exact e

end ChargeGame
